import Mathlib

/-!
# nextpnr: ECP5 placement helpers and fpga_interchange cluster packing

A shallow embedding of `Arch::slices_compatible`, `Arch::isBelLocationValid` and
`Arch::permute_luts` (with its local lambda `proc_lut`) of `ecp5/arch_place.cc`, and of the
cluster functions of `fpga_interchange/arch_pack_clusters.cc` (`find_cluster_bels`,
`getClusterPlacement`, `getClusterOffset`, root discovery in `prepare_cluster`), together
with the parts of the design database (`common/nextpnr_types.h`) these functions read and
write.

Conventions of the embedding
* an `IdString` is the string it interns; the default-constructed `IdString()` is `""`;
* a `NetInfo *` is a net handle, `nullptr` is `none`;
* a hashlib `dict<IdString, T>` is an association list searched front to back;
* C++ code that can throw (`at` on a missing key, `log_error`, a failed `NPNR_ASSERT`)
  returns `none`;
* the `float` criticalities are rationals: only their order and the constant `0` are used
  (a criticality lies in [0, 1], so no NaN is compared);
* for `permute_luts` only the cell side of a port/net link is tracked: it reconnects input
  ports, and the statements about it are about the pins and parameters of cells; the
  cluster packer works on a `Netlist`, which holds both sides;
* the walk of `find_cluster_bels` is run with fuel and returns `none` when it runs out.
-/

namespace Nextpnr

/-! ## Design database -/

/-- Interned string: two ids are equal exactly when their strings are equal. -/
abbrev IdString := String

/-- Handle of a net (the identity of a `NetInfo` object). -/
abbrev NetId := Nat

/-- Modelled from the spec: property.h is not among the sources. A Property is a tagged
value carrying either an integer together with a bit-width, or a string. -/
inductive Property where
  | int (intval : Int) (width : Nat)
  | str (s : String)
  deriving DecidableEq, Repr

/-- The enum `PortType` of nextpnr_types.h. -/
inductive PortType where
  | PORT_IN
  | PORT_OUT
  | PORT_INOUT
  deriving DecidableEq, Repr

/-- The struct `PortInfo` of nextpnr_types.h. -/
structure PortInfo where
  name : IdString
  net : Option NetId
  type : PortType
  deriving DecidableEq, Repr

/-- Modelled from the spec: nextpnr_base_types.h is not among the sources. The binding
strengths in the order the spec lists them, `bel_strength ∈ {NONE, WEAK, STRONG, PLACER,
LOCKED, USER}`; the placer may only move bindings of strength at most STRONG. -/
inductive PlaceStrength where
  | STRENGTH_NONE
  | STRENGTH_WEAK
  | STRENGTH_STRONG
  | STRENGTH_PLACER
  | STRENGTH_LOCKED
  | STRENGTH_USER
  deriving DecidableEq, Repr

/-- Numeric value of the enumerator, used by the comparison `<=` on strengths. -/
def PlaceStrength.toNat : PlaceStrength → Nat
  | .STRENGTH_NONE => 0
  | .STRENGTH_WEAK => 1
  | .STRENGTH_STRONG => 2
  | .STRENGTH_PLACER => 3
  | .STRENGTH_LOCKED => 4
  | .STRENGTH_USER => 5

/-- A hashlib `dict` keyed by `IdString`, as an association list. -/
abbrev Dict (β : Type) := List (IdString × β)

/-- Lookup `dict::find`: the value stored under `key`, if any. -/
def Dict.find {β : Type} : Dict β → IdString → Option β
  | [], _ => none
  | (k, v) :: t, key => if k = key then some v else Dict.find t key

/-- Membership test `dict::count`: 1 when the key is present, 0 otherwise. -/
def Dict.count {β : Type} (d : Dict β) (key : IdString) : Nat :=
  if (Dict.find d key).isSome then 1 else 0

/-- Assignment `d[key] = v`: replaces the value of an existing key, appends a new entry
otherwise. -/
def Dict.set {β : Type} : Dict β → IdString → β → Dict β
  | [], key, v => [(key, v)]
  | (k, w) :: t, key, v => if k = key then (k, v) :: t else (k, w) :: Dict.set t key v

/-- The struct `Location` of archdefs.h. -/
structure Location where
  x : Int := -1
  y : Int := -1
  deriving DecidableEq, Repr

/-- The struct `BelId` of archdefs.h; the default-constructed `BelId()` is the sentinel for
"no bel". -/
structure BelId where
  location : Location := {}
  index : Int := -1
  deriving DecidableEq, Repr

/-- The struct `WireId` of archdefs.h; `WireId()` is the sentinel for "no wire". -/
structure WireId where
  location : Location := {}
  index : Int := -1
  deriving DecidableEq, Repr

/-- The struct `PipId` of archdefs.h; `PipId()` is the sentinel for "no pip". -/
structure PipId where
  location : Location := {}
  index : Int := -1
  deriving DecidableEq, Repr

/-- Tile coordinates `Loc`. -/
structure Loc where
  x : Int := 0
  y : Int := 0
  z : Int := 0
  deriving DecidableEq, Repr

/-- The struct `Region` of nextpnr_types.h. -/
structure Region where
  name : IdString := ""
  constr_bels : Bool := false
  constr_wires : Bool := false
  constr_pips : Bool := false
  bels : List BelId := []
  wires : List WireId := []
  piplocs : List Loc := []
  deriving DecidableEq, Repr

/-- Identifier of a cluster: an `IdString`; the default-constructed `ClusterId()` is `""`. -/
abbrev ClusterId := IdString

/-- Modelled from the spec: the ECP5 archdefs.h is not among the sources. The slice sidecar
of a cell ("precomputed slice-clocking signals"), with the fields arch_place.cc reads. -/
structure SliceInfo where
  using_dff : Bool := false
  has_l6mux : Bool := false
  clk_sig : IdString := ""
  lsr_sig : IdString := ""
  clkmux : IdString := ""
  lsrmux : IdString := ""
  srmode : IdString := ""
  deriving DecidableEq, Repr

/-- The struct `CellInfo` of nextpnr_types.h, with the fields the embedded functions use;
`sliceInfo` is the ECP5 sidecar. -/
structure CellInfo where
  name : IdString := ""
  type : IdString := ""
  ports : Dict PortInfo := []
  params : Dict Property := []
  bel : BelId := {}
  belStrength : PlaceStrength := PlaceStrength.STRENGTH_NONE
  cluster : ClusterId := ""
  region : Option Region := none
  sliceInfo : SliceInfo := {}
  deriving DecidableEq, Repr

/-- Modelled from the spec: nextpnr_types.cc, which defines `CellInfo::testRegion`, is not
among the sources. `test_region(bel)` is true iff the cell's region, if any, admits `bel`:
a bel-constraining region admits exactly the bels it contains. -/
def CellInfo.testRegion (ci : CellInfo) (bel : BelId) : Bool :=
  match ci.region with
  | none => true
  | some region => !region.constr_bels || region.bels.contains bel

/-- Constid `id_TRELLIS_SLICE`. -/
def id_TRELLIS_SLICE : IdString := "TRELLIS_SLICE"

/-- Constid `id_DCUA`. -/
def id_DCUA : IdString := "DCUA"

/-- Constid `id_EXTREFB`. -/
def id_EXTREFB : IdString := "EXTREFB"

/-- Constid `id_PCSCLKDIV`. -/
def id_PCSCLKDIV : IdString := "PCSCLKDIV"

/-- External collaborators of `permute_luts`: the timing analyser's answer
`tmg.get_criticality(CellPortKey(cell, port))` and the C library's `std::stoi`
(`none` when it throws). -/
structure Context where
  get_criticality : IdString → IdString → ℚ
  stoi : String → Option Int

/-- Modelled from the spec: util.h is not among the sources. `int_or_default(ct, key, def)`
reads a parameter as an integer: the default when the key is absent, the integer of an
integer Property, the `stoi` parse of a string Property (an unparsable string is a fatal
`log_error`). -/
def int_or_default (stoi : String → Option Int) (ct : Dict Property) (key : IdString)
    (de : Int) : Option Int :=
  match Dict.find ct key with
  | none => some de
  | some (Property.int v _) => some v
  | some (Property.str s) => stoi s

/-- Modelled from the spec: util.h is not among the sources. `str_or_default(ct, key, def)`
reads a parameter as a string: the default when the key is absent, the string of a string
Property; an integer Property is a fatal `log_error`. -/
def str_or_default (ct : Dict Property) (key : IdString) (de : String) : Option String :=
  match Dict.find ct key with
  | none => some de
  | some (Property.str s) => some s
  | some (Property.int _ _) => none

/-- Modelled from the spec: design_utils is not among the sources. `disconnect_port(cell,
port)` removes the link between the port and its net; only the cell side of the link is
tracked here. A missing port is left alone. -/
def disconnect_port (ci : CellInfo) (port_name : IdString) : CellInfo :=
  match Dict.find ci.ports port_name with
  | none => ci
  | some port => { ci with ports := Dict.set ci.ports port_name { port with net := none } }

/-- Modelled from the spec: design_utils is not among the sources. `connect_port(net, cell,
port)` sets the link from the port to the net; only the cell side of the link is tracked
here. A null net is a no-op; a missing port or a port that still has a net is an error. -/
def connect_port (net : Option NetId) (ci : CellInfo) (port_name : IdString) :
    Option CellInfo :=
  match net with
  | none => some ci
  | some n =>
    match Dict.find ci.ports port_name with
    | none => none
    | some port =>
      if port.net ≠ none then none
      else some { ci with ports := Dict.set ci.ports port_name { port with net := some n } }

/-! ## `Arch::slices_compatible` -/

/-- Local variables of `slices_compatible`. -/
structure SlicesState where
  clk_sig : IdString := ""
  lsr_sig : IdString := ""
  CLKMUX : IdString := ""
  LSRMUX : IdString := ""
  SRMODE : IdString := ""
  first : Bool := true
  deriving DecidableEq, Repr

/-- The `for (auto cell : cells)` loop of `slices_compatible`, from a given state of the
local variables. -/
def slices_compatible_loop : List CellInfo → SlicesState → Bool
  | [], _ => true
  | cell :: rest, st =>
    if cell.sliceInfo.using_dff then
      if st.first then
        slices_compatible_loop rest
          { clk_sig := cell.sliceInfo.clk_sig
            lsr_sig := cell.sliceInfo.lsr_sig
            CLKMUX := cell.sliceInfo.clkmux
            LSRMUX := cell.sliceInfo.lsrmux
            SRMODE := cell.sliceInfo.srmode
            first := false }
      else if cell.sliceInfo.clk_sig ≠ st.clk_sig then false
      else if cell.sliceInfo.lsr_sig ≠ st.lsr_sig then false
      else if cell.sliceInfo.clkmux ≠ st.CLKMUX then false
      else if cell.sliceInfo.lsrmux ≠ st.LSRMUX then false
      else if cell.sliceInfo.srmode ≠ st.SRMODE then false
      else slices_compatible_loop rest { st with first := false }
    else slices_compatible_loop rest st

/-- `Arch::slices_compatible`. -/
def slices_compatible (cells : List CellInfo) : Bool :=
  slices_compatible_loop cells {}

/-! ## `Arch::isBelLocationValid` -/

/-- Modelled from the spec: the ECP5 arch.h is not among the sources. The device types
`ArchArgs::type`; arch_place.cc names three of them. -/
inductive ArchArgsTypes where
  | NONE
  | LFE5U_12F
  | LFE5U_25F
  | LFE5U_45F
  | LFE5U_85F
  | LFE5UM_25F
  | LFE5UM_45F
  | LFE5UM_85F
  | LFE5UM5G_25F
  | LFE5UM5G_45F
  | LFE5UM5G_85F
  deriving DecidableEq, Repr

/-- The part of `Arch` that `isBelLocationValid` reads: the device graph view, the bel
binding state and the device type. -/
structure Arch where
  getBelType : BelId → IdString
  getBelLocation : BelId → Loc
  getBelsByTile : Int → Int → List BelId
  getBoundBelCell : BelId → Option CellInfo
  args_type : ArchArgsTypes

/-- The loop of `isBelLocationValid` collecting the cells bound in a tile. -/
def bel_cells_of (arch : Arch) (bels : List BelId) : List CellInfo :=
  bels.filterMap arch.getBoundBelCell

/-- `Arch::isBelLocationValid`. -/
def isBelLocationValid (arch : Arch) (bel : BelId) : Bool :=
  if arch.getBelType bel = id_TRELLIS_SLICE then
    let bel_loc := arch.getBelLocation bel
    let bel_cells := bel_cells_of arch (arch.getBelsByTile bel_loc.x bel_loc.y)
    if (match arch.getBoundBelCell bel with
        | none => false
        | some c => c.sliceInfo.has_l6mux && decide (Int.tmod bel_loc.z 2 = 1)) then false
    else slices_compatible bel_cells
  else
    match arch.getBoundBelCell bel with
    | none => true
    | some cell =>
      if cell.type = id_DCUA ∨ cell.type = id_EXTREFB ∨ cell.type = id_PCSCLKDIV then
        decide (arch.args_type ≠ ArchArgsTypes.LFE5U_25F ∧
          arch.args_type ≠ ArchArgsTypes.LFE5U_45F ∧ arch.args_type ≠ ArchArgsTypes.LFE5U_85F)
      else true

/-! ## `Arch::permute_luts` -/

/-- Name of input pin `i` of LUT number `lut`:
`std::string("ABCD").substr(i, 1) + std::to_string(lut)`. -/
def pin_name (lut i : Nat) : IdString :=
  "ABCD".extract ⟨i⟩ ⟨i + 1⟩ ++ toString lut

/-- The vector `port_names` of `proc_lut`: the ports A, B, C, D of LUT number `lut`. -/
def port_names (lut : Nat) : List IdString :=
  (List.range 4).map (pin_name lut)

/-- The comparison `operator<` of `std::pair<float, int>`. -/
def pair_lt (a b : ℚ × Nat) : Prop :=
  a.1 < b.1 ∨ (¬ b.1 < a.1 ∧ a.2 < b.2)

instance pair_lt_decidable : DecidableRel pair_lt :=
  fun a b => by unfold pair_lt; exact inferInstance

/-- The call `std::sort(inputs.begin(), inputs.end())`: the elements in ascending order of
`pair_lt`. The order is total and antisymmetric on pairs, so the sorted vector is the same
for every sorting algorithm (`std_sort_unique`); insertion sort computes it. -/
def std_sort (inputs : List (ℚ × Nat)) : List (ℚ × Nat) :=
  List.insertionSort (fun a b => ¬ pair_lt b a) inputs

/-- Local variables of `proc_lut` during its first loop. -/
structure GatherState where
  ci : CellInfo
  inputs : List (ℚ × Nat)
  orig_nets : List (Option NetId)

/-- Body of the first loop of `proc_lut`: creates the port when missing (the two
assignments through `ci->ports[...]` leave a port with that name, type PORT_IN and no net),
reads its criticality and its net. -/
def proc_lut_read (ctx : Context) (names : List IdString) (st : GatherState) (i : Nat) :
    Option GatherState := do
  let name ← names[i]?
  let ci :=
    if Dict.count st.ci.ports name = 0 then
      { st.ci with
        ports := Dict.set st.ci.ports name { name := name, net := none, type := PortType.PORT_IN } }
    else st.ci
  let port ← Dict.find ci.ports name
  let crit : ℚ := if port.net = none then 0 else ctx.get_criticality ci.name name
  pure { ci := ci, inputs := st.inputs ++ [(crit, i)], orig_nets := st.orig_nets ++ [port.net] }

/-- The first loop of `proc_lut`. -/
def proc_lut_gather (ctx : Context) (ci : CellInfo) (lut : Nat) : Option GatherState :=
  (List.range 4).foldlM (proc_lut_read ctx (port_names lut))
    { ci := ci, inputs := [], orig_nets := [] }

/-- The guarded sort of `proc_lut`: locked cells keep the pin order. -/
def proc_lut_sort (ci : CellInfo) (inputs : List (ℚ × Nat)) : List (ℚ × Nat) :=
  if ci.belStrength.toNat ≤ PlaceStrength.STRENGTH_STRONG.toNat then std_sort inputs
  else inputs

/-- Body of the second loop of `proc_lut`: moves the net chosen for pin `i` onto it and
records the MUX parameter. -/
def proc_lut_connect (names : List IdString) (inputs : List (ℚ × Nat))
    (orig_nets : List (Option NetId)) (ci : CellInfo) (i : Nat) : Option CellInfo := do
  let p ← names[i]?
  let ci := disconnect_port ci p
  let port ← Dict.find ci.ports p
  let ci := { ci with ports := Dict.set ci.ports p { port with net := none } }
  let inp ← inputs[i]?
  let net ← orig_nets[inp.2]?
  if net ≠ none then do
    let ci ← connect_port net ci p
    pure { ci with params := Dict.set ci.params (p ++ "MUX") (Property.str p) }
  else
    pure { ci with params := Dict.set ci.params (p ++ "MUX") (Property.str "1") }

/-- The inner loop of the rewrite: the old truth-table index read for new index `i`. -/
def old_index_of (inputs : List (ℚ × Nat)) (i : Nat) : Option Nat :=
  (List.range 4).foldlM
    (fun old_index k =>
      if i &&& (1 <<< k) ≠ 0 then do
        let inp ← inputs[k]?
        pure (old_index ||| (1 <<< inp.2))
      else pure old_index)
    0

/-- The outer loop of the rewrite: the new truth table. -/
def rewrite_function (inputs : List (ℚ × Nat)) (old_init : Int) : Option Nat :=
  (List.range 16).foldlM
    (fun new_init i => do
      let old_index ← old_index_of inputs i
      pure (if Int.land old_init (((1 <<< old_index : Nat)) : Int) ≠ 0 then new_init ||| (1 <<< i)
        else new_init))
    0

/-- Name of the truth-table parameter of LUT number `lut`. -/
def initval_key (lut : Nat) : IdString :=
  "LUT" ++ toString lut ++ "_INITVAL"

/-- The sort order chosen by `proc_lut`: the vector `inputs` after the guarded sort. -/
def proc_lut_order (ctx : Context) (ci : CellInfo) (lut : Nat) : Option (List (ℚ × Nat)) := do
  let st ← proc_lut_gather ctx ci lut
  pure (proc_lut_sort st.ci st.inputs)

/-- The lambda `proc_lut` of `Arch::permute_luts`. -/
def proc_lut (ctx : Context) (ci : CellInfo) (lut : Nat) : Option CellInfo := do
  let st ← proc_lut_gather ctx ci lut
  let inputs := proc_lut_sort st.ci st.inputs
  let ci ← (List.range 4).foldlM (proc_lut_connect (port_names lut) inputs st.orig_nets) st.ci
  let old_init ← int_or_default ctx.stoi ci.params (initval_key lut) 0
  let new_init ← rewrite_function inputs old_init
  pure { ci with params := Dict.set ci.params (initval_key lut) (Property.int new_init 16) }

/-- Body of the cell loop of `permute_luts`. -/
def permute_cell (ctx : Context) (ci : CellInfo) : Option CellInfo := do
  if ci.type = id_TRELLIS_SLICE then
    let mode ← str_or_default ci.params "MODE" "LOGIC"
    if mode = "LOGIC" then
      let ci ← proc_lut ctx ci 0
      proc_lut ctx ci 1
    else pure ci
  else pure ci

/-- `Arch::permute_luts`: the cell loop over the design's cells. -/
def permute_luts (ctx : Context) : List CellInfo → Option (List CellInfo)
  | [] => some []
  | ci :: rest => do
    let ci ← permute_cell ctx ci
    let rest ← permute_luts ctx rest
    pure (ci :: rest)


/-! ## Vocabulary of the statements -/

/-- The control-set signature of a slice cell that `slices_compatible` compares. -/
def ctrl_sig (c : CellInfo) : IdString × IdString × IdString × IdString × IdString :=
  (c.sliceInfo.clk_sig, c.sliceInfo.lsr_sig, c.sliceInfo.clkmux, c.sliceInfo.lsrmux,
    c.sliceInfo.srmode)

/-- The control-set signature held in the local variables of `slices_compatible`. -/
def SlicesState.sig (st : SlicesState) : IdString × IdString × IdString × IdString × IdString :=
  (st.clk_sig, st.lsr_sig, st.CLKMUX, st.LSRMUX, st.SRMODE)

/-- The port found under `name`, or the fresh input port `proc_lut` creates for it. -/
def port_or_new (ports : Dict PortInfo) (name : IdString) : PortInfo :=
  (Dict.find ports name).getD { name := name, net := none, type := PortType.PORT_IN }

/-- The net a pin of a cell carries; a missing port carries none. -/
def port_net (ci : CellInfo) (name : IdString) : Option NetId :=
  match Dict.find ci.ports name with
  | some port => port.net
  | none => none

/-- The criticality `proc_lut` reads for input pin `k` of LUT `lut`: 0 for a disconnected
pin, the timing analyser's value otherwise. -/
def pin_crit (ctx : Context) (ci : CellInfo) (lut k : Nat) : ℚ :=
  if port_net ci (pin_name lut k) = none then 0
  else ctx.get_criticality ci.name (pin_name lut k)

/-- The vector `inputs` of `proc_lut` before the sort: (criticality, pin index) per pin. -/
def lut_inputs (ctx : Context) (ci : CellInfo) (lut : Nat) : List (ℚ × Nat) :=
  (List.range 4).map fun k => (pin_crit ctx ci lut k, k)

/-- The vector `inputs` of `proc_lut` after the guarded sort. -/
def lut_order (ctx : Context) (ci : CellInfo) (lut : Nat) : List (ℚ × Nat) :=
  proc_lut_sort ci (lut_inputs ctx ci lut)

/-- The pin order `π` chosen by `proc_lut`: `π k = inputs.at(k).second`. -/
def lut_perm (ctx : Context) (ci : CellInfo) (lut k : Nat) : Nat :=
  ((lut_order ctx ci lut).getD k (0, 0)).2

/-- The old truth-table index as the inner loop of the rewrite accumulates it. -/
def or_index (p0 p1 p2 p3 i : Nat) : Nat :=
  let a := if i &&& (1 <<< 0) ≠ 0 then 0 ||| (1 <<< p0) else 0
  let a := if i &&& (1 <<< 1) ≠ 0 then a ||| (1 <<< p1) else a
  let a := if i &&& (1 <<< 2) ≠ 0 then a ||| (1 <<< p2) else a
  if i &&& (1 <<< 3) ≠ 0 then a ||| (1 <<< p3) else a

/-- The old truth-table index as the spec writes it: `Σ_k ((i >> k) & 1) << π(k)`. -/
def sum_index (π : Nat → Nat) (i : Nat) : Nat :=
  (((i >>> 0) &&& 1) <<< π 0) + (((i >>> 1) &&& 1) <<< π 1) + (((i >>> 2) &&& 1) <<< π 2) +
    (((i >>> 3) &&& 1) <<< π 3)

/-- The new truth table of LUT `lut`: bit `i` (below 16) is bit `sum_index π i` of the old
one. -/
def lut_new_init (ctx : Context) (ci : CellInfo) (lut : Nat) (old_init : Int) : Nat :=
  (List.range 16).foldl
    (fun acc i =>
      if old_init.testBit (sum_index (lut_perm ctx ci lut) i) = true then acc ||| (1 <<< i)
      else acc)
    0

/-- Four successive assignments to a `dict`. -/
def Dict.set4 {β : Type} (d : Dict β) (k : Nat → IdString) (v : Nat → β) : Dict β :=
  Dict.set (Dict.set (Dict.set (Dict.set d (k 0) (v 0)) (k 1) (v 1)) (k 2) (v 2)) (k 3) (v 3)

/-- Name of the MUX parameter of input pin `k` of LUT `lut`. -/
def mux_key (lut k : Nat) : IdString :=
  pin_name lut k ++ "MUX"

/-- The value `proc_lut` writes to the MUX parameter of pin `k`: the name of pin `k` itself
when the net moved onto it is not null, the string "1" otherwise. -/
def mux_value (ctx : Context) (ci : CellInfo) (lut k : Nat) : Property :=
  Property.str
    (if port_net ci (pin_name lut (lut_perm ctx ci lut k)) ≠ none then pin_name lut k else "1")

/-- The port `proc_lut` leaves under pin `k`: the port found (or created) there, now
carrying the net of pin `π k`. -/
def lut_port (ctx : Context) (ci : CellInfo) (lut k : Nat) : PortInfo :=
  { port_or_new ci.ports (pin_name lut k) with
    net := port_net ci (pin_name lut (lut_perm ctx ci lut k)) }

/-- The cell `proc_lut` returns when the old truth table reads as `old_init`. -/
def proc_lut_result (ctx : Context) (ci : CellInfo) (lut : Nat) (old_init : Int) : CellInfo :=
  { ci with
    ports := Dict.set4
      (Dict.set4 ci.ports (pin_name lut) (fun k => port_or_new ci.ports (pin_name lut k)))
      (pin_name lut) (lut_port ctx ci lut)
    params := Dict.set (Dict.set4 ci.params (mux_key lut) (mux_value ctx ci lut))
      (initval_key lut) (Property.int (lut_new_init ctx ci lut old_init) 16) }

/-- The truth-table index selected by four pin values (pin 0 is the least significant). -/
def bits_index (b0 b1 b2 b3 : Bool) : Nat :=
  (b0.toNat <<< 0) + (b1.toNat <<< 1) + (b2.toNat <<< 2) + (b3.toNat <<< 3)

/-- The output of a 4-input LUT with truth table `init` when pin `k` sees `pins k`. -/
def lut_output (init : Int) (pins : Nat → Bool) : Bool :=
  init.testBit (bits_index (pins 0) (pins 1) (pins 2) (pins 3))

/-- The parameters `permute_luts` reads from a cell can be read: on a slice, MODE is
absent or a string, and in LOGIC mode both truth tables read as integers. Otherwise the
helpers of util.h stop the run with `log_error`. -/
def cell_readable (ctx : Context) (ci : CellInfo) : Prop :=
  ci.type = id_TRELLIS_SLICE →
    ∃ mode, str_or_default ci.params "MODE" "LOGIC" = some mode ∧
      (mode = "LOGIC" →
        (∃ v, int_or_default ctx.stoi ci.params (initval_key 0) 0 = some v) ∧
        (∃ v, int_or_default ctx.stoi ci.params (initval_key 1) 0 = some v))

/-- What `permute_luts` does to a locked logic slice `ci` (belStrength above
STRENGTH_STRONG), `ci'` being the cell after the call: no port changes its net, each
LUTn_INITVAL becomes the 16-bit value made of the low 16 bits of what it read as before,
each MUX parameter is written with the pin's own name (or "1" for a disconnected pin), and
no other parameter changes. -/
def locked_cell_effect (ctx : Context) (ci ci' : CellInfo) : Prop :=
  (∀ q, port_net ci' q = port_net ci q) ∧
  (∀ lut, lut < 2 → ∀ old_init,
    int_or_default ctx.stoi ci.params (initval_key lut) 0 = some old_init →
    ∃ n : Nat, Dict.find ci'.params (initval_key lut) = some (Property.int n 16) ∧
      ∀ i, n.testBit i = (decide (i < 16) && old_init.testBit i)) ∧
  (∀ lut k, lut < 2 → k < 4 →
    Dict.find ci'.params (pin_name lut k ++ "MUX") =
      some (Property.str (if port_net ci (pin_name lut k) ≠ none then pin_name lut k else "1"))) ∧
  (∀ q, (∀ lut k, lut < 2 → k < 4 → pin_name lut k ++ "MUX" ≠ q) →
    (∀ lut, lut < 2 → initval_key lut ≠ q) → Dict.find ci'.params q = Dict.find ci.params q)

/-- The criticality of what a pin carries when criticality belongs to nets: `crit n` for
the net `n`, 0 for a disconnected pin. -/
def net_crit (crit : NetId → ℚ) : Option NetId → ℚ
  | none => 0
  | some n => crit n

/-- The timing analyser reports, on every connected port of the cell, the criticality
`crit` of the net connected there. -/
def crit_follows_nets (ctx : Context) (crit : NetId → ℚ) (ci : CellInfo) : Prop :=
  ∀ port n, port_net ci port = some n → ctx.get_criticality ci.name port = crit n

/-! ## Concrete designs -/

/-- Scenario S2: the timing analyser reports criticalities 0.9, 0.1, 0.5, 0.2 on the inputs
A, B, C, D of LUT 0 (and 0.2 elsewhere). -/
def s2_ctx : Context :=
  { get_criticality := fun _ port =>
      if port = "A0" then mkRat 9 10 else if port = "B0" then mkRat 1 10
      else if port = "C0" then mkRat 1 2 else mkRat 1 5
    stoi := fun _ => none }

/-- Scenario S2: a logic slice whose LUT 0 has truth table 0xFF00 (true iff D = 1) and whose
inputs A, B, C, D are connected to the nets 1, 2, 3, 4. -/
def s2_cell : CellInfo :=
  { name := "lut"
    type := "TRELLIS_SLICE"
    ports := [("A0", { name := "A0", net := some 1, type := PortType.PORT_IN }),
      ("B0", { name := "B0", net := some 2, type := PortType.PORT_IN }),
      ("C0", { name := "C0", net := some 3, type := PortType.PORT_IN }),
      ("D0", { name := "D0", net := some 4, type := PortType.PORT_IN })]
    params := [("LUT0_INITVAL", Property.int 0xFF00 16)] }

/-- An assignment of values to nets: net 4 is high, every other net (and an open pin) low. -/
def s2_value : Option NetId → Bool
  | some 4 => true
  | _ => false

/-- A locked logic slice: LUT 0 computes D (0xFF00) on the nets 1..4, LUT 1 is unused, and
the bel binding has strength STRENGTH_LOCKED. -/
def locked_cell : CellInfo :=
  { name := "ooc_lut"
    type := "TRELLIS_SLICE"
    ports := [("A0", { name := "A0", net := some 1, type := PortType.PORT_IN }),
      ("B0", { name := "B0", net := some 2, type := PortType.PORT_IN }),
      ("C0", { name := "C0", net := some 3, type := PortType.PORT_IN }),
      ("D0", { name := "D0", net := some 4, type := PortType.PORT_IN })]
    params := [("MODE", Property.str "LOGIC"), ("LUT0_INITVAL", Property.int 0xFF00 16),
      ("LUT1_INITVAL", Property.int 0 16)]
    belStrength := PlaceStrength.STRENGTH_LOCKED }

/-- A small design: the logic slice of scenario S2, an IO cell, and a slice in carry mode
whose carry input is connected. -/
def mixed_cells : List CellInfo :=
  [s2_cell,
   { name := "pad", type := "TRELLIS_IO",
     ports := [("I", { name := "I", net := some 7, type := PortType.PORT_IN })] },
   { name := "carry", type := "TRELLIS_SLICE",
     ports := [("FCI", { name := "FCI", net := some 8, type := PortType.PORT_IN })],
     params := [("MODE", Property.str "CCU2"), ("LUT0_INITVAL", Property.int 0x6996 16)] }]

/-- Scenario S5: a slice cell using a DFF clocked by `clk_a`. -/
def ff0 : CellInfo :=
  { name := "f0", type := "TRELLIS_SLICE",
    sliceInfo := { using_dff := true, clk_sig := "clk_a", clkmux := "CLK", lsrmux := "LSR",
                   srmode := "LSR_OVER_CE" } }

/-- Scenario S5: a slice cell using a DFF clocked by `clk_b`. -/
def ff1 : CellInfo :=
  { name := "f1", type := "TRELLIS_SLICE",
    sliceInfo := { using_dff := true, clk_sig := "clk_b", clkmux := "CLK", lsrmux := "LSR",
                   srmode := "LSR_OVER_CE" } }

/-- A slice cell without DFF. -/
def lut_only : CellInfo :=
  { name := "l0", type := "TRELLIS_SLICE" }

/-- Slice bel number `z` of tile (0, 0). -/
def slice_bel (z : Int) : BelId :=
  { location := { x := 0, y := 0 }, index := z }

/-- A device with four slice bels in tile (0, 0); `ff0` is bound to bel 0, `lut_only` to
bel 1 and `ff1` to bel 2. -/
def s5_arch : Arch :=
  { getBelType := fun _ => id_TRELLIS_SLICE
    getBelLocation := fun b => { x := b.location.x, y := b.location.y, z := b.index }
    getBelsByTile := fun x y =>
      if x = 0 ∧ y = 0 then [slice_bel 0, slice_bel 1, slice_bel 2, slice_bel 3] else []
    getBoundBelCell := fun b =>
      if b = slice_bel 0 then some ff0 else if b = slice_bel 1 then some lut_only
      else if b = slice_bel 2 then some ff1 else none
    args_type := ArchArgsTypes.LFE5U_25F }

/-- Scenario S2: the criticalities of the nets 1, 2, 3, 4 (and of any other net). -/
def s2_net_crit : NetId → ℚ
  | 1 => mkRat 9 10
  | 2 => mkRat 1 10
  | 3 => mkRat 1 2
  | _ => mkRat 1 5

/-- Scenario S6: a slice cell that uses the L6MUX. -/
def l6_cell : CellInfo :=
  { name := "mux6", type := "TRELLIS_SLICE", sliceInfo := { has_l6mux := true } }

/-- Scenario S6: a device with four slice bels in tile (0, 0) where `l6_cell` is the only
bound cell and sits on slice bel number `z`. -/
def l6_arch (z : Int) : Arch :=
  { getBelType := fun _ => id_TRELLIS_SLICE
    getBelLocation := fun b => { x := b.location.x, y := b.location.y, z := b.index }
    getBelsByTile := fun x y =>
      if x = 0 ∧ y = 0 then [slice_bel 0, slice_bel 1, slice_bel 2, slice_bel 3] else []
    getBoundBelCell := fun b => if b = slice_bel z then some l6_cell else none
    args_type := ArchArgsTypes.LFE5U_25F }

/-- The DCU bel of tile (5, 0). -/
def dcu_bel : BelId :=
  { location := { x := 5, y := 0 }, index := 0 }

/-- A region that constrains bels and contains none. -/
def empty_region : Region :=
  { name := "floorplan", constr_bels := true }

/-- A DCUA cell constrained to `empty_region`. -/
def dcu_cell : CellInfo :=
  { name := "dcu", type := "DCUA", region := some empty_region }

/-- An IO cell constrained to `empty_region`. -/
def io_cell : CellInfo :=
  { name := "pad", type := "TRELLIS_IO", region := some empty_region }

/-- An LFE5U-25F device (no SERDES) with one DCU bel, bound to `dcu_cell`, and otherwise
empty slice bels. -/
def dcu_arch : Arch :=
  { getBelType := fun b => if b = dcu_bel then "DCUA" else id_TRELLIS_SLICE
    getBelLocation := fun b => { x := b.location.x, y := b.location.y, z := b.index }
    getBelsByTile := fun _ _ => []
    getBoundBelCell := fun b => if b = dcu_bel then some dcu_cell else none
    args_type := ArchArgsTypes.LFE5U_25F }

/-- A device whose bel `dcu_bel` is an IO bel bound to `io_cell`, and whose slice bel 0 of
tile (0, 0) is bound to the slice cell `ff0` constrained to `empty_region`. -/
def region_arch : Arch :=
  { getBelType := fun b => if b = dcu_bel then "TRELLIS_IO" else id_TRELLIS_SLICE
    getBelLocation := fun b => { x := b.location.x, y := b.location.y, z := b.index }
    getBelsByTile := fun x y => if x = 0 ∧ y = 0 then [slice_bel 0, slice_bel 1] else []
    getBoundBelCell := fun b =>
      if b = dcu_bel then some io_cell
      else if b = slice_bel 0 then some { ff0 with region := some empty_region } else none
    args_type := ArchArgsTypes.LFE5UM_25F }

/-! ## fpga_interchange: netlist, cluster descriptions, packed clusters, device view

The functions of `fpga_interchange/arch_pack_clusters.cc`. A `CellInfo *` is the key of the
cell in `cells`, a `NetInfo *` a handle into the net store. -/

/-- Reference to a cell (`CellInfo *`): the key under which `cells` owns the cell. -/
abbrev CellRef := IdString

/-- The struct `PortRef` of nextpnr_types.h (the delay budget is not used here). -/
structure PortRef where
  cell : Option CellRef := none
  port : IdString := ""
  deriving DecidableEq, Repr

/-- The struct `NetInfo` of nextpnr_types.h, with the fields the cluster packer uses. -/
structure NetInfo where
  name : IdString := ""
  driver : PortRef := {}
  users : List PortRef := []
  deriving DecidableEq, Repr

/-- The struct `BelPin` of nextpnr_types.h. -/
structure BelPin where
  bel : BelId
  pin : IdString
  deriving DecidableEq, Repr

/-- The netlist part of the design database: the cells, in the iteration order of `cells`,
and the nets behind the `NetInfo *` handles. -/
structure Netlist where
  cells : Dict CellInfo
  nets : NetId → NetInfo

/-- Modelled from the spec: the chip database declarations of fpga_interchange are not among
the sources. A chainable port of a cluster description: `{cell_source, cell_sink,
bel_source, bel_sink, avg_x_offset, avg_y_offset}`. -/
structure ChainablePortPOD where
  cell_source : IdString
  cell_sink : IdString
  bel_source : IdString
  bel_sink : IdString
  avg_x_offset : Int
  avg_y_offset : Int
  deriving DecidableEq, Repr

/-- Modelled from the spec: an entry `{cell, port}` of `cluster_cells_map`. -/
structure ClusterCellPortPOD where
  cell : IdString
  port : IdString
  deriving DecidableEq, Repr

/-- Modelled from the spec: the cluster description `ClusterPOD` of the device file:
`root_cell_types`, `chainable_ports`, `cluster_cells_map`, `out_of_site_clusters`. -/
structure ClusterPOD where
  name : IdString := ""
  root_cell_types : List IdString := []
  chainable_ports : List ChainablePortPOD := []
  cluster_cells_map : List ClusterCellPortPOD := []
  out_of_site_clusters : Bool := false
  deriving DecidableEq, Repr

/-- Modelled from the spec: the fpga_interchange arch.h is not among the sources. A packed
cluster: `{root, index, cluster_nodes, cluster_node_cells, cell_cluster_node_map}`. -/
structure Cluster where
  root : CellRef := ""
  index : Nat := 0
  cluster_nodes : List CellRef := []
  cluster_node_cells : Dict (List (IdString × CellRef)) := []
  cell_cluster_node_map : Dict IdString := []
  deriving DecidableEq, Repr

/-- The enum `ClusterWireNodeState`. -/
inductive ClusterWireNodeState where
  | IN_SINK_SITE
  | IN_ROUTING
  | IN_SOURCE_SITE
  | ONLY_IN_SOURCE_SITE
  deriving DecidableEq, Repr

/-- The enum `ExpansionDirection`. -/
inductive ExpansionDirection where
  | CLUSTER_UPHILL_DIR
  | CLUSTER_DOWNHILL_DIR
  deriving DecidableEq, Repr

/-- The struct `ClusterWireNode`. -/
structure ClusterWireNode where
  wire : WireId
  state : ClusterWireNodeState
  depth : Int
  deriving DecidableEq, Repr

/-- What arch_pack_clusters.cc reads from `Arch`, `Context` and `chip_info`: the cells and
the packed clusters of the design database, the cluster descriptions of the device file and
the device graph view. `common_pins` stands for the lookup
`cell_bel_map[bel_info(next_bel).pin_map[get_cell_type_index(type)]].common_pins`, `none`
when the mapping is negative; `indeterminate_state` is the value found in the field
`next_node.state`, which `handle_expansion_node` reads before assigning it. -/
structure InterchangeArch where
  cells : Dict CellInfo
  clusters : Dict Cluster
  chip_clusters : List ClusterPOD
  isValidBelForCellType : IdString → BelId → Bool
  getBelLocation : BelId → Loc
  getBelPinWire : BelId → IdString → WireId
  getBelPins : BelId → List IdString
  getWireBelPins : WireId → List BelPin
  getPipsDownhill : WireId → List PipId
  getPipsUphill : WireId → List PipId
  getPipSrcWire : PipId → WireId
  getPipDstWire : PipId → WireId
  is_site_port : PipId → Bool
  is_pip_synthetic : PipId → Bool
  wire_site : WireId → Int
  bel_category_logic : BelId → Bool
  bel_synthetic : BelId → Bool
  common_pins : BelId → IdString → Option (List (IdString × IdString))
  indeterminate_state : PipId → ClusterWireNode → ClusterWireNodeState

/-- The vector `placement` of `getClusterPlacement`. -/
abbrev Placement := List (CellRef × BelId)

/-! ### The cluster routing-graph walk -/

/-- The bel collection loop of `handle_expansion_node` over the bel pins of `wire`; a
`return` inside the loop leaves the bels collected so far. -/
def collect_bels (arch : InterchangeArch) (prev_wire : WireId) (direction : ExpansionDirection) :
    List BelPin → List BelId → List BelId
  | [], bels => bels
  | bel_pin :: rest, bels =>
    let bel := bel_pin.bel
    if bels.contains bel then collect_bels arch prev_wire direction rest bels
    else if ¬ arch.bel_category_logic bel then bels
    else if arch.bel_synthetic bel then bels
    else if direction = ExpansionDirection.CLUSTER_UPHILL_DIR then
      if (arch.getBelPins bel).any fun check_pin => prev_wire = arch.getBelPinWire bel check_pin
      then collect_bels arch prev_wire direction rest (bels ++ [bel])
      else collect_bels arch prev_wire direction rest bels
    else collect_bels arch prev_wire direction rest (bels ++ [bel])

/-- The end of `handle_expansion_node` once `expand_node` holds: the node is pushed and, in
a state inside a site, the bels on the wire are collected. The worklist is kept with its
last element first. -/
def push_expansion_node (arch : InterchangeArch) (prev_wire : WireId)
    (next_node : ClusterWireNode) (nodes_to_expand : List ClusterWireNode) (bels : List BelId)
    (direction : ExpansionDirection) : List ClusterWireNode × List BelId :=
  if next_node.state = ClusterWireNodeState.IN_SINK_SITE ∨
      next_node.state = ClusterWireNodeState.ONLY_IN_SOURCE_SITE then
    (next_node :: nodes_to_expand,
      collect_bels arch prev_wire direction (arch.getWireBelPins next_node.wire) bels)
  else (next_node :: nodes_to_expand, bels)

/-- The function `handle_expansion_node`; `none` is a failed `NPNR_ASSERT`. -/
def handle_expansion_node (arch : InterchangeArch) (prev_wire : WireId) (pip : PipId)
    (curr_node : ClusterWireNode) (nodes_to_expand : List ClusterWireNode) (bels : List BelId)
    (direction : ExpansionDirection) : Option (List ClusterWireNode × List BelId) :=
  let wire :=
    if direction = ExpansionDirection.CLUSTER_UPHILL_DIR then arch.getPipSrcWire pip
    else arch.getPipDstWire pip
  if wire = ({} : WireId) then some (nodes_to_expand, bels)
  else if curr_node.depth ≥ 2 then some (nodes_to_expand, bels)
  else if arch.is_site_port pip then
    match curr_node.state with
    | ClusterWireNodeState.ONLY_IN_SOURCE_SITE => some (nodes_to_expand, bels)
    | ClusterWireNodeState.IN_SOURCE_SITE =>
      if arch.wire_site wire ≠ -1 then none
      else some (push_expansion_node arch prev_wire
        { wire := wire, state := ClusterWireNodeState.IN_ROUTING, depth := curr_node.depth }
        nodes_to_expand bels direction)
    | ClusterWireNodeState.IN_ROUTING =>
      if arch.wire_site wire = -1 then none
      else some (push_expansion_node arch prev_wire
        { wire := wire, state := ClusterWireNodeState.IN_SINK_SITE, depth := curr_node.depth }
        nodes_to_expand bels direction)
    | ClusterWireNodeState.IN_SINK_SITE => some (nodes_to_expand, bels)
  else
    let depth :=
      if arch.indeterminate_state pip curr_node = ClusterWireNodeState.IN_ROUTING then
        curr_node.depth + 1
      else curr_node.depth
    some (push_expansion_node arch prev_wire
      { wire := wire, state := curr_node.state, depth := depth } nodes_to_expand bels direction)

/-- The loop of `find_cluster_bels` over the pips of the node being expanded. -/
def expand_pips (arch : InterchangeArch) (node_to_expand : ClusterWireNode)
    (direction : ExpansionDirection) :
    List PipId → List ClusterWireNode × List BelId → Option (List ClusterWireNode × List BelId)
  | [], st => some st
  | pip :: rest, st =>
    if arch.is_pip_synthetic pip then expand_pips arch node_to_expand direction rest st
    else
      match handle_expansion_node arch node_to_expand.wire pip node_to_expand st.1 st.2
          direction with
      | none => none
      | some st' => expand_pips arch node_to_expand direction rest st'

/-- The `while (!nodes_to_expand.empty())` loop of `find_cluster_bels`, run for at most
`fuel` iterations; `none` when the fuel runs out or an assertion fails. -/
def find_cluster_bels_loop (arch : InterchangeArch) (direction : ExpansionDirection) :
    Nat → List ClusterWireNode → List BelId → Option (List BelId)
  | _, [], bels => some bels
  | 0, _ :: _, _ => none
  | fuel + 1, node_to_expand :: nodes_to_expand, bels =>
    let pips :=
      if direction = ExpansionDirection.CLUSTER_DOWNHILL_DIR then
        arch.getPipsDownhill node_to_expand.wire
      else arch.getPipsUphill node_to_expand.wire
    match expand_pips arch node_to_expand direction pips (nodes_to_expand, bels) with
    | none => none
    | some st => find_cluster_bels_loop arch direction fuel st.1 st.2

/-- The function `find_cluster_bels`: the pool of bels found, in insertion order. -/
def find_cluster_bels (arch : InterchangeArch) (fuel : Nat) (wire : WireId)
    (direction : ExpansionDirection) (out_of_site_expansion : Bool) : Option (List BelId) :=
  if arch.wire_site wire = -1 then none
  else
    find_cluster_bels_loop arch direction fuel
      [{ wire := wire
         state :=
           if out_of_site_expansion then ClusterWireNodeState.IN_SOURCE_SITE
           else ClusterWireNodeState.ONLY_IN_SOURCE_SITE
         depth := 0 }]
      []

/-! ### `Arch::getClusterPlacement` and `Arch::getClusterOffset` -/

/-- `Arch::getClusterRootCell`; `none` when the assertion or `clusters.at` fails. -/
def getClusterRootCell (arch : InterchangeArch) (cluster : ClusterId) : Option CellRef :=
  if cluster = "" then none
  else
    match Dict.find arch.clusters cluster with
    | none => none
    | some packed_cluster => some packed_cluster.root

/-- The loop `for (BelId bel : ...) if (isValidBelForCellType(type, bel)) { ...; break; }`:
the first bel of the pool that admits the cell type. -/
def first_valid_bel (arch : InterchangeArch) (cell_type : IdString) (bels : List BelId) :
    Option BelId :=
  bels.find? fun bel => arch.isValidBelForCellType cell_type bel

/-- The search for the bel of the next chained cluster node, from the bel of the previous
node; `BelId()` when no bel is found. -/
def next_chain_bel (arch : InterchangeArch) (fuel : Nat) (cluster_data : ClusterPOD)
    (cluster_node : CellRef) (next_bel : BelId) : Option BelId :=
  match cluster_data.chainable_ports[0]? with
  | none => none
  | some chainable_port =>
    match find_cluster_bels arch fuel (arch.getBelPinWire next_bel chainable_port.bel_source)
        ExpansionDirection.CLUSTER_DOWNHILL_DIR true with
    | none => none
    | some bels =>
      if bels = [] then some {}
      else
        match Dict.find arch.cells cluster_node with
        | none => none
        | some node => some ((first_valid_bel arch node.type bels).getD {})

/-- The dict `cell_bel_pins` built from the common pins of the cell-to-bel pin map. -/
def build_cell_bel_pins (common_pins : List (IdString × IdString)) : Dict (List IdString) :=
  common_pins.foldl
    (fun cell_bel_pins pin_map =>
      Dict.set cell_bel_pins pin_map.1
        (((Dict.find cell_bel_pins pin_map.1).getD []) ++ [pin_map.2]))
    []

/-- The loop over the bel pins of one port in `getClusterPlacement`: `some (some bel)` when
the satellite cell is placed on `bel`, `some none` when it is not placed. -/
def place_on_bel_pins (arch : InterchangeArch) (fuel : Nat) (out_of_site_clusters : Bool)
    (next_bel : BelId) (direction : ExpansionDirection) (cell : CellRef) :
    List IdString → Option (Option BelId)
  | [] => some none
  | bel_pin :: rest =>
    match find_cluster_bels arch fuel (arch.getBelPinWire next_bel bel_pin) direction
        out_of_site_clusters with
    | none => none
    | some cluster_bels =>
      if cluster_bels.length = 0 then
        place_on_bel_pins arch fuel out_of_site_clusters next_bel direction cell rest
      else
        match Dict.find arch.cells cell with
        | none => none
        | some ci =>
          match first_valid_bel arch ci.type cluster_bels with
          | some bel => some (some bel)
          | none => place_on_bel_pins arch fuel out_of_site_clusters next_bel direction cell rest

/-- The loop over the cells of one cluster node in `getClusterPlacement`. The result is
`(false, placement)` when the function returns false inside the loop and
`(true, placement)` when the loop ends. -/
def place_port_cells (arch : InterchangeArch) (fuel : Nat) (cluster_data : ClusterPOD)
    (cluster_node : CellInfo) (next_bel : BelId) (cell_bel_pins : Dict (List IdString)) :
    List (IdString × CellRef) → Placement → Option (Bool × Placement)
  | [], placement => some (true, placement)
  | port_cell :: rest, placement =>
    if Dict.count cell_bel_pins port_cell.1 = 0 then none
    else
      match Dict.find cluster_node.ports port_cell.1 with
      | none => none
      | some port_info =>
        if port_info.type = PortType.PORT_INOUT then
          place_port_cells arch fuel cluster_data cluster_node next_bel cell_bel_pins rest
            placement
        else
          match Dict.find cell_bel_pins port_cell.1 with
          | none => none
          | some bel_pins =>
            match place_on_bel_pins arch fuel cluster_data.out_of_site_clusters next_bel
                (if port_info.type = PortType.PORT_IN then
                  ExpansionDirection.CLUSTER_UPHILL_DIR
                else ExpansionDirection.CLUSTER_DOWNHILL_DIR)
                port_cell.2 bel_pins with
            | none => none
            | some (some bel) =>
              place_port_cells arch fuel cluster_data cluster_node next_bel cell_bel_pins rest
                (placement ++ [(port_cell.2, bel)])
            | some none => some (false, placement)

/-- The loop over `cluster_nodes` in `getClusterPlacement`, from the current `next_bel` and
`placement`. -/
def place_cluster_nodes (arch : InterchangeArch) (fuel : Nat) (packed_cluster : Cluster)
    (cluster_data : ClusterPOD) (root_cell : CellRef) (root_bel : BelId) :
    List CellRef → BelId → Placement → Option (Bool × Placement)
  | [], _, placement => some (true, placement)
  | cluster_node :: rest, next_bel, placement =>
    match (if cluster_node = root_cell then some root_bel
        else next_chain_bel arch fuel cluster_data cluster_node next_bel) with
    | none => none
    | some next_bel =>
      if cluster_node ≠ root_cell ∧ next_bel = {} then some (false, placement)
      else
        match Dict.find arch.cells cluster_node with
        | none => none
        | some node =>
          match arch.common_pins next_bel node.type with
          | none => none
          | some common_pins =>
            match Dict.find packed_cluster.cluster_node_cells node.name with
            | none => none
            | some port_cells =>
              match place_port_cells arch fuel cluster_data node next_bel
                  (build_cell_bel_pins common_pins) port_cells
                  (placement ++ [(cluster_node, next_bel)]) with
              | none => none
              | some (false, placement) => some (false, placement)
              | some (true, placement) =>
                place_cluster_nodes arch fuel packed_cluster cluster_data root_cell root_bel
                  rest next_bel placement

/-- `Arch::getClusterPlacement`: the boolean returned and the vector `placement` after the
call; `none` when an assertion or a lookup fails, or the walk runs out of fuel. -/
def getClusterPlacement (arch : InterchangeArch) (fuel : Nat) (cluster : ClusterId)
    (root_bel : BelId) (placement : Placement) : Option (Bool × Placement) :=
  match Dict.find arch.clusters cluster with
  | none => none
  | some packed_cluster =>
    match arch.chip_clusters[packed_cluster.index]? with
    | none => none
    | some cluster_data =>
      match getClusterRootCell arch cluster with
      | none => none
      | some root_cell =>
        match Dict.find arch.cells root_cell with
        | none => none
        | some root =>
          if ¬ arch.isValidBelForCellType root.type root_bel then some (false, placement)
          else
            place_cluster_nodes arch fuel packed_cluster cluster_data root_cell root_bel
              packed_cluster.cluster_nodes {} placement

/-- Modelled from the spec: nextpnr_base_types.h is not among the sources. The
default-constructed `Loc`, taken as (-1, -1, -1); the statements below are about the
coordinates that `getClusterOffset` assigns. -/
def Loc.unset : Loc :=
  { x := -1, y := -1, z := -1 }

/-- `Arch::getClusterOffset`. -/
def getClusterOffset (arch : InterchangeArch) (cell : CellInfo) : Option Loc :=
  match getClusterRootCell arch cell.cluster with
  | none => none
  | some root_ref =>
    match Dict.find arch.cells root_ref with
    | none => none
    | some root =>
      if cell.bel ≠ {} ∧ root.bel ≠ {} then
        let root_loc := arch.getBelLocation root.bel
        let cell_loc := arch.getBelLocation cell.bel
        some { x := cell_loc.x - root_loc.x, y := cell_loc.y - root_loc.y,
               z := cell_loc.z - root_loc.z }
      else
        match Dict.find arch.clusters cell.cluster with
        | none => none
        | some cluster =>
          match arch.chip_clusters[cluster.index]? with
          | none => none
          | some cluster_data =>
            match cluster_data.chainable_ports with
            | [] => some Loc.unset
            | chainable_port :: _ =>
              match Dict.find cluster.cell_cluster_node_map cell.name with
              | none => none
              | some cluster_node =>
                match Dict.find arch.cells cluster_node with
                | none => none
                | some _ =>
                  if cluster_node ∈ cluster.cluster_nodes then
                    let distance : Int := (cluster.cluster_nodes.indexOf cluster_node : Nat)
                    some { Loc.unset with
                      x := chainable_port.avg_x_offset * distance
                      y := chainable_port.avg_y_offset * distance }
                  else none

/-! ### `Arch::prepare_cluster`: finding the cluster roots -/

/-- Modelled from the spec: design_utils is not among the sources. `disconnect_port(cell,
port)` on the netlist: the port loses its net, the net loses the port among its users and,
when the port was its driver, its driver cell. -/
def Netlist.disconnect_port (d : Netlist) (cell : CellRef) (port_name : IdString) : Netlist :=
  match Dict.find d.cells cell with
  | none => d
  | some ci =>
    match Dict.find ci.ports port_name with
    | none => d
    | some port =>
      match port.net with
      | none => d
      | some n =>
        let net := d.nets n
        { cells := Dict.set d.cells cell (Nextpnr.disconnect_port ci port_name)
          nets := Function.update d.nets n
            { net with
              users := net.users.filter fun user =>
                ¬ (user.cell = some cell ∧ user.port = port_name)
              driver :=
                if net.driver.cell = some cell ∧ net.driver.port = port_name then
                  { net.driver with cell := none }
                else net.driver } }

/-- Body of the loop "Find cluster roots" of `prepare_cluster` for the cell stored under
`key`; the state is the netlist and the vector `roots`. `none` is the dereference of a
null net on the sink port. -/
def find_cluster_root (cluster : ClusterPOD) (st : Netlist × List CellRef) (key : CellRef) :
    Option (Netlist × List CellRef) :=
  match Dict.find st.1.cells key with
  | none => none
  | some ci =>
    if ci.cluster ≠ "" then some st
    else if ¬ cluster.root_cell_types.contains ci.type then some st
    else
      match cluster.chainable_ports with
      | [] =>
        some ({ st.1 with cells := Dict.set st.1.cells key { ci with cluster := ci.name } },
          st.2 ++ [key])
      | chain_ports :: _ =>
        match Dict.find ci.ports chain_ports.cell_sink with
        | none => none
        | some sink =>
          match sink.net with
          | none => none
          | some n =>
            let driver := (st.1.nets n).driver
            if driver.cell = none ∨ driver.port ≠ chain_ports.cell_source then
              some (Netlist.disconnect_port
                  { st.1 with cells := Dict.set st.1.cells key { ci with cluster := ci.name } }
                  key chain_ports.cell_sink,
                st.2 ++ [key])
            else some st

/-- The loop "Find cluster roots" of `prepare_cluster`: the netlist after the loop and the
vector `roots`. -/
def find_cluster_roots (cluster : ClusterPOD) (d : Netlist) : Option (Netlist × List CellRef) :=
  (d.cells.map Prod.fst).foldlM (find_cluster_root cluster) (d, [])

/-! ## A concrete fpga_interchange device: a column of carry sites -/

/-- The carry bel of the site in tile (0, y). -/
def carry_bel (y : Int) : BelId :=
  { location := { x := 0, y := y }, index := 0 }

/-- The flip-flop bel of the site in tile (0, y). -/
def ff_bel (y : Int) : BelId :=
  { location := { x := 0, y := y }, index := 1 }

/-- Wire number `i` of tile (0, y): 0 is the carry output, 1 the sum output, 2 the carry
input, 3 the flip-flop input (all inside the site) and 4 the inter-site carry route. -/
def col_wire (y i : Int) : WireId :=
  { location := { x := 0, y := y }, index := i }

/-- Pip number `i` of tile (0, y): 0 leaves the site from the carry output to the carry
route, 1 enters the site above from the carry route to its carry input, 2 goes from the sum
output to the flip-flop input inside the site. -/
def col_pip (y i : Int) : PipId :=
  { location := { x := 0, y := y }, index := i }

/-- A chain of two carry cells `c0`, `c1`, with a flip-flop `ff` on the sum output of `c0`. -/
def col_cells : Dict CellInfo :=
  [("c0", { name := "c0", type := "CARRY4", cluster := "c0",
            ports := [("O", { name := "O", net := some 1, type := PortType.PORT_OUT }),
                      ("CO", { name := "CO", net := some 2, type := PortType.PORT_OUT }),
                      ("CI", { name := "CI", net := none, type := PortType.PORT_IN })] }),
   ("c1", { name := "c1", type := "CARRY4", cluster := "c0",
            ports := [("O", { name := "O", net := none, type := PortType.PORT_OUT }),
                      ("CO", { name := "CO", net := none, type := PortType.PORT_OUT }),
                      ("CI", { name := "CI", net := some 2, type := PortType.PORT_IN })] }),
   ("ff", { name := "ff", type := "FDRE", cluster := "c0",
            ports := [("D", { name := "D", net := some 1, type := PortType.PORT_IN })] })]

/-- The carry-chain cluster description of the device. -/
def col_cluster_pod : ClusterPOD :=
  { name := "CARRY_CHAIN"
    root_cell_types := ["CARRY4"]
    chainable_ports := [{ cell_source := "CO", cell_sink := "CI", bel_source := "COUT",
                          bel_sink := "CIN", avg_x_offset := 0, avg_y_offset := -1 }]
    cluster_cells_map := [{ cell := "FDRE", port := "O" }]
    out_of_site_clusters := false }

/-- The packed cluster rooted at `c0`. -/
def col_cluster : Cluster :=
  { root := "c0"
    index := 0
    cluster_nodes := ["c0", "c1"]
    cluster_node_cells := [("c0", [("O", "ff")]), ("c1", [])]
    cell_cluster_node_map := [("ff", "c0"), ("c0", "c0"), ("c1", "c1")] }

/-- The device: a column of two carry sites, tiles (0, 0) and (0, 1), the carry chain
running upwards; the design holds `col_cells` and the cluster `col_cluster`. -/
def col_arch : InterchangeArch :=
  { cells := col_cells
    clusters := [("c0", col_cluster)]
    chip_clusters := [col_cluster_pod]
    isValidBelForCellType := fun cell_type bel =>
      (decide (cell_type = "CARRY4") && decide (bel.index = 0)) ||
        (decide (cell_type = "FDRE") && decide (bel.index = 1))
    getBelLocation := fun bel => { x := bel.location.x, y := bel.location.y, z := bel.index }
    getBelPinWire := fun bel pin =>
      if bel.index = 0 ∧ pin = "COUT" then col_wire bel.location.y 0
      else if bel.index = 0 ∧ pin = "O" then col_wire bel.location.y 1
      else if bel.index = 0 ∧ pin = "CIN" then col_wire bel.location.y 2
      else if bel.index = 1 ∧ pin = "D" then col_wire bel.location.y 3
      else {}
    getBelPins := fun bel => if bel.index = 0 then ["COUT", "O", "CIN"] else ["D"]
    getWireBelPins := fun wire =>
      if wire.index = 0 then [{ bel := carry_bel wire.location.y, pin := "COUT" }]
      else if wire.index = 1 then [{ bel := carry_bel wire.location.y, pin := "O" }]
      else if wire.index = 2 then [{ bel := carry_bel wire.location.y, pin := "CIN" }]
      else if wire.index = 3 then [{ bel := ff_bel wire.location.y, pin := "D" }]
      else []
    getPipsDownhill := fun wire =>
      if wire.index = 0 then [col_pip wire.location.y 0]
      else if wire.index = 4 ∧ wire.location.y = 0 then [col_pip wire.location.y 1]
      else if wire.index = 1 then [col_pip wire.location.y 2]
      else []
    getPipsUphill := fun wire =>
      if wire.index = 4 then [col_pip wire.location.y 0]
      else if wire.index = 2 ∧ wire.location.y = 1 then [col_pip 0 1]
      else if wire.index = 3 then [col_pip wire.location.y 2]
      else []
    getPipSrcWire := fun pip =>
      if pip.index = 0 then col_wire pip.location.y 0
      else if pip.index = 1 then col_wire pip.location.y 4
      else col_wire pip.location.y 1
    getPipDstWire := fun pip =>
      if pip.index = 0 then col_wire pip.location.y 4
      else if pip.index = 1 then col_wire (pip.location.y + 1) 2
      else col_wire pip.location.y 3
    is_site_port := fun pip => decide (pip.index = 0 ∨ pip.index = 1)
    is_pip_synthetic := fun _ => false
    wire_site := fun wire => if wire.index = 4 then -1 else 0
    bel_category_logic := fun _ => true
    bel_synthetic := fun _ => false
    common_pins := fun bel cell_type =>
      if bel.index = 0 ∧ cell_type = "CARRY4" then
        some [("O", "O"), ("CO", "COUT"), ("CI", "CIN")]
      else if bel.index = 1 ∧ cell_type = "FDRE" then some [("D", "D")]
      else none
    indeterminate_state := fun _ _ => ClusterWireNodeState.IN_SINK_SITE }

/-- The pair `(cell, bel)` of a placement names a cell of the design and
`isValidBelForCellType(cell->type, bel)` holds. -/
def valid_assignment (arch : InterchangeArch) (p : CellRef × BelId) : Bool :=
  match Dict.find arch.cells p.1 with
  | none => false
  | some cell => arch.isValidBelForCellType cell.type p.2

/-- The root condition of `prepare_cluster` in the words of the specification, for a cell
`c` of the netlist: the description has no chainable ports, or the net on the `cell_sink`
port of `c` has no driver `d` with `d.cell.type == c.type` and `d.port == cell_source`. -/
def spec_root_condition (cluster : ClusterPOD) (d : Netlist) (c : CellInfo) : Bool :=
  match cluster.chainable_ports with
  | [] => true
  | chain_ports :: _ =>
    match (Dict.find c.ports chain_ports.cell_sink).bind PortInfo.net with
    | none => true
    | some n =>
      match (d.nets n).driver.cell with
      | none => true
      | some driver_cell =>
        match Dict.find d.cells driver_cell with
        | none => true
        | some dc =>
          !(decide (dc.type = c.type) && decide ((d.nets n).driver.port = chain_ports.cell_source))

/-- A netlist for the description `col_cluster_pod`. The carry cell `c` of type CARRY4 takes
its carry input from the port `CO` of the cell `m`, whose type CARRY8 is not a root cell
type of the description; the carry input of the carry cell `r` is on a net without driver. -/
def mixed_chain : Netlist :=
  { cells :=
      [("m", { name := "m", type := "CARRY8",
               ports := [("CO", { name := "CO", net := some 1, type := PortType.PORT_OUT })] }),
       ("c", { name := "c", type := "CARRY4",
               ports := [("CI", { name := "CI", net := some 1, type := PortType.PORT_IN }),
                         ("CO", { name := "CO", net := none, type := PortType.PORT_OUT })] }),
       ("r", { name := "r", type := "CARRY4",
               ports := [("CI", { name := "CI", net := some 2, type := PortType.PORT_IN }),
                         ("CO", { name := "CO", net := none, type := PortType.PORT_OUT })] })]
    nets := fun n =>
      if n = 1 then
        { name := "n1", driver := { cell := some "m", port := "CO" },
          users := [{ cell := some "c", port := "CI" }] }
      else if n = 2 then
        { name := "n2", driver := {}, users := [{ cell := some "r", port := "CI" }] }
      else {} }

/-- Invariant of the loop "Find cluster roots" between the netlist `d` before the loop and
the netlist `dn` reached: the cells still to visit are untouched, no net has changed its
driver port, and a net has lost its driver cell only if its driver port is not the source
port of the chain. -/
def roots_inv (cluster : ClusterPOD) (d : Netlist) (todo : List CellRef) (dn : Netlist) :
    Prop :=
  (∀ k ∈ todo, Dict.find dn.cells k = Dict.find d.cells k) ∧
  ∀ n, (dn.nets n).driver.port = (d.nets n).driver.port ∧
    ((dn.nets n).driver.cell = (d.nets n).driver.cell ∨
      ((dn.nets n).driver.cell = none ∧
        ∀ cp ∈ cluster.chainable_ports.head?, (d.nets n).driver.port ≠ cp.cell_source))

/-! ## Identifier order (`machxo2/archdefs.h`) and delays (`common/nextpnr_types.h`) -/

/-- `Location::operator==`. -/
def Location.eq (a other : Location) : Bool :=
  a.x == other.x && a.y == other.y

/-- `Location::operator!=`. -/
def Location.ne (a other : Location) : Bool :=
  a.x != other.x || a.y != other.y

/-- `Location::operator<`: `y == other.y ? x < other.x : y < other.y`. -/
def Location.lt (a other : Location) : Bool :=
  if a.y == other.y then decide (a.x < other.x) else decide (a.y < other.y)

/-- `BelId::operator==`. -/
def BelId.eq (a other : BelId) : Bool :=
  a.index == other.index && a.location.eq other.location

/-- `BelId::operator!=`. -/
def BelId.ne (a other : BelId) : Bool :=
  a.index != other.index || a.location.ne other.location

/-- `BelId::operator<`:
`location == other.location ? index < other.index : location < other.location`. -/
def BelId.lt (a other : BelId) : Bool :=
  if a.location.eq other.location then decide (a.index < other.index)
  else a.location.lt other.location

/-- `WireId::operator==`. -/
def WireId.eq (a other : WireId) : Bool :=
  a.index == other.index && a.location.eq other.location

/-- `WireId::operator!=`. -/
def WireId.ne (a other : WireId) : Bool :=
  a.index != other.index || a.location.ne other.location

/-- `WireId::operator<`. -/
def WireId.lt (a other : WireId) : Bool :=
  if a.location.eq other.location then decide (a.index < other.index)
  else a.location.lt other.location

/-- `PipId::operator==`. -/
def PipId.eq (a other : PipId) : Bool :=
  a.index == other.index && a.location.eq other.location

/-- `PipId::operator!=`. -/
def PipId.ne (a other : PipId) : Bool :=
  a.index != other.index || a.location.ne other.location

/-- `PipId::operator<`. -/
def PipId.lt (a other : PipId) : Bool :=
  if a.location.eq other.location then decide (a.index < other.index)
  else a.location.lt other.location

/-- The three comparison operators `<`, `==`, `!=` of a type form a strict total order
consistent with equality: `==` is equality of values, `!=` is its negation, exactly one of
`a < b`, `a == b`, `b < a` holds, and `<` is transitive. -/
def strict_total_order {α : Type} (lt eq ne : α → α → Bool) : Prop :=
  (∀ a b, eq a b = true ↔ a = b) ∧
  (∀ a b, ne a b = !eq a b) ∧
  (∀ a b, (lt a b = true ∨ eq a b = true ∨ lt b a = true) ∧
    ¬ (lt a b = true ∧ eq a b = true) ∧ ¬ (lt a b = true ∧ lt b a = true) ∧
    ¬ (eq a b = true ∧ lt b a = true)) ∧
  ∀ a b c, lt a b = true → lt b c = true → lt a c = true

/-! ### Delays -/

/-- A value of the C++ type `float` in the IEEE 754 binary32 format: a finite value
`(-1)^sign * mant * 2^exp` with `mant < 2^24` and `-149 ≤ exp ≤ 104` (the normal and
subnormal numbers and the two zeros), an infinity, or a NaN. -/
inductive Float32 where
  | finite (sign : Bool) (mant : Nat) (exp : Int)
  | inf (sign : Bool)
  | nan
  deriving Repr

/-- The number of binary digits of `n`, counted with at most `fuel` halvings. -/
def Float32.digits : Nat → Nat → Nat
  | 0, _ => 0
  | fuel + 1, n => if n = 0 then 0 else Float32.digits fuel (n / 2) + 1

/-- Rounding of the magnitude `m * 2^e` to the 24 significant bits of the format, to nearest
and ties to even; a result above the largest finite value is an infinity. -/
def Float32.round (sign : Bool) (m : Nat) (e : Int) : Float32 :=
  let n := Float32.digits m m
  if n ≤ 24 then Float32.finite sign m e
  else
    let k := n - 24
    let q := m / 2 ^ k
    let r := m % 2 ^ k
    let q := if 2 ^ (k - 1) < r ∨ (r = 2 ^ (k - 1) ∧ q % 2 = 1) then q + 1 else q
    let q1 := if q = 2 ^ 24 then 2 ^ 23 else q
    let k1 := if q = 2 ^ 24 then k + 1 else k
    if 104 < e + (k1 : Int) then Float32.inf sign else Float32.finite sign q1 (e + (k1 : Int))

/-- The finite value `(-1)^sign * mant * 2^exp` as an integer multiple of `2^low`, for
`low ≤ exp`. -/
def Float32.scaled (sign : Bool) (mant : Nat) (exp low : Int) : Int :=
  (if sign then -1 else 1) * (mant : Int) * 2 ^ (exp - low).toNat

/-- Addition of `float`: the exact sum, rounded. An exact zero sum is `-0` only when both
operands are negative. -/
def Float32.add : Float32 → Float32 → Float32
  | Float32.nan, _ => Float32.nan
  | _, Float32.nan => Float32.nan
  | Float32.inf s, Float32.inf t => if s = t then Float32.inf s else Float32.nan
  | Float32.inf s, Float32.finite _ _ _ => Float32.inf s
  | Float32.finite _ _ _, Float32.inf t => Float32.inf t
  | Float32.finite s m e, Float32.finite t n f =>
    let low := min e f
    let sum := Float32.scaled s m e low + Float32.scaled t n f low
    if sum = 0 then Float32.finite (s && t) 0 0
    else Float32.round (decide (sum < 0)) sum.natAbs low

/-- Negation of `float`. -/
def Float32.neg : Float32 → Float32
  | Float32.nan => Float32.nan
  | Float32.inf s => Float32.inf (!s)
  | Float32.finite s m e => Float32.finite (!s) m e

/-- Subtraction of `float`: the sum with the negated operand. -/
def Float32.sub (a b : Float32) : Float32 :=
  Float32.add a (Float32.neg b)

/-- The comparison `<` of `float`: false when an operand is a NaN. -/
def Float32.lt : Float32 → Float32 → Bool
  | Float32.nan, _ => false
  | _, Float32.nan => false
  | Float32.inf s, Float32.inf t => s && !t
  | Float32.inf s, Float32.finite _ _ _ => s
  | Float32.finite _ _ _, Float32.inf t => !t
  | Float32.finite s m e, Float32.finite t n f =>
    decide (Float32.scaled s m e (min e f) < Float32.scaled t n f (min e f))

/-- The comparison `==` of `float`: by value, so that `-0 == +0`, and false when an operand
is a NaN. -/
def Float32.eq : Float32 → Float32 → Bool
  | Float32.nan, _ => false
  | _, Float32.nan => false
  | Float32.inf s, Float32.inf t => decide (s = t)
  | Float32.inf _, Float32.finite _ _ _ => false
  | Float32.finite _ _ _, Float32.inf _ => false
  | Float32.finite s m e, Float32.finite t n f =>
    decide (Float32.scaled s m e (min e f) = Float32.scaled t n f (min e f))

/-- The conversion of an integer to `float`. -/
def Float32.ofInt (i : Int) : Float32 :=
  Float32.round (decide (i < 0)) i.natAbs 0

instance : Add Float32 := ⟨Float32.add⟩

instance : Sub Float32 := ⟨Float32.sub⟩

instance : BEq Float32 := ⟨Float32.eq⟩

instance : LT Float32 := ⟨fun a b => Float32.lt a b = true⟩

instance (a b : Float32) : Decidable (a < b) :=
  inferInstanceAs (Decidable (Float32.lt a b = true))

/-- The type `delay_t` of the machxo2 architecture: `typedef float delay_t;`. -/
abbrev delay_t := Float32

/-- The struct `DelayPair`: minimum and maximum delay. The header is compiled with the
`delay_t` of the architecture, here the type `D`. -/
structure DelayPair (D : Type) where
  min_delay : D
  max_delay : D
  deriving Repr

/-- `DelayPair::minDelay`. -/
def DelayPair.minDelay {D : Type} (p : DelayPair D) : D := p.min_delay

/-- `DelayPair::maxDelay`. -/
def DelayPair.maxDelay {D : Type} (p : DelayPair D) : D := p.max_delay

/-- `DelayPair::operator+`. -/
def DelayPair.add {D : Type} [Add D] (p other : DelayPair D) : DelayPair D :=
  { min_delay := p.min_delay + other.min_delay, max_delay := p.max_delay + other.max_delay }

/-- `DelayPair::operator-`. -/
def DelayPair.sub {D : Type} [Sub D] (p other : DelayPair D) : DelayPair D :=
  { min_delay := p.min_delay - other.min_delay, max_delay := p.max_delay - other.max_delay }

/-- The struct `DelayQuad`: minimum and maximum rise and fall delay. -/
structure DelayQuad (D : Type) where
  rise : DelayPair D
  fall : DelayPair D
  deriving Repr

/-- The constructor `DelayQuad(delay_t delay)`. -/
def DelayQuad.of_delay {D : Type} (delay : D) : DelayQuad D :=
  { rise := { min_delay := delay, max_delay := delay }
    fall := { min_delay := delay, max_delay := delay } }

/-- `DelayQuad::minRiseDelay`. -/
def DelayQuad.minRiseDelay {D : Type} (q : DelayQuad D) : D := q.rise.minDelay

/-- `DelayQuad::maxRiseDelay`. -/
def DelayQuad.maxRiseDelay {D : Type} (q : DelayQuad D) : D := q.rise.maxDelay

/-- `DelayQuad::minFallDelay`. -/
def DelayQuad.minFallDelay {D : Type} (q : DelayQuad D) : D := q.fall.minDelay

/-- `DelayQuad::maxFallDelay`. -/
def DelayQuad.maxFallDelay {D : Type} (q : DelayQuad D) : D := q.fall.maxDelay

/-- `DelayQuad::minDelay`: `std::min(rise.minDelay(), fall.minDelay())`, where `std::min(a, b)`
is `b < a ? b : a`. -/
def DelayQuad.minDelay {D : Type} [LT D] [DecidableRel ((· < ·) : D → D → Prop)]
    (q : DelayQuad D) : D :=
  if q.fall.minDelay < q.rise.minDelay then q.fall.minDelay else q.rise.minDelay

/-- `DelayQuad::maxDelay`: `std::max(rise.maxDelay(), fall.maxDelay())`, where `std::max(a, b)`
is `a < b ? b : a`. -/
def DelayQuad.maxDelay {D : Type} [LT D] [DecidableRel ((· < ·) : D → D → Prop)]
    (q : DelayQuad D) : D :=
  if q.rise.maxDelay < q.fall.maxDelay then q.fall.maxDelay else q.rise.maxDelay

/-- `DelayQuad::operator+`. -/
def DelayQuad.add {D : Type} [Add D] (q other : DelayQuad D) : DelayQuad D :=
  { rise := q.rise.add other.rise, fall := q.fall.add other.fall }

/-- `DelayQuad::operator-`. -/
def DelayQuad.sub {D : Type} [Sub D] (q other : DelayQuad D) : DelayQuad D :=
  { rise := q.rise.sub other.rise, fall := q.fall.sub other.fall }

/-- The pairs of corresponding components of two `DelayQuad`s. -/
def DelayQuad.component_pairs {D : Type} (a b : DelayQuad D) : List (D × D) :=
  [(a.minRiseDelay, b.minRiseDelay), (a.maxRiseDelay, b.maxRiseDelay),
   (a.minFallDelay, b.minFallDelay), (a.maxFallDelay, b.maxFallDelay)]

/-- The `DelayQuad` over the machxo2 delay type whose components are the conversions to
`float` of the integer components of `q`. -/
def DelayQuad.to_float (q : DelayQuad Int) : DelayQuad delay_t :=
  { rise := { min_delay := Float32.ofInt q.rise.min_delay
              max_delay := Float32.ofInt q.rise.max_delay }
    fall := { min_delay := Float32.ofInt q.fall.min_delay
              max_delay := Float32.ofInt q.fall.max_delay } }

/-- The delay 0.01, which gowin/arch.h returns as `getDelayEpsilon()`, as the `float`
nearest to it: `10737418 * 2^-30`. -/
def delay_epsilon : delay_t := Float32.finite false 10737418 (-30)

/-- The wire that `handle_expansion_node` moves to: the source wire of the pip in an uphill
walk, its destination wire in a downhill walk. -/
def far_wire (arch : InterchangeArch) (pip : PipId) (direction : ExpansionDirection) : WireId :=
  if direction = ExpansionDirection.CLUSTER_UPHILL_DIR then arch.getPipSrcWire pip
  else arch.getPipDstWire pip

/-! ### `Arch::prepare_cluster`: forming the clusters -/

/-- `dict::emplace`: inserts the value under a key that is not present and leaves the dict
alone otherwise. -/
def Dict.emplace {β : Type} (d : Dict β) (key : IdString) (v : β) : Dict β :=
  match Dict.find d key with
  | none => Dict.set d key v
  | some _ => d

/-- `pool::insert`: adds an element that is not present. -/
def pool_insert (pool : List IdString) (x : IdString) : List IdString :=
  if pool.contains x then pool else pool ++ [x]

/-- The dict `port_cell_maps` of `prepare_cluster`: for each port of `cluster_cells_map`, the
pool of the cell types mapped to it. -/
def port_cell_maps (cluster : ClusterPOD) : Dict (List IdString) :=
  cluster.cluster_cells_map.foldl
    (fun maps cell_port_map =>
      match Dict.find maps cell_port_map.port with
      | none => Dict.set maps cell_port_map.port [cell_port_map.cell]
      | some cells_pool =>
        Dict.set maps cell_port_map.port (pool_insert cells_pool cell_port_map.cell))
    []

/-- The loop of `check_cluster_cells_compatibility` over the ports of the new cell; `none`
when `old_cell->ports.at` throws or the net of the port is null. -/
def compatible_ports (nets : NetId → NetInfo) (old_cell : CellInfo)
    (exclude_nets : List IdString) : List (IdString × PortInfo) → Option Bool
  | [] => some true
  | new_port_pair :: rest =>
    match Dict.find old_cell.ports new_port_pair.1 with
    | none => none
    | some old_port_info =>
      match new_port_pair.2.net with
      | none => none
      | some n =>
        if exclude_nets.contains (nets n).name then
          compatible_ports nets old_cell exclude_nets rest
        else if new_port_pair.2.type ≠ PortType.PORT_IN then
          compatible_ports nets old_cell exclude_nets rest
        else if new_port_pair.2.net ≠ old_port_info.net then some false
        else compatible_ports nets old_cell exclude_nets rest

/-- The function `check_cluster_cells_compatibility`; `none` is a failed assertion, a
missing port of the old cell or a null net. -/
def check_cluster_cells_compatibility (nets : NetId → NetInfo) (old_cell new_cell : CellInfo)
    (exclude_nets : List IdString) : Option Bool :=
  if new_cell.type ≠ old_cell.type then none
  else compatible_ports nets old_cell exclude_nets new_cell.ports

/-- What one pass of the `do` loop of `prepare_cluster` works on: the cells of the design,
the locals `cluster_cells`, `cell_type_dict` and `exclude_nets` of the pass, the map
`cell_cluster_node_map` of the cluster being formed and the counter
`count_cluster_cells`. -/
structure NodePass where
  cells : Dict CellInfo
  cluster_cells : List (IdString × CellRef) := []
  cell_type_dict : Dict CellRef := []
  exclude_nets : List IdString := []
  cell_cluster_node_map : Dict IdString := []
  count_cluster_cells : Nat := 0

/-- The statements that claim a cell for the cluster: its `cluster` becomes that of the
root, it is pushed on `cluster_cells` with the port, entered in `cell_cluster_node_map`
under the name of the node, and counted. -/
def claim_cell (root : CellRef) (node_name port : IdString) (cell : CellRef) (st : NodePass) :
    Option NodePass :=
  match Dict.find st.cells root with
  | none => none
  | some root_cell =>
    match Dict.find st.cells cell with
    | none => none
    | some ci =>
      some { st with
        cells := Dict.set st.cells cell { ci with cluster := root_cell.cluster }
        cluster_cells := st.cluster_cells ++ [(port, cell)]
        cell_cluster_node_map := Dict.emplace st.cell_cluster_node_map ci.name node_name
        count_cluster_cells := st.count_cluster_cells + 1 }

/-- Body of the loop over the ports of the cluster node in `prepare_cluster`. -/
def claim_port (nets : NetId → NetInfo) (maps : Dict (List IdString)) (root : CellRef)
    (node_name : IdString) (st : NodePass) (port : IdString × PortInfo) : Option NodePass :=
  if Dict.count maps port.1 = 0 then some st
  else if port.2.type = PortType.PORT_OUT then
    match port.2.net with
    | none => none
    | some n =>
      let st := { st with exclude_nets := pool_insert st.exclude_nets (nets n).name }
      match (nets n).users with
      | [user] =>
        match user.cell with
        | none => some st
        | some user_cell =>
          match Dict.find maps port.1, Dict.find st.cells user_cell with
          | some cells_pool, some uc =>
            if ¬ cells_pool.contains uc.type then some st
            else
              match Dict.find st.cell_type_dict uc.type with
              | none =>
                claim_cell root node_name port.1 user_cell
                  { st with cell_type_dict := Dict.set st.cell_type_dict uc.type user_cell }
              | some old =>
                match Dict.find st.cells old with
                | none => none
                | some old_cell =>
                  match check_cluster_cells_compatibility nets old_cell uc st.exclude_nets with
                  | none => none
                  | some false => some st
                  | some true => claim_cell root node_name port.1 user_cell st
          | _, _ => none
      | _ => some st
  else if port.2.type = PortType.PORT_IN then
    match port.2.net with
    | none => none
    | some n =>
      if (nets n).users.length ≠ 1 then some st
      else
        match (nets n).driver.cell with
        | none => some st
        | some driver_cell =>
          match Dict.find maps port.1, Dict.find st.cells driver_cell with
          | some cells_pool, some dc =>
            if ¬ cells_pool.contains dc.type then some st
            else claim_cell root node_name port.1 driver_cell st
          | _, _ => none
  else some st

/-- One pass of the `do` loop up to line 516: the satellites of the node are claimed and
the node is recorded in the cluster. -/
def cluster_node_pass (nets : NetId → NetInfo) (cluster : ClusterPOD) (root node : CellRef)
    (cells : Dict CellInfo) (cluster_info : Cluster) (count_cluster_cells : Nat) :
    Option (Dict CellInfo × Cluster × Nat) :=
  match Dict.find cells node with
  | none => none
  | some nc =>
    match nc.ports.foldlM (claim_port nets (port_cell_maps cluster) root nc.name)
        { cells := cells
          cell_cluster_node_map := cluster_info.cell_cluster_node_map
          count_cluster_cells := count_cluster_cells + 1 } with
    | none => none
    | some st =>
      some (st.cells,
        { cluster_info with
          cell_cluster_node_map := Dict.emplace st.cell_cluster_node_map nc.name nc.name
          cluster_nodes := cluster_info.cluster_nodes ++ [node]
          cluster_node_cells :=
            Dict.emplace cluster_info.cluster_node_cells nc.name st.cluster_cells },
        st.count_cluster_cells)

/-- The loop over the users of `next_net`: the first user with a cell of a root cell type;
`some none` when there is none. -/
def next_chain_node (cells : Dict CellInfo) (cluster : ClusterPOD) :
    List PortRef → Option (Option CellRef)
  | [] => some none
  | user :: rest =>
    match user.cell with
    | none => next_chain_node cells cluster rest
    | some user_cell =>
      match Dict.find cells user_cell with
      | none => none
      | some uc =>
        if cluster.root_cell_types.contains uc.type then some (some user_cell)
        else next_chain_node cells cluster rest

/-- The `do { ... } while (true)` loop of `prepare_cluster`, run for at most `fuel` passes
from the node `next_cluster_node`; `none` when the fuel runs out or the code fails. The
statement `continue` of line 529 starts the next pass with the same node. -/
def form_chain (nets : NetId → NetInfo) (cluster : ClusterPOD) (root : CellRef) :
    Nat → CellRef → Dict CellInfo → Cluster → Nat → Option (Dict CellInfo × Cluster × Nat)
  | 0, _, _, _, _ => none
  | fuel + 1, next_cluster_node, cells, cluster_info, count_cluster_cells =>
    match cluster_node_pass nets cluster root next_cluster_node cells cluster_info
        count_cluster_cells with
    | none => none
    | some (cells, cluster_info, count_cluster_cells) =>
      match cluster.chainable_ports with
      | [] => some (cells, cluster_info, count_cluster_cells)
      | chain_ports :: _ =>
        match (Dict.find cells next_cluster_node).bind fun nc =>
            Dict.find nc.ports chain_ports.cell_source with
        | none => none
        | some source =>
          match source.net with
          | none =>
            form_chain nets cluster root fuel next_cluster_node cells cluster_info
              count_cluster_cells
          | some next_net =>
            match next_chain_node cells cluster (nets next_net).users with
            | none => none
            | some none => some (cells, cluster_info, count_cluster_cells)
            | some (some user_cell) =>
              match Dict.find cells root, Dict.find cells user_cell with
              | some root_cell, some uc =>
                form_chain nets cluster root fuel user_cell
                  (Dict.set cells user_cell { uc with cluster := root_cell.cluster })
                  cluster_info count_cluster_cells
              | _, _ => none

/-- Body of the loop "Generate unique clusters starting from each root" for one root; the
state is the cells of the design and the dict `clusters`. -/
def form_cluster (nets : NetId → NetInfo) (cluster : ClusterPOD) (index : Nat) (fuel : Nat)
    (st : Dict CellInfo × Dict Cluster) (root : CellRef) :
    Option (Dict CellInfo × Dict Cluster) :=
  match form_chain nets cluster root fuel root st.1 { root := root, index := index } 0 with
  | none => none
  | some (cells, cluster_info, count_cluster_cells) =>
    match Dict.find cells root with
    | none => none
    | some root_cell =>
      if count_cluster_cells = 1 ∧ cluster.chainable_ports.length = 0 then
        some (Dict.set cells root { root_cell with cluster := "" }, st.2)
      else some (cells, Dict.emplace st.2 root_cell.cluster cluster_info)

/-- `Arch::prepare_cluster`: the netlist and the dict `clusters` after the call, the walk
of each chain being given `fuel` passes. -/
def prepare_cluster (fuel : Nat) (cluster : ClusterPOD) (index : Nat)
    (st : Netlist × Dict Cluster) : Option (Netlist × Dict Cluster) :=
  match find_cluster_roots cluster st.1 with
  | none => none
  | some (d, roots) =>
    match roots.foldlM (form_cluster d.nets cluster index fuel) (d.cells, st.2) with
    | none => none
    | some (cells, clusters) => some ({ d with cells := cells }, clusters)

/-- `Arch::pack_cluster`: `prepare_cluster` for every cluster description of the device. -/
def pack_cluster (fuel : Nat) (chip_clusters : List ClusterPOD) (st : Netlist × Dict Cluster) :
    Option (Netlist × Dict Cluster) :=
  chip_clusters.enum.foldlM (fun st ic => prepare_cluster fuel ic.2 ic.1 st) st

/-! ### Concrete netlists for the cluster packer -/

/-- A chainable cluster description in the style of scenario S3: carry cells of type CCU2C
chained from `COUT` to `CIN`, with flip-flops of type FF as satellites on the outputs `S0`
and `S1`. -/
def ccu2c_pod : ClusterPOD :=
  { name := "CCU2C_CHAIN"
    root_cell_types := ["CCU2C"]
    chainable_ports := [{ cell_source := "COUT", cell_sink := "CIN", bel_source := "COUT",
                          bel_sink := "CIN", avg_x_offset := 0, avg_y_offset := 1 }]
    cluster_cells_map := [{ cell := "FF", port := "S0" }, { cell := "FF", port := "S1" }]
    out_of_site_clusters := false }

/-- A carry cell of type CCU2C named `name`, with `CIN` on the net `cin`, `COUT` on the net
`cout`, and no other port. -/
def ccu2c_cell (name : IdString) (cin cout : Option NetId) : CellInfo :=
  { name := name, type := "CCU2C",
    ports := [("CIN", { name := "CIN", net := cin, type := PortType.PORT_IN }),
              ("COUT", { name := "COUT", net := cout, type := PortType.PORT_OUT })] }

/-- The netlist of scenario S3: `c0.COUT → c1.CIN`, `c1.COUT → c2.CIN`, the carry input of
`c0` on the constant net 1 driven by the cell `vcc`, the carry output of `c2` on the net 4,
which has no user. -/
def s3_netlist : Netlist :=
  { cells :=
      [("vcc", { name := "vcc", type := "VCC",
                 ports := [("P", { name := "P", net := some 1, type := PortType.PORT_OUT })] }),
       ("c0", ccu2c_cell "c0" (some 1) (some 2)),
       ("c1", ccu2c_cell "c1" (some 2) (some 3)),
       ("c2", ccu2c_cell "c2" (some 3) (some 4))]
    nets := fun n =>
      if n = 1 then
        { name := "n1", driver := { cell := some "vcc", port := "P" },
          users := [{ cell := some "c0", port := "CIN" }] }
      else if n = 2 then
        { name := "n2", driver := { cell := some "c0", port := "COUT" },
          users := [{ cell := some "c1", port := "CIN" }] }
      else if n = 3 then
        { name := "n3", driver := { cell := some "c1", port := "COUT" },
          users := [{ cell := some "c2", port := "CIN" }] }
      else if n = 4 then
        { name := "n4", driver := { cell := some "c2", port := "COUT" }, users := [] }
      else {} }

/-- A single carry cell whose carry input is on the constant net 1 and whose carry output
is not connected to any net. -/
def open_tail : Netlist :=
  { cells :=
      [("vcc", { name := "vcc", type := "VCC",
                 ports := [("P", { name := "P", net := some 1, type := PortType.PORT_OUT })] }),
       ("c0", ccu2c_cell "c0" (some 1) none)]
    nets := fun n =>
      if n = 1 then
        { name := "n1", driver := { cell := some "vcc", port := "P" },
          users := [{ cell := some "c0", port := "CIN" }] }
      else {} }

/-- A carry ring: the carry output of `c0` feeds the carry input of `c1`, and the carry
output of `c1` comes back to the data input `A0` of `c0`; the carry input of `c0` is on the
constant net 1. -/
def carry_ring : Netlist :=
  { cells :=
      [("vcc", { name := "vcc", type := "VCC",
                 ports := [("P", { name := "P", net := some 1, type := PortType.PORT_OUT })] }),
       ("c0", { name := "c0", type := "CCU2C",
                ports := [("CIN", { name := "CIN", net := some 1, type := PortType.PORT_IN }),
                          ("A0", { name := "A0", net := some 3, type := PortType.PORT_IN }),
                          ("COUT", { name := "COUT", net := some 2,
                                     type := PortType.PORT_OUT })] }),
       ("c1", ccu2c_cell "c1" (some 2) (some 3))]
    nets := fun n =>
      if n = 1 then
        { name := "n1", driver := { cell := some "vcc", port := "P" },
          users := [{ cell := some "c0", port := "CIN" }] }
      else if n = 2 then
        { name := "n2", driver := { cell := some "c0", port := "COUT" },
          users := [{ cell := some "c1", port := "CIN" }] }
      else if n = 3 then
        { name := "n3", driver := { cell := some "c1", port := "COUT" },
          users := [{ cell := some "c0", port := "A0" }] }
      else {} }

/-- A chain that enters its second node through a data input: the carry output of `c0`
feeds the input `A0` of `c1`, whose carry input is on the constant net 1, as is the carry
input of `c0`; the carry output of `c1` has no user. -/
def side_entry : Netlist :=
  { cells :=
      [("vcc", { name := "vcc", type := "VCC",
                 ports := [("P", { name := "P", net := some 1, type := PortType.PORT_OUT })] }),
       ("c0", ccu2c_cell "c0" (some 1) (some 2)),
       ("c1", { name := "c1", type := "CCU2C",
                ports := [("CIN", { name := "CIN", net := some 1, type := PortType.PORT_IN }),
                          ("A0", { name := "A0", net := some 2, type := PortType.PORT_IN }),
                          ("COUT", { name := "COUT", net := some 3,
                                     type := PortType.PORT_OUT })] })]
    nets := fun n =>
      if n = 1 then
        { name := "n1", driver := { cell := some "vcc", port := "P" },
          users := [{ cell := some "c0", port := "CIN" }, { cell := some "c1", port := "CIN" }] }
      else if n = 2 then
        { name := "n2", driver := { cell := some "c0", port := "COUT" },
          users := [{ cell := some "c1", port := "A0" }] }
      else if n = 3 then
        { name := "n3", driver := { cell := some "c1", port := "COUT" }, users := [] }
      else {} }

/-- A flip-flop of type FF named `name`, with data input `D` on the net `d`, clock enable
`CE` on the net `ce` and output `Q` on the net `q`. -/
def ff_cell (name : IdString) (d ce q : NetId) : CellInfo :=
  { name := name, type := "FF",
    ports := [("D", { name := "D", net := some d, type := PortType.PORT_IN }),
              ("CE", { name := "CE", net := some ce, type := PortType.PORT_IN }),
              ("Q", { name := "Q", net := some q, type := PortType.PORT_OUT })] }

/-- A carry cell of type CCU2C with the sum output `S0` on the net `s0`. -/
def ccu2c_sum_cell (name : IdString) (cin cout s0 : NetId) : CellInfo :=
  { name := name, type := "CCU2C",
    ports := [("CIN", { name := "CIN", net := some cin, type := PortType.PORT_IN }),
              ("S0", { name := "S0", net := some s0, type := PortType.PORT_OUT }),
              ("COUT", { name := "COUT", net := some cout, type := PortType.PORT_OUT })] }

/-- A chain of two carry cells, each with a flip-flop on its sum output `S0`; the
flip-flops have their clock enables on the different nets 10 and 11. -/
def two_enables : Netlist :=
  { cells :=
      [("vcc", { name := "vcc", type := "VCC",
                 ports := [("P", { name := "P", net := some 1, type := PortType.PORT_OUT })] }),
       ("c0", ccu2c_sum_cell "c0" 1 2 4),
       ("c1", ccu2c_sum_cell "c1" 2 3 5),
       ("f0", ff_cell "f0" 4 10 6),
       ("f1", ff_cell "f1" 5 11 7)]
    nets := fun n =>
      if n = 1 then
        { name := "n1", driver := { cell := some "vcc", port := "P" },
          users := [{ cell := some "c0", port := "CIN" }] }
      else if n = 2 then
        { name := "n2", driver := { cell := some "c0", port := "COUT" },
          users := [{ cell := some "c1", port := "CIN" }] }
      else if n = 3 then
        { name := "n3", driver := { cell := some "c1", port := "COUT" }, users := [] }
      else if n = 4 then
        { name := "n4", driver := { cell := some "c0", port := "S0" },
          users := [{ cell := some "f0", port := "D" }] }
      else if n = 5 then
        { name := "n5", driver := { cell := some "c1", port := "S0" },
          users := [{ cell := some "f1", port := "D" }] }
      else if n = 6 then { name := "n6", driver := { cell := some "f0", port := "Q" } }
      else if n = 7 then { name := "n7", driver := { cell := some "f1", port := "Q" } }
      else if n = 10 then
        { name := "n10", users := [{ cell := some "f0", port := "CE" }] }
      else if n = 11 then
        { name := "n11", users := [{ cell := some "f1", port := "CE" }] }
      else {} }

/-- A cluster description without chainable ports in which the root cell type LUT is also
a satellite type: a LUT or a flip-flop on the output `O` of a LUT joins its cluster. -/
def lut_pod : ClusterPOD :=
  { name := "LUT_PAIR"
    root_cell_types := ["LUT"]
    chainable_ports := []
    cluster_cells_map := [{ cell := "LUT", port := "O" }, { cell := "FF", port := "O" }]
    out_of_site_clusters := false }

/-- A LUT named `name` with input `I` on the net `i` and output `O` on the net `o`. -/
def lut_cell (name : IdString) (i o : NetId) : CellInfo :=
  { name := name, type := "LUT",
    ports := [("I", { name := "I", net := some i, type := PortType.PORT_IN }),
              ("O", { name := "O", net := some o, type := PortType.PORT_OUT })] }

/-- The LUT `q` drives the LUT `r`, which drives the flip-flop `t`. -/
def lut_pair : Netlist :=
  { cells := [("q", lut_cell "q" 1 2), ("r", lut_cell "r" 2 3), ("t", ff_cell "t" 3 10 4)]
    nets := fun n =>
      if n = 1 then { name := "n1", users := [{ cell := some "q", port := "I" }] }
      else if n = 2 then
        { name := "n2", driver := { cell := some "q", port := "O" },
          users := [{ cell := some "r", port := "I" }] }
      else if n = 3 then
        { name := "n3", driver := { cell := some "r", port := "O" },
          users := [{ cell := some "t", port := "D" }] }
      else if n = 4 then { name := "n4", driver := { cell := some "t", port := "Q" } }
      else if n = 10 then { name := "n10", users := [{ cell := some "t", port := "CE" }] }
      else {} }

/-- Two dicts of cells hold the same cells up to the field `cluster`. -/
def same_shape (cells cells' : Dict CellInfo) : Prop :=
  ∀ key, (Dict.find cells' key).map (fun c => { c with cluster := "" }) =
    (Dict.find cells key).map (fun c => { c with cluster := "" })

/-- The cells of `open_tail` after the root discovery of `prepare_cluster` for `ccu2c_pod`:
`c0` is a root, in the cluster `c0`, with its carry input disconnected. -/
def open_tail_rooted : Dict CellInfo :=
  [("vcc", { name := "vcc", type := "VCC",
             ports := [("P", { name := "P", net := some 1, type := PortType.PORT_OUT })] }),
   ("c0", { ccu2c_cell "c0" none none with cluster := "c0" })]

/-- What the root discovery of a chainable description has done to the netlist `d` when it
has reached the state `st`, with the cells `todo` still to visit: a root has the cluster id
of its name and its sink port disconnected, its former sink net lists the port no more,
every other cell is untouched, no net has gained a user, and a net that is not the sink net
of a root is untouched. -/
def roots_effect (d : Netlist) (sink_port : IdString) (todo : List CellRef)
    (st : Netlist × List CellRef) : Prop :=
  (∀ key ∈ st.2, key ∉ todo) ∧
  (∀ key ci, Dict.find d.cells key = some ci → key ∈ st.2 →
    Dict.find st.1.cells key =
      some (disconnect_port { ci with cluster := ci.name } sink_port)) ∧
  (∀ key, key ∉ st.2 → Dict.find st.1.cells key = Dict.find d.cells key) ∧
  (∀ n u, u ∈ (st.1.nets n).users → u ∈ (d.nets n).users) ∧
  (∀ key ci n, Dict.find d.cells key = some ci → key ∈ st.2 → port_net ci sink_port = some n →
    ∀ u ∈ (st.1.nets n).users, ¬ (u.cell = some key ∧ u.port = sink_port)) ∧
  (∀ n, (∀ key ci, Dict.find d.cells key = some ci → key ∈ st.2 →
      port_net ci sink_port ≠ some n) → st.1.nets n = d.nets n)

/-- The netlist and the clusters of scenario S3 after `prepare_cluster` for `ccu2c_pod`. -/
def s3_packed : Netlist × Dict Cluster :=
  (prepare_cluster 10 ccu2c_pod 0 (s3_netlist, [])).getD (s3_netlist, [])

/-- The cell `b` follows the cell `a` in a chain: `a` has a net on its source port and, among
the users of that net, `b` is the cell of the first one whose cell has a root cell type,
whatever the port of `b` it is on. -/
def chain_link (nets : NetId → NetInfo) (cells : Dict CellInfo) (cluster : ClusterPOD)
    (source_port : IdString) (a b : CellRef) : Prop :=
  ∃ nc n before user after ub,
    Dict.find cells a = some nc ∧ port_net nc source_port = some n ∧
    (nets n).users = before ++ user :: after ∧
    user.cell = some b ∧ Dict.find cells b = some ub ∧ ub.type ∈ cluster.root_cell_types ∧
    ∀ u ∈ before, ∀ k uc, u.cell = some k → Dict.find cells k = some uc →
      uc.type ∉ cluster.root_cell_types

/-- A chainable description whose satellites are the LUTs that drive the data inputs `A0`
and `B0` of a carry cell. -/
def carry_lut_pod : ClusterPOD :=
  { name := "CCU2C_LUTS"
    root_cell_types := ["CCU2C"]
    chainable_ports := [{ cell_source := "COUT", cell_sink := "CIN", bel_source := "COUT",
                          bel_sink := "CIN", avg_x_offset := 0, avg_y_offset := 1 }]
    cluster_cells_map := [{ cell := "LUT", port := "A0" }, { cell := "LUT", port := "B0" }]
    out_of_site_clusters := false }

/-- A carry cell whose data inputs `A0` and `B0` are driven by the LUTs `l0` and `l1`; the
LUTs have their inputs on the different nets 20 and 21. -/
def lut_drivers : Netlist :=
  { cells :=
      [("vcc", { name := "vcc", type := "VCC",
                 ports := [("P", { name := "P", net := some 1, type := PortType.PORT_OUT })] }),
       ("c0", { name := "c0", type := "CCU2C",
                ports := [("CIN", { name := "CIN", net := some 1, type := PortType.PORT_IN }),
                          ("A0", { name := "A0", net := some 5, type := PortType.PORT_IN }),
                          ("B0", { name := "B0", net := some 6, type := PortType.PORT_IN }),
                          ("COUT", { name := "COUT", net := some 2,
                                     type := PortType.PORT_OUT })] }),
       ("l0", lut_cell "l0" 20 5),
       ("l1", lut_cell "l1" 21 6)]
    nets := fun n =>
      if n = 1 then
        { name := "n1", driver := { cell := some "vcc", port := "P" },
          users := [{ cell := some "c0", port := "CIN" }] }
      else if n = 2 then
        { name := "n2", driver := { cell := some "c0", port := "COUT" }, users := [] }
      else if n = 5 then
        { name := "n5", driver := { cell := some "l0", port := "O" },
          users := [{ cell := some "c0", port := "A0" }] }
      else if n = 6 then
        { name := "n6", driver := { cell := some "l1", port := "O" },
          users := [{ cell := some "c0", port := "B0" }] }
      else if n = 20 then { name := "n20", users := [{ cell := some "l0", port := "I" }] }
      else if n = 21 then { name := "n21", users := [{ cell := some "l1", port := "I" }] }
      else {} }

/-- The names of the nets on the output ports of a cluster node that `cluster_cells_map`
lists: the names that the pass over the node puts in `exclude_nets`. -/
def node_output_nets (nets : NetId → NetInfo) (maps : Dict (List IdString)) (nc : CellInfo) :
    List IdString :=
  nc.ports.filterMap fun port =>
    if Dict.count maps port.1 ≠ 0 ∧ port.2.type = PortType.PORT_OUT then
      port.2.net.map fun n => (nets n).name
    else none

/-- The cells `ca` and `cb` have the same net on every port that is an input port of both,
unless one of the two nets has a name in `exclude`. -/
def inputs_agree (nets : NetId → NetInfo) (exclude : List IdString) (ca cb : CellInfo) : Prop :=
  ∀ q pa pb, Dict.find ca.ports q = some pa → Dict.find cb.ports q = some pb →
    pa.type = PortType.PORT_IN → pb.type = PortType.PORT_IN →
    (∀ n, pa.net = some n → (nets n).name ∉ exclude) →
    (∀ n, pb.net = some n → (nets n).name ∉ exclude) → pa.net = pb.net

/-- The satellites `satellites` of the cluster node `nc`: any two of them that were claimed
through output ports of the node and have the same cell type agree on their input ports,
outside of the output nets of the node. -/
def satellites_compatible (nets : NetId → NetInfo) (cells : Dict CellInfo)
    (maps : Dict (List IdString)) (nc : CellInfo) (satellites : List (IdString × CellRef)) :
    Prop :=
  ∀ e1 ∈ satellites, ∀ e2 ∈ satellites,
    (∃ p, Dict.find nc.ports e1.1 = some p ∧ p.type = PortType.PORT_OUT) →
    (∃ p, Dict.find nc.ports e2.1 = some p ∧ p.type = PortType.PORT_OUT) →
    ∀ ca cb, Dict.find cells e1.2 = some ca → Dict.find cells e2.2 = some cb →
      ca.type = cb.type → inputs_agree nets (node_output_nets nets maps nc) ca cb

/-- Invariant of the loop over the ports of the cluster node `nc`, for cells of the shape
`cells0`: the excluded names are output nets of the node, `cell_type_dict` holds for a type
a cell of that type, and a satellite claimed through an output port is the cell that
`cell_type_dict` holds for its type or has, on each of its input ports outside of the
output nets of the node, the net that this cell has there. -/
def pass_inv (nets : NetId → NetInfo) (cells0 : Dict CellInfo) (maps : Dict (List IdString))
    (nc : CellInfo) (st : NodePass) : Prop :=
  same_shape cells0 st.cells ∧
  (∀ x ∈ st.exclude_nets, x ∈ node_output_nets nets maps nc) ∧
  ∀ e ∈ st.cluster_cells,
    (∃ p, Dict.find nc.ports e.1 = some p ∧ p.type = PortType.PORT_OUT) →
    ∃ c2 s1 c1, Dict.find cells0 e.2 = some c2 ∧
      Dict.find st.cell_type_dict c2.type = some s1 ∧ Dict.find cells0 s1 = some c1 ∧
      (e.2 = s1 ∨
        ∀ port ∈ c2.ports, port.2.type = PortType.PORT_IN →
          (∀ n, port.2.net = some n → (nets n).name ∉ node_output_nets nets maps nc) →
          ∃ old, Dict.find c1.ports port.1 = some old ∧ port.2.net = old.net)

/-- Every entry of `cluster_node_cells` of the cluster holds, under the name of a cell of
the design, satellites of that cell that are compatible in the sense of
`satellites_compatible`. -/
def cluster_compatible (nets : NetId → NetInfo) (cells : Dict CellInfo)
    (maps : Dict (List IdString)) (cluster_info : Cluster) : Prop :=
  ∀ entry ∈ cluster_info.cluster_node_cells, ∃ node nc,
    Dict.find cells node = some nc ∧ nc.name = entry.1 ∧
    satellites_compatible nets cells maps nc entry.2

/-! ### The carry chain of scenario S3, in general -/

/-- The user `u` of a net is a port of a cell of the design that has a root cell type. -/
def root_type_user (cells : Dict CellInfo) (cluster : ClusterPOD) (u : PortRef) : Bool :=
  match u.cell with
  | none => false
  | some k =>
    match Dict.find cells k with
    | none => false
    | some uc => cluster.root_cell_types.contains uc.type

/-- Every user of the list that has a cell has a cell of the design. -/
def users_exist (cells : Dict CellInfo) (users : List PortRef) : Bool :=
  users.all fun u =>
    match u.cell with
    | none => true
    | some k => (Dict.find cells k).isSome

/-- The net on the port `port` of the cell stored under `key`, if any. -/
def cell_port_net (d : Netlist) (key : CellRef) (port : IdString) : Option NetId :=
  (Dict.find d.cells key).bind fun c => port_net c port

/-- The `cell_source` port of `a` drives a net whose only user of a root cell type is the
`cell_sink` port of `b`. -/
def chained (d : Netlist) (cluster : ClusterPOD) (cp : ChainablePortPOD) (a b : CellRef) : Bool :=
  match cell_port_net d a cp.cell_source with
  | none => false
  | some n =>
    decide (cell_port_net d b cp.cell_sink = some n) &&
    decide ((d.nets n).driver = { cell := some a, port := cp.cell_source }) &&
    users_exist d.cells (d.nets n).users &&
    (d.nets n).users.contains { cell := some b, port := cp.cell_sink } &&
    (d.nets n).users.all fun u =>
      !root_type_user d.cells cluster u || decide (u = { cell := some b, port := cp.cell_sink })

/-- The `cell_sink` port of the cell is tied to a net that is not driven through a
`cell_source` port: a constant net. -/
def tied_to_constant (d : Netlist) (cp : ChainablePortPOD) (key : CellRef) : Bool :=
  match cell_port_net d key cp.cell_sink with
  | none => false
  | some n =>
    decide ((d.nets n).driver.cell = none) || decide ((d.nets n).driver.port ≠ cp.cell_source)

/-- The `cell_source` port of the cell is on a net that has no user of a root cell type. -/
def open_ended (d : Netlist) (cluster : ClusterPOD) (cp : ChainablePortPOD) (key : CellRef) :
    Bool :=
  match cell_port_net d key cp.cell_source with
  | none => false
  | some n =>
    users_exist d.cells (d.nets n).users &&
    (d.nets n).users.all fun u => !root_type_user d.cells cluster u

/-- The cluster that `prepare_cluster` forms for a chain without satellites: the nodes in
chain order, each with no satellite and mapped to itself. -/
def chain_cluster (index : Nat) (chain : List CellRef) : Cluster :=
  { root := chain.headD ""
    index := index
    cluster_nodes := chain
    cluster_node_cells := chain.map fun k => (k, [])
    cell_cluster_node_map := chain.map fun k => (k, k) }

/-- Two dicts of cells hold cells of the same types under the same keys. -/
def same_types (cells cells' : Dict CellInfo) : Prop :=
  ∀ key, (Dict.find cells' key).map CellInfo.type = (Dict.find cells key).map CellInfo.type

/-- The cell stored under `key` is an unclustered cell of a root cell type, stored under its
name, none of whose ports is a port of `cluster_cells_map`. -/
def chain_cell (d : Netlist) (cluster : ClusterPOD) (key : CellRef) : Bool :=
  match Dict.find d.cells key with
  | none => false
  | some c =>
    decide (c.name = key) && decide (c.cluster = "") &&
    cluster.root_cell_types.contains c.type &&
    c.ports.all fun port => decide (Dict.count (port_cell_maps cluster) port.1 = 0)

/-- The cluster `info` after the passes of the `do` loop over the nodes `nodes`, none of
which claims a satellite. -/
def chain_nodes_added (info : Cluster) (nodes : List CellRef) : Cluster :=
  nodes.foldl
    (fun info k =>
      { info with
        cell_cluster_node_map := Dict.emplace info.cell_cluster_node_map k k
        cluster_nodes := info.cluster_nodes ++ [k]
        cluster_node_cells := Dict.emplace info.cluster_node_cells k [] })
    info

/-- A carry cell with both sum outputs, each driving a flip-flop; the two flip-flops have
their clock enables on the same net 10. -/
def shared_enable : Netlist :=
  { cells :=
      [("vcc", { name := "vcc", type := "VCC",
                 ports := [("P", { name := "P", net := some 1, type := PortType.PORT_OUT })] }),
       ("c0", { name := "c0", type := "CCU2C",
                ports := [("CIN", { name := "CIN", net := some 1, type := PortType.PORT_IN }),
                          ("S0", { name := "S0", net := some 4, type := PortType.PORT_OUT }),
                          ("S1", { name := "S1", net := some 5, type := PortType.PORT_OUT }),
                          ("COUT", { name := "COUT", net := some 2,
                                     type := PortType.PORT_OUT })] }),
       ("f0", ff_cell "f0" 4 10 6),
       ("f1", ff_cell "f1" 5 10 7)]
    nets := fun n =>
      if n = 1 then
        { name := "n1", driver := { cell := some "vcc", port := "P" },
          users := [{ cell := some "c0", port := "CIN" }] }
      else if n = 2 then
        { name := "n2", driver := { cell := some "c0", port := "COUT" }, users := [] }
      else if n = 4 then
        { name := "n4", driver := { cell := some "c0", port := "S0" },
          users := [{ cell := some "f0", port := "D" }] }
      else if n = 5 then
        { name := "n5", driver := { cell := some "c0", port := "S1" },
          users := [{ cell := some "f1", port := "D" }] }
      else if n = 6 then { name := "n6", driver := { cell := some "f0", port := "Q" } }
      else if n = 7 then { name := "n7", driver := { cell := some "f1", port := "Q" } }
      else if n = 10 then
        { name := "n10",
          users := [{ cell := some "f0", port := "CE" }, { cell := some "f1", port := "CE" }] }
      else {} }

/-- The netlist `shared_enable` and its clusters after `prepare_cluster` for `ccu2c_pod`. -/
def shared_enable_packed : Netlist × Dict Cluster :=
  (prepare_cluster 10 ccu2c_pod 0 (shared_enable, [])).getD (shared_enable, [])

/-- A cluster description without chainable ports: a flip-flop on the output `O` of a LUT
joins the cluster of the LUT. -/
def lut_ff_pod : ClusterPOD :=
  { name := "LUT_FF"
    root_cell_types := ["LUT"]
    chainable_ports := []
    cluster_cells_map := [{ cell := "FF", port := "O" }]
    out_of_site_clusters := false }

/-- The LUT `a` drives the flip-flop `t`; the output of the LUT `b` has no user. -/
def lut_ff_netlist : Netlist :=
  { cells := [("a", lut_cell "a" 1 2), ("t", ff_cell "t" 2 10 4), ("b", lut_cell "b" 1 5)]
    nets := fun n =>
      if n = 1 then
        { name := "n1",
          users := [{ cell := some "a", port := "I" }, { cell := some "b", port := "I" }] }
      else if n = 2 then
        { name := "n2", driver := { cell := some "a", port := "O" },
          users := [{ cell := some "t", port := "D" }] }
      else if n = 4 then { name := "n4", driver := { cell := some "t", port := "Q" } }
      else if n = 5 then { name := "n5", driver := { cell := some "b", port := "O" } }
      else if n = 10 then { name := "n10", users := [{ cell := some "t", port := "CE" }] }
      else {} }

/-- The netlist `lut_ff_netlist` and its clusters after `prepare_cluster` for `lut_ff_pod`. -/
def lut_ff_packed : Netlist × Dict Cluster :=
  (prepare_cluster 10 lut_ff_pod 0 (lut_ff_netlist, [])).getD (lut_ff_netlist, [])

/-! ### The routing walk of `find_cluster_bels`, one iteration at a time -/

/-- The pips that the `while` loop of `find_cluster_bels` walks from `wire`: the downhill
pips in a downhill walk, the uphill pips in an uphill walk. -/
def walk_pips (arch : InterchangeArch) (direction : ExpansionDirection) (wire : WireId) :
    List PipId :=
  if direction = ExpansionDirection.CLUSTER_DOWNHILL_DIR then arch.getPipsDownhill wire
  else arch.getPipsUphill wire

/-- One iteration of the `while (!nodes_to_expand.empty())` loop of `find_cluster_bels` on
the worklist and the pool of bels: the last node pushed is popped and expanded through its
pips. An empty worklist is left alone (the loop has ended); `none` is a failed assertion. -/
def expand_step (arch : InterchangeArch) (direction : ExpansionDirection)
    (st : List ClusterWireNode × List BelId) : Option (List ClusterWireNode × List BelId) :=
  match st.1 with
  | [] => some st
  | node_to_expand :: nodes_to_expand =>
    expand_pips arch node_to_expand direction (walk_pips arch direction node_to_expand.wire)
      (nodes_to_expand, st.2)

/-- The worklist and the pool of bels of `find_cluster_bels` after `n` iterations of the
`while` loop; `none` when an assertion failed on the way. -/
def find_cluster_bels_iter (arch : InterchangeArch) (direction : ExpansionDirection) :
    Nat → List ClusterWireNode × List BelId → Option (List ClusterWireNode × List BelId)
  | 0, st => some st
  | n + 1, st =>
    match expand_step arch direction st with
    | none => none
    | some st' => find_cluster_bels_iter arch direction n st'

/-- The node that `find_cluster_bels` pushes first. -/
def start_node (wire : WireId) (out_of_site_expansion : Bool) : ClusterWireNode :=
  { wire := wire
    state :=
      if out_of_site_expansion then ClusterWireNodeState.IN_SOURCE_SITE
      else ClusterWireNodeState.ONLY_IN_SOURCE_SITE
    depth := 0 }

/-- The wire `wire` is reached from the wire `start` by walking pips that are neither
synthetic nor site-port pips. -/
inductive site_reach (arch : InterchangeArch) (direction : ExpansionDirection)
    (start : WireId) : WireId → Prop where
  | refl : site_reach arch direction start start
  | step (wire : WireId) (pip : PipId) :
      site_reach arch direction start wire →
      pip ∈ walk_pips arch direction wire →
      arch.is_pip_synthetic pip = false →
      arch.is_site_port pip = false →
      site_reach arch direction start (far_wire arch pip direction)

/-- The wire `wire` is reached from `start` by walking at least one pip, none of the pips
walked being synthetic or a site-port pip. -/
def site_reach_by_pip (arch : InterchangeArch) (direction : ExpansionDirection)
    (start wire : WireId) : Prop :=
  ∃ from_wire pip, site_reach arch direction start from_wire ∧
    pip ∈ walk_pips arch direction from_wire ∧ arch.is_pip_synthetic pip = false ∧
    arch.is_site_port pip = false ∧ wire = far_wire arch pip direction

/-! ### Device graphs for the routing walk -/

/-- A device without wires, pips or bels, and a design without cells; the value read from
the unassigned `next_node.state` is `IN_SINK_SITE`, the enumerator 0. -/
def bare_arch : InterchangeArch :=
  { cells := []
    clusters := []
    chip_clusters := []
    isValidBelForCellType := fun _ _ => false
    getBelLocation := fun bel => { x := bel.location.x, y := bel.location.y, z := bel.index }
    getBelPinWire := fun _ _ => {}
    getBelPins := fun _ => []
    getWireBelPins := fun _ => []
    getPipsDownhill := fun _ => []
    getPipsUphill := fun _ => []
    getPipSrcWire := fun _ => {}
    getPipDstWire := fun _ => {}
    is_site_port := fun _ => false
    is_pip_synthetic := fun _ => false
    wire_site := fun _ => -1
    bel_category_logic := fun _ => true
    bel_synthetic := fun _ => false
    common_pins := fun _ _ => none
    indeterminate_state := fun _ _ => ClusterWireNodeState.IN_SINK_SITE }

/-- Two sites joined through the routing: wire 0 is in the source site, the wires 1 and 2
are routing wires, wire 3 is in the sink site and carries the pin `CIN` of the logic bel 0.
Pip 0 leaves the source site from wire 0 to wire 1, the pips 1 and 2 join the routing wires
1 and 2 in both directions, pip 3 enters the sink site from wire 2 to wire 3. `garbage` is
the value read from the unassigned `next_node.state`. -/
def hop_arch (garbage : ClusterWireNodeState) : InterchangeArch :=
  { bare_arch with
    getPipsDownhill := fun wire =>
      if wire.index = 0 then [col_pip 0 0]
      else if wire.index = 1 then [col_pip 0 1]
      else if wire.index = 2 then [col_pip 0 2, col_pip 0 3]
      else []
    getPipSrcWire := fun pip =>
      if pip.index = 0 then col_wire 0 0
      else if pip.index = 1 then col_wire 0 1
      else col_wire 0 2
    getPipDstWire := fun pip =>
      if pip.index = 0 then col_wire 0 1
      else if pip.index = 1 then col_wire 0 2
      else if pip.index = 2 then col_wire 0 1
      else col_wire 0 3
    is_site_port := fun pip => decide (pip.index = 0 ∨ pip.index = 3)
    wire_site := fun wire => if wire.index = 0 then 0 else if wire.index = 3 then 1 else -1
    getWireBelPins := fun wire =>
      if wire.index = 3 then [{ bel := carry_bel 0, pin := "CIN" }] else []
    indeterminate_state := fun _ _ => garbage }

/-- One site with a loop of site pips: pip 0 goes from wire 0 to wire 1 and pip 1 back
from wire 1 to wire 0. The value read from the unassigned `next_node.state` is the state of
the current node, so that the depth is counted as for `curr_node.state`. -/
def site_loop_arch : InterchangeArch :=
  { bare_arch with
    getPipsDownhill := fun wire =>
      if wire.index = 0 then [col_pip 0 0] else if wire.index = 1 then [col_pip 0 1] else []
    getPipSrcWire := fun pip => if pip.index = 0 then col_wire 0 0 else col_wire 0 1
    getPipDstWire := fun pip => if pip.index = 0 then col_wire 0 1 else col_wire 0 0
    wire_site := fun _ => 0
    indeterminate_state := fun _ curr_node => curr_node.state }

/-- One site in which pip 0 goes from wire 0 to wire 1, and wire 1 carries the bel pins
`pins`. The bel 0 (`carry_bel 0`) is a logic bel, the bel 1 (`ff_bel 0`) is not: it stands
for a routing bel of the site. -/
def mux_arch (pins : List BelPin) : InterchangeArch :=
  { bare_arch with
    getPipsDownhill := fun wire => if wire.index = 0 then [col_pip 0 0] else []
    getPipSrcWire := fun _ => col_wire 0 0
    getPipDstWire := fun _ => col_wire 0 1
    wire_site := fun _ => 0
    getWireBelPins := fun wire => if wire.index = 1 then pins else []
    bel_category_logic := fun bel => decide (bel.index = 0) }

/-- A rank of the wires of `col_arch` that goes down along its downhill pips: 3 on the carry
output, 2 on the carry route, 1 on the sum output, 0 on the inputs. -/
def col_rank (wire : WireId) : Nat :=
  if wire.index = 0 then 3 else if wire.index = 4 then 2 else if wire.index = 1 then 1 else 0

/-- The three worklists that the walk of `hop_arch` goes through in the routing: the node on
wire 1, the node on wire 2, and the node on wire 3 of the sink site on top of the node on
wire 1; all nodes have depth 0. -/
def hop_worklist (i : Fin 3) : List ClusterWireNode :=
  if i = 0 then
    [{ wire := col_wire 0 1, state := ClusterWireNodeState.IN_ROUTING, depth := 0 }]
  else if i = 1 then
    [{ wire := col_wire 0 2, state := ClusterWireNodeState.IN_ROUTING, depth := 0 }]
  else
    [{ wire := col_wire 0 3, state := ClusterWireNodeState.IN_SINK_SITE, depth := 0 },
     { wire := col_wire 0 1, state := ClusterWireNodeState.IN_ROUTING, depth := 0 }]

/-- The pool of bels of the walk of `hop_arch`: empty, or holding the logic bel of the sink
site. -/
def hop_bels (found : Bool) : List BelId :=
  if found then [carry_bel 0] else []

/-! ### Netlists with unconnected ports -/

/-- A single carry cell whose carry input `CIN` is not connected to any net. -/
def unconnected_sink : Netlist :=
  { cells := [("c0", ccu2c_cell "c0" none (some 2))]
    nets := fun n =>
      if n = 2 then { name := "n2", driver := { cell := some "c0", port := "COUT" }, users := [] }
      else {} }

/-- A carry cell with its carry input on the constant net 1 and its sum output `S0`, a port
of `cluster_cells_map` in `ccu2c_pod`, not connected to any net. -/
def unconnected_sum : Netlist :=
  { cells :=
      [("vcc", { name := "vcc", type := "VCC",
                 ports := [("P", { name := "P", net := some 1, type := PortType.PORT_OUT })] }),
       ("c0", { name := "c0", type := "CCU2C",
                ports := [("CIN", { name := "CIN", net := some 1, type := PortType.PORT_IN }),
                          ("S0", { name := "S0", net := none, type := PortType.PORT_OUT }),
                          ("COUT", { name := "COUT", net := some 2,
                                     type := PortType.PORT_OUT })] })]
    nets := fun n =>
      if n = 1 then
        { name := "n1", driver := { cell := some "vcc", port := "P" },
          users := [{ cell := some "c0", port := "CIN" }] }
      else if n = 2 then
        { name := "n2", driver := { cell := some "c0", port := "COUT" }, users := [] }
      else {} }

/-- The netlist `shared_enable` with the clock enable `CE` of the flip-flop `f1` not
connected to any net. -/
def unconnected_enable : Netlist :=
  { cells :=
      [("vcc", { name := "vcc", type := "VCC",
                 ports := [("P", { name := "P", net := some 1, type := PortType.PORT_OUT })] }),
       ("c0", { name := "c0", type := "CCU2C",
                ports := [("CIN", { name := "CIN", net := some 1, type := PortType.PORT_IN }),
                          ("S0", { name := "S0", net := some 4, type := PortType.PORT_OUT }),
                          ("S1", { name := "S1", net := some 5, type := PortType.PORT_OUT }),
                          ("COUT", { name := "COUT", net := some 2,
                                     type := PortType.PORT_OUT })] }),
       ("f0", ff_cell "f0" 4 10 6),
       ("f1", { name := "f1", type := "FF",
                ports := [("D", { name := "D", net := some 5, type := PortType.PORT_IN }),
                          ("CE", { name := "CE", net := none, type := PortType.PORT_IN }),
                          ("Q", { name := "Q", net := some 7, type := PortType.PORT_OUT })] })]
    nets := fun n =>
      if n = 1 then
        { name := "n1", driver := { cell := some "vcc", port := "P" },
          users := [{ cell := some "c0", port := "CIN" }] }
      else if n = 2 then
        { name := "n2", driver := { cell := some "c0", port := "COUT" }, users := [] }
      else if n = 4 then
        { name := "n4", driver := { cell := some "c0", port := "S0" },
          users := [{ cell := some "f0", port := "D" }] }
      else if n = 5 then
        { name := "n5", driver := { cell := some "c0", port := "S1" },
          users := [{ cell := some "f1", port := "D" }] }
      else if n = 6 then { name := "n6", driver := { cell := some "f0", port := "Q" } }
      else if n = 7 then { name := "n7", driver := { cell := some "f1", port := "Q" } }
      else if n = 10 then { name := "n10", users := [{ cell := some "f0", port := "CE" }] }
      else {} }

/-- A LUT with the two outputs `O5` and `O6`, which drive the data inputs `A0` and `B0` of
the carry cell `c0`. -/
def lut2_drivers : Netlist :=
  { cells :=
      [("vcc", { name := "vcc", type := "VCC",
                 ports := [("P", { name := "P", net := some 1, type := PortType.PORT_OUT })] }),
       ("c0", { name := "c0", type := "CCU2C",
                ports := [("CIN", { name := "CIN", net := some 1, type := PortType.PORT_IN }),
                          ("A0", { name := "A0", net := some 5, type := PortType.PORT_IN }),
                          ("B0", { name := "B0", net := some 6, type := PortType.PORT_IN }),
                          ("COUT", { name := "COUT", net := some 2,
                                     type := PortType.PORT_OUT })] }),
       ("l0", { name := "l0", type := "LUT",
                ports := [("I", { name := "I", net := some 20, type := PortType.PORT_IN }),
                          ("O5", { name := "O5", net := some 5, type := PortType.PORT_OUT }),
                          ("O6", { name := "O6", net := some 6, type := PortType.PORT_OUT })] })]
    nets := fun n =>
      if n = 1 then
        { name := "n1", driver := { cell := some "vcc", port := "P" },
          users := [{ cell := some "c0", port := "CIN" }] }
      else if n = 2 then
        { name := "n2", driver := { cell := some "c0", port := "COUT" }, users := [] }
      else if n = 5 then
        { name := "n5", driver := { cell := some "l0", port := "O5" },
          users := [{ cell := some "c0", port := "A0" }] }
      else if n = 6 then
        { name := "n6", driver := { cell := some "l0", port := "O6" },
          users := [{ cell := some "c0", port := "B0" }] }
      else if n = 20 then { name := "n20", users := [{ cell := some "l0", port := "I" }] }
      else {} }

/-! ### Unbinding a cell -/

/-- Modelled from the spec: `unbindBel` is declared in the ECP5 arch.h, which is not among
the sources. Its effect on what `isBelLocationValid` reads: the bel `bel` has no bound cell
afterwards, every other bel keeps its cell. -/
def unbindBel (arch : Arch) (bel : BelId) : Arch :=
  { arch with
    getBoundBelCell := fun other => if other = bel then none else arch.getBoundBelCell other }

/-! ## Mistral: the routing graph of `Arch::add_pip` -/

/-- Modelled from the spec: the mistral archdefs.h is not among the sources. A wire id of
the mistral architecture is the number `node` of a routing node. -/
abbrev Mistral.WireId := Nat

/-- Modelled from the spec: the mistral archdefs.h is not among the sources. A pip id, as
built by `PipId(src.node, dst.node)`. -/
structure Mistral.PipId where
  src : Nat
  dst : Nat
  deriving DecidableEq, Repr

/-- Modelled from the spec: the mistral arch.h is not among the sources. The part of
`WireInfo` that `add_pip` and the import loop write. -/
structure Mistral.WireInfo where
  wires_uphill : List Mistral.WireId := []
  wires_downhill : List Mistral.WireId := []
  deriving DecidableEq, Repr

/-- The map `wires`; `wires[w]` of a wire that was never written is the default
`WireInfo`. -/
abbrev Mistral.Wires := Mistral.WireId → Mistral.WireInfo

/-- The map `wires` before anything is added. -/
def Mistral.no_wires : Mistral.Wires := fun _ => {}

/-- `Arch::add_pip`: the map `wires` after the call and the pip returned. -/
def Mistral.add_pip (wires : Mistral.Wires) (src dst : Mistral.WireId) :
    Mistral.Wires × Mistral.PipId :=
  let wires1 : Mistral.Wires := fun w =>
    if w = src then { wires w with wires_downhill := (wires w).wires_downhill ++ [dst] }
    else wires w
  let wires2 : Mistral.Wires := fun w =>
    if w = dst then { wires1 w with wires_uphill := (wires1 w).wires_uphill ++ [src] }
    else wires1 w
  (wires2, { src := src, dst := dst })

/-- Body of the loop over `rmux.sources` in the constructor, for the destination wire
`dst_wire`; `is_none src` stands for `CycloneV::rn2t(src) == CycloneV::NONE`. -/
def Mistral.import_source (is_none : Nat → Bool) (dst_wire : Mistral.WireId)
    (wires : Mistral.Wires) (src : Nat) : Mistral.Wires :=
  if is_none src then wires
  else
    let wires1 : Mistral.Wires := fun w =>
      if w = dst_wire then { wires w with wires_uphill := (wires w).wires_uphill ++ [src] }
      else wires w
    fun w =>
      if w = src then { wires1 w with wires_downhill := (wires1 w).wires_downhill ++ [dst_wire] }
      else wires1 w

/-- The loop "Initialising routing graph" of the constructor over `dest_node_to_rmux`, each
entry given as the destination node and the sources of its mux. -/
def Mistral.import_routing_graph (is_none : Nat → Bool) (muxes : List (Nat × List Nat))
    (wires : Mistral.Wires) : Mistral.Wires :=
  muxes.foldl (fun wires mux => mux.2.foldl (Mistral.import_source is_none mux.1) wires) wires

/-- A sequence of `add_pip` calls. -/
def Mistral.add_pips (pips : List (Mistral.WireId × Mistral.WireId)) (wires : Mistral.Wires) :
    Mistral.Wires :=
  pips.foldl (fun wires pip => (Mistral.add_pip wires pip.1 pip.2).1) wires

/-- The duality of the routing graph: `d` is listed downhill of `s` as often as `s` is
listed uphill of `d`. -/
def Mistral.dual (wires : Mistral.Wires) : Prop :=
  ∀ s d : Mistral.WireId,
    (wires s).wires_downhill.count d = (wires d).wires_uphill.count s

/-! ### Vocabulary for the statements on packed clusters -/

/-- The lookups on the packed cluster succeed: `cluster_node_cells` has an entry for the
name of every cell of `cluster_nodes`, and every value of `cell_cluster_node_map` is the
name of a cell of `cluster_nodes`. -/
def lookups_total (cells : Dict CellInfo) (cluster_info : Cluster) : Prop :=
  (∀ node ∈ cluster_info.cluster_nodes, ∃ nc, Dict.find cells node = some nc ∧
    (Dict.find cluster_info.cluster_node_cells nc.name).isSome = true) ∧
  ∀ kv ∈ cluster_info.cell_cluster_node_map, ∃ node ∈ cluster_info.cluster_nodes,
    ∃ nc, Dict.find cells node = some nc ∧ nc.name = kv.2

/-- The packed cluster stored under the key `id` starts its `cluster_nodes` with its root
cell, and `id` is the name of that cell. -/
def rooted_at_key (cells : Dict CellInfo) (id : ClusterId) (cluster_info : Cluster) : Prop :=
  cluster_info.cluster_nodes.head? = some cluster_info.root ∧
  ∃ root_cell, Dict.find cells cluster_info.root = some root_cell ∧ root_cell.name = id
/-! ### A satellite claimed through two ports, and a device for it -/

/-- A carry cell whose sum outputs `S0` and `S1` both drive the flip-flop `f`, on its data
input `D` and its clock enable `CE`. -/
def twin_sum : Netlist :=
  { cells :=
      [("vcc", { name := "vcc", type := "VCC",
                 ports := [("P", { name := "P", net := some 1, type := PortType.PORT_OUT })] }),
       ("c0", { name := "c0", type := "CCU2C",
                ports := [("CIN", { name := "CIN", net := some 1, type := PortType.PORT_IN }),
                          ("S0", { name := "S0", net := some 4, type := PortType.PORT_OUT }),
                          ("S1", { name := "S1", net := some 5, type := PortType.PORT_OUT }),
                          ("COUT", { name := "COUT", net := some 2,
                                     type := PortType.PORT_OUT })] }),
       ("f", ff_cell "f" 4 5 6)]
    nets := fun n =>
      if n = 1 then
        { name := "n1", driver := { cell := some "vcc", port := "P" },
          users := [{ cell := some "c0", port := "CIN" }] }
      else if n = 2 then
        { name := "n2", driver := { cell := some "c0", port := "COUT" }, users := [] }
      else if n = 4 then
        { name := "n4", driver := { cell := some "c0", port := "S0" },
          users := [{ cell := some "f", port := "D" }] }
      else if n = 5 then
        { name := "n5", driver := { cell := some "c0", port := "S1" },
          users := [{ cell := some "f", port := "CE" }] }
      else if n = 6 then { name := "n6", driver := { cell := some "f", port := "Q" } }
      else {} }

/-- The netlist `twin_sum` and its clusters after `prepare_cluster` for `ccu2c_pod`. -/
def twin_sum_packed : Netlist × Dict Cluster :=
  (prepare_cluster 10 ccu2c_pod 0 (twin_sum, [])).getD (twin_sum, [])

/-- The LUT `c` drives the LUT `b`, whose output has no user; `b` comes first in the
iteration order of the cells. -/
def lut_feeds_lut : Netlist :=
  { cells := [("b", lut_cell "b" 2 3), ("c", lut_cell "c" 1 2)]
    nets := fun n =>
      if n = 1 then { name := "n1", users := [{ cell := some "c", port := "I" }] }
      else if n = 2 then
        { name := "n2", driver := { cell := some "c", port := "O" },
          users := [{ cell := some "b", port := "I" }] }
      else if n = 3 then { name := "n3", driver := { cell := some "b", port := "O" } }
      else {} }

/-- The cell type is not a satellite type of the description: `cluster_cells_map` maps it to
no port. -/
def not_satellite_type (cluster : ClusterPOD) (cell_type : IdString) : Prop :=
  ∀ m ∈ cluster.cluster_cells_map, m.cell ≠ cell_type
/-- The cell stored under `key` is an unclustered cell of a root cell type, stored under its
name. -/
def chain_member (d : Netlist) (cluster : ClusterPOD) (key : CellRef) : Bool :=
  match Dict.find d.cells key with
  | none => false
  | some c =>
    decide (c.name = key) && decide (c.cluster = "") && cluster.root_cell_types.contains c.type

/-- Two states of the loop over the ports of a cluster node that hold the same cells up to
the field `cluster`, the same `cell_type_dict` and the same `exclude_nets`. -/
def pass_sim (st st' : NodePass) : Prop :=
  same_shape st.cells st'.cells ∧ st'.cell_type_dict = st.cell_type_dict ∧
    st'.exclude_nets = st.exclude_nets

/-- The loop over the ports of each cell of `chain`, which claims the satellites of the cell
for the root `root`, meets no missing net, port or cell: run on the netlist that the root
discovery leaves, it returns. -/
def claims_defined (cluster : ClusterPOD) (d : Netlist) (root : CellRef)
    (chain : List CellRef) : Bool :=
  match find_cluster_roots cluster d with
  | none => false
  | some r =>
    chain.all fun k => (cluster_node_pass r.1.nets cluster root k r.1.cells {} 0).isSome

/-! ## Theory of `slices_compatible` -/

theorem slices_loop_seen (cells : List CellInfo) (st : SlicesState) (hf : st.first = false) :
    slices_compatible_loop cells st = true ↔
      ∀ c ∈ cells, c.sliceInfo.using_dff = true → ctrl_sig c = st.sig := by
  induction cells with
  | nil => simp [slices_compatible_loop]
  | cons a rest ih =>
    have hst : ({ st with first := false } : SlicesState) = st := by
      cases st; simp_all
    by_cases hd : a.sliceInfo.using_dff = true
    · simp only [slices_compatible_loop, hd, hf, if_true, List.mem_cons, forall_eq_or_imp,
        forall_const, hst]
      by_cases h1 : a.sliceInfo.clk_sig = st.clk_sig <;>
      by_cases h2 : a.sliceInfo.lsr_sig = st.lsr_sig <;>
      by_cases h3 : a.sliceInfo.clkmux = st.CLKMUX <;>
      by_cases h4 : a.sliceInfo.lsrmux = st.LSRMUX <;>
      by_cases h5 : a.sliceInfo.srmode = st.SRMODE <;>
      simp [h1, h2, h3, h4, h5, ih, ctrl_sig, SlicesState.sig]
    · simp only [slices_compatible_loop, hd, List.mem_cons, forall_eq_or_imp, ih]
      simp [hd, ih]

theorem slices_loop_first (cells : List CellInfo) (st : SlicesState) (hf : st.first = true) :
    slices_compatible_loop cells st = true ↔
      ∀ c ∈ cells, ∀ d ∈ cells, c.sliceInfo.using_dff = true → d.sliceInfo.using_dff = true →
        ctrl_sig c = ctrl_sig d := by
  induction cells with
  | nil => simp [slices_compatible_loop]
  | cons a rest ih =>
    by_cases hd : a.sliceInfo.using_dff = true
    · simp only [slices_compatible_loop, hd, hf, if_true]
      rw [slices_loop_seen _ _ rfl]
      constructor
      · intro h c hc d hdm hcd hdd
        have key : ∀ e ∈ a :: rest, e.sliceInfo.using_dff = true → ctrl_sig e = ctrl_sig a := by
          intro e he hed
          rcases List.mem_cons.1 he with rfl | he
          · rfl
          · exact h e he hed
        rw [key c hc hcd, key d hdm hdd]
      · intro h c hc hcd
        exact h c (List.mem_cons_of_mem _ hc) a (List.mem_cons_self _ _) hcd hd
    · simp only [slices_compatible_loop, hd, Bool.false_eq_true, if_false, ih]
      constructor
      · intro h c hc d hdm hcd hdd
        rcases List.mem_cons.1 hc with rfl | hc
        · exact absurd hcd hd
        · rcases List.mem_cons.1 hdm with rfl | hdm
          · exact absurd hdd hd
          · exact h c hc d hdm hcd hdd
      · intro h c hc d hdm hcd hdd
        exact h c (List.mem_cons_of_mem _ hc) d (List.mem_cons_of_mem _ hdm) hcd hdd

theorem slices_compatible_pairwise (cells : List CellInfo) :
    slices_compatible cells = true ↔
      ∀ c ∈ cells, ∀ d ∈ cells, c.sliceInfo.using_dff = true → d.sliceInfo.using_dff = true →
        ctrl_sig c = ctrl_sig d :=
  slices_loop_first cells {} rfl

/-! ## Bit-level lemmas -/

theorem nat_land_two_pow_ne_zero (m n : Nat) : m &&& (1 <<< n) ≠ 0 ↔ m.testBit n = true := by
  have hb : ∀ j, (m &&& (1 <<< n)).testBit j = (m.testBit j && decide (n = j)) := by
    intro j
    rw [Nat.testBit_land, Nat.one_shiftLeft, Nat.testBit_two_pow]
  constructor
  · intro h
    by_contra hc
    apply h
    apply Nat.eq_of_testBit_eq
    intro j
    rw [hb j, Nat.zero_testBit]
    by_cases hj : n = j
    · subst hj; simp [hc]
    · simp [hj]
  · intro h h0
    have := hb n
    rw [h0, Nat.zero_testBit, h] at this
    simp at this

theorem nat_ldiff_two_pow_ne_zero (m n : Nat) : Nat.ldiff (1 <<< n) m ≠ 0 ↔ m.testBit n = false := by
  have hb : ∀ j, (Nat.ldiff (1 <<< n) m).testBit j = (decide (n = j) && !m.testBit j) := by
    intro j
    rw [Nat.testBit_ldiff, Nat.one_shiftLeft, Nat.testBit_two_pow]
  constructor
  · intro h
    by_contra hc
    apply h
    apply Nat.eq_of_testBit_eq
    intro j
    rw [hb j, Nat.zero_testBit]
    by_cases hj : n = j
    · subst hj; simp at hc; simp [hc]
    · simp [hj]
  · intro h h0
    have := hb n
    rw [h0, Nat.zero_testBit, h] at this
    simp at this

theorem int_land_bit_ne_zero (x : Int) (n : Nat) :
    Int.land x (((1 <<< n : Nat)) : Int) ≠ 0 ↔ x.testBit n = true := by
  cases x with
  | ofNat m =>
    show ((m &&& (1 <<< n) : Nat) : Int) ≠ 0 ↔ m.testBit n = true
    rw [← nat_land_two_pow_ne_zero]
    exact Int.natCast_ne_zero
  | negSucc m =>
    show ((Nat.ldiff (1 <<< n) m : Nat) : Int) ≠ 0 ↔ (!m.testBit n) = true
    rw [Int.natCast_ne_zero, nat_ldiff_two_pow_ne_zero]
    simp

theorem foldl_or_testBit (P : Nat → Prop) [DecidablePred P] (n a j : Nat) :
    ((List.range n).foldl (fun acc i => if P i then acc ||| (1 <<< i) else acc) a).testBit j =
      (a.testBit j || (decide (j < n) && decide (P j))) := by
  induction n with
  | zero => simp
  | succ n ih =>
    rw [List.range_succ, List.foldl_append]
    simp only [List.foldl_cons, List.foldl_nil]
    by_cases hp : P n
    · rw [if_pos hp, Nat.testBit_lor, ih, Nat.one_shiftLeft, Nat.testBit_two_pow]
      by_cases hj : n = j
      · subst hj; simp [hp]
      · have : (j < n + 1) ↔ j < n := by omega
        simp [hj, this]
    · rw [if_neg hp, ih]
      by_cases hj : n = j
      · subst hj; simp [hp]
      · have : (j < n + 1) ↔ j < n := by omega
        simp [this]

theorem foldlM_eq_some {α β : Type} (f : β → α → Option β) (g : β → α → β) (l : List α)
    (h : ∀ b, ∀ a ∈ l, f b a = some (g b a)) (init : β) :
    l.foldlM f init = some (l.foldl g init) := by
  induction l generalizing init with
  | nil => rfl
  | cons a t ih =>
    rw [List.foldlM_cons, h init a (List.mem_cons_self _ _)]
    simp only [List.foldl_cons]
    exact ih (fun b x hx => h b x (List.mem_cons_of_mem _ hx)) _

/-! ## Theory of `proc_lut` -/

theorem Dict.find_set {β : Type} (d : Dict β) (k q : IdString) (v : β) :
    Dict.find (Dict.set d k v) q = if k = q then some v else Dict.find d q := by
  induction d with
  | nil => simp [Dict.set, Dict.find]
  | cons a t ih =>
    obtain ⟨k', w⟩ := a
    by_cases h : k' = k
    · subst h
      by_cases hq : k' = q <;> simp [Dict.set, Dict.find, hq]
    · by_cases hq : k' = q
      · subst hq
        simp [Dict.set, Dict.find, h, Ne.symm h]
      · simp [Dict.set, Dict.find, h, hq, ih]

theorem Dict.set_eq_self {β : Type} (d : Dict β) (k : IdString) (v : β)
    (h : Dict.find d k = some v) : Dict.set d k v = d := by
  induction d with
  | nil => simp [Dict.find] at h
  | cons a t ih =>
    obtain ⟨k', w⟩ := a
    by_cases hk : k' = k
    · subst hk
      simp [Dict.find] at h
      simp [Dict.set, h]
    · simp [Dict.find, hk] at h
      simp [Dict.set, hk, ih h]

theorem Dict.set_set {β : Type} (d : Dict β) (k : IdString) (v w : β) :
    Dict.set (Dict.set d k v) k w = Dict.set d k w := by
  induction d with
  | nil => simp [Dict.set]
  | cons a t ih =>
    obtain ⟨k', u⟩ := a
    by_cases hk : k' = k
    · simp [Dict.set, hk]
    · simp [Dict.set, hk, ih]

theorem proc_lut_read_eq (ctx : Context) (names : List IdString) (st : GatherState) (i : Nat)
    (name : IdString) (hn : names[i]? = some name) :
    proc_lut_read ctx names st i = some
      { ci := { st.ci with ports := Dict.set st.ci.ports name (port_or_new st.ci.ports name) }
        inputs := st.inputs ++
          [(if (port_or_new st.ci.ports name).net = none then 0
            else ctx.get_criticality st.ci.name name, i)]
        orig_nets := st.orig_nets ++ [(port_or_new st.ci.ports name).net] } := by
  unfold proc_lut_read
  cases h : Dict.find st.ci.ports name with
  | none =>
    simp [hn, Dict.count, h, port_or_new, Dict.find_set]
  | some port =>
    simp [hn, Dict.count, h, port_or_new, Dict.set_eq_self _ _ _ h]

theorem proc_lut_connect_eq (names : List IdString) (inputs : List (ℚ × Nat))
    (orig_nets : List (Option NetId)) (ci : CellInfo) (i : Nat) (p : IdString) (port : PortInfo)
    (inp : ℚ × Nat) (net : Option NetId) (hn : names[i]? = some p)
    (hp : Dict.find ci.ports p = some port) (hi : inputs[i]? = some inp)
    (ho : orig_nets[inp.2]? = some net) :
    proc_lut_connect names inputs orig_nets ci i = some
      { ci with
        ports := Dict.set ci.ports p { port with net := net }
        params := Dict.set ci.params (p ++ "MUX")
          (Property.str (if net ≠ none then p else "1")) } := by
  unfold proc_lut_connect
  cases net with
  | none =>
    simp [hn, hi, ho, disconnect_port, hp, Dict.find_set, Dict.set_set]
  | some n =>
    simp [hn, hi, ho, disconnect_port, hp, Dict.find_set, Dict.set_set, connect_port]


theorem getElem?_eq_getD {α : Type} (l : List α) (j : Nat) (d : α) (h : j < l.length) :
    l[j]? = some (l.getD j d) := by
  simp [List.getD, List.getElem?_eq_getElem h]

theorem range_four : List.range 4 = [0, 1, 2, 3] := by decide

theorem gather_names (ctx : Context) (ci : CellInfo) (n0 n1 n2 n3 : IdString)
    (h01 : n0 ≠ n1) (h02 : n0 ≠ n2) (h03 : n0 ≠ n3) (h12 : n1 ≠ n2) (h13 : n1 ≠ n3)
    (h23 : n2 ≠ n3) :
    [0, 1, 2, 3].foldlM (proc_lut_read ctx [n0, n1, n2, n3])
        { ci := ci, inputs := [], orig_nets := [] } =
      some
        { ci := { ci with
            ports := Dict.set (Dict.set (Dict.set (Dict.set ci.ports
              n0 (port_or_new ci.ports n0)) n1 (port_or_new ci.ports n1))
              n2 (port_or_new ci.ports n2)) n3 (port_or_new ci.ports n3) }
          inputs :=
            [(if (port_or_new ci.ports n0).net = none then 0 else ctx.get_criticality ci.name n0, 0),
             (if (port_or_new ci.ports n1).net = none then 0 else ctx.get_criticality ci.name n1, 1),
             (if (port_or_new ci.ports n2).net = none then 0 else ctx.get_criticality ci.name n2, 2),
             (if (port_or_new ci.ports n3).net = none then 0 else ctx.get_criticality ci.name n3, 3)]
          orig_nets := [(port_or_new ci.ports n0).net, (port_or_new ci.ports n1).net,
            (port_or_new ci.ports n2).net, (port_or_new ci.ports n3).net] } := by
  have e1 : ∀ (d : Dict PortInfo) (k q : IdString) (v : PortInfo), k ≠ q →
      port_or_new (Dict.set d k v) q = port_or_new d q := by
    intro d k q v hkq
    simp [port_or_new, Dict.find_set, hkq]
  simp only [List.foldlM_cons, List.foldlM_nil]
  rw [proc_lut_read_eq ctx _ _ 0 n0 rfl]
  simp only [Option.some_bind, Option.bind_eq_bind]
  rw [proc_lut_read_eq ctx _ _ 1 n1 rfl]
  simp only [Option.some_bind, Option.bind_eq_bind]
  rw [proc_lut_read_eq ctx _ _ 2 n2 rfl]
  simp only [Option.some_bind, Option.bind_eq_bind]
  rw [proc_lut_read_eq ctx _ _ 3 n3 rfl]
  simp only [Option.some_bind, Option.bind_eq_bind, Option.pure_def, List.nil_append,
    List.cons_append, e1 _ _ _ _ h01, e1 _ _ _ _ h02, e1 _ _ _ _ h03, e1 _ _ _ _ h12,
    e1 _ _ _ _ h13, e1 _ _ _ _ h23]

theorem connect_names (ci : CellInfo) (n0 n1 n2 n3 : IdString)
    (h01 : n0 ≠ n1) (h02 : n0 ≠ n2) (h03 : n0 ≠ n3) (h12 : n1 ≠ n2) (h13 : n1 ≠ n3)
    (h23 : n2 ≠ n3) (i0 i1 i2 i3 : ℚ × Nat) (orig : List (Option NetId))
    (ho : orig.length = 4) (hi0 : i0.2 < 4) (hi1 : i1.2 < 4) (hi2 : i2.2 < 4) (hi3 : i3.2 < 4)
    (v0 v1 v2 v3 : PortInfo) (hv0 : Dict.find ci.ports n0 = some v0)
    (hv1 : Dict.find ci.ports n1 = some v1) (hv2 : Dict.find ci.ports n2 = some v2)
    (hv3 : Dict.find ci.ports n3 = some v3) :
    [0, 1, 2, 3].foldlM (proc_lut_connect [n0, n1, n2, n3] [i0, i1, i2, i3] orig) ci =
      some { ci with
        ports := Dict.set (Dict.set (Dict.set (Dict.set ci.ports
          n0 { v0 with net := orig.getD i0.2 none }) n1 { v1 with net := orig.getD i1.2 none })
          n2 { v2 with net := orig.getD i2.2 none }) n3 { v3 with net := orig.getD i3.2 none }
        params := Dict.set (Dict.set (Dict.set (Dict.set ci.params
          (n0 ++ "MUX") (Property.str (if orig.getD i0.2 none ≠ none then n0 else "1")))
          (n1 ++ "MUX") (Property.str (if orig.getD i1.2 none ≠ none then n1 else "1")))
          (n2 ++ "MUX") (Property.str (if orig.getD i2.2 none ≠ none then n2 else "1")))
          (n3 ++ "MUX") (Property.str (if orig.getD i3.2 none ≠ none then n3 else "1")) } := by
  simp only [List.foldlM_cons, List.foldlM_nil]
  rw [proc_lut_connect_eq _ _ orig ci 0 n0 v0 i0 (orig.getD i0.2 none) rfl hv0 rfl
    (getElem?_eq_getD _ _ _ (ho ▸ hi0))]
  simp only [Option.some_bind, Option.bind_eq_bind]
  rw [proc_lut_connect_eq _ _ orig _ 1 n1 v1 i1 (orig.getD i1.2 none) rfl
    (by simp [Dict.find_set, h01, hv1]) rfl (getElem?_eq_getD _ _ _ (ho ▸ hi1))]
  simp only [Option.some_bind, Option.bind_eq_bind]
  rw [proc_lut_connect_eq _ _ orig _ 2 n2 v2 i2 (orig.getD i2.2 none) rfl
    (by simp [Dict.find_set, h02, h12, hv2]) rfl (getElem?_eq_getD _ _ _ (ho ▸ hi2))]
  simp only [Option.some_bind, Option.bind_eq_bind]
  rw [proc_lut_connect_eq _ _ orig _ 3 n3 v3 i3 (orig.getD i3.2 none) rfl
    (by simp [Dict.find_set, h03, h13, h23, hv3]) rfl (getElem?_eq_getD _ _ _ (ho ▸ hi3))]
  rfl

set_option maxRecDepth 100000 in
theorem or_index_eq_sum_fin : ∀ p0 p1 p2 p3 : Fin 4, [p0, p1, p2, p3].Nodup → ∀ i : Fin 16,
    or_index p0.val p1.val p2.val p3.val i.val =
      (((i.val >>> 0) &&& 1) <<< p0.val) + (((i.val >>> 1) &&& 1) <<< p1.val) +
        (((i.val >>> 2) &&& 1) <<< p2.val) + (((i.val >>> 3) &&& 1) <<< p3.val) := by
  decide

theorem or_index_eq_sum (p0 p1 p2 p3 i : Nat) (hp : [p0, p1, p2, p3].Perm [0, 1, 2, 3])
    (hi : i < 16) :
    or_index p0 p1 p2 p3 i =
      (((i >>> 0) &&& 1) <<< p0) + (((i >>> 1) &&& 1) <<< p1) +
        (((i >>> 2) &&& 1) <<< p2) + (((i >>> 3) &&& 1) <<< p3) := by
  have hmem : ∀ x ∈ [p0, p1, p2, p3], x < 4 := by
    intro x hx
    have := (hp.mem_iff).1 hx
    simp at this
    omega
  have h0 : p0 < 4 := hmem p0 (by simp)
  have h1 : p1 < 4 := hmem p1 (by simp)
  have h2 : p2 < 4 := hmem p2 (by simp)
  have h3 : p3 < 4 := hmem p3 (by simp)
  have hnd : [p0, p1, p2, p3].Nodup := (hp.nodup_iff).2 (by decide)
  have hndf : [(⟨p0, h0⟩ : Fin 4), ⟨p1, h1⟩, ⟨p2, h2⟩, ⟨p3, h3⟩].Nodup := by
    simpa [Fin.ext_iff] using hnd
  exact or_index_eq_sum_fin ⟨p0, h0⟩ ⟨p1, h1⟩ ⟨p2, h2⟩ ⟨p3, h3⟩ hndf ⟨i, hi⟩

theorem old_index_of_eq (i0 i1 i2 i3 : ℚ × Nat) (i : Nat) :
    old_index_of [i0, i1, i2, i3] i = some (or_index i0.2 i1.2 i2.2 i3.2 i) := by
  unfold old_index_of or_index
  rw [range_four]
  simp only [List.foldlM_cons, List.foldlM_nil]
  split_ifs <;> rfl

theorem rewrite_function_eq (i0 i1 i2 i3 : ℚ × Nat) (old_init : Int) :
    rewrite_function [i0, i1, i2, i3] old_init =
      some ((List.range 16).foldl
        (fun acc i =>
          if old_init.testBit (or_index i0.2 i1.2 i2.2 i3.2 i) = true then acc ||| (1 <<< i)
          else acc) 0) := by
  unfold rewrite_function
  apply foldlM_eq_some
  intro b a _
  rw [old_index_of_eq]
  by_cases h : old_init.testBit (or_index i0.2 i1.2 i2.2 i3.2 a) = true
  · have := (int_land_bit_ne_zero old_init (or_index i0.2 i1.2 i2.2 i3.2 a)).2 h
    simp [h, this]
  · have := mt (int_land_bit_ne_zero old_init (or_index i0.2 i1.2 i2.2 i3.2 a)).1 h
    simp only [ne_eq, not_not] at this
    simp [h, this]

theorem foldl_congr_mem {α β : Type} (f g : β → α → β) (l : List α)
    (h : ∀ b, ∀ a ∈ l, f b a = g b a) (init : β) : l.foldl f init = l.foldl g init := by
  induction l generalizing init with
  | nil => rfl
  | cons a t ih =>
    simp only [List.foldl_cons]
    rw [h init a (List.mem_cons_self _ _)]
    exact ih (fun b x hx => h b x (List.mem_cons_of_mem _ hx)) _

theorem pin_name_zero (lut : Nat) : pin_name lut 0 = "A" ++ toString lut := rfl

theorem pin_name_one (lut : Nat) : pin_name lut 1 = "B" ++ toString lut := rfl

theorem pin_name_two (lut : Nat) : pin_name lut 2 = "C" ++ toString lut := rfl

theorem pin_name_three (lut : Nat) : pin_name lut 3 = "D" ++ toString lut := rfl

theorem pin_name_inj (lut j k : Nat) (hj : j < 4) (hk : k < 4)
    (h : pin_name lut j = pin_name lut k) : j = k := by
  have hd := congrArg String.data h
  interval_cases j <;> interval_cases k <;>
    first
    | rfl
    | (simp [pin_name_zero, pin_name_one, pin_name_two, pin_name_three] at hd)

theorem mux_key_inj (lut j k : Nat) (hj : j < 4) (hk : k < 4)
    (h : mux_key lut j = mux_key lut k) : j = k := by
  have hd := congrArg String.data h
  interval_cases j <;> interval_cases k <;>
    first
    | rfl
    | (simp [mux_key, pin_name_zero, pin_name_one, pin_name_two, pin_name_three] at hd)

theorem mux_key_ne_initval (lut lut' k : Nat) (hk : k < 4) :
    mux_key lut k ≠ initval_key lut' := by
  intro h
  have hd := congrArg String.data h
  interval_cases k <;>
    simp [mux_key, initval_key, pin_name_zero, pin_name_one, pin_name_two, pin_name_three] at hd

theorem port_names_eq (lut : Nat) :
    port_names lut = [pin_name lut 0, pin_name lut 1, pin_name lut 2, pin_name lut 3] := by
  simp [port_names, range_four]

theorem port_or_new_net (ci : CellInfo) (name : IdString) :
    (port_or_new ci.ports name).net = port_net ci name := by
  unfold port_or_new port_net
  cases Dict.find ci.ports name <;> rfl

theorem lut_inputs_eq (ctx : Context) (ci : CellInfo) (lut : Nat) :
    lut_inputs ctx ci lut =
      [(pin_crit ctx ci lut 0, 0), (pin_crit ctx ci lut 1, 1), (pin_crit ctx ci lut 2, 2),
        (pin_crit ctx ci lut 3, 3)] := by
  simp [lut_inputs, range_four]

theorem proc_lut_sort_perm (ci : CellInfo) (l : List (ℚ × Nat)) :
    (proc_lut_sort ci l).Perm l := by
  unfold proc_lut_sort
  split_ifs
  · exact List.perm_insertionSort _ _
  · exact List.Perm.refl _

theorem lut_order_perm (ctx : Context) (ci : CellInfo) (lut : Nat) :
    ((lut_order ctx ci lut).map Prod.snd).Perm [0, 1, 2, 3] := by
  have h := (proc_lut_sort_perm ci (lut_inputs ctx ci lut)).map Prod.snd
  rw [lut_inputs_eq] at h
  exact h

theorem exists_four {α : Type} (l : List α) (h : l.length = 4) :
    ∃ a b c d, l = [a, b, c, d] := by
  match l, h with
  | [a, b, c, d], _ => exact ⟨a, b, c, d, rfl⟩

theorem lut_order_four (ctx : Context) (ci : CellInfo) (lut : Nat) :
    ∃ i0 i1 i2 i3 : ℚ × Nat, lut_order ctx ci lut = [i0, i1, i2, i3] ∧
      [i0.2, i1.2, i2.2, i3.2].Perm [0, 1, 2, 3] := by
  have hp := lut_order_perm ctx ci lut
  have hl : (lut_order ctx ci lut).length = 4 := by
    have := hp.length_eq
    simpa using this
  obtain ⟨a, b, c, d, h⟩ := exists_four _ hl
  refine ⟨a, b, c, d, h, ?_⟩
  rw [h] at hp
  exact hp

theorem perm_four_lt (p0 p1 p2 p3 : Nat) (hp : [p0, p1, p2, p3].Perm [0, 1, 2, 3]) :
    p0 < 4 ∧ p1 < 4 ∧ p2 < 4 ∧ p3 < 4 := by
  have hmem : ∀ x ∈ [p0, p1, p2, p3], x < 4 := by
    intro x hx
    have := (hp.mem_iff).1 hx
    simp at this
    omega
  exact ⟨hmem p0 (by simp), hmem p1 (by simp), hmem p2 (by simp), hmem p3 (by simp)⟩

theorem orig_nets_getD (ci : CellInfo) (lut j : Nat) (hj : j < 4) :
    [(port_or_new ci.ports (pin_name lut 0)).net, (port_or_new ci.ports (pin_name lut 1)).net,
      (port_or_new ci.ports (pin_name lut 2)).net,
      (port_or_new ci.ports (pin_name lut 3)).net].getD j none =
      port_net ci (pin_name lut j) := by
  interval_cases j <;> simp [port_or_new_net]

theorem lut_new_init_eq (ctx : Context) (ci : CellInfo) (lut : Nat) (old_init : Int)
    (i0 i1 i2 i3 : ℚ × Nat) (ho : lut_order ctx ci lut = [i0, i1, i2, i3])
    (hp : [i0.2, i1.2, i2.2, i3.2].Perm [0, 1, 2, 3]) :
    (List.range 16).foldl
        (fun acc i =>
          if old_init.testBit (or_index i0.2 i1.2 i2.2 i3.2 i) = true then acc ||| (1 <<< i)
          else acc) 0 =
      lut_new_init ctx ci lut old_init := by
  unfold lut_new_init
  apply foldl_congr_mem
  intro b a ha
  have ha16 : a < 16 := List.mem_range.1 ha
  rw [or_index_eq_sum _ _ _ _ _ hp ha16]
  simp [sum_index, lut_perm, ho]

theorem proc_lut_eq (ctx : Context) (ci : CellInfo) (lut : Nat) (old_init : Int)
    (hread : int_or_default ctx.stoi ci.params (initval_key lut) 0 = some old_init) :
    proc_lut ctx ci lut = some (proc_lut_result ctx ci lut old_init) := by
  obtain ⟨i0, i1, i2, i3, ho, hp⟩ := lut_order_four ctx ci lut
  obtain ⟨h0, h1, h2, h3⟩ := perm_four_lt _ _ _ _ hp
  have n01 : pin_name lut 0 ≠ pin_name lut 1 := fun h => by
    have := pin_name_inj lut 0 1 (by omega) (by omega) h; omega
  have n02 : pin_name lut 0 ≠ pin_name lut 2 := fun h => by
    have := pin_name_inj lut 0 2 (by omega) (by omega) h; omega
  have n03 : pin_name lut 0 ≠ pin_name lut 3 := fun h => by
    have := pin_name_inj lut 0 3 (by omega) (by omega) h; omega
  have n12 : pin_name lut 1 ≠ pin_name lut 2 := fun h => by
    have := pin_name_inj lut 1 2 (by omega) (by omega) h; omega
  have n13 : pin_name lut 1 ≠ pin_name lut 3 := fun h => by
    have := pin_name_inj lut 1 3 (by omega) (by omega) h; omega
  have n23 : pin_name lut 2 ≠ pin_name lut 3 := fun h => by
    have := pin_name_inj lut 2 3 (by omega) (by omega) h; omega
  have hs : ∀ E : Dict PortInfo, proc_lut_sort { ci with ports := E }
      [(if (port_or_new ci.ports (pin_name lut 0)).net = none then 0
          else ctx.get_criticality ci.name (pin_name lut 0), 0),
        (if (port_or_new ci.ports (pin_name lut 1)).net = none then 0
          else ctx.get_criticality ci.name (pin_name lut 1), 1),
        (if (port_or_new ci.ports (pin_name lut 2)).net = none then 0
          else ctx.get_criticality ci.name (pin_name lut 2), 2),
        (if (port_or_new ci.ports (pin_name lut 3)).net = none then 0
          else ctx.get_criticality ci.name (pin_name lut 3), 3)] = [i0, i1, i2, i3] := by
    intro E
    rw [← ho]
    unfold lut_order
    rw [lut_inputs_eq]
    simp only [pin_crit, port_or_new_net]
    rfl
  unfold proc_lut proc_lut_gather
  rw [range_four, port_names_eq, gather_names ctx ci _ _ _ _ n01 n02 n03 n12 n13 n23]
  simp only [Option.some_bind, Option.bind_eq_bind, hs]
  rw [connect_names _ _ _ _ _ n01 n02 n03 n12 n13 n23 i0 i1 i2 i3 _ (by simp) h0 h1 h2 h3
    (port_or_new ci.ports (pin_name lut 0)) (port_or_new ci.ports (pin_name lut 1))
    (port_or_new ci.ports (pin_name lut 2)) (port_or_new ci.ports (pin_name lut 3))
    (by simp [Dict.find_set, n01.symm, n02.symm, n03.symm])
    (by simp [Dict.find_set, n12.symm, n13.symm])
    (by simp [Dict.find_set, n23.symm])
    (by simp [Dict.find_set])]
  simp only [Option.some_bind, Option.bind_eq_bind]
  have hr : int_or_default ctx.stoi
      (Dict.set (Dict.set (Dict.set (Dict.set ci.params
        (pin_name lut 0 ++ "MUX") (Property.str (if
          [(port_or_new ci.ports (pin_name lut 0)).net, (port_or_new ci.ports (pin_name lut 1)).net,
            (port_or_new ci.ports (pin_name lut 2)).net,
            (port_or_new ci.ports (pin_name lut 3)).net].getD i0.2 none ≠ none
          then pin_name lut 0 else "1")))
        (pin_name lut 1 ++ "MUX") (Property.str (if
          [(port_or_new ci.ports (pin_name lut 0)).net, (port_or_new ci.ports (pin_name lut 1)).net,
            (port_or_new ci.ports (pin_name lut 2)).net,
            (port_or_new ci.ports (pin_name lut 3)).net].getD i1.2 none ≠ none
          then pin_name lut 1 else "1")))
        (pin_name lut 2 ++ "MUX") (Property.str (if
          [(port_or_new ci.ports (pin_name lut 0)).net, (port_or_new ci.ports (pin_name lut 1)).net,
            (port_or_new ci.ports (pin_name lut 2)).net,
            (port_or_new ci.ports (pin_name lut 3)).net].getD i2.2 none ≠ none
          then pin_name lut 2 else "1")))
        (pin_name lut 3 ++ "MUX") (Property.str (if
          [(port_or_new ci.ports (pin_name lut 0)).net, (port_or_new ci.ports (pin_name lut 1)).net,
            (port_or_new ci.ports (pin_name lut 2)).net,
            (port_or_new ci.ports (pin_name lut 3)).net].getD i3.2 none ≠ none
          then pin_name lut 3 else "1"))) (initval_key lut) 0 = some old_init := by
    have m0 := mux_key_ne_initval lut lut 0 (by omega)
    have m1 := mux_key_ne_initval lut lut 1 (by omega)
    have m2 := mux_key_ne_initval lut lut 2 (by omega)
    have m3 := mux_key_ne_initval lut lut 3 (by omega)
    unfold mux_key at m0 m1 m2 m3
    unfold int_or_default at hread ⊢
    simp only [Dict.find_set, m0, m1, m2, m3, if_false]
    exact hread
  rw [hr]
  simp only [Option.some_bind, Option.bind_eq_bind, rewrite_function_eq,
    lut_new_init_eq ctx ci lut old_init i0 i1 i2 i3 ho hp, orig_nets_getD ci lut _ h0,
    orig_nets_getD ci lut _ h1, orig_nets_getD ci lut _ h2, orig_nets_getD ci lut _ h3]
  have p0 : lut_perm ctx ci lut 0 = i0.2 := by simp [lut_perm, ho]
  have p1 : lut_perm ctx ci lut 1 = i1.2 := by simp [lut_perm, ho]
  have p2 : lut_perm ctx ci lut 2 = i2.2 := by simp [lut_perm, ho]
  have p3 : lut_perm ctx ci lut 3 = i3.2 := by simp [lut_perm, ho]
  simp only [proc_lut_result, Dict.set4, lut_port, mux_value, mux_key, p0, p1, p2, p3,
    Option.pure_def]

/-! ### Lookups in the cell returned by `proc_lut` -/

theorem Dict.find_set4 {β : Type} (d : Dict β) (k : Nat → IdString) (v : Nat → β)
    (q : IdString) :
    Dict.find (Dict.set4 d k v) q =
      if k 3 = q then some (v 3) else if k 2 = q then some (v 2)
      else if k 1 = q then some (v 1) else if k 0 = q then some (v 0) else Dict.find d q := by
  simp only [Dict.set4, Dict.find_set]

theorem result_find_pin (ctx : Context) (ci : CellInfo) (lut : Nat) (old_init : Int) (k : Nat)
    (hk : k < 4) :
    Dict.find (proc_lut_result ctx ci lut old_init).ports (pin_name lut k) =
      some (lut_port ctx ci lut k) := by
  have inj := pin_name_inj lut
  simp only [proc_lut_result, Dict.find_set4]
  interval_cases k
  · have a1 : pin_name lut 3 ≠ pin_name lut 0 := fun h => by
      have := inj 3 0 (by omega) (by omega) h; omega
    have a2 : pin_name lut 2 ≠ pin_name lut 0 := fun h => by
      have := inj 2 0 (by omega) (by omega) h; omega
    have a3 : pin_name lut 1 ≠ pin_name lut 0 := fun h => by
      have := inj 1 0 (by omega) (by omega) h; omega
    simp [a1, a2, a3]
  · have a1 : pin_name lut 3 ≠ pin_name lut 1 := fun h => by
      have := inj 3 1 (by omega) (by omega) h; omega
    have a2 : pin_name lut 2 ≠ pin_name lut 1 := fun h => by
      have := inj 2 1 (by omega) (by omega) h; omega
    simp [a1, a2]
  · have a1 : pin_name lut 3 ≠ pin_name lut 2 := fun h => by
      have := inj 3 2 (by omega) (by omega) h; omega
    simp [a1]
  · simp

theorem result_find_other_port (ctx : Context) (ci : CellInfo) (lut : Nat) (old_init : Int)
    (q : IdString) (hq : ∀ k, k < 4 → pin_name lut k ≠ q) :
    Dict.find (proc_lut_result ctx ci lut old_init).ports q = Dict.find ci.ports q := by
  simp only [proc_lut_result, Dict.find_set4, hq 0 (by omega), hq 1 (by omega),
    hq 2 (by omega), hq 3 (by omega), if_false]

theorem result_port_net_pin (ctx : Context) (ci : CellInfo) (lut : Nat) (old_init : Int)
    (k : Nat) (hk : k < 4) :
    port_net (proc_lut_result ctx ci lut old_init) (pin_name lut k) =
      port_net ci (pin_name lut (lut_perm ctx ci lut k)) := by
  unfold port_net
  rw [result_find_pin ctx ci lut old_init k hk]
  rfl

theorem result_port_net_other (ctx : Context) (ci : CellInfo) (lut : Nat) (old_init : Int)
    (q : IdString) (hq : ∀ k, k < 4 → pin_name lut k ≠ q) :
    port_net (proc_lut_result ctx ci lut old_init) q = port_net ci q := by
  unfold port_net
  rw [result_find_other_port ctx ci lut old_init q hq]

theorem result_find_initval (ctx : Context) (ci : CellInfo) (lut : Nat) (old_init : Int) :
    Dict.find (proc_lut_result ctx ci lut old_init).params (initval_key lut) =
      some (Property.int (lut_new_init ctx ci lut old_init) 16) := by
  simp [proc_lut_result, Dict.find_set]

theorem result_find_mux (ctx : Context) (ci : CellInfo) (lut : Nat) (old_init : Int) (k : Nat)
    (hk : k < 4) :
    Dict.find (proc_lut_result ctx ci lut old_init).params (mux_key lut k) =
      some (mux_value ctx ci lut k) := by
  have inj := mux_key_inj lut
  have hne := (mux_key_ne_initval lut lut k hk).symm
  simp only [proc_lut_result, Dict.find_set, Dict.find_set4, hne, if_false]
  interval_cases k
  · have a1 : mux_key lut 3 ≠ mux_key lut 0 := fun h => by
      have := inj 3 0 (by omega) (by omega) h; omega
    have a2 : mux_key lut 2 ≠ mux_key lut 0 := fun h => by
      have := inj 2 0 (by omega) (by omega) h; omega
    have a3 : mux_key lut 1 ≠ mux_key lut 0 := fun h => by
      have := inj 1 0 (by omega) (by omega) h; omega
    simp [a1, a2, a3]
  · have a1 : mux_key lut 3 ≠ mux_key lut 1 := fun h => by
      have := inj 3 1 (by omega) (by omega) h; omega
    have a2 : mux_key lut 2 ≠ mux_key lut 1 := fun h => by
      have := inj 2 1 (by omega) (by omega) h; omega
    simp [a1, a2]
  · have a1 : mux_key lut 3 ≠ mux_key lut 2 := fun h => by
      have := inj 3 2 (by omega) (by omega) h; omega
    simp [a1]
  · simp

theorem result_find_other_param (ctx : Context) (ci : CellInfo) (lut : Nat) (old_init : Int)
    (q : IdString) (hi : initval_key lut ≠ q) (hq : ∀ k, k < 4 → mux_key lut k ≠ q) :
    Dict.find (proc_lut_result ctx ci lut old_init).params q = Dict.find ci.params q := by
  simp only [proc_lut_result, Dict.find_set, Dict.find_set4, hi, hq 0 (by omega),
    hq 1 (by omega), hq 2 (by omega), hq 3 (by omega), if_false]

theorem lut_new_init_testBit (ctx : Context) (ci : CellInfo) (lut : Nat) (old_init : Int)
    (i : Nat) :
    (lut_new_init ctx ci lut old_init).testBit i =
      (decide (i < 16) && old_init.testBit (sum_index (lut_perm ctx ci lut) i)) := by
  unfold lut_new_init
  rw [foldl_or_testBit (fun i => old_init.testBit (sum_index (lut_perm ctx ci lut) i) = true)]
  simp

theorem lut_new_init_lt (ctx : Context) (ci : CellInfo) (lut : Nat) (old_init : Int) :
    lut_new_init ctx ci lut old_init < 2 ^ 16 := by
  apply Nat.lt_pow_two_of_testBit
  intro i hi
  rw [lut_new_init_testBit]
  have : ¬ i < 16 := by omega
  simp [this]

theorem lut_perm_perm (ctx : Context) (ci : CellInfo) (lut : Nat) :
    [lut_perm ctx ci lut 0, lut_perm ctx ci lut 1, lut_perm ctx ci lut 2,
      lut_perm ctx ci lut 3].Perm [0, 1, 2, 3] := by
  obtain ⟨i0, i1, i2, i3, ho, hp⟩ := lut_order_four ctx ci lut
  simpa [lut_perm, ho] using hp

theorem lut_perm_lt (ctx : Context) (ci : CellInfo) (lut k : Nat) (hk : k < 4) :
    lut_perm ctx ci lut k < 4 := by
  obtain ⟨h0, h1, h2, h3⟩ := perm_four_lt _ _ _ _ (lut_perm_perm ctx ci lut)
  interval_cases k <;> assumption

theorem proc_lut_order_eq (ctx : Context) (ci : CellInfo) (lut : Nat) :
    proc_lut_order ctx ci lut = some (lut_order ctx ci lut) := by
  have inj := pin_name_inj lut
  have n01 : pin_name lut 0 ≠ pin_name lut 1 := fun h => by
    have := inj 0 1 (by omega) (by omega) h; omega
  have n02 : pin_name lut 0 ≠ pin_name lut 2 := fun h => by
    have := inj 0 2 (by omega) (by omega) h; omega
  have n03 : pin_name lut 0 ≠ pin_name lut 3 := fun h => by
    have := inj 0 3 (by omega) (by omega) h; omega
  have n12 : pin_name lut 1 ≠ pin_name lut 2 := fun h => by
    have := inj 1 2 (by omega) (by omega) h; omega
  have n13 : pin_name lut 1 ≠ pin_name lut 3 := fun h => by
    have := inj 1 3 (by omega) (by omega) h; omega
  have n23 : pin_name lut 2 ≠ pin_name lut 3 := fun h => by
    have := inj 2 3 (by omega) (by omega) h; omega
  unfold proc_lut_order proc_lut_gather
  rw [range_four, port_names_eq, gather_names ctx ci _ _ _ _ n01 n02 n03 n12 n13 n23]
  simp only [Option.some_bind, Option.bind_eq_bind, Option.pure_def]
  unfold lut_order
  rw [lut_inputs_eq]
  simp only [pin_crit, port_or_new_net]
  rfl

/-! ### The guarded sort -/

theorem not_pair_lt_iff (a b : ℚ × Nat) :
    ¬ pair_lt b a ↔ a.1 < b.1 ∨ (a.1 = b.1 ∧ a.2 ≤ b.2) := by
  unfold pair_lt
  constructor
  · intro h
    have h1 : ¬ b.1 < a.1 := fun x => h (Or.inl x)
    have h2 : ¬ a.1 < b.1 → ¬ b.2 < a.2 := fun x y => h (Or.inr ⟨x, y⟩)
    rcases lt_or_eq_of_le (not_lt.1 h1) with hlt | heq
    · exact Or.inl hlt
    · exact Or.inr ⟨heq, not_lt.1 (h2 (by rw [heq]; exact lt_irrefl _))⟩
  · rintro (hlt | ⟨heq, hle⟩) (h | ⟨h, h'⟩)
    · exact lt_asymm hlt h
    · exact h hlt
    · rw [heq] at h; exact lt_irrefl _ h
    · exact absurd h' (not_lt.2 hle)

theorem pair_le_total (a b : ℚ × Nat) : ¬ pair_lt b a ∨ ¬ pair_lt a b := by
  rw [not_pair_lt_iff, not_pair_lt_iff]
  rcases lt_trichotomy a.1 b.1 with hlt | heq | hgt
  · exact Or.inl (Or.inl hlt)
  · rcases Nat.le_total a.2 b.2 with h | h
    · exact Or.inl (Or.inr ⟨heq, h⟩)
    · exact Or.inr (Or.inr ⟨heq.symm, h⟩)
  · exact Or.inr (Or.inl hgt)

theorem pair_le_trans (a b c : ℚ × Nat) (hab : ¬ pair_lt b a) (hbc : ¬ pair_lt c b) :
    ¬ pair_lt c a := by
  rw [not_pair_lt_iff] at hab hbc ⊢
  rcases hab with h1 | ⟨h1, h1'⟩
  · rcases hbc with h2 | ⟨h2, _⟩
    · exact Or.inl (lt_trans h1 h2)
    · exact Or.inl (h2 ▸ h1)
  · rcases hbc with h2 | ⟨h2, h2'⟩
    · exact Or.inl (h1 ▸ h2)
    · exact Or.inr ⟨h1.trans h2, le_trans h1' h2'⟩

theorem std_sort_sorted (l : List (ℚ × Nat)) :
    List.Pairwise (fun a b => ¬ pair_lt b a) (std_sort l) := by
  haveI : IsTotal (ℚ × Nat) (fun a b => ¬ pair_lt b a) := ⟨pair_le_total⟩
  haveI : IsTrans (ℚ × Nat) (fun a b => ¬ pair_lt b a) := ⟨pair_le_trans⟩
  exact List.sorted_insertionSort (fun a b => ¬ pair_lt b a) l

theorem pair_le_antisymm (a b : ℚ × Nat) (hab : ¬ pair_lt b a) (hba : ¬ pair_lt a b) :
    a = b := by
  rw [not_pair_lt_iff] at hab hba
  rcases hab with h1 | ⟨h1, h1'⟩
  · rcases hba with h2 | ⟨h2, _⟩
    · exact absurd h2 (lt_asymm h1)
    · rw [h2] at h1
      exact absurd h1 (lt_irrefl _)
  · rcases hba with h2 | ⟨_, h2'⟩
    · rw [h1] at h2
      exact absurd h2 (lt_irrefl _)
    · exact Prod.ext h1 (le_antisymm h1' h2')

theorem std_sort_unique (l l' : List (ℚ × Nat)) (hp : l'.Perm l)
    (hs : List.Pairwise (fun a b => ¬ pair_lt b a) l') : l' = std_sort l := by
  haveI : IsAntisymm (ℚ × Nat) (fun a b => ¬ pair_lt b a) := ⟨pair_le_antisymm⟩
  exact List.eq_of_perm_of_sorted (hp.trans (List.perm_insertionSort _ l).symm) hs
    (std_sort_sorted l)

theorem pair_lt_of_le_of_ne (a b : ℚ × Nat) (h : ¬ pair_lt b a) (hne : a.2 ≠ b.2) :
    pair_lt a b := by
  rw [not_pair_lt_iff] at h
  unfold pair_lt
  rcases h with h | ⟨h, h'⟩
  · exact Or.inl h
  · exact Or.inr ⟨by rw [h]; exact lt_irrefl _, lt_of_le_of_ne h' hne⟩

theorem lut_order_mem (ctx : Context) (ci : CellInfo) (lut : Nat) (e : ℚ × Nat)
    (he : e ∈ lut_order ctx ci lut) : e.1 = pin_crit ctx ci lut e.2 := by
  have hm := ((proc_lut_sort_perm ci (lut_inputs ctx ci lut)).mem_iff).1 he
  rw [lut_inputs_eq] at hm
  simp only [List.mem_cons, List.mem_singleton, List.not_mem_nil, or_false] at hm
  rcases hm with h | h | h | h <;> rw [h]

theorem lut_order_strict (ctx : Context) (ci : CellInfo) (lut : Nat)
    (hs : ci.belStrength.toNat ≤ PlaceStrength.STRENGTH_STRONG.toNat) :
    List.Pairwise pair_lt (lut_order ctx ci lut) := by
  have hsorted : List.Pairwise (fun a b => ¬ pair_lt b a) (lut_order ctx ci lut) := by
    unfold lut_order proc_lut_sort
    rw [if_pos hs]
    exact std_sort_sorted _
  have hnd : ((lut_order ctx ci lut).map Prod.snd).Nodup :=
    ((lut_order_perm ctx ci lut).nodup_iff).2 (by decide)
  have hnd' : List.Pairwise (fun a b : ℚ × Nat => a.2 ≠ b.2) (lut_order ctx ci lut) := by
    rw [List.Nodup, List.pairwise_map] at hnd
    exact hnd
  exact (hsorted.and hnd').imp (fun h => pair_lt_of_le_of_ne _ _ h.1 h.2)

theorem lut_perm_sorted (ctx : Context) (ci : CellInfo) (lut : Nat)
    (hs : ci.belStrength.toNat ≤ PlaceStrength.STRENGTH_STRONG.toNat) (j k : Nat)
    (hjk : j < k) (hk : k < 4) :
    pair_lt (pin_crit ctx ci lut (lut_perm ctx ci lut j), lut_perm ctx ci lut j)
      (pin_crit ctx ci lut (lut_perm ctx ci lut k), lut_perm ctx ci lut k) := by
  obtain ⟨i0, i1, i2, i3, ho, _⟩ := lut_order_four ctx ci lut
  have hstrict := lut_order_strict ctx ci lut hs
  have hmem := lut_order_mem ctx ci lut
  rw [ho] at hstrict hmem
  have m0 := hmem i0 (by simp)
  have m1 := hmem i1 (by simp)
  have m2 := hmem i2 (by simp)
  have m3 := hmem i3 (by simp)
  simp only [List.pairwise_cons, List.mem_cons, List.mem_singleton, forall_eq_or_imp,
    forall_eq, List.not_mem_nil, false_implies, implies_true, List.Pairwise.nil, and_true]
    at hstrict
  obtain ⟨⟨h01, h02, h03⟩, ⟨h12, h13⟩, h23⟩ := hstrict
  have e : ∀ x : ℚ × Nat, x.1 = pin_crit ctx ci lut x.2 → (pin_crit ctx ci lut x.2, x.2) = x :=
    fun x hx => by rw [← hx]
  interval_cases k <;> interval_cases j <;>
    simp only [lut_perm, ho, List.getD_cons_zero, List.getD_cons_succ, e _ m0, e _ m1,
      e _ m2, e _ m3] <;> assumption

/-! ### The cell loop -/

theorem pin_name_cross (j k : Nat) (hj : j < 4) (hk : k < 4) :
    pin_name 0 j ≠ pin_name 1 k ∧ pin_name 1 j ≠ pin_name 0 k := by
  interval_cases j <;> interval_cases k <;> decide

theorem mux_key_cross (j k : Nat) (hj : j < 4) (hk : k < 4) :
    mux_key 0 j ≠ mux_key 1 k ∧ mux_key 1 j ≠ mux_key 0 k := by
  interval_cases j <;> interval_cases k <;> decide

theorem initval_key_cross : initval_key 0 ≠ initval_key 1 := by decide

theorem mode_ne_mux_key (lut k : Nat) (hk : k < 4) : mux_key lut k ≠ "MODE" := by
  intro h
  have hd := congrArg String.data h
  interval_cases k <;>
    simp [mux_key, pin_name_zero, pin_name_one, pin_name_two, pin_name_three] at hd

theorem mode_ne_initval_key (lut : Nat) : initval_key lut ≠ "MODE" := by
  intro h
  have hd := congrArg String.data h
  simp [initval_key] at hd

theorem lut_order_congr (ctx ctx' : Context) (c c' : CellInfo) (lut : Nat)
    (hb : c.belStrength = c'.belStrength)
    (hc : ∀ k, k < 4 → pin_crit ctx c lut k = pin_crit ctx' c' lut k) :
    lut_order ctx c lut = lut_order ctx' c' lut := by
  unfold lut_order proc_lut_sort
  rw [lut_inputs_eq, lut_inputs_eq, hb, hc 0 (by omega), hc 1 (by omega), hc 2 (by omega),
    hc 3 (by omega)]

theorem pin_crit_congr (ctx : Context) (c c' : CellInfo) (lut k : Nat) (hn : c.name = c'.name)
    (hp : port_net c (pin_name lut k) = port_net c' (pin_name lut k)) :
    pin_crit ctx c lut k = pin_crit ctx c' lut k := by
  unfold pin_crit
  rw [hn, hp]

theorem result_port_net_cross (ctx : Context) (ci : CellInfo) (old_init : Int) (k : Nat)
    (hk : k < 4) :
    port_net (proc_lut_result ctx ci 0 old_init) (pin_name 1 k) = port_net ci (pin_name 1 k) ∧
    port_net (proc_lut_result ctx ci 1 old_init) (pin_name 0 k) = port_net ci (pin_name 0 k) :=
  ⟨result_port_net_other ctx ci 0 old_init _ (fun j hj => (pin_name_cross j k hj hk).1),
    result_port_net_other ctx ci 1 old_init _ (fun j hj => (pin_name_cross j k hj hk).2)⟩

theorem result_read_cross (ctx : Context) (ci : CellInfo) (old_init : Int) :
    int_or_default ctx.stoi (proc_lut_result ctx ci 0 old_init).params (initval_key 1) 0 =
      int_or_default ctx.stoi ci.params (initval_key 1) 0 := by
  unfold int_or_default
  rw [result_find_other_param ctx ci 0 old_init _ initval_key_cross
    (fun k hk => mux_key_ne_initval 0 1 k hk)]

theorem permute_cell_logic (ctx : Context) (ci : CellInfo) (old0 old1 : Int)
    (ht : ci.type = id_TRELLIS_SLICE)
    (hm : str_or_default ci.params "MODE" "LOGIC" = some "LOGIC")
    (h0 : int_or_default ctx.stoi ci.params (initval_key 0) 0 = some old0)
    (h1 : int_or_default ctx.stoi ci.params (initval_key 1) 0 = some old1) :
    permute_cell ctx ci =
      some (proc_lut_result ctx (proc_lut_result ctx ci 0 old0) 1 old1) := by
  unfold permute_cell
  rw [if_pos ht, hm]
  simp only [Option.some_bind, Option.bind_eq_bind, if_true]
  rw [proc_lut_eq ctx ci 0 old0 h0]
  simp only [Option.some_bind]
  exact proc_lut_eq ctx _ 1 old1 ((result_read_cross ctx ci old0).trans h1)

theorem permute_cell_other_type (ctx : Context) (ci : CellInfo)
    (ht : ci.type ≠ id_TRELLIS_SLICE) : permute_cell ctx ci = some ci := by
  unfold permute_cell
  rw [if_neg ht]
  rfl

theorem permute_cell_other_mode (ctx : Context) (ci : CellInfo) (mode : String)
    (hm : str_or_default ci.params "MODE" "LOGIC" = some mode) (hne : mode ≠ "LOGIC") :
    permute_cell ctx ci = some ci := by
  unfold permute_cell
  by_cases ht : ci.type = id_TRELLIS_SLICE
  · rw [if_pos ht, hm]
    simp only [Option.some_bind, Option.bind_eq_bind, if_neg hne]
    rfl
  · rw [if_neg ht]
    rfl

theorem permute_luts_lift (ctx : Context) (P : CellInfo → CellInfo → Prop)
    (hP : ∀ ci, cell_readable ctx ci → ∃ ci', permute_cell ctx ci = some ci' ∧ P ci ci')
    (cells : List CellInfo) (hok : ∀ ci ∈ cells, cell_readable ctx ci) :
    ∃ cells', permute_luts ctx cells = some cells' ∧ List.Forall₂ P cells cells' := by
  induction cells with
  | nil => exact ⟨[], rfl, List.Forall₂.nil⟩
  | cons c rest ih =>
    obtain ⟨c', hc, hp⟩ := hP c (hok c (List.mem_cons_self _ _))
    obtain ⟨rest', hr, hf⟩ := ih (fun x hx => hok x (List.mem_cons_of_mem _ hx))
    refine ⟨c' :: rest', ?_, List.Forall₂.cons hp hf⟩
    simp [permute_luts, hc, hr]

theorem cell_readable_logic (ctx : Context) (ci : CellInfo) (hr : cell_readable ctx ci)
    (ht : ci.type = id_TRELLIS_SLICE)
    (hm : str_or_default ci.params "MODE" "LOGIC" = some "LOGIC") :
    ∃ old0 old1, int_or_default ctx.stoi ci.params (initval_key 0) 0 = some old0 ∧
      int_or_default ctx.stoi ci.params (initval_key 1) 0 = some old1 := by
  obtain ⟨mode, hmode, h⟩ := hr ht
  have : mode = "LOGIC" := Option.some.inj (hmode.symm.trans hm)
  obtain ⟨⟨v0, h0⟩, ⟨v1, h1⟩⟩ := h this
  exact ⟨v0, v1, h0, h1⟩

theorem permute_cell_total (ctx : Context) (ci : CellInfo) (hr : cell_readable ctx ci) :
    ∃ ci', permute_cell ctx ci = some ci' := by
  by_cases ht : ci.type = id_TRELLIS_SLICE
  · obtain ⟨mode, hmode, h⟩ := hr ht
    by_cases hl : mode = "LOGIC"
    · subst hl
      obtain ⟨old0, old1, h0, h1⟩ := cell_readable_logic ctx ci hr ht hmode
      exact ⟨_, permute_cell_logic ctx ci old0 old1 ht hmode h0 h1⟩
    · exact ⟨ci, permute_cell_other_mode ctx ci mode hmode hl⟩
  · exact ⟨ci, permute_cell_other_type ctx ci ht⟩

theorem mixed_cells_readable : ∀ ci ∈ mixed_cells, cell_readable s2_ctx ci := by
  intro ci hci
  simp only [mixed_cells, List.mem_cons, List.mem_singleton, List.not_mem_nil, or_false] at hci
  rcases hci with rfl | rfl | rfl
  · exact fun _ => ⟨"LOGIC", by decide, fun _ => ⟨⟨0xFF00, by decide⟩, ⟨0, by decide⟩⟩⟩
  · exact fun h => absurd h (by decide)
  · exact fun _ => ⟨"CCU2", by decide, fun h => absurd h (by decide)⟩

theorem mixed_cells_follow : ∀ ci ∈ mixed_cells, crit_follows_nets s2_ctx s2_net_crit ci := by
  intro ci hci
  simp only [mixed_cells, List.mem_cons, List.mem_singleton, List.not_mem_nil, or_false] at hci
  rcases hci with rfl | rfl | rfl <;> intro port n h <;>
    simp only [port_net, s2_cell, Dict.find] at h <;> split_ifs at h <;>
    simp only [Option.some.injEq, reduceCtorEq] at h <;> subst h <;>
    rename_i e <;> subst e <;> decide

/-! ### Locked cells -/

theorem lut_perm_locked (ctx : Context) (ci : CellInfo) (lut k : Nat)
    (hl : PlaceStrength.STRENGTH_STRONG.toNat < ci.belStrength.toNat) (hk : k < 4) :
    lut_perm ctx ci lut k = k := by
  have hn : ¬ ci.belStrength.toNat ≤ PlaceStrength.STRENGTH_STRONG.toNat := by omega
  unfold lut_perm lut_order proc_lut_sort
  rw [if_neg hn, lut_inputs_eq]
  interval_cases k <;> rfl

theorem sum_index_id (π : Nat → Nat) (hπ : ∀ k, k < 4 → π k = k) (i : Nat) (hi : i < 16) :
    sum_index π i = i := by
  unfold sum_index
  rw [hπ 0 (by omega), hπ 1 (by omega), hπ 2 (by omega), hπ 3 (by omega)]
  interval_cases i <;> decide

theorem lut_new_init_id (ctx : Context) (ci : CellInfo) (lut : Nat) (old_init : Int)
    (hπ : ∀ k, k < 4 → lut_perm ctx ci lut k = k) (i : Nat) :
    (lut_new_init ctx ci lut old_init).testBit i = (decide (i < 16) && old_init.testBit i) := by
  rw [lut_new_init_testBit]
  by_cases hi : i < 16
  · rw [sum_index_id _ hπ i hi]
  · simp [hi]

theorem permute_cell_locked (ctx : Context) (ci : CellInfo) (old0 old1 : Int)
    (h0 : int_or_default ctx.stoi ci.params (initval_key 0) 0 = some old0)
    (h1 : int_or_default ctx.stoi ci.params (initval_key 1) 0 = some old1)
    (hl : PlaceStrength.STRENGTH_STRONG.toNat < ci.belStrength.toNat) :
    locked_cell_effect ctx ci (proc_lut_result ctx (proc_lut_result ctx ci 0 old0) 1 old1) := by
  have hp0 : ∀ k, k < 4 → lut_perm ctx ci 0 k = k := fun k hk => lut_perm_locked ctx ci 0 k hl hk
  have hp1 : ∀ k, k < 4 → lut_perm ctx (proc_lut_result ctx ci 0 old0) 1 k = k :=
    fun k hk => lut_perm_locked ctx _ 1 k hl hk
  refine ⟨?_, ?_, ?_, ?_⟩
  · intro q
    by_cases hq1 : ∃ k, k < 4 ∧ pin_name 1 k = q
    · obtain ⟨k, hk, rfl⟩ := hq1
      rw [result_port_net_pin _ _ _ _ k hk, hp1 k hk]
      exact (result_port_net_cross ctx ci old0 k hk).1
    · have hq1' : ∀ k, k < 4 → pin_name 1 k ≠ q := fun k hk h => hq1 ⟨k, hk, h⟩
      rw [result_port_net_other _ _ _ _ q hq1']
      by_cases hq0 : ∃ k, k < 4 ∧ pin_name 0 k = q
      · obtain ⟨k, hk, rfl⟩ := hq0
        rw [result_port_net_pin _ _ _ _ k hk, hp0 k hk]
      · exact result_port_net_other _ _ _ _ q (fun k hk h => hq0 ⟨k, hk, h⟩)
  · intro lut hlut old_init hread
    interval_cases lut
    · refine ⟨lut_new_init ctx ci 0 old0, ?_, ?_⟩
      · rw [result_find_other_param _ _ 1 _ _ initval_key_cross.symm
          (fun k hk => mux_key_ne_initval 1 0 k hk)]
        exact result_find_initval ctx ci 0 old0
      · have : old_init = old0 := Option.some.inj (hread.symm.trans h0)
        rw [this]
        exact lut_new_init_id ctx ci 0 old0 hp0
    · refine ⟨lut_new_init ctx (proc_lut_result ctx ci 0 old0) 1 old1, ?_, ?_⟩
      · exact result_find_initval ctx _ 1 old1
      · have : old_init = old1 := Option.some.inj (hread.symm.trans h1)
        rw [this]
        exact lut_new_init_id ctx _ 1 old1 hp1
  · intro lut k hlut hk
    interval_cases lut
    · have e := result_find_other_param ctx (proc_lut_result ctx ci 0 old0) 1 old1
        (mux_key 0 k) (mux_key_ne_initval 0 1 k hk).symm
        (fun j hj => (mux_key_cross j k hj hk).2)
      unfold mux_key at e
      rw [e]
      have e2 := result_find_mux ctx ci 0 old0 k hk
      unfold mux_key mux_value at e2
      rw [e2, hp0 k hk]
    · have e2 := result_find_mux ctx (proc_lut_result ctx ci 0 old0) 1 old1 k hk
      unfold mux_key mux_value at e2
      rw [e2, hp1 k hk, (result_port_net_cross ctx ci old0 k hk).1]
  · intro q hmux hinit
    rw [result_find_other_param _ _ 1 _ q (hinit 1 (by omega))
      (fun k hk => hmux 1 k (by omega) hk)]
    exact result_find_other_param _ _ 0 _ q (hinit 0 (by omega))
      (fun k hk => hmux 0 k (by omega) hk)

/-! ### Fixed points of `proc_lut` -/

theorem Dict.set4_eq_self {β : Type} (d : Dict β) (k : Nat → IdString) (v : Nat → β)
    (h : ∀ j, j < 4 → Dict.find d (k j) = some (v j)) : Dict.set4 d k v = d := by
  unfold Dict.set4
  rw [Dict.set_eq_self d _ _ (h 0 (by omega)), Dict.set_eq_self d _ _ (h 1 (by omega)),
    Dict.set_eq_self d _ _ (h 2 (by omega)), Dict.set_eq_self d _ _ (h 3 (by omega))]

theorem pin_crit_follows (ctx : Context) (crit : NetId → ℚ) (ci : CellInfo) (lut k : Nat)
    (hf : crit_follows_nets ctx crit ci) :
    pin_crit ctx ci lut k = net_crit crit (port_net ci (pin_name lut k)) := by
  unfold pin_crit
  cases h : port_net ci (pin_name lut k) with
  | none => simp [net_crit]
  | some n => simp [net_crit, hf _ n h]

theorem std_sort_fixed (c0 c1 c2 c3 : ℚ) (h01 : c0 ≤ c1) (h12 : c1 ≤ c2) (h23 : c2 ≤ c3) :
    std_sort [(c0, 0), (c1, 1), (c2, 2), (c3, 3)] = [(c0, 0), (c1, 1), (c2, 2), (c3, 3)] := by
  have key : ∀ (a b : ℚ) (j k : Nat), a ≤ b → j ≤ k → ¬ pair_lt (b, k) (a, j) := by
    intro a b j k hab hjk
    rw [not_pair_lt_iff]
    rcases lt_or_eq_of_le hab with h | h
    · exact Or.inl h
    · exact Or.inr ⟨h, hjk⟩
  apply List.Sorted.insertionSort_eq
  simp only [List.Sorted, List.pairwise_cons, List.mem_cons, List.mem_singleton,
    forall_eq_or_imp, forall_eq, List.not_mem_nil, false_implies, implies_true,
    List.Pairwise.nil, and_true]
  exact ⟨⟨key _ _ _ _ h01 (by omega), key _ _ _ _ (h01.trans h12) (by omega),
    key _ _ _ _ ((h01.trans h12).trans h23) (by omega)⟩,
    ⟨key _ _ _ _ h12 (by omega), key _ _ _ _ (h12.trans h23) (by omega)⟩,
    key _ _ _ _ h23 (by omega)⟩

theorem lut_perm_fixed (ctx : Context) (ci : CellInfo) (lut : Nat)
    (hmono : ∀ j k, j < k → k < 4 → pin_crit ctx ci lut j ≤ pin_crit ctx ci lut k)
    (k : Nat) (hk : k < 4) : lut_perm ctx ci lut k = k := by
  have e : lut_order ctx ci lut = lut_inputs ctx ci lut := by
    unfold lut_order proc_lut_sort
    split_ifs
    · rw [lut_inputs_eq]
      exact std_sort_fixed _ _ _ _ (hmono 0 1 (by omega) (by omega))
        (hmono 1 2 (by omega) (by omega)) (hmono 2 3 (by omega) (by omega))
    · rfl
  unfold lut_perm
  rw [e, lut_inputs_eq]
  interval_cases k <;> rfl

theorem lut_new_init_fixed (ctx : Context) (ci : CellInfo) (lut : Nat) (v : Nat)
    (hv : v < 2 ^ 16) (hπ : ∀ k, k < 4 → lut_perm ctx ci lut k = k) :
    lut_new_init ctx ci lut (v : Int) = v := by
  apply Nat.eq_of_testBit_eq
  intro i
  rw [lut_new_init_id ctx ci lut _ hπ]
  by_cases hi : i < 16
  · simp only [hi, decide_True, Bool.true_and]
    rfl
  · have h2 : (2 : Nat) ^ 16 ≤ 2 ^ i := Nat.pow_le_pow_right (by omega) (by omega)
    have : v.testBit i = false := Nat.testBit_lt_two_pow (lt_of_lt_of_le hv h2)
    simp [hi, this]

theorem proc_lut_fixed (ctx : Context) (c : CellInfo) (lut : Nat) (v : Nat)
    (hports : ∀ k, k < 4 → ∃ p, Dict.find c.ports (pin_name lut k) = some p)
    (hord : ∀ k, k < 4 → lut_perm ctx c lut k = k)
    (hmux : ∀ k, k < 4 → Dict.find c.params (mux_key lut k) =
      some (Property.str (if port_net c (pin_name lut k) ≠ none then pin_name lut k else "1")))
    (hinit : Dict.find c.params (initval_key lut) = some (Property.int (v : Nat) 16))
    (hv : v < 2 ^ 16) :
    proc_lut ctx c lut = some c := by
  have hread : int_or_default ctx.stoi c.params (initval_key lut) 0 = some (v : Int) := by
    unfold int_or_default
    rw [hinit]
  rw [proc_lut_eq ctx c lut v hread]
  have hp1 : ∀ k, k < 4 →
      Dict.find c.ports (pin_name lut k) = some (port_or_new c.ports (pin_name lut k)) := by
    intro k hk
    obtain ⟨p, hp⟩ := hports k hk
    simp [port_or_new, hp]
  have e1 : Dict.set4 c.ports (pin_name lut) (fun k => port_or_new c.ports (pin_name lut k)) =
      c.ports := Dict.set4_eq_self _ _ _ hp1
  have hp2 : ∀ k, k < 4 →
      Dict.find c.ports (pin_name lut k) = some (lut_port ctx c lut k) := by
    intro k hk
    obtain ⟨p, hp⟩ := hports k hk
    have hn : port_net c (pin_name lut k) = p.net := by simp [port_net, hp]
    simp [lut_port, hord k hk, port_or_new, hp, hn]
  have e2 : Dict.set4 c.ports (pin_name lut) (lut_port ctx c lut) = c.ports :=
    Dict.set4_eq_self _ _ _ hp2
  have hm : ∀ k, k < 4 →
      Dict.find c.params (mux_key lut k) = some (mux_value ctx c lut k) := by
    intro k hk
    rw [hmux k hk]
    simp [mux_value, hord k hk]
  have e3 : Dict.set4 c.params (mux_key lut) (mux_value ctx c lut) = c.params :=
    Dict.set4_eq_self _ _ _ hm
  have e4 : Dict.set c.params (initval_key lut)
      (Property.int (lut_new_init ctx c lut (v : Int)) 16) = c.params := by
    apply Dict.set_eq_self
    rw [lut_new_init_fixed ctx c lut v hv hord]
    exact hinit
  simp only [proc_lut_result, e1, e2, e3, e4]

/-! ### A second pass over a permuted cell -/

theorem result_mono (ctx1 ctx2 : Context) (crit : NetId → ℚ) (x y : CellInfo) (lut : Nat)
    (hs : x.belStrength.toNat ≤ PlaceStrength.STRENGTH_STRONG.toNat)
    (hx : ∀ j, j < 4 → pin_crit ctx1 x lut j = net_crit crit (port_net x (pin_name lut j)))
    (hy : ∀ k, k < 4 → pin_crit ctx2 y lut k = net_crit crit (port_net y (pin_name lut k)))
    (hyx : ∀ k, k < 4 →
      port_net y (pin_name lut k) = port_net x (pin_name lut (lut_perm ctx1 x lut k)))
    (j k : Nat) (hjk : j < k) (hk : k < 4) :
    pin_crit ctx2 y lut j ≤ pin_crit ctx2 y lut k := by
  have e : ∀ i, i < 4 → pin_crit ctx2 y lut i = pin_crit ctx1 x lut (lut_perm ctx1 x lut i) := by
    intro i hi
    rw [hy i hi, hyx i hi, hx _ (lut_perm_lt ctx1 x lut i hi)]
  rw [e j (by omega), e k hk]
  have h := lut_perm_sorted ctx1 x lut hs j k hjk hk
  unfold pair_lt at h
  rcases h with h | ⟨h, _⟩
  · exact le_of_lt h
  · exact not_lt.1 h

theorem result_perm_fixed (ctx1 ctx2 : Context) (crit : NetId → ℚ) (x y : CellInfo)
    (lut : Nat) (hb : y.belStrength = x.belStrength)
    (hx : ∀ j, j < 4 → pin_crit ctx1 x lut j = net_crit crit (port_net x (pin_name lut j)))
    (hy : ∀ k, k < 4 → pin_crit ctx2 y lut k = net_crit crit (port_net y (pin_name lut k)))
    (hyx : ∀ k, k < 4 →
      port_net y (pin_name lut k) = port_net x (pin_name lut (lut_perm ctx1 x lut k)))
    (k : Nat) (hk : k < 4) : lut_perm ctx2 y lut k = k := by
  by_cases hs : x.belStrength.toNat ≤ PlaceStrength.STRENGTH_STRONG.toNat
  · exact lut_perm_fixed ctx2 y lut (result_mono ctx1 ctx2 crit x y lut hs hx hy hyx) k hk
  · exact lut_perm_locked ctx2 y lut k (by rw [hb]; omega) hk

theorem result_belStrength (ctx : Context) (ci : CellInfo) (lut : Nat) (old_init : Int) :
    (proc_lut_result ctx ci lut old_init).belStrength = ci.belStrength := rfl

theorem result_name (ctx : Context) (ci : CellInfo) (lut : Nat) (old_init : Int) :
    (proc_lut_result ctx ci lut old_init).name = ci.name := rfl

theorem result_type (ctx : Context) (ci : CellInfo) (lut : Nat) (old_init : Int) :
    (proc_lut_result ctx ci lut old_init).type = ci.type := rfl

theorem permute_cell_fixed (ctx1 ctx2 : Context) (crit : NetId → ℚ) (c : CellInfo)
    (old0 old1 : Int) (ht : c.type = id_TRELLIS_SLICE)
    (hm : str_or_default c.params "MODE" "LOGIC" = some "LOGIC")
    (hf1 : crit_follows_nets ctx1 crit c)
    (hf2 : crit_follows_nets ctx2 crit
      (proc_lut_result ctx1 (proc_lut_result ctx1 c 0 old0) 1 old1)) :
    permute_cell ctx2 (proc_lut_result ctx1 (proc_lut_result ctx1 c 0 old0) 1 old1) =
      some (proc_lut_result ctx1 (proc_lut_result ctx1 c 0 old0) 1 old1) := by
  have hn0 : ∀ k, k < 4 →
      port_net (proc_lut_result ctx1 (proc_lut_result ctx1 c 0 old0) 1 old1) (pin_name 0 k) =
        port_net c (pin_name 0 (lut_perm ctx1 c 0 k)) := by
    intro k hk
    rw [(result_port_net_cross ctx1 _ old1 k hk).2]
    exact result_port_net_pin ctx1 c 0 old0 k hk
  have hn1 : ∀ k, k < 4 →
      port_net (proc_lut_result ctx1 (proc_lut_result ctx1 c 0 old0) 1 old1) (pin_name 1 k) =
        port_net (proc_lut_result ctx1 c 0 old0)
          (pin_name 1 (lut_perm ctx1 (proc_lut_result ctx1 c 0 old0) 1 k)) :=
    fun k hk => result_port_net_pin ctx1 _ 1 old1 k hk
  have hx1 : ∀ j, j < 4 → pin_crit ctx1 (proc_lut_result ctx1 c 0 old0) 1 j =
      net_crit crit (port_net (proc_lut_result ctx1 c 0 old0) (pin_name 1 j)) := by
    intro j hj
    rw [pin_crit_congr ctx1 (proc_lut_result ctx1 c 0 old0) c 1 j (result_name ctx1 c 0 old0)
      (result_port_net_cross ctx1 c old0 j hj).1, pin_crit_follows ctx1 crit c 1 j hf1,
      (result_port_net_cross ctx1 c old0 j hj).1]
  have hb1 : (proc_lut_result ctx1 (proc_lut_result ctx1 c 0 old0) 1 old1).belStrength =
      (proc_lut_result ctx1 c 0 old0).belStrength := result_belStrength ctx1 _ 1 old1
  have hb0 : (proc_lut_result ctx1 (proc_lut_result ctx1 c 0 old0) 1 old1).belStrength =
      c.belStrength := hb1.trans (result_belStrength ctx1 c 0 old0)
  have ho0 := result_perm_fixed ctx1 ctx2 crit c _ 0 hb0
    (fun j _ => pin_crit_follows ctx1 crit c 0 j hf1)
    (fun k _ => pin_crit_follows ctx2 crit _ 0 k hf2) hn0
  have ho1 := result_perm_fixed ctx1 ctx2 crit (proc_lut_result ctx1 c 0 old0) _ 1 hb1 hx1
    (fun k _ => pin_crit_follows ctx2 crit _ 1 k hf2) hn1
  have fix0 : proc_lut ctx2 (proc_lut_result ctx1 (proc_lut_result ctx1 c 0 old0) 1 old1) 0 =
      some (proc_lut_result ctx1 (proc_lut_result ctx1 c 0 old0) 1 old1) := by
    apply proc_lut_fixed ctx2 _ 0 (lut_new_init ctx1 c 0 old0)
    · intro k hk
      refine ⟨lut_port ctx1 c 0 k, ?_⟩
      rw [result_find_other_port ctx1 _ 1 old1 _ (fun j hj => (pin_name_cross j k hj hk).2)]
      exact result_find_pin ctx1 c 0 old0 k hk
    · exact ho0
    · intro k hk
      rw [result_find_other_param ctx1 _ 1 old1 _ (mux_key_ne_initval 0 1 k hk).symm
        (fun j hj => (mux_key_cross j k hj hk).2), result_find_mux ctx1 c 0 old0 k hk, hn0 k hk,
        mux_value]
    · rw [result_find_other_param ctx1 _ 1 old1 _ initval_key_cross.symm
        (fun k hk => mux_key_ne_initval 1 0 k hk)]
      exact result_find_initval ctx1 c 0 old0
    · exact lut_new_init_lt ctx1 c 0 old0
  have fix1 : proc_lut ctx2 (proc_lut_result ctx1 (proc_lut_result ctx1 c 0 old0) 1 old1) 1 =
      some (proc_lut_result ctx1 (proc_lut_result ctx1 c 0 old0) 1 old1) := by
    apply proc_lut_fixed ctx2 _ 1 (lut_new_init ctx1 (proc_lut_result ctx1 c 0 old0) 1 old1)
    · intro k hk
      exact ⟨_, result_find_pin ctx1 _ 1 old1 k hk⟩
    · exact ho1
    · intro k hk
      rw [result_find_mux ctx1 _ 1 old1 k hk, hn1 k hk, mux_value]
    · exact result_find_initval ctx1 _ 1 old1
    · exact lut_new_init_lt ctx1 _ 1 old1
  have hmode : str_or_default
      (proc_lut_result ctx1 (proc_lut_result ctx1 c 0 old0) 1 old1).params "MODE" "LOGIC" =
      some "LOGIC" := by
    unfold str_or_default at hm ⊢
    rw [result_find_other_param ctx1 _ 1 old1 _ (mode_ne_initval_key 1)
      (fun k hk => mode_ne_mux_key 1 k hk),
      result_find_other_param ctx1 _ 0 old0 _ (mode_ne_initval_key 0)
      (fun k hk => mode_ne_mux_key 0 k hk)]
    exact hm
  have htype : (proc_lut_result ctx1 (proc_lut_result ctx1 c 0 old0) 1 old1).type =
      id_TRELLIS_SLICE :=
    ((result_type ctx1 _ 1 old1).trans (result_type ctx1 c 0 old0)).trans ht
  unfold permute_cell
  rw [if_pos htype, hmode]
  simp only [Option.some_bind, Option.bind_eq_bind, if_true]
  rw [fix0]
  simp only [Option.some_bind]
  exact fix1

theorem permute_cell_twice (ctx1 : Context) (crit : NetId → ℚ) (ci : CellInfo)
    (hr : cell_readable ctx1 ci) :
    ∃ ci', permute_cell ctx1 ci = some ci' ∧
      (crit_follows_nets ctx1 crit ci →
        ∀ ctx2, crit_follows_nets ctx2 crit ci' → permute_cell ctx2 ci' = some ci') := by
  by_cases ht : ci.type = id_TRELLIS_SLICE
  · obtain ⟨mode, hmode, h⟩ := hr ht
    by_cases hl : mode = "LOGIC"
    · subst hl
      obtain ⟨old0, old1, h0, h1⟩ := cell_readable_logic ctx1 ci hr ht hmode
      exact ⟨_, permute_cell_logic ctx1 ci old0 old1 ht hmode h0 h1,
        fun hf1 ctx2 hf2 => permute_cell_fixed ctx1 ctx2 crit ci old0 old1 ht hmode hf1 hf2⟩
    · exact ⟨ci, permute_cell_other_mode ctx1 ci mode hmode hl,
        fun _ ctx2 _ => permute_cell_other_mode ctx2 ci mode hmode hl⟩
  · exact ⟨ci, permute_cell_other_type ctx1 ci ht,
      fun _ ctx2 _ => permute_cell_other_type ctx2 ci ht⟩

theorem permute_luts_of_forall₂ (ctx : Context) (cells cells' : List CellInfo)
    (h : List.Forall₂ (fun _ ci' => permute_cell ctx ci' = some ci') cells cells') :
    permute_luts ctx cells' = some cells' := by
  induction h with
  | nil => rfl
  | cons hc _ ih => simp [permute_luts, hc, ih]

/-! ## The LUT-input permuter: function, truth table, pin order -/

set_option maxRecDepth 100000 in
theorem permuted_index_fin : ∀ p0 p1 p2 p3 : Fin 4, [p0, p1, p2, p3].Nodup →
    ∀ a0 a1 a2 a3 : Bool,
      bits_index
          (if p0.val = 0 then a0 else if p0.val = 1 then a1 else if p0.val = 2 then a2 else a3)
          (if p1.val = 0 then a0 else if p1.val = 1 then a1 else if p1.val = 2 then a2 else a3)
          (if p2.val = 0 then a0 else if p2.val = 1 then a1 else if p2.val = 2 then a2 else a3)
          (if p3.val = 0 then a0 else if p3.val = 1 then a1 else if p3.val = 2 then a2 else a3)
          < 16 ∧
      sum_index
          (fun k => if k = 0 then p0.val else if k = 1 then p1.val else if k = 2 then p2.val
            else p3.val)
          (bits_index
            (if p0.val = 0 then a0 else if p0.val = 1 then a1 else if p0.val = 2 then a2 else a3)
            (if p1.val = 0 then a0 else if p1.val = 1 then a1 else if p1.val = 2 then a2 else a3)
            (if p2.val = 0 then a0 else if p2.val = 1 then a1 else if p2.val = 2 then a2 else a3)
            (if p3.val = 0 then a0 else if p3.val = 1 then a1 else if p3.val = 2 then a2 else a3))
        = bits_index a0 a1 a2 a3 := by
  decide

theorem select_four (a : Nat → Bool) (p : Nat) (hp : p < 4) :
    a p = if p = 0 then a 0 else if p = 1 then a 1 else if p = 2 then a 2 else a 3 := by
  interval_cases p <;> simp

theorem permuted_index (π : Nat → Nat) (hπ : [π 0, π 1, π 2, π 3].Perm [0, 1, 2, 3])
    (a : Nat → Bool) :
    bits_index (a (π 0)) (a (π 1)) (a (π 2)) (a (π 3)) < 16 ∧
      sum_index π (bits_index (a (π 0)) (a (π 1)) (a (π 2)) (a (π 3))) =
        bits_index (a 0) (a 1) (a 2) (a 3) := by
  obtain ⟨h0, h1, h2, h3⟩ := perm_four_lt _ _ _ _ hπ
  have hnd : [π 0, π 1, π 2, π 3].Nodup := (hπ.nodup_iff).2 (by decide)
  have hndf : [(⟨π 0, h0⟩ : Fin 4), ⟨π 1, h1⟩, ⟨π 2, h2⟩, ⟨π 3, h3⟩].Nodup := by
    simpa [Fin.ext_iff] using hnd
  have key := permuted_index_fin ⟨π 0, h0⟩ ⟨π 1, h1⟩ ⟨π 2, h2⟩ ⟨π 3, h3⟩ hndf
    (a 0) (a 1) (a 2) (a 3)
  simp only [] at key
  rw [← select_four a _ h0, ← select_four a _ h1, ← select_four a _ h2,
    ← select_four a _ h3] at key
  have hs : ∀ i, sum_index
      (fun k => if k = 0 then π 0 else if k = 1 then π 1 else if k = 2 then π 2 else π 3) i =
      sum_index π i := by
    intro i
    simp [sum_index]
  rw [hs] at key
  exact key

theorem result_function (ctx : Context) (ci : CellInfo) (lut : Nat) (old_init : Int)
    (value : Option NetId → Bool) :
    lut_output (lut_new_init ctx ci lut old_init : Nat)
        (fun k => value (port_net (proc_lut_result ctx ci lut old_init) (pin_name lut k))) =
      lut_output old_init (fun k => value (port_net ci (pin_name lut k))) := by
  have hidx := permuted_index (lut_perm ctx ci lut) (lut_perm_perm ctx ci lut)
    (fun j => value (port_net ci (pin_name lut j)))
  unfold lut_output
  simp only [result_port_net_pin ctx ci lut old_init _ (by omega : (0 : Nat) < 4),
    result_port_net_pin ctx ci lut old_init _ (by omega : (1 : Nat) < 4),
    result_port_net_pin ctx ci lut old_init _ (by omega : (2 : Nat) < 4),
    result_port_net_pin ctx ci lut old_init _ (by omega : (3 : Nat) < 4)]
  show (lut_new_init ctx ci lut old_init).testBit _ = _
  rw [lut_new_init_testBit, hidx.2]
  simp [hidx.1]

theorem lut_output_congr (init : Int) (p q : Nat → Bool) (h : ∀ k, k < 4 → p k = q k) :
    lut_output init p = lut_output init q := by
  unfold lut_output
  rw [h 0 (by omega), h 1 (by omega), h 2 (by omega), h 3 (by omega)]

theorem permute_cell_function (ctx : Context) (ci : CellInfo) (old0 old1 : Int)
    (value : Option NetId → Bool)
    (h0 : int_or_default ctx.stoi ci.params (initval_key 0) 0 = some old0)
    (h1 : int_or_default ctx.stoi ci.params (initval_key 1) 0 = some old1)
    (lut : Nat) (hlut : lut < 2) (old_init : Int)
    (hread : int_or_default ctx.stoi ci.params (initval_key lut) 0 = some old_init) :
    ∃ new_init : Int,
      int_or_default ctx.stoi
          (proc_lut_result ctx (proc_lut_result ctx ci 0 old0) 1 old1).params
          (initval_key lut) 0 = some new_init ∧
      lut_output new_init (fun k => value
          (port_net (proc_lut_result ctx (proc_lut_result ctx ci 0 old0) 1 old1)
            (pin_name lut k))) =
        lut_output old_init (fun k => value (port_net ci (pin_name lut k))) := by
  interval_cases lut
  · have e : old_init = old0 := Option.some.inj (hread.symm.trans h0)
    subst e
    refine ⟨(lut_new_init ctx ci 0 old_init : Nat), ?_, ?_⟩
    · unfold int_or_default
      rw [result_find_other_param ctx _ 1 old1 _ initval_key_cross.symm
        (fun k hk => mux_key_ne_initval 1 0 k hk), result_find_initval]
    · rw [← result_function ctx ci 0 old_init value]
      apply lut_output_congr
      intro k hk
      rw [(result_port_net_cross ctx _ old1 k hk).2]
  · have e : old_init = old1 := Option.some.inj (hread.symm.trans h1)
    subst e
    refine ⟨(lut_new_init ctx (proc_lut_result ctx ci 0 old0) 1 old_init : Nat), ?_, ?_⟩
    · unfold int_or_default
      rw [result_find_initval]
    · rw [result_function ctx _ 1 old_init value]
      apply lut_output_congr
      intro k hk
      rw [(result_port_net_cross ctx ci old0 k hk).1]

/-- C1: `permute_luts` preserves the logic function of every LUT it rewrites. On every
design whose parameters can be read the call returns, and for every cell, each of its two
LUTs, every truth table `old_init` its INITVAL read as before the call and every
assignment `value` of logic values to nets (`none` being what an open pin sees): the
INITVAL after the call, evaluated on the pins A..D with the nets they carry after the
call, gives the same output bit as `old_init` evaluated on the pins with the nets they
carried before. -/
theorem permute_luts_preserves_function (ctx : Context) (cells : List CellInfo)
    (value : Option NetId → Bool) (hok : ∀ ci ∈ cells, cell_readable ctx ci) :
    ∃ cells', permute_luts ctx cells = some cells' ∧
      List.Forall₂
        (fun ci ci' =>
          ∀ lut, lut < 2 → ∀ old_init,
            int_or_default ctx.stoi ci.params (initval_key lut) 0 = some old_init →
            ∃ new_init, int_or_default ctx.stoi ci'.params (initval_key lut) 0 = some new_init ∧
              lut_output new_init (fun k => value (port_net ci' (pin_name lut k))) =
                lut_output old_init (fun k => value (port_net ci (pin_name lut k))))
        cells cells' := by
  apply permute_luts_lift ctx _ _ cells hok
  intro ci hr
  by_cases hc : ci.type = id_TRELLIS_SLICE ∧ str_or_default ci.params "MODE" "LOGIC" = some "LOGIC"
  · obtain ⟨old0, old1, h0, h1⟩ := cell_readable_logic ctx ci hr hc.1 hc.2
    exact ⟨_, permute_cell_logic ctx ci old0 old1 hc.1 hc.2 h0 h1,
      fun lut hlut old_init hread =>
        permute_cell_function ctx ci old0 old1 value h0 h1 lut hlut old_init hread⟩
  · have hsame : permute_cell ctx ci = some ci := by
      by_cases ht : ci.type = id_TRELLIS_SLICE
      · obtain ⟨mode, hmode, _⟩ := hr ht
        exact permute_cell_other_mode ctx ci mode hmode (fun h => hc ⟨ht, h ▸ hmode⟩)
      · exact permute_cell_other_type ctx ci ht
    exact ⟨ci, hsame, fun lut _ old_init hread => ⟨old_init, hread, rfl⟩⟩

/-- Witness of C1 on the design `mixed_cells`, with net 4 (the D input of scenario S2)
high. -/
theorem permute_luts_preserves_function_witness :
    (∀ ci ∈ mixed_cells, cell_readable s2_ctx ci) ∧
    ∃ cells', permute_luts s2_ctx mixed_cells = some cells' ∧
      List.Forall₂
        (fun ci ci' =>
          ∀ lut, lut < 2 → ∀ old_init,
            int_or_default s2_ctx.stoi ci.params (initval_key lut) 0 = some old_init →
            ∃ new_init,
              int_or_default s2_ctx.stoi ci'.params (initval_key lut) 0 = some new_init ∧
              lut_output new_init (fun k => s2_value (port_net ci' (pin_name lut k))) =
                lut_output old_init (fun k => s2_value (port_net ci (pin_name lut k))))
        mixed_cells cells' :=
  ⟨mixed_cells_readable, permute_luts_preserves_function s2_ctx mixed_cells s2_value
    mixed_cells_readable⟩

/-- C2: the rewrite of the truth table in `proc_lut`. For every cell and every old INITVAL,
with `π k = inputs.at(k).second` the pin order `proc_lut` chose (always a permutation of
0..3), the parameter LUTn_INITVAL written is a 16-bit integer whose bit `i`, for `i < 16`,
is bit `Σ_k ((i >> k) & 1) << π(k)` of the old value, and whose bits from 16 on are 0. -/
theorem proc_lut_rewrites_initval (ctx : Context) (ci : CellInfo) (lut : Nat) (old_init : Int)
    (hread : int_or_default ctx.stoi ci.params (initval_key lut) 0 = some old_init) :
    ∃ ci' inputs new_init, proc_lut ctx ci lut = some ci' ∧
      proc_lut_order ctx ci lut = some inputs ∧
      (inputs.map Prod.snd).Perm [0, 1, 2, 3] ∧
      Dict.find ci'.params (initval_key lut) = some (Property.int (new_init : Nat) 16) ∧
      (∀ i, i < 16 → new_init.testBit i =
        old_init.testBit (sum_index (fun k => (inputs.getD k (0, 0)).2) i)) ∧
      (∀ i, 16 ≤ i → new_init.testBit i = false) := by
  refine ⟨proc_lut_result ctx ci lut old_init, lut_order ctx ci lut,
    lut_new_init ctx ci lut old_init, proc_lut_eq ctx ci lut old_init hread,
    proc_lut_order_eq ctx ci lut, lut_order_perm ctx ci lut,
    result_find_initval ctx ci lut old_init, ?_, ?_⟩
  · intro i hi
    rw [lut_new_init_testBit]
    simp only [hi, decide_True, Bool.true_and]
    rfl
  · intro i hi
    rw [lut_new_init_testBit]
    have : ¬ i < 16 := by omega
    simp [this]

/-- Witness of C2 on scenario S2. -/
theorem proc_lut_rewrites_initval_witness :
    int_or_default s2_ctx.stoi s2_cell.params (initval_key 0) 0 = some 0xFF00 ∧
    ∃ ci' inputs new_init, proc_lut s2_ctx s2_cell 0 = some ci' ∧
      proc_lut_order s2_ctx s2_cell 0 = some inputs ∧
      (inputs.map Prod.snd).Perm [0, 1, 2, 3] ∧
      Dict.find ci'.params (initval_key 0) = some (Property.int (new_init : Nat) 16) ∧
      (∀ i, i < 16 → new_init.testBit i =
        (0xFF00 : Int).testBit (sum_index (fun k => (inputs.getD k (0, 0)).2) i)) ∧
      (∀ i, 16 ≤ i → new_init.testBit i = false) :=
  ⟨by decide, proc_lut_rewrites_initval s2_ctx s2_cell 0 0xFF00 (by decide)⟩

/-- C3: the pin order of an unlocked cell. For every cell with belStrength at most
STRENGTH_STRONG, `proc_lut` returns a cell in which pin `k` (0..3 for A..D) carries the
net that was on pin `π k`, where `π` (the second components of the sorted `inputs`) is a
permutation of 0..3 listing the pins by ascending criticality, ties broken by ascending
original pin index, a disconnected pin counting as criticality 0 (`pin_crit`); hence the
criticalities along the pins A..D after the pass are non-decreasing. -/
theorem proc_lut_sorts_pins (ctx : Context) (ci : CellInfo) (lut : Nat) (old_init : Int)
    (hread : int_or_default ctx.stoi ci.params (initval_key lut) 0 = some old_init)
    (hs : ci.belStrength.toNat ≤ PlaceStrength.STRENGTH_STRONG.toNat) :
    ∃ ci', proc_lut ctx ci lut = some ci' ∧
      proc_lut_order ctx ci lut = some (lut_order ctx ci lut) ∧
      [lut_perm ctx ci lut 0, lut_perm ctx ci lut 1, lut_perm ctx ci lut 2,
        lut_perm ctx ci lut 3].Perm [0, 1, 2, 3] ∧
      (∀ k, k < 4 →
        port_net ci' (pin_name lut k) = port_net ci (pin_name lut (lut_perm ctx ci lut k))) ∧
      (∀ j k, j < k → k < 4 →
        pin_crit ctx ci lut (lut_perm ctx ci lut j) < pin_crit ctx ci lut (lut_perm ctx ci lut k) ∨
        (pin_crit ctx ci lut (lut_perm ctx ci lut j) = pin_crit ctx ci lut (lut_perm ctx ci lut k) ∧
          lut_perm ctx ci lut j < lut_perm ctx ci lut k)) ∧
      (∀ j k, j < k → k < 4 →
        pin_crit ctx ci lut (lut_perm ctx ci lut j) ≤
          pin_crit ctx ci lut (lut_perm ctx ci lut k)) := by
  have key : ∀ j k, j < k → k < 4 →
      pin_crit ctx ci lut (lut_perm ctx ci lut j) < pin_crit ctx ci lut (lut_perm ctx ci lut k) ∨
      (pin_crit ctx ci lut (lut_perm ctx ci lut j) = pin_crit ctx ci lut (lut_perm ctx ci lut k) ∧
        lut_perm ctx ci lut j < lut_perm ctx ci lut k) := by
    intro j k hjk hk
    have h := lut_perm_sorted ctx ci lut hs j k hjk hk
    unfold pair_lt at h
    rcases h with h | ⟨h1, h2⟩
    · exact Or.inl h
    · rcases lt_or_eq_of_le (not_lt.1 h1) with h3 | h3
      · exact Or.inl h3
      · exact Or.inr ⟨h3, h2⟩
  refine ⟨proc_lut_result ctx ci lut old_init, proc_lut_eq ctx ci lut old_init hread,
    proc_lut_order_eq ctx ci lut, lut_perm_perm ctx ci lut,
    fun k hk => result_port_net_pin ctx ci lut old_init k hk, key, ?_⟩
  intro j k hjk hk
  rcases key j k hjk hk with h | ⟨h, _⟩
  · exact le_of_lt h
  · exact le_of_eq h

/-- Witness of C3 on scenario S2, whose cell has the default strength STRENGTH_NONE. -/
theorem proc_lut_sorts_pins_witness :
    (int_or_default s2_ctx.stoi s2_cell.params (initval_key 0) 0 = some 0xFF00 ∧
      s2_cell.belStrength.toNat ≤ PlaceStrength.STRENGTH_STRONG.toNat) ∧
    ∃ ci', proc_lut s2_ctx s2_cell 0 = some ci' ∧
      proc_lut_order s2_ctx s2_cell 0 = some (lut_order s2_ctx s2_cell 0) ∧
      [lut_perm s2_ctx s2_cell 0 0, lut_perm s2_ctx s2_cell 0 1, lut_perm s2_ctx s2_cell 0 2,
        lut_perm s2_ctx s2_cell 0 3].Perm [0, 1, 2, 3] ∧
      (∀ k, k < 4 → port_net ci' (pin_name 0 k) =
        port_net s2_cell (pin_name 0 (lut_perm s2_ctx s2_cell 0 k))) ∧
      (∀ j k, j < k → k < 4 →
        pin_crit s2_ctx s2_cell 0 (lut_perm s2_ctx s2_cell 0 j) <
            pin_crit s2_ctx s2_cell 0 (lut_perm s2_ctx s2_cell 0 k) ∨
        (pin_crit s2_ctx s2_cell 0 (lut_perm s2_ctx s2_cell 0 j) =
            pin_crit s2_ctx s2_cell 0 (lut_perm s2_ctx s2_cell 0 k) ∧
          lut_perm s2_ctx s2_cell 0 j < lut_perm s2_ctx s2_cell 0 k)) ∧
      (∀ j k, j < k → k < 4 →
        pin_crit s2_ctx s2_cell 0 (lut_perm s2_ctx s2_cell 0 j) ≤
          pin_crit s2_ctx s2_cell 0 (lut_perm s2_ctx s2_cell 0 k)) :=
  ⟨⟨by decide, by decide⟩, proc_lut_sorts_pins s2_ctx s2_cell 0 0xFF00 (by decide) (by decide)⟩

/-! ## Scenario S2 and the MUX parameters -/

/-- C5, as stated, fails: on scenario S2 `permute_luts` chooses π = (1,3,2,0), and the
INITVAL it writes does not read as 0xAAAA. -/
theorem s2_initval_not_aaaa :
    ∃ ci', permute_luts s2_ctx [s2_cell] = some [ci'] ∧
      (proc_lut_order s2_ctx s2_cell 0).map (fun inputs => inputs.map Prod.snd) =
        some [1, 3, 2, 0] ∧
      int_or_default s2_ctx.stoi ci'.params "LUT0_INITVAL" 0 ≠ some 0xAAAA := by
  refine ⟨_, rfl, ?_, ?_⟩ <;> decide

/-- C5, amended: on scenario S2 (LUT0_INITVAL = 0xFF00, criticalities 0.9, 0.1, 0.5, 0.2 on
A, B, C, D) `permute_luts` chooses π = (1,3,2,0), moves the nets of B, D, C, A onto the
pins A, B, C, D, and writes LUT0_INITVAL = 0xCCCC as a 16-bit value: the output is true
iff the old D input, now on pin B, is high. -/
theorem s2_permute_luts :
    ∃ ci', permute_luts s2_ctx [s2_cell] = some [ci'] ∧
      (proc_lut_order s2_ctx s2_cell 0).map (fun inputs => inputs.map Prod.snd) =
        some [1, 3, 2, 0] ∧
      [port_net ci' "A0", port_net ci' "B0", port_net ci' "C0", port_net ci' "D0"] =
        [some 2, some 4, some 3, some 1] ∧
      Dict.find ci'.params "LUT0_INITVAL" = some (Property.int 0xCCCC 16) := by
  refine ⟨_, rfl, ?_, ?_, ?_⟩ <;> decide

/-- C6, as stated, fails: on scenario S2 the net moved onto pin A comes from pin B
(π 0 = 1, a connected pin named "B0"), yet the parameter A0MUX written by `proc_lut` is
"A0", the name of pin A itself. -/
theorem s2_mux_not_source_pin :
    ∃ ci', proc_lut s2_ctx s2_cell 0 = some ci' ∧
      lut_perm s2_ctx s2_cell 0 0 = 1 ∧
      pin_name 0 (lut_perm s2_ctx s2_cell 0 0) = "B0" ∧
      port_net s2_cell "B0" = some 2 ∧
      port_net ci' "A0" = some 2 ∧
      Dict.find ci'.params "A0MUX" = some (Property.str "A0") ∧
      Dict.find ci'.params "A0MUX" ≠
        some (Property.str (pin_name 0 (lut_perm s2_ctx s2_cell 0 0))) := by
  refine ⟨_, rfl, ?_, ?_, ?_, ?_, ?_, ?_⟩ <;> decide

/-- C6, amended: after `proc_lut`, for every input pin `k` of the LUT the parameter
`<pin>MUX` is the name of pin `k` itself when the original pin `π k`, whose net was moved
onto pin `k`, was connected, and the literal string "1" when it was disconnected. -/
theorem proc_lut_mux_params (ctx : Context) (ci : CellInfo) (lut : Nat) (old_init : Int)
    (hread : int_or_default ctx.stoi ci.params (initval_key lut) 0 = some old_init) :
    ∃ ci', proc_lut ctx ci lut = some ci' ∧
      proc_lut_order ctx ci lut = some (lut_order ctx ci lut) ∧
      ∀ k, k < 4 →
        Dict.find ci'.params (pin_name lut k ++ "MUX") =
          some (Property.str
            (if port_net ci (pin_name lut (lut_perm ctx ci lut k)) ≠ none then pin_name lut k
              else "1")) :=
  ⟨proc_lut_result ctx ci lut old_init, proc_lut_eq ctx ci lut old_init hread,
    proc_lut_order_eq ctx ci lut, fun k hk => result_find_mux ctx ci lut old_init k hk⟩

/-- Witness of the amended C6 on scenario S2. -/
theorem proc_lut_mux_params_witness :
    int_or_default s2_ctx.stoi s2_cell.params (initval_key 0) 0 = some 0xFF00 ∧
    ∃ ci', proc_lut s2_ctx s2_cell 0 = some ci' ∧
      proc_lut_order s2_ctx s2_cell 0 = some (lut_order s2_ctx s2_cell 0) ∧
      ∀ k, k < 4 →
        Dict.find ci'.params (pin_name 0 k ++ "MUX") =
          some (Property.str
            (if port_net s2_cell (pin_name 0 (lut_perm s2_ctx s2_cell 0 k)) ≠ none
              then pin_name 0 k else "1")) :=
  ⟨by decide, proc_lut_mux_params s2_ctx s2_cell 0 0xFF00 (by decide)⟩

/-! ## The cell loop of `permute_luts`: locked cells and other cells -/

/-- C7, as stated, fails: `locked_cell` is a logic-mode slice with belStrength
STRENGTH_LOCKED and no A0MUX parameter; after `permute_luts` its pins carry the same nets
but its parameters have changed (A0MUX = "A0" has been written). -/
theorem locked_cell_params_change :
    ∃ ci', permute_luts s2_ctx [locked_cell] = some [ci'] ∧
      locked_cell.type = id_TRELLIS_SLICE ∧
      str_or_default locked_cell.params "MODE" "LOGIC" = some "LOGIC" ∧
      PlaceStrength.STRENGTH_STRONG.toNat < locked_cell.belStrength.toNat ∧
      (port_names 0 ++ port_names 1).map (port_net ci') =
        (port_names 0 ++ port_names 1).map (port_net locked_cell) ∧
      Dict.find locked_cell.params "A0MUX" = none ∧
      Dict.find ci'.params "A0MUX" = some (Property.str "A0") ∧
      ci'.params ≠ locked_cell.params := by
  refine ⟨_, rfl, ?_, ?_, ?_, ?_, ?_, ?_, ?_⟩ <;> decide

/-- C7, amended: a logic-mode slice cell whose belStrength is greater than STRENGTH_STRONG
is not permuted by `permute_luts`. On every design whose parameters can be read the call
returns, and for each such cell: every port carries the same net as before; each
LUTn_INITVAL is rewritten as the 16-bit value of the low 16 bits it read as before; each
`<pin>MUX` is written with the pin's own name, or "1" for a disconnected pin; every other
parameter is unchanged (`locked_cell_effect`). -/
theorem permute_luts_locked_cells (ctx : Context) (cells : List CellInfo)
    (hok : ∀ ci ∈ cells, cell_readable ctx ci) :
    ∃ cells', permute_luts ctx cells = some cells' ∧
      List.Forall₂
        (fun ci ci' =>
          ci.type = id_TRELLIS_SLICE →
          str_or_default ci.params "MODE" "LOGIC" = some "LOGIC" →
          PlaceStrength.STRENGTH_STRONG.toNat < ci.belStrength.toNat →
          locked_cell_effect ctx ci ci')
        cells cells' := by
  apply permute_luts_lift ctx _ _ cells hok
  intro ci hr
  by_cases hc : ci.type = id_TRELLIS_SLICE ∧ str_or_default ci.params "MODE" "LOGIC" = some "LOGIC"
  · obtain ⟨old0, old1, h0, h1⟩ := cell_readable_logic ctx ci hr hc.1 hc.2
    exact ⟨_, permute_cell_logic ctx ci old0 old1 hc.1 hc.2 h0 h1,
      fun _ _ hl => permute_cell_locked ctx ci old0 old1 h0 h1 hl⟩
  · obtain ⟨ci', h⟩ := permute_cell_total ctx ci hr
    exact ⟨ci', h, fun ht hm _ => absurd ⟨ht, hm⟩ hc⟩

/-- Witness of the amended C7 on the one-cell design `[locked_cell]`. -/
theorem permute_luts_locked_cells_witness :
    (∀ ci ∈ [locked_cell], cell_readable s2_ctx ci) ∧
    ∃ cells', permute_luts s2_ctx [locked_cell] = some cells' ∧
      List.Forall₂
        (fun ci ci' =>
          ci.type = id_TRELLIS_SLICE →
          str_or_default ci.params "MODE" "LOGIC" = some "LOGIC" →
          PlaceStrength.STRENGTH_STRONG.toNat < ci.belStrength.toNat →
          locked_cell_effect s2_ctx ci ci')
        [locked_cell] cells' :=
  have hok : ∀ ci ∈ [locked_cell], cell_readable s2_ctx ci := fun ci hci => by
    rw [List.mem_singleton] at hci
    subst hci
    exact fun _ => ⟨"LOGIC", by decide, fun _ => ⟨⟨0xFF00, by decide⟩, ⟨0, by decide⟩⟩⟩
  ⟨hok, permute_luts_locked_cells s2_ctx [locked_cell] hok⟩

/-- C8: `permute_luts` only touches logic-mode slice cells. On every design whose
parameters can be read the call returns a design with the cells in the same order, in
which every cell whose type is not TRELLIS_SLICE, or whose MODE parameter is a string
different from "LOGIC", is identical to what it was (same ports, nets and parameters), and
every TRELLIS_SLICE cell without MODE parameter is the result of `proc_lut` on LUT 0
followed by `proc_lut` on LUT 1. -/
theorem permute_luts_only_logic_slices (ctx : Context) (cells : List CellInfo)
    (hok : ∀ ci ∈ cells, cell_readable ctx ci) :
    ∃ cells', permute_luts ctx cells = some cells' ∧
      List.Forall₂
        (fun ci ci' =>
          ((ci.type ≠ id_TRELLIS_SLICE ∨
              ∃ mode, Dict.find ci.params "MODE" = some (Property.str mode) ∧ mode ≠ "LOGIC") →
            ci' = ci) ∧
          (ci.type = id_TRELLIS_SLICE → Dict.find ci.params "MODE" = none →
            ∃ c0, proc_lut ctx ci 0 = some c0 ∧ proc_lut ctx c0 1 = some ci'))
        cells cells' := by
  apply permute_luts_lift ctx _ _ cells hok
  intro ci hr
  by_cases ht : ci.type = id_TRELLIS_SLICE
  · obtain ⟨mode, hmode, h⟩ := hr ht
    by_cases hl : mode = "LOGIC"
    · subst hl
      obtain ⟨old0, old1, h0, h1⟩ := cell_readable_logic ctx ci hr ht hmode
      refine ⟨_, permute_cell_logic ctx ci old0 old1 ht hmode h0 h1, ?_, ?_⟩
      · rintro (hne | ⟨m, hm, hmne⟩)
        · exact absurd ht hne
        · exfalso
          unfold str_or_default at hmode
          rw [hm] at hmode
          exact hmne (Option.some.inj hmode)
      · intro _ _
        exact ⟨_, proc_lut_eq ctx ci 0 old0 h0,
          proc_lut_eq ctx _ 1 old1 ((result_read_cross ctx ci old0).trans h1)⟩
    · refine ⟨ci, permute_cell_other_mode ctx ci mode hmode hl, fun _ => rfl, ?_⟩
      intro _ hnone
      exfalso
      unfold str_or_default at hmode
      rw [hnone] at hmode
      exact hl (Option.some.inj hmode).symm
  · exact ⟨ci, permute_cell_other_type ctx ci ht, fun _ => rfl, fun h => absurd h ht⟩

/-- Witness of C8 on `mixed_cells`: a logic slice without MODE, an IO cell and a slice in
CCU2 mode. -/
theorem permute_luts_only_logic_slices_witness :
    (∀ ci ∈ mixed_cells, cell_readable s2_ctx ci) ∧
    ∃ cells', permute_luts s2_ctx mixed_cells = some cells' ∧
      List.Forall₂
        (fun ci ci' =>
          ((ci.type ≠ id_TRELLIS_SLICE ∨
              ∃ mode, Dict.find ci.params "MODE" = some (Property.str mode) ∧ mode ≠ "LOGIC") →
            ci' = ci) ∧
          (ci.type = id_TRELLIS_SLICE → Dict.find ci.params "MODE" = none →
            ∃ c0, proc_lut s2_ctx ci 0 = some c0 ∧ proc_lut s2_ctx c0 1 = some ci'))
        mixed_cells cells' :=
  ⟨mixed_cells_readable,
    permute_luts_only_logic_slices s2_ctx mixed_cells mixed_cells_readable⟩

/-! ## Slice compatibility -/

theorem ctrl_sig_eq_iff (c d : CellInfo) :
    ctrl_sig c = ctrl_sig d ↔
      c.sliceInfo.clk_sig = d.sliceInfo.clk_sig ∧ c.sliceInfo.lsr_sig = d.sliceInfo.lsr_sig ∧
      c.sliceInfo.clkmux = d.sliceInfo.clkmux ∧ c.sliceInfo.lsrmux = d.sliceInfo.lsrmux ∧
      c.sliceInfo.srmode = d.sliceInfo.srmode := by
  simp [ctrl_sig]

theorem slices_compatible_eq_of_iff (l₁ l₂ : List CellInfo)
    (h : (∀ c ∈ l₁, ∀ d ∈ l₁, c.sliceInfo.using_dff = true → d.sliceInfo.using_dff = true →
        ctrl_sig c = ctrl_sig d) ↔
      (∀ c ∈ l₂, ∀ d ∈ l₂, c.sliceInfo.using_dff = true → d.sliceInfo.using_dff = true →
        ctrl_sig c = ctrl_sig d)) :
    slices_compatible l₁ = slices_compatible l₂ := by
  rw [Bool.eq_iff_iff, slices_compatible_pairwise, slices_compatible_pairwise]
  exact h

theorem slices_compatible_perm (l₁ l₂ : List CellInfo) (h : l₁.Perm l₂) :
    slices_compatible l₁ = slices_compatible l₂ := by
  apply slices_compatible_eq_of_iff
  constructor
  · intro hh c hc d hd
    exact hh c (h.mem_iff.2 hc) d (h.mem_iff.2 hd)
  · intro hh c hc d hd
    exact hh c (h.mem_iff.1 hc) d (h.mem_iff.1 hd)

/-- C9: `slices_compatible(cells)` returns true if and only if every cell of the list with
`using_dff` set has the same clk_sig, lsr_sig, clkmux, lsrmux and srmode as the first cell
of the list with `using_dff` set; the cells with `using_dff` false do not influence the
result (dropping them gives the same answer); and a list without DFF-using cell is
compatible. -/
theorem slices_compatible_iff_first (cells : List CellInfo) :
    (slices_compatible cells = true ↔
      ∀ first, cells.find? (fun c => c.sliceInfo.using_dff) = some first →
        ∀ c ∈ cells, c.sliceInfo.using_dff = true →
          c.sliceInfo.clk_sig = first.sliceInfo.clk_sig ∧
          c.sliceInfo.lsr_sig = first.sliceInfo.lsr_sig ∧
          c.sliceInfo.clkmux = first.sliceInfo.clkmux ∧
          c.sliceInfo.lsrmux = first.sliceInfo.lsrmux ∧
          c.sliceInfo.srmode = first.sliceInfo.srmode) ∧
    slices_compatible cells =
      slices_compatible (cells.filter (fun c => c.sliceInfo.using_dff)) ∧
    ((∀ c ∈ cells, c.sliceInfo.using_dff = false) → slices_compatible cells = true) := by
  refine ⟨?_, ?_, ?_⟩
  · rw [slices_compatible_pairwise]
    constructor
    · intro h first hfirst c hc hcd
      rw [← ctrl_sig_eq_iff]
      have hfd := List.find?_some hfirst
      exact h c hc first (List.mem_of_find?_eq_some hfirst) hcd hfd
    · intro h c hc d hd hcd hdd
      cases hf : cells.find? (fun c => c.sliceInfo.using_dff) with
      | none =>
        have := List.find?_eq_none.1 hf c hc
        exact absurd hcd this
      | some first =>
        have e1 := (ctrl_sig_eq_iff c first).2 (h first hf c hc hcd)
        have e2 := (ctrl_sig_eq_iff d first).2 (h first hf d hd hdd)
        rw [e1, e2]
  · apply slices_compatible_eq_of_iff
    constructor
    · intro hh c hc d hd
      exact hh c (List.mem_filter.1 hc).1 d (List.mem_filter.1 hd).1
    · intro hh c hc d hd hcd hdd
      exact hh c (List.mem_filter.2 ⟨hc, hcd⟩) d (List.mem_filter.2 ⟨hd, hdd⟩) hcd hdd
  · intro h
    rw [slices_compatible_pairwise]
    intro c hc d _ hcd
    rw [h c hc] at hcd
    exact absurd hcd (by decide)

/-- C10: slice compatibility does not depend on the order of the cells. For every list of
cells and every permutation of it `slices_compatible` returns the same result, and
`isBelLocationValid` on a bel returns the same result when the bels returned for its tile
are reordered. -/
theorem slices_compatible_order_independent (arch : Arch) (bel : BelId) (bels : List BelId)
    (cells cells' : List CellInfo) (hc : cells.Perm cells')
    (hb : bels.Perm
      (arch.getBelsByTile (arch.getBelLocation bel).x (arch.getBelLocation bel).y)) :
    slices_compatible cells = slices_compatible cells' ∧
    isBelLocationValid
        { arch with
          getBelsByTile := fun x y =>
            if x = (arch.getBelLocation bel).x ∧ y = (arch.getBelLocation bel).y then bels
            else arch.getBelsByTile x y }
        bel =
      isBelLocationValid arch bel := by
  refine ⟨slices_compatible_perm _ _ hc, ?_⟩
  unfold isBelLocationValid bel_cells_of
  simp only [and_self, if_true]
  rw [slices_compatible_perm _ _ (List.Perm.filterMap arch.getBoundBelCell hb)]

/-- Witness of C10: the DFF cells of scenario S5 in both orders, and the bels of tile
(0, 0) of `s5_arch` listed backwards. -/
theorem slices_compatible_order_independent_witness :
    ([ff0, lut_only, ff1].Perm [ff1, ff0, lut_only] ∧
      [slice_bel 3, slice_bel 2, slice_bel 1, slice_bel 0].Perm
        (s5_arch.getBelsByTile (s5_arch.getBelLocation (slice_bel 0)).x
          (s5_arch.getBelLocation (slice_bel 0)).y)) ∧
    (slices_compatible [ff0, lut_only, ff1] = slices_compatible [ff1, ff0, lut_only] ∧
      isBelLocationValid
          { s5_arch with
            getBelsByTile := fun x y =>
              if x = (s5_arch.getBelLocation (slice_bel 0)).x ∧
                  y = (s5_arch.getBelLocation (slice_bel 0)).y then
                [slice_bel 3, slice_bel 2, slice_bel 1, slice_bel 0]
              else s5_arch.getBelsByTile x y }
          (slice_bel 0) =
        isBelLocationValid s5_arch (slice_bel 0)) :=
  have h1 : [ff0, lut_only, ff1].Perm [ff1, ff0, lut_only] := by decide
  have h2 : [slice_bel 3, slice_bel 2, slice_bel 1, slice_bel 0].Perm
      (s5_arch.getBelsByTile (s5_arch.getBelLocation (slice_bel 0)).x
        (s5_arch.getBelLocation (slice_bel 0)).y) := by decide
  ⟨⟨h1, h2⟩, slices_compatible_order_independent s5_arch (slice_bel 0) _ _ _ h1 h2⟩

/-! ## Idempotence of `permute_luts` -/

theorem forall₂_second_pass (ctx1 ctx2 : Context) (crit : NetId → ℚ)
    (cells cells1 : List CellInfo)
    (hF : List.Forall₂
      (fun ci ci' => crit_follows_nets ctx1 crit ci →
        ∀ ctx, crit_follows_nets ctx crit ci' → permute_cell ctx ci' = some ci')
      cells cells1)
    (h1 : ∀ ci ∈ cells, crit_follows_nets ctx1 crit ci)
    (h2 : ∀ ci ∈ cells1, crit_follows_nets ctx2 crit ci) :
    List.Forall₂ (fun _ ci' => permute_cell ctx2 ci' = some ci') cells cells1 := by
  induction hF with
  | nil => exact List.Forall₂.nil
  | cons hc _ ih =>
    exact List.Forall₂.cons
      (hc (h1 _ (List.mem_cons_self _ _)) ctx2 (h2 _ (List.mem_cons_self _ _)))
      (ih (fun x hx => h1 x (List.mem_cons_of_mem _ hx))
        (fun x hx => h2 x (List.mem_cons_of_mem _ hx)))

/-- C4: `permute_luts` is idempotent when criticalities are unchanged. Let every net keep
one criticality `crit`, reported by the timing analyser on each connected port in the first
run (`ctx1`) and in the second (`ctx2`). On every design whose parameters can be read the
first call returns a design `cells1`, and the second call, run on `cells1`, returns
`cells1` itself: every cell keeps its pin-to-net assignment and all its parameters (MUX
parameters and LUTn_INITVAL included). -/
theorem permute_luts_idempotent (ctx1 : Context) (crit : NetId → ℚ) (cells : List CellInfo)
    (hok : ∀ ci ∈ cells, cell_readable ctx1 ci)
    (h1 : ∀ ci ∈ cells, crit_follows_nets ctx1 crit ci) :
    ∃ cells1, permute_luts ctx1 cells = some cells1 ∧
      ∀ ctx2, (∀ ci ∈ cells1, crit_follows_nets ctx2 crit ci) →
        permute_luts ctx2 cells1 = some cells1 := by
  obtain ⟨cells1, hrun, hF⟩ := permute_luts_lift ctx1
    (fun ci ci' => crit_follows_nets ctx1 crit ci →
      ∀ ctx, crit_follows_nets ctx crit ci' → permute_cell ctx ci' = some ci')
    (fun ci hr => permute_cell_twice ctx1 crit ci hr) cells hok
  exact ⟨cells1, hrun, fun ctx2 h2 =>
    permute_luts_of_forall₂ ctx2 cells cells1
      (forall₂_second_pass ctx1 ctx2 crit cells cells1 hF h1 h2)⟩

/-- Witness of C4 on the design `mixed_cells`, with the net criticalities of scenario S2. -/
theorem permute_luts_idempotent_witness :
    ((∀ ci ∈ mixed_cells, cell_readable s2_ctx ci) ∧
      (∀ ci ∈ mixed_cells, crit_follows_nets s2_ctx s2_net_crit ci)) ∧
    ∃ cells1, permute_luts s2_ctx mixed_cells = some cells1 ∧
      ∀ ctx2, (∀ ci ∈ cells1, crit_follows_nets ctx2 s2_net_crit ci) →
        permute_luts ctx2 cells1 = some cells1 :=
  ⟨⟨mixed_cells_readable, mixed_cells_follow⟩,
    permute_luts_idempotent s2_ctx s2_net_crit mixed_cells mixed_cells_readable
      mixed_cells_follow⟩

/-! ## The ECP5 location validator -/

theorem slices_compatible_false_of_clk (cells : List CellInfo) (c0 c1 : CellInfo)
    (h0 : c0 ∈ cells) (h1 : c1 ∈ cells) (hd0 : c0.sliceInfo.using_dff = true)
    (hd1 : c1.sliceInfo.using_dff = true)
    (hclk : c0.sliceInfo.clk_sig ≠ c1.sliceInfo.clk_sig) :
    slices_compatible cells = false := by
  rw [← Bool.not_eq_true]
  intro h
  have := (slices_compatible_pairwise cells).1 h c0 h0 c1 h1 hd0 hd1
  exact hclk ((ctrl_sig_eq_iff c0 c1).1 this).1

theorem slices_compatible_of_single (cells : List CellInfo) (c : CellInfo)
    (h : ∀ c' ∈ cells, c' = c) : slices_compatible cells = true := by
  rw [slices_compatible_pairwise]
  intro a ha b hb _ _
  rw [h a ha, h b hb]

/-- C11 (scenario S5 generalised): in every binding state in which two cells that both use
a DFF and have different clk_sig are bound to two bels of tile (x, y), `isBelLocationValid`
returns false for every TRELLIS_SLICE bel located in that tile, in particular for the two
bels themselves when they are slice bels of the tile. -/
theorem slice_clk_conflict_invalid (arch : Arch) (x y : Int) (b0 b1 : BelId)
    (c0 c1 : CellInfo)
    (h0 : b0 ∈ arch.getBelsByTile x y) (h1 : b1 ∈ arch.getBelsByTile x y)
    (hb0 : arch.getBoundBelCell b0 = some c0) (hb1 : arch.getBoundBelCell b1 = some c1)
    (hd0 : c0.sliceInfo.using_dff = true) (hd1 : c1.sliceInfo.using_dff = true)
    (hclk : c0.sliceInfo.clk_sig ≠ c1.sliceInfo.clk_sig) :
    ∀ bel, arch.getBelType bel = id_TRELLIS_SLICE →
      (arch.getBelLocation bel).x = x → (arch.getBelLocation bel).y = y →
      isBelLocationValid arch bel = false := by
  intro bel ht hx hy
  have hc : slices_compatible (bel_cells_of arch (arch.getBelsByTile x y)) = false := by
    apply slices_compatible_false_of_clk _ c0 c1 _ _ hd0 hd1 hclk
    · exact List.mem_filterMap.2 ⟨b0, h0, hb0⟩
    · exact List.mem_filterMap.2 ⟨b1, h1, hb1⟩
  unfold isBelLocationValid
  rw [if_pos ht]
  simp only [hx, hy, hc]
  split_ifs <;> rfl

/-- Witness of C11 on scenario S5: `ff0` and `ff1` sit on the slice bels 0 and 2 of tile
(0, 0) of `s5_arch`. -/
theorem slice_clk_conflict_invalid_witness :
    (slice_bel 0 ∈ s5_arch.getBelsByTile 0 0 ∧ slice_bel 2 ∈ s5_arch.getBelsByTile 0 0 ∧
      s5_arch.getBoundBelCell (slice_bel 0) = some ff0 ∧
      s5_arch.getBoundBelCell (slice_bel 2) = some ff1 ∧
      ff0.sliceInfo.using_dff = true ∧ ff1.sliceInfo.using_dff = true ∧
      ff0.sliceInfo.clk_sig ≠ ff1.sliceInfo.clk_sig) ∧
    ∀ bel, s5_arch.getBelType bel = id_TRELLIS_SLICE →
      (s5_arch.getBelLocation bel).x = 0 → (s5_arch.getBelLocation bel).y = 0 →
      isBelLocationValid s5_arch bel = false :=
  ⟨by decide,
    slice_clk_conflict_invalid s5_arch 0 0 (slice_bel 0) (slice_bel 2) ff0 ff1 (by decide)
      (by decide) (by decide) (by decide) (by decide) (by decide) (by decide)⟩

/-- C12 (L6MUX rule, scenario S6): a TRELLIS_SLICE bel whose location has odd z (z ≥ 0) and
whose bound cell has `has_l6mux` set is not valid; and when the same cell is the only cell
bound in the tile of a TRELLIS_SLICE bel with even z on which it sits, that bel is valid. -/
theorem l6mux_rule (arch_odd arch_even : Arch) (bel_odd bel_even : BelId) (cell : CellInfo)
    (hl : cell.sliceInfo.has_l6mux = true)
    (ht : arch_odd.getBelType bel_odd = id_TRELLIS_SLICE)
    (hb : arch_odd.getBoundBelCell bel_odd = some cell)
    (hz : 0 ≤ (arch_odd.getBelLocation bel_odd).z)
    (hodd : (arch_odd.getBelLocation bel_odd).z % 2 = 1)
    (ht' : arch_even.getBelType bel_even = id_TRELLIS_SLICE)
    (hb' : arch_even.getBoundBelCell bel_even = some cell)
    (heven : (arch_even.getBelLocation bel_even).z % 2 = 0)
    (honly : ∀ b ∈ arch_even.getBelsByTile (arch_even.getBelLocation bel_even).x
        (arch_even.getBelLocation bel_even).y,
      ∀ c, arch_even.getBoundBelCell b = some c → c = cell) :
    isBelLocationValid arch_odd bel_odd = false ∧
    isBelLocationValid arch_even bel_even = true := by
  constructor
  · have hm : Int.tmod (arch_odd.getBelLocation bel_odd).z 2 = 1 := by
      rw [Int.tmod_eq_emod hz (by decide)]
      exact hodd
    unfold isBelLocationValid
    rw [if_pos ht, hb]
    simp [hl, hm]
  · have hm : Int.tmod (arch_even.getBelLocation bel_even).z 2 ≠ 1 := by
      intro h
      have h2 := Int.emod_emod_of_dvd (arch_even.getBelLocation bel_even).z
        (dvd_refl (2 : Int))
      have h3 : (arch_even.getBelLocation bel_even).z =
          2 * ((arch_even.getBelLocation bel_even).z / 2) := by
        have := Int.emod_add_ediv (arch_even.getBelLocation bel_even).z 2
        omega
      rw [h3, Int.mul_tmod_right] at h
      exact absurd h (by decide)
    have hc : slices_compatible (bel_cells_of arch_even
        (arch_even.getBelsByTile (arch_even.getBelLocation bel_even).x
          (arch_even.getBelLocation bel_even).y)) = true := by
      apply slices_compatible_of_single _ cell
      intro c hcm
      obtain ⟨b, hbm, hbc⟩ := List.mem_filterMap.1 hcm
      exact honly b hbm c hbc
    unfold isBelLocationValid
    rw [if_pos ht', hb']
    simp [hm, hc]

/-- Witness of C12 on scenario S6: `l6_cell` alone in tile (0, 0), on slice bel 1 and then
on slice bel 0. -/
theorem l6mux_rule_witness :
    (l6_cell.sliceInfo.has_l6mux = true ∧
      (l6_arch 1).getBelType (slice_bel 1) = id_TRELLIS_SLICE ∧
      (l6_arch 1).getBoundBelCell (slice_bel 1) = some l6_cell ∧
      0 ≤ ((l6_arch 1).getBelLocation (slice_bel 1)).z ∧
      ((l6_arch 1).getBelLocation (slice_bel 1)).z % 2 = 1 ∧
      (l6_arch 0).getBelType (slice_bel 0) = id_TRELLIS_SLICE ∧
      (l6_arch 0).getBoundBelCell (slice_bel 0) = some l6_cell ∧
      ((l6_arch 0).getBelLocation (slice_bel 0)).z % 2 = 0) ∧
    isBelLocationValid (l6_arch 1) (slice_bel 1) = false ∧
    isBelLocationValid (l6_arch 0) (slice_bel 0) = true :=
  ⟨by decide,
    l6mux_rule (l6_arch 1) (l6_arch 0) (slice_bel 1) (slice_bel 0) l6_cell (by decide)
      (by decide) (by decide) (by decide) (by decide) (by decide) (by decide) (by decide)
      (by
        intro b hb c hc
        simp only [l6_arch] at hc
        split_ifs at hc
        exact (Option.some.inj hc).symm)⟩

/-- C13 (family exclusion): for every bel whose type is not TRELLIS_SLICE,
`isBelLocationValid` returns false if and only if the bel is bound to a cell of type DCUA,
EXTREFB or PCSCLKDIV and the device type is LFE5U_25F, LFE5U_45F or LFE5U_85F; an unbound
bel of such a type is valid. -/
theorem family_exclusion (arch : Arch) (bel : BelId)
    (ht : arch.getBelType bel ≠ id_TRELLIS_SLICE) :
    (isBelLocationValid arch bel = false ↔
      ∃ cell, arch.getBoundBelCell bel = some cell ∧
        (cell.type = id_DCUA ∨ cell.type = id_EXTREFB ∨ cell.type = id_PCSCLKDIV) ∧
        (arch.args_type = ArchArgsTypes.LFE5U_25F ∨ arch.args_type = ArchArgsTypes.LFE5U_45F ∨
          arch.args_type = ArchArgsTypes.LFE5U_85F)) ∧
    (arch.getBoundBelCell bel = none → isBelLocationValid arch bel = true) := by
  unfold isBelLocationValid
  rw [if_neg ht]
  cases hb : arch.getBoundBelCell bel with
  | none => simp
  | some cell =>
    by_cases hc : cell.type = id_DCUA ∨ cell.type = id_EXTREFB ∨ cell.type = id_PCSCLKDIV
    · simp only [hc, if_true, Option.some.injEq, exists_eq_left', true_and, reduceCtorEq,
        false_implies, and_true, decide_eq_false_iff_not]
      cases arch.args_type <;> simp
    · simp [hc]

/-- Witness of C13: the DCU bel of `dcu_arch`, an LFE5U-25F device. -/
theorem family_exclusion_witness :
    dcu_arch.getBelType dcu_bel ≠ id_TRELLIS_SLICE ∧
    ((isBelLocationValid dcu_arch dcu_bel = false ↔
      ∃ cell, dcu_arch.getBoundBelCell dcu_bel = some cell ∧
        (cell.type = id_DCUA ∨ cell.type = id_EXTREFB ∨ cell.type = id_PCSCLKDIV) ∧
        (dcu_arch.args_type = ArchArgsTypes.LFE5U_25F ∨
          dcu_arch.args_type = ArchArgsTypes.LFE5U_45F ∨
          dcu_arch.args_type = ArchArgsTypes.LFE5U_85F)) ∧
    (dcu_arch.getBoundBelCell dcu_bel = none → isBelLocationValid dcu_arch dcu_bel = true)) :=
  ⟨by decide, family_exclusion dcu_arch dcu_bel (by decide)⟩

theorem slices_compatible_of_sliceInfo (l₁ l₂ : List CellInfo)
    (h : l₁.map (fun c => c.sliceInfo) = l₂.map (fun c => c.sliceInfo)) :
    slices_compatible l₁ = slices_compatible l₂ := by
  have key : ∀ l : List CellInfo,
      (∀ c ∈ l, ∀ d ∈ l, c.sliceInfo.using_dff = true → d.sliceInfo.using_dff = true →
        ctrl_sig c = ctrl_sig d) ↔
      ∀ s ∈ l.map (fun c => c.sliceInfo), ∀ t ∈ l.map (fun c => c.sliceInfo),
        s.using_dff = true → t.using_dff = true →
        (s.clk_sig, s.lsr_sig, s.clkmux, s.lsrmux, s.srmode) =
          (t.clk_sig, t.lsr_sig, t.clkmux, t.lsrmux, t.srmode) := by
    intro l
    constructor
    · intro hh s hs t ht
      obtain ⟨c, hc, rfl⟩ := List.mem_map.1 hs
      obtain ⟨d, hd, rfl⟩ := List.mem_map.1 ht
      exact hh c hc d hd
    · intro hh c hc d hd
      exact hh _ (List.mem_map_of_mem _ hc) _ (List.mem_map_of_mem _ hd)
  apply slices_compatible_eq_of_iff
  rw [key l₁, key l₂, h]

theorem bel_cells_sliceInfo (g : BelId → Option CellInfo) (r : BelId → Option Region)
    (bels : List BelId) :
    (bels.filterMap fun b => (g b).map fun c => { c with region := r b }).map
        (fun c => c.sliceInfo) =
      (bels.filterMap g).map (fun c => c.sliceInfo) := by
  induction bels with
  | nil => rfl
  | cons b t ih =>
    cases hb : g b with
    | none => simp [List.filterMap_cons, hb, ih]
    | some c => simp [List.filterMap_cons, hb, ih]

/-- C14, as stated, fails: in `region_arch` the IO bel `dcu_bel` is bound to `io_cell` and
the slice bel 0 to a slice cell, both constrained to a region that constrains bels and
contains no bel, so `testRegion` rejects the bels; yet `isBelLocationValid` returns true
for both bels. -/
theorem region_not_enforced :
    region_arch.getBoundBelCell dcu_bel = some io_cell ∧
    (io_cell.region.map fun r => (r.constr_bels, r.bels.contains dcu_bel)) =
      some (true, false) ∧
    io_cell.testRegion dcu_bel = false ∧
    isBelLocationValid region_arch dcu_bel = true ∧
    ((region_arch.getBoundBelCell (slice_bel 0)).map fun c => c.testRegion (slice_bel 0)) =
      some false ∧
    isBelLocationValid region_arch (slice_bel 0) = true := by
  decide

/-- C14, amended: region compliance is what `testRegion` reports, not the location
validator. For every cell whose region constrains bels and does not contain a bel,
`testRegion` of that bel is false; and `isBelLocationValid` does not consult regions: it
returns the same value whatever regions the bound cells have. -/
theorem region_not_consulted (arch : Arch) (bel : BelId) (regions : BelId → Option Region) :
    (∀ (cell : CellInfo) (region : Region), cell.region = some region →
      region.constr_bels = true → bel ∉ region.bels → cell.testRegion bel = false) ∧
    isBelLocationValid
        { arch with
          getBoundBelCell := fun b =>
            (arch.getBoundBelCell b).map fun c => { c with region := regions b } }
        bel =
      isBelLocationValid arch bel := by
  constructor
  · intro cell region hr hc hb
    unfold CellInfo.testRegion
    rw [hr]
    simp [hc, hb]
  · unfold isBelLocationValid bel_cells_of
    simp only
    rw [slices_compatible_of_sliceInfo _ _
      (bel_cells_sliceInfo arch.getBoundBelCell regions _)]
    cases arch.getBoundBelCell bel <;> rfl

/-! ## Cluster placement and offsets (fpga_interchange) -/

theorem first_valid_bel_valid (arch : InterchangeArch) (cell_type : IdString)
    (bels : List BelId) (bel : BelId) (h : first_valid_bel arch cell_type bels = some bel) :
    arch.isValidBelForCellType cell_type bel = true := by
  unfold first_valid_bel at h
  have hv := List.find?_some h
  simpa using hv

theorem place_on_bel_pins_valid (arch : InterchangeArch) (fuel : Nat) (out : Bool)
    (next_bel : BelId) (direction : ExpansionDirection) (cell : CellRef) (bel : BelId) :
    ∀ bel_pins : List IdString,
      place_on_bel_pins arch fuel out next_bel direction cell bel_pins = some (some bel) →
      valid_assignment arch (cell, bel) = true := by
  intro bel_pins
  induction bel_pins with
  | nil => intro h; simp [place_on_bel_pins] at h
  | cons bel_pin rest ih =>
    intro h
    unfold place_on_bel_pins at h
    split at h
    · exact absurd h (by simp)
    · split_ifs at h with h0
      · exact ih h
      · split at h
        · exact absurd h (by simp)
        · rename_i ci hci
          split at h
          · rename_i b hb
            simp only [Option.some.injEq] at h
            subst h
            simp [valid_assignment, hci, first_valid_bel_valid arch ci.type _ b hb]
          · exact ih h

theorem place_port_cells_appends (arch : InterchangeArch) (fuel : Nat) (cluster_data : ClusterPOD)
    (cluster_node : CellInfo) (next_bel : BelId) (cell_bel_pins : Dict (List IdString)) :
    ∀ (port_cells : List (IdString × CellRef)) (placement : Placement) (ok : Bool)
      (placement' : Placement),
      place_port_cells arch fuel cluster_data cluster_node next_bel cell_bel_pins port_cells
        placement = some (ok, placement') →
      ∃ appended, placement' = placement ++ appended ∧
        ∀ p ∈ appended, valid_assignment arch p = true := by
  intro port_cells
  induction port_cells with
  | nil =>
    intro placement ok placement' h
    simp only [place_port_cells, Option.some.injEq, Prod.mk.injEq] at h
    exact ⟨[], by simp [h.2], by simp⟩
  | cons port_cell rest ih =>
    intro placement ok placement' h
    unfold place_port_cells at h
    split_ifs at h with h0
    split at h
    · exact absurd h (by simp)
    · split_ifs at h with h1 h2
      · exact ih _ _ _ h
      all_goals
        split at h
        · exact absurd h (by simp)
        · split at h
          · exact absurd h (by simp)
          · rename_i bel hbel
            obtain ⟨appended, happ, hvalid⟩ := ih _ _ _ h
            refine ⟨(port_cell.2, bel) :: appended, by simp [happ], ?_⟩
            intro p hp
            rcases List.mem_cons.mp hp with hp | hp
            · subst hp
              exact place_on_bel_pins_valid arch fuel _ _ _ _ _ _ hbel
            · exact hvalid p hp
          · simp only [Option.some.injEq, Prod.mk.injEq] at h
            exact ⟨[], by simp [h.2], by simp⟩

theorem next_chain_bel_valid (arch : InterchangeArch) (fuel : Nat) (cluster_data : ClusterPOD)
    (cluster_node : CellRef) (prev_bel next_bel : BelId)
    (h : next_chain_bel arch fuel cluster_data cluster_node prev_bel = some next_bel)
    (hne : next_bel ≠ {}) : valid_assignment arch (cluster_node, next_bel) = true := by
  unfold next_chain_bel at h
  split at h
  · exact absurd h (by simp)
  · split at h
    · exact absurd h (by simp)
    · split_ifs at h with h0
      · simp only [Option.some.injEq] at h
        exact absurd h.symm hne
      · split at h
        · exact absurd h (by simp)
        · rename_i node hnode
          simp only [Option.some.injEq] at h
          cases hf : first_valid_bel arch node.type _ with
          | none =>
            rw [hf] at h
            exact absurd h.symm hne
          | some b =>
            rw [hf] at h
            simp only [Option.getD_some] at h
            subst h
            simp [valid_assignment, hnode, first_valid_bel_valid arch node.type _ b hf]

theorem place_cluster_nodes_appends (arch : InterchangeArch) (fuel : Nat)
    (packed_cluster : Cluster) (cluster_data : ClusterPOD) (root_cell : CellRef)
    (root_bel : BelId) (hroot : valid_assignment arch (root_cell, root_bel) = true) :
    ∀ (nodes : List CellRef) (next_bel : BelId) (placement : Placement) (ok : Bool)
      (placement' : Placement),
      place_cluster_nodes arch fuel packed_cluster cluster_data root_cell root_bel nodes
        next_bel placement = some (ok, placement') →
      ∃ appended, placement' = placement ++ appended ∧
        (∀ p ∈ appended, valid_assignment arch p = true) ∧
        (ok = true → root_cell ∈ nodes → (root_cell, root_bel) ∈ appended) := by
  intro nodes
  induction nodes with
  | nil =>
    intro next_bel placement ok placement' h
    simp only [place_cluster_nodes, Option.some.injEq, Prod.mk.injEq] at h
    exact ⟨[], by simp [h.2], by simp, by simp⟩
  | cons cluster_node rest ih =>
    intro next_bel placement ok placement' h
    unfold place_cluster_nodes at h
    split at h
    · exact absurd h (by simp)
    · rename_i nb hnb
      split_ifs at h with h0
      · simp only [Option.some.injEq, Prod.mk.injEq] at h
        exact ⟨[], by simp [h.2], by simp, by simp [← h.1]⟩
      · have hnode_valid : valid_assignment arch (cluster_node, nb) = true := by
          by_cases hc : cluster_node = root_cell
          · rw [if_pos hc] at hnb
            simp only [Option.some.injEq] at hnb
            rw [hc, ← hnb]
            exact hroot
          · rw [if_neg hc] at hnb
            have hne : nb ≠ {} := fun hn => h0 ⟨hc, hn⟩
            exact next_chain_bel_valid arch fuel cluster_data cluster_node next_bel nb hnb hne
        have hroot_here : cluster_node = root_cell → nb = root_bel := by
          intro hc
          rw [if_pos hc] at hnb
          simpa using hnb.symm
        split at h
        · exact absurd h (by simp)
        · split at h
          · exact absurd h (by simp)
          · split at h
            · exact absurd h (by simp)
            · split at h
              · exact absurd h (by simp)
              · rename_i p1 hp1
                simp only [Option.some.injEq, Prod.mk.injEq] at h
                obtain ⟨app1, happ1, hv1⟩ := place_port_cells_appends arch fuel cluster_data _ _ _
                  _ _ _ _ hp1
                refine ⟨(cluster_node, nb) :: app1, ?_, ?_, ?_⟩
                · rw [← h.2, happ1]; simp
                · intro p hp
                  rcases List.mem_cons.mp hp with hp | hp
                  · subst hp; exact hnode_valid
                  · exact hv1 p hp
                · intro hok
                  rw [← h.1] at hok
                  exact absurd hok (by simp)
              · rename_i p1 hp1
                obtain ⟨app1, happ1, hv1⟩ := place_port_cells_appends arch fuel cluster_data _ _ _
                  _ _ _ _ hp1
                obtain ⟨app2, happ2, hv2, hr2⟩ := ih _ _ _ _ h
                refine ⟨(cluster_node, nb) :: (app1 ++ app2), ?_, ?_, ?_⟩
                · rw [happ2, happ1]; simp
                · intro p hp
                  rcases List.mem_cons.mp hp with hp | hp
                  · subst hp; exact hnode_valid
                  · rcases List.mem_append.mp hp with hp | hp
                    · exact hv1 p hp
                    · exact hv2 p hp
                · intro hok hmem
                  rcases List.mem_cons.mp hmem with hm | hm
                  · rw [← hroot_here hm.symm, hm]
                    exact List.mem_cons_self _ _
                  · exact List.mem_cons_of_mem _
                      (List.mem_append.mpr (Or.inr (hr2 hok hm)))

/-- What `getClusterPlacement` leaves in `placement`, whatever it returns: the vector of the
caller followed by assignments that are all valid, the root assignment among them when the
call succeeds and the root is one of the cluster nodes. -/
theorem getClusterPlacement_appends (arch : InterchangeArch) (fuel : Nat) (cluster : ClusterId)
    (root_bel : BelId) (placement : Placement) (ok : Bool) (placement' : Placement)
    (h : getClusterPlacement arch fuel cluster root_bel placement = some (ok, placement')) :
    ∃ appended, placement' = placement ++ appended ∧
      (∀ p ∈ appended, valid_assignment arch p = true) ∧
      (ok = true → ∀ packed, Dict.find arch.clusters cluster = some packed →
        packed.root ∈ packed.cluster_nodes → (packed.root, root_bel) ∈ appended) := by
  unfold getClusterPlacement at h
  split at h
  · exact absurd h (by simp)
  · rename_i packed_cluster hpacked
    split at h
    · exact absurd h (by simp)
    · split at h
      · exact absurd h (by simp)
      · rename_i root_cell hroot_cell
        have hrc : root_cell = packed_cluster.root := by
          unfold getClusterRootCell at hroot_cell
          split_ifs at hroot_cell
          rw [hpacked] at hroot_cell
          simpa using hroot_cell.symm
        split at h
        · exact absurd h (by simp)
        · rename_i root hroot
          split_ifs at h with hv
          swap
          · simp only [Option.some.injEq, Prod.mk.injEq] at h
            refine ⟨[], by simp [h.2], by simp, ?_⟩
            intro hok
            rw [← h.1] at hok
            exact absurd hok (by simp)
          · have hvalid : valid_assignment arch (root_cell, root_bel) = true := by
              simp only [valid_assignment, hroot]
              exact hv
            obtain ⟨appended, happ, hval, hr⟩ :=
              place_cluster_nodes_appends arch fuel packed_cluster _ root_cell root_bel hvalid
                _ _ _ _ _ h
            refine ⟨appended, happ, hval, ?_⟩
            intro hok packed hp hmem
            rw [hpacked] at hp
            simp only [Option.some.injEq] at hp
            subst hp
            rw [← hrc]
            exact hr hok (hrc ▸ hmem)

/-- C15: `getClusterPlacement` rejects an unsuitable root. For every registered cluster and
every `root_bel` for which `isValidBelForCellType(root.type, root_bel)` is false, the call
returns false, whatever the fuel of the walk, and the placement vector is exactly what it
was before the call. -/
theorem getClusterPlacement_rejects_root (arch : InterchangeArch) (fuel : Nat)
    (cluster : ClusterId) (root_bel : BelId) (placement : Placement) (packed : Cluster)
    (cluster_data : ClusterPOD) (root : CellInfo)
    (hne : cluster ≠ "")
    (hc : Dict.find arch.clusters cluster = some packed)
    (hd : arch.chip_clusters[packed.index]? = some cluster_data)
    (hr : Dict.find arch.cells packed.root = some root)
    (hv : arch.isValidBelForCellType root.type root_bel = false) :
    getClusterPlacement arch fuel cluster root_bel placement = some (false, placement) := by
  simp [getClusterPlacement, getClusterRootCell, hne, hc, hd, hr, hv]

theorem getClusterPlacement_rejects_root_witness :
    getClusterPlacement col_arch 0 "c0" (ff_bel 0) [("c1", carry_bel 1)]
      = some (false, [("c1", carry_bel 1)]) :=
  getClusterPlacement_rejects_root col_arch 0 "c0" (ff_bel 0) [("c1", carry_bel 1)]
    col_cluster col_cluster_pod
    { name := "c0", type := "CARRY4", cluster := "c0",
      ports := [("O", { name := "O", net := some 1, type := PortType.PORT_OUT }),
                ("CO", { name := "CO", net := some 2, type := PortType.PORT_OUT }),
                ("CI", { name := "CI", net := none, type := PortType.PORT_IN })] }
    (by decide) (by decide) (by decide) (by decide) (by decide)

/-- C16, counterexample: the cluster of `col_arch` rooted on the carry bel of the last tile
of the column. The root and its flip-flop are placed, no bel is found for the chained node
`c1`, the call returns false and the two assignments stay in `placement`. -/
theorem failed_placement_not_atomic :
    getClusterPlacement col_arch 10 "c0" (carry_bel 1) []
      = some (false, [("c0", carry_bel 1), ("ff", ff_bel 1)]) := by
  decide

/-- C16, amended: when `getClusterPlacement` returns false, the placement vector of the
caller is kept at the front of the vector after the call, and what follows it are the
assignments made before the failure, each of a cell to a bel valid for its type. -/
theorem getClusterPlacement_failure_keeps_placement (arch : InterchangeArch) (fuel : Nat)
    (cluster : ClusterId) (root_bel : BelId) (placement placement' : Placement)
    (h : getClusterPlacement arch fuel cluster root_bel placement = some (false, placement')) :
    ∃ appended, placement' = placement ++ appended ∧
      ∀ p ∈ appended, ∃ cell, Dict.find arch.cells p.1 = some cell ∧
        arch.isValidBelForCellType cell.type p.2 = true := by
  obtain ⟨appended, happ, hval, _⟩ := getClusterPlacement_appends arch fuel cluster root_bel
    placement false placement' h
  refine ⟨appended, happ, ?_⟩
  intro p hp
  have hv := hval p hp
  unfold valid_assignment at hv
  split at hv
  · exact absurd hv (by simp)
  · rename_i cell hcell
    exact ⟨cell, hcell, hv⟩

theorem getClusterPlacement_failure_keeps_placement_witness :
    ∃ appended, [("x", ff_bel 7), ("c0", carry_bel 1), ("ff", ff_bel 1)]
        = [("x", ff_bel 7)] ++ appended ∧
      ∀ p ∈ appended, ∃ cell, Dict.find col_arch.cells p.1 = some cell ∧
        col_arch.isValidBelForCellType cell.type p.2 = true :=
  getClusterPlacement_failure_keeps_placement col_arch 10 "c0" (carry_bel 1) [("x", ff_bel 7)]
    [("x", ff_bel 7), ("c0", carry_bel 1), ("ff", ff_bel 1)] (by decide)

/-- C17: if `getClusterPlacement(cluster, root_bel, placement)` returns true, then every pair
`(cell, bel)` it appended to `placement` satisfies `isValidBelForCellType(cell.type, bel)`,
and the pair `(root cell, root_bel)` is among them (the root being one of the cluster nodes,
as the packer builds every cluster). -/
theorem getClusterPlacement_success_valid (arch : InterchangeArch) (fuel : Nat)
    (cluster : ClusterId) (root_bel : BelId) (placement placement' : Placement)
    (packed : Cluster)
    (hc : Dict.find arch.clusters cluster = some packed)
    (hroot : packed.root ∈ packed.cluster_nodes)
    (h : getClusterPlacement arch fuel cluster root_bel placement = some (true, placement')) :
    ∃ appended, placement' = placement ++ appended ∧
      (∀ p ∈ appended, ∃ cell, Dict.find arch.cells p.1 = some cell ∧
        arch.isValidBelForCellType cell.type p.2 = true) ∧
      (packed.root, root_bel) ∈ appended := by
  obtain ⟨appended, happ, hval, hr⟩ := getClusterPlacement_appends arch fuel cluster root_bel
    placement true placement' h
  refine ⟨appended, happ, ?_, hr rfl packed hc hroot⟩
  intro p hp
  have hv := hval p hp
  unfold valid_assignment at hv
  split at hv
  · exact absurd hv (by simp)
  · rename_i cell hcell
    exact ⟨cell, hcell, hv⟩

theorem getClusterPlacement_success_valid_witness :
    ∃ appended, [("c0", carry_bel 0), ("ff", ff_bel 0), ("c1", carry_bel 1)] = [] ++ appended ∧
      (∀ p ∈ appended, ∃ cell, Dict.find col_arch.cells p.1 = some cell ∧
        col_arch.isValidBelForCellType cell.type p.2 = true) ∧
      (col_cluster.root, carry_bel 0) ∈ appended :=
  getClusterPlacement_success_valid col_arch 10 "c0" (carry_bel 0) []
    [("c0", carry_bel 0), ("ff", ff_bel 0), ("c1", carry_bel 1)] col_cluster
    (by decide) (by decide) (by decide)

/-! ## `getClusterOffset` after binding a cluster placement -/

theorem twin_sum_packed_eq :
    prepare_cluster 10 ccu2c_pod 0 (twin_sum, []) = some twin_sum_packed := by
  have hsome : (prepare_cluster 10 ccu2c_pod 0 (twin_sum, [])).isSome = true := by decide
  unfold twin_sum_packed
  cases hp : prepare_cluster 10 ccu2c_pod 0 (twin_sum, []) with
  | none => rw [hp] at hsome; simp at hsome
  | some x => rfl

/-- C19: for every clustered cell such that the cell or the root of its cluster is unbound,
and whose cluster description has a chainable port, `getClusterOffset(cell)` has
`x = avg_x_offset * d` and `y = avg_y_offset * d`, where `d` is the index in `cluster_nodes`
of the node that `cell_cluster_node_map` assigns to the cell; `d = 0`, and so `x = y = 0`,
when that node is the first cluster node (the root, for the root and its satellites). -/
theorem getClusterOffset_unbound (arch : InterchangeArch) (cell root node_cell : CellInfo)
    (packed : Cluster) (cluster_data : ClusterPOD) (chainable_port : ChainablePortPOD)
    (others : List ChainablePortPOD) (node : IdString)
    (hne : cell.cluster ≠ "")
    (hc : Dict.find arch.clusters cell.cluster = some packed)
    (hr : Dict.find arch.cells packed.root = some root)
    (hunbound : cell.bel = {} ∨ root.bel = {})
    (hd : arch.chip_clusters[packed.index]? = some cluster_data)
    (hcp : cluster_data.chainable_ports = chainable_port :: others)
    (hm : Dict.find packed.cell_cluster_node_map cell.name = some node)
    (hn : Dict.find arch.cells node = some node_cell)
    (hmem : node ∈ packed.cluster_nodes) :
    ∃ offset, getClusterOffset arch cell = some offset ∧
      offset.x = chainable_port.avg_x_offset * (packed.cluster_nodes.indexOf node : Nat) ∧
      offset.y = chainable_port.avg_y_offset * (packed.cluster_nodes.indexOf node : Nat) ∧
      (packed.cluster_nodes.head? = some node → offset.x = 0 ∧ offset.y = 0) := by
  have hnot : ¬ (cell.bel ≠ {} ∧ root.bel ≠ {}) := by
    rintro ⟨h1, h2⟩
    rcases hunbound with h | h
    · exact h1 h
    · exact h2 h
  refine ⟨{ Loc.unset with
      x := chainable_port.avg_x_offset * (packed.cluster_nodes.indexOf node : Nat)
      y := chainable_port.avg_y_offset * (packed.cluster_nodes.indexOf node : Nat) },
    ?_, rfl, rfl, ?_⟩
  · unfold getClusterOffset
    simp only [getClusterRootCell, hne, if_false, hc, hr, hd, hcp, hm, hn, if_neg hnot,
      if_pos hmem]
  · intro hhead
    have hidx : packed.cluster_nodes.indexOf node = 0 := by
      cases hl : packed.cluster_nodes with
      | nil => rw [hl] at hhead; simp at hhead
      | cons a t =>
        rw [hl] at hhead
        simp only [List.head?_cons, Option.some.injEq] at hhead
        subst hhead
        simp
    simp [hidx]

theorem getClusterOffset_unbound_witness :
    ∃ offset, getClusterOffset col_arch
        { name := "c1", type := "CARRY4", cluster := "c0" } = some offset ∧
      offset.x = 0 * (col_cluster.cluster_nodes.indexOf "c1" : Nat) ∧
      offset.y = -1 * (col_cluster.cluster_nodes.indexOf "c1" : Nat) ∧
      (col_cluster.cluster_nodes.head? = some "c1" → offset.x = 0 ∧ offset.y = 0) :=
  getClusterOffset_unbound col_arch { name := "c1", type := "CARRY4", cluster := "c0" }
    { name := "c0", type := "CARRY4", cluster := "c0",
      ports := [("O", { name := "O", net := some 1, type := PortType.PORT_OUT }),
                ("CO", { name := "CO", net := some 2, type := PortType.PORT_OUT }),
                ("CI", { name := "CI", net := none, type := PortType.PORT_IN })] }
    { name := "c1", type := "CARRY4", cluster := "c0",
      ports := [("O", { name := "O", net := none, type := PortType.PORT_OUT }),
                ("CO", { name := "CO", net := none, type := PortType.PORT_OUT }),
                ("CI", { name := "CI", net := some 2, type := PortType.PORT_IN })] }
    col_cluster col_cluster_pod
    { cell_source := "CO", cell_sink := "CI", bel_source := "COUT", bel_sink := "CIN",
      avg_x_offset := 0, avg_y_offset := -1 }
    [] "c1" (by decide) (by decide) (by decide) (Or.inl (by decide)) (by decide) (by decide)
    (by decide) (by decide) (by decide)

/-! ## Root discovery in `prepare_cluster` -/

theorem Dict.find_of_mem_keys {β : Type} (d : Dict β) (k : IdString)
    (h : k ∈ d.map Prod.fst) : ∃ v, Dict.find d k = some v := by
  induction d with
  | nil => simp at h
  | cons a t ih =>
    obtain ⟨k', w⟩ := a
    by_cases hk : k' = k
    · exact ⟨w, by simp [Dict.find, hk]⟩
    · have ht : k ∈ t.map Prod.fst := by
        simp only [List.map_cons, List.mem_cons] at h
        rcases h with h | h
        · exact absurd h.symm hk
        · exact h
      obtain ⟨v, hv⟩ := ih ht
      exact ⟨v, by simp [Dict.find, hk, hv]⟩

theorem Dict.find_of_mem {β : Type} (d : Dict β) (k : IdString) (v : β)
    (hnodup : (d.map Prod.fst).Nodup) (h : (k, v) ∈ d) : Dict.find d k = some v := by
  induction d with
  | nil => simp at h
  | cons a t ih =>
    obtain ⟨k', w⟩ := a
    simp only [List.map_cons, List.nodup_cons] at hnodup
    rcases List.mem_cons.mp h with h | h
    · simp only [Prod.mk.injEq] at h
      simp [Dict.find, h.1, h.2]
    · have hk : k' ≠ k := by
        intro hk
        apply hnodup.1
        rw [hk]
        exact List.mem_map_of_mem Prod.fst h
      simp [Dict.find, hk, ih hnodup.2 h]

theorem Dict.mem_of_find {β : Type} (d : Dict β) (k : IdString) (v : β)
    (h : Dict.find d k = some v) : (k, v) ∈ d := by
  induction d with
  | nil => simp [Dict.find] at h
  | cons a t ih =>
    obtain ⟨k', w⟩ := a
    by_cases hk : k' = k
    · simp only [Dict.find, hk, if_true, Option.some.injEq] at h
      simp [hk, h]
    · simp only [Dict.find, hk, if_false] at h
      exact List.mem_cons_of_mem _ (ih h)

theorem Netlist.disconnect_port_cells (dn : Netlist) (k : CellRef) (p : IdString) (q : CellRef)
    (hq : q ≠ k) :
    Dict.find (Netlist.disconnect_port dn k p).cells q = Dict.find dn.cells q := by
  unfold Netlist.disconnect_port
  split
  · rfl
  · split
    · rfl
    · split
      · rfl
      · simp only [Dict.find_set, if_neg (Ne.symm hq)]

theorem Netlist.disconnect_port_nets (dn : Netlist) (k : CellRef) (p : IdString) (m : NetId) :
    ((Netlist.disconnect_port dn k p).nets m).driver.port = (dn.nets m).driver.port ∧
      (((Netlist.disconnect_port dn k p).nets m).driver.cell = (dn.nets m).driver.cell ∨
        (((Netlist.disconnect_port dn k p).nets m).driver.cell = none ∧
          ∃ c port, Dict.find dn.cells k = some c ∧ Dict.find c.ports p = some port ∧
            port.net = some m)) := by
  unfold Netlist.disconnect_port
  split
  · simp
  · rename_i c hc
    split
    · simp
    · rename_i port hport
      split
      · simp
      · rename_i n hn
        by_cases hm : m = n
        · subst hm
          simp only [Function.update_same]
          by_cases hd : (dn.nets m).driver.cell = some k ∧ (dn.nets m).driver.port = p
          · rw [if_pos hd]
            exact ⟨rfl, Or.inr ⟨rfl, c, port, hc, hport, hn⟩⟩
          · rw [if_neg hd]
            exact ⟨rfl, Or.inl rfl⟩
        · simp [Function.update_noteq hm]

/-- One iteration of the loop "Find cluster roots" on a cell that is still untouched: the
iteration returns, keeps the invariant, and appends the cell to `roots` exactly when the
root test holds on the netlist before the loop. -/
theorem find_cluster_root_step (cluster : ClusterPOD) (d : Netlist) (k : CellRef)
    (todo : List CellRef) (st : Netlist × List CellRef) (ci : CellInfo)
    (hk : k ∉ todo)
    (hci : Dict.find d.cells k = some ci)
    (hnet : ci.cluster = "" → ci.type ∈ cluster.root_cell_types →
      ∀ cp ∈ cluster.chainable_ports.head?,
        ((Dict.find ci.ports cp.cell_sink).bind PortInfo.net).isSome = true)
    (hinv : roots_inv cluster d (k :: todo) st.1) :
    ∃ st', find_cluster_root cluster st k = some st' ∧ roots_inv cluster d todo st'.1 ∧
      ((ci.cluster = "" ∧ ci.type ∈ cluster.root_cell_types ∧
          ∀ cp ∈ cluster.chainable_ports.head?, ∀ sink ∈ Dict.find ci.ports cp.cell_sink,
            ∀ n ∈ sink.net,
              (d.nets n).driver.cell = none ∨ (d.nets n).driver.port ≠ cp.cell_source) ∧
          st'.2 = st.2 ++ [k] ∨
        ¬ (ci.cluster = "" ∧ ci.type ∈ cluster.root_cell_types ∧
          ∀ cp ∈ cluster.chainable_ports.head?, ∀ sink ∈ Dict.find ci.ports cp.cell_sink,
            ∀ n ∈ sink.net,
              (d.nets n).driver.cell = none ∨ (d.nets n).driver.port ≠ cp.cell_source) ∧
          st'.2 = st.2) := by
  obtain ⟨hcells, hnets⟩ := hinv
  have hweak : roots_inv cluster d todo st.1 :=
    ⟨fun q hq => hcells q (List.mem_cons_of_mem _ hq), hnets⟩
  have hfind : Dict.find st.1.cells k = some ci := by
    rw [hcells k (List.mem_cons_self _ _), hci]
  unfold find_cluster_root
  simp only [hfind]
  by_cases hcl : ci.cluster = ""
  swap
  · rw [if_pos hcl]
    exact ⟨st, rfl, hweak, Or.inr ⟨fun h => hcl h.1, rfl⟩⟩
  rw [if_neg (not_not.mpr hcl)]
  by_cases hty : ci.type ∈ cluster.root_cell_types
  swap
  · have hc : ¬ cluster.root_cell_types.contains ci.type = true := by
      simpa using hty
    rw [if_pos hc]
    exact ⟨st, rfl, hweak, Or.inr ⟨fun h => hty h.2.1, rfl⟩⟩
  have hc : ¬ ¬ cluster.root_cell_types.contains ci.type = true := by
    simpa using hty
  rw [if_neg hc]
  have hset : ∀ q ∈ todo, ∀ v : CellInfo,
      Dict.find (Dict.set st.1.cells k v) q = Dict.find d.cells q := by
    intro q hq v
    have hne : k ≠ q := fun h => hk (h ▸ hq)
    rw [Dict.find_set, if_neg hne]
    exact hcells q (List.mem_cons_of_mem _ hq)
  cases hports : cluster.chainable_ports with
  | nil =>
    refine ⟨_, rfl, ⟨fun q hq => hset q hq _, hnets⟩, Or.inl ⟨⟨hcl, hty, ?_⟩, rfl⟩⟩
    intro cp hcp
    simp at hcp
  | cons chain_ports others =>
    have hhead : chain_ports ∈ cluster.chainable_ports.head? := by
      rw [hports]; simp
    have hsome := hnet hcl hty chain_ports hhead
    cases hsink : Dict.find ci.ports chain_ports.cell_sink with
    | none => rw [hsink] at hsome; simp at hsome
    | some sink =>
      cases hn : sink.net with
      | none => rw [hsink] at hsome; simp [hn] at hsome
      | some n =>
        simp only [hn]
        obtain ⟨hport, hcell⟩ := hnets n
        have hiff : ((st.1.nets n).driver.cell = none ∨
              (st.1.nets n).driver.port ≠ chain_ports.cell_source) ↔
            ((d.nets n).driver.cell = none ∨
              (d.nets n).driver.port ≠ chain_ports.cell_source) := by
          constructor
          · rintro (h | h)
            · rcases hcell with hc' | hc'
              · exact Or.inl (hc' ▸ h)
              · exact Or.inr (hc'.2 chain_ports hhead)
            · exact Or.inr (hport ▸ h)
          · rintro (h | h)
            · rcases hcell with hc' | hc'
              · exact Or.inl (hc'.trans h)
              · exact Or.inl hc'.1
            · exact Or.inr (hport.symm ▸ h)
        have hcond : (∀ cp ∈ cluster.chainable_ports.head?,
              ∀ sink ∈ Dict.find ci.ports cp.cell_sink, ∀ n ∈ sink.net,
                (d.nets n).driver.cell = none ∨ (d.nets n).driver.port ≠ cp.cell_source) ↔
            ((d.nets n).driver.cell = none ∨
              (d.nets n).driver.port ≠ chain_ports.cell_source) := by
          constructor
          · intro h
            exact h chain_ports hhead sink hsink n hn
          · intro h cp hcp sink' hsink' n' hn'
            rw [hports] at hcp
            simp only [List.head?_cons, Option.mem_def, Option.some.injEq] at hcp
            subst hcp
            rw [Option.mem_def, hsink] at hsink'
            simp only [Option.some.injEq] at hsink'
            subst hsink'
            rw [Option.mem_def, hn] at hn'
            simp only [Option.some.injEq] at hn'
            subst hn'
            exact h
        by_cases hroot : (st.1.nets n).driver.cell = none ∨
            (st.1.nets n).driver.port ≠ chain_ports.cell_source
        · simp only [hsink, hn]
          rw [if_pos hroot]
          refine ⟨_, rfl, ⟨?_, ?_⟩, Or.inl ⟨⟨hcl, hty, by rw [← hports]; exact hcond.mpr (hiff.mp hroot)⟩, rfl⟩⟩
          · intro q hq
            have hne : q ≠ k := fun h => hk (h ▸ hq)
            simp only [Netlist.disconnect_port_cells _ _ _ _ hne]
            exact hset q hq _
          · intro m
            have hdis := Netlist.disconnect_port_nets
              { st.1 with cells := Dict.set st.1.cells k { ci with cluster := ci.name } }
              k chain_ports.cell_sink m
            obtain ⟨hp, hc'⟩ := hdis
            obtain ⟨hportm, hcellm⟩ := hnets m
            refine ⟨hp.trans hportm, ?_⟩
            rcases hc' with hc' | hc'
            · rcases hcellm with h | h
              · exact Or.inl (hc'.trans h)
              · exact Or.inr ⟨hc'.trans h.1, h.2⟩
            · rcases hcellm with h | h
              · by_cases hm : (d.nets m).driver.cell = none
                · exact Or.inl (hc'.1.trans hm.symm)
                · obtain ⟨hnone, c, port, hfc, hfp, hpn⟩ := hc'
                  simp only [Dict.find_set, if_true, Option.some.injEq] at hfc
                  subst hfc
                  simp only [hsink, Option.some.injEq] at hfp
                  subst hfp
                  rw [hn] at hpn
                  simp only [Option.some.injEq] at hpn
                  subst hpn
                  refine Or.inr ⟨hnone, ?_⟩
                  intro cp hcp
                  rw [hports] at hcp
                  simp only [List.head?_cons, Option.mem_def, Option.some.injEq] at hcp
                  subst hcp
                  rcases hroot with hr | hr
                  · exact absurd (h ▸ hr) hm
                  · exact hportm ▸ hr
              · exact Or.inr ⟨hc'.1, h.2⟩
        · simp only [hsink, hn]
          rw [if_neg hroot]
          exact ⟨st, rfl, hweak,
            Or.inr ⟨fun h => hroot (hiff.mpr (hcond.mp (by rw [hports]; exact h.2.2))), rfl⟩⟩

/-- The loop "Find cluster roots" from any state that satisfies the invariant: it returns,
and the cells it appends to `roots` are the cells it visits that pass the root test on the
netlist before the loop. -/
theorem find_cluster_roots_fold (cluster : ClusterPOD) (d : Netlist) :
    ∀ (todo : List CellRef) (st : Netlist × List CellRef),
      todo.Nodup →
      (∀ k ∈ todo, ∃ ci, Dict.find d.cells k = some ci) →
      (∀ k ∈ todo, ∀ ci, Dict.find d.cells k = some ci → ci.cluster = "" →
        ci.type ∈ cluster.root_cell_types → ∀ cp ∈ cluster.chainable_ports.head?,
          ((Dict.find ci.ports cp.cell_sink).bind PortInfo.net).isSome = true) →
      roots_inv cluster d todo st.1 →
      ∃ st', todo.foldlM (find_cluster_root cluster) st = some st' ∧
        ∀ q, q ∈ st'.2 ↔ q ∈ st.2 ∨ (q ∈ todo ∧ ∃ ci, Dict.find d.cells q = some ci ∧
          ci.cluster = "" ∧ ci.type ∈ cluster.root_cell_types ∧
          ∀ cp ∈ cluster.chainable_ports.head?, ∀ sink ∈ Dict.find ci.ports cp.cell_sink,
            ∀ n ∈ sink.net,
              (d.nets n).driver.cell = none ∨ (d.nets n).driver.port ≠ cp.cell_source) := by
  intro todo
  induction todo with
  | nil =>
    intro st _ _ _ _
    exact ⟨st, rfl, by simp⟩
  | cons k todo ih =>
    intro st hnodup hex hnet hinv
    rw [List.nodup_cons] at hnodup
    obtain ⟨ci, hci⟩ := hex k (List.mem_cons_self _ _)
    obtain ⟨st1, hstep, hinv1, hroots1⟩ := find_cluster_root_step cluster d k todo st ci
      hnodup.1 hci (hnet k (List.mem_cons_self _ _) ci hci) hinv
    obtain ⟨st', hfold, hroots⟩ := ih st1 hnodup.2
      (fun q hq => hex q (List.mem_cons_of_mem _ hq))
      (fun q hq => hnet q (List.mem_cons_of_mem _ hq)) hinv1
    refine ⟨st', ?_, ?_⟩
    · rw [List.foldlM_cons, hstep]
      exact hfold
    · intro q
      rw [hroots q]
      rcases hroots1 with ⟨hR, h2⟩ | ⟨hR, h2⟩
      · rw [h2]
        constructor
        · rintro (h | ⟨hq, h⟩)
          · rcases List.mem_append.mp h with h | h
            · exact Or.inl h
            · simp only [List.mem_singleton] at h
              subst h
              exact Or.inr ⟨List.mem_cons_self _ _, ci, hci, hR⟩
          · exact Or.inr ⟨List.mem_cons_of_mem _ hq, h⟩
        · rintro (h | ⟨hq, h⟩)
          · exact Or.inl (List.mem_append.mpr (Or.inl h))
          · rcases List.mem_cons.mp hq with hq | hq
            · exact Or.inl (List.mem_append.mpr (Or.inr (by simp [hq])))
            · exact Or.inr ⟨hq, h⟩
      · rw [h2]
        constructor
        · rintro (h | ⟨hq, h⟩)
          · exact Or.inl h
          · exact Or.inr ⟨List.mem_cons_of_mem _ hq, h⟩
        · rintro (h | ⟨hq, h⟩)
          · exact Or.inl h
          · rcases List.mem_cons.mp hq with hq | hq
            · subst hq
              obtain ⟨ci', hci', hR'⟩ := h
              rw [hci] at hci'
              simp only [Option.some.injEq] at hci'
              subst hci'
              exact absurd hR' hR
            · exact Or.inr ⟨hq, h⟩

/-- C20, counterexample: in the netlist `mixed_chain` the cell `c` has a root cell type, is
in no cluster, and the net on its sink port has no driver of the type of `c` on the source
port (the driver is of type CARRY8), so that the stated condition holds; `prepare_cluster`
tests the driver port only and makes a root of `r` alone. -/
theorem root_test_ignores_driver_type :
    (∀ c ∈ Dict.find mixed_chain.cells "c",
        c.cluster = "" ∧ c.type ∈ col_cluster_pod.root_cell_types ∧
          spec_root_condition col_cluster_pod mixed_chain c = true) ∧
      (find_cluster_roots col_cluster_pod mixed_chain).map Prod.snd = some ["r"] := by
  decide

/-- C20, amended: root discovery in `prepare_cluster`, on a netlist whose unclustered cells
of a root cell type have a net on the sink port of the chain. The loop returns, and a cell
of the netlist is made a root if and only if it is in no cluster, its type is in
`root_cell_types`, and either the description has no chainable ports, or the net on its
`cell_sink` port has no driver cell, or the driver port of that net is not `cell_source`;
the type of the driver cell plays no part. -/
theorem find_cluster_roots_iff (cluster : ClusterPOD) (d : Netlist)
    (hnodup : (d.cells.map Prod.fst).Nodup)
    (hnet : ∀ kc ∈ d.cells, kc.2.cluster = "" → kc.2.type ∈ cluster.root_cell_types →
      ∀ cp ∈ cluster.chainable_ports.head?,
        ((Dict.find kc.2.ports cp.cell_sink).bind PortInfo.net).isSome = true) :
    ∃ d' roots, find_cluster_roots cluster d = some (d', roots) ∧
      ∀ key, key ∈ roots ↔ ∃ ci, Dict.find d.cells key = some ci ∧
        ci.cluster = "" ∧ ci.type ∈ cluster.root_cell_types ∧
        ∀ cp ∈ cluster.chainable_ports.head?, ∀ sink ∈ Dict.find ci.ports cp.cell_sink,
          ∀ n ∈ sink.net,
            (d.nets n).driver.cell = none ∨ (d.nets n).driver.port ≠ cp.cell_source := by
  obtain ⟨st', hfold, hroots⟩ := find_cluster_roots_fold cluster d (d.cells.map Prod.fst)
    (d, []) hnodup (fun k hk => Dict.find_of_mem_keys d.cells k hk)
    (fun k _ ci hci => hnet (k, ci) (Dict.mem_of_find d.cells k ci hci))
    ⟨fun _ _ => rfl, fun _ => ⟨rfl, Or.inl rfl⟩⟩
  refine ⟨st'.1, st'.2, hfold, ?_⟩
  intro key
  rw [hroots key]
  constructor
  · rintro (h | ⟨_, h⟩)
    · simp at h
    · exact h
  · rintro ⟨ci, hci, h⟩
    refine Or.inr ⟨?_, ci, hci, h⟩
    exact List.mem_map_of_mem Prod.fst (Dict.mem_of_find d.cells key ci hci)

theorem find_cluster_roots_iff_witness :
    ∃ d' roots, find_cluster_roots col_cluster_pod mixed_chain = some (d', roots) ∧
      ∀ key, key ∈ roots ↔ ∃ ci, Dict.find mixed_chain.cells key = some ci ∧
        ci.cluster = "" ∧ ci.type ∈ col_cluster_pod.root_cell_types ∧
        ∀ cp ∈ col_cluster_pod.chainable_ports.head?,
          ∀ sink ∈ Dict.find ci.ports cp.cell_sink, ∀ n ∈ sink.net,
            (mixed_chain.nets n).driver.cell = none ∨
              (mixed_chain.nets n).driver.port ≠ cp.cell_source :=
  find_cluster_roots_iff col_cluster_pod mixed_chain (by decide) (by decide)

/-! ## Forming the clusters: what a pass may change -/

theorem foldlM_option_inv {σ α : Type} (f : σ → α → Option σ) (P : σ → Prop) :
    ∀ (l : List α) (s s' : σ), (∀ a ∈ l, ∀ t t', P t → f t a = some t' → P t') → P s →
      l.foldlM f s = some s' → P s' := by
  intro l
  induction l with
  | nil =>
    intro s s' _ hs h
    simp only [List.foldlM_nil, pure, Option.some.injEq] at h
    exact h ▸ hs
  | cons a l ih =>
    intro s s' hstep hs h
    rw [List.foldlM_cons] at h
    cases hf : f s a with
    | none => rw [hf] at h; simp at h
    | some t =>
      rw [hf] at h
      exact ih t s' (fun b hb => hstep b (List.mem_cons_of_mem _ hb))
        (hstep a (List.mem_cons_self _ _) s t hs hf) h

theorem same_shape_refl (cells : Dict CellInfo) : same_shape cells cells :=
  fun _ => rfl

theorem same_shape_trans {a b c : Dict CellInfo} (h1 : same_shape a b) (h2 : same_shape b c) :
    same_shape a c :=
  fun key => (h2 key).trans (h1 key)

theorem same_shape_symm {a b : Dict CellInfo} (h : same_shape a b) : same_shape b a :=
  fun key => (h key).symm

theorem same_shape_set (cells : Dict CellInfo) (key : CellRef) (ci : CellInfo) (id : ClusterId)
    (h : Dict.find cells key = some ci) :
    same_shape cells (Dict.set cells key { ci with cluster := id }) := by
  intro q
  rw [Dict.find_set]
  by_cases hq : key = q
  · subst hq
    simp [h]
  · simp [hq]

theorem same_shape_find {cells cells' : Dict CellInfo} (h : same_shape cells cells')
    (key : CellRef) (ci : CellInfo) (hf : Dict.find cells key = some ci) :
    ∃ ci', Dict.find cells' key = some ci' ∧ ci' = { ci with cluster := ci'.cluster } := by
  have hk := h key
  rw [hf] at hk
  cases hf' : Dict.find cells' key with
  | none => rw [hf'] at hk; simp at hk
  | some ci' =>
    rw [hf'] at hk
    simp only [Option.map_some', Option.some.injEq] at hk
    refine ⟨ci', rfl, ?_⟩
    cases ci'
    cases ci
    simp only [CellInfo.mk.injEq] at hk ⊢
    simp [hk]

theorem same_shape_find_none {cells cells' : Dict CellInfo} (h : same_shape cells cells')
    (key : CellRef) (hf : Dict.find cells key = none) : Dict.find cells' key = none := by
  have hk := h key
  rw [hf] at hk
  cases hf' : Dict.find cells' key with
  | none => rfl
  | some ci' => rw [hf'] at hk; simp at hk

theorem claim_cell_eq (root : CellRef) (node_name port : IdString) (cell : CellRef)
    (st st' : NodePass) (h : claim_cell root node_name port cell st = some st') :
    ∃ root_cell ci, Dict.find st.cells root = some root_cell ∧
      Dict.find st.cells cell = some ci ∧
      st' = { st with
        cells := Dict.set st.cells cell { ci with cluster := root_cell.cluster }
        cluster_cells := st.cluster_cells ++ [(port, cell)]
        cell_cluster_node_map := Dict.emplace st.cell_cluster_node_map ci.name node_name
        count_cluster_cells := st.count_cluster_cells + 1 } := by
  unfold claim_cell at h
  split at h
  · simp at h
  · rename_i root_cell hroot
    split at h
    · simp at h
    · rename_i ci hci
      simp only [Option.some.injEq] at h
      exact ⟨root_cell, ci, hroot, hci, h.symm⟩

/-- What the body of the loop over the ports of a node does when it returns: nothing but
extending `exclude_nets`, or the claim of the single user of the net of an output port, or
the claim of the driver of the net of an input port. -/
theorem claim_port_cases (nets : NetId → NetInfo) (maps : Dict (List IdString)) (root : CellRef)
    (node_name : IdString) (st st' : NodePass) (port : IdString × PortInfo)
    (h : claim_port nets maps root node_name st port = some st') :
    (st'.cells = st.cells ∧ st'.cluster_cells = st.cluster_cells ∧
      st'.cell_type_dict = st.cell_type_dict ∧
      st'.cell_cluster_node_map = st.cell_cluster_node_map ∧
      st'.count_cluster_cells = st.count_cluster_cells ∧
      (st'.exclude_nets = st.exclude_nets ∨
        ∃ n, port.2.type = PortType.PORT_OUT ∧ Dict.count maps port.1 ≠ 0 ∧
          port.2.net = some n ∧
          st'.exclude_nets = pool_insert st.exclude_nets (nets n).name)) ∨
    (∃ n user user_cell uc cells_pool,
      port.2.type = PortType.PORT_OUT ∧ port.2.net = some n ∧ (nets n).users = [user] ∧
      user.cell = some user_cell ∧ Dict.find st.cells user_cell = some uc ∧
      Dict.find maps port.1 = some cells_pool ∧ cells_pool.contains uc.type = true ∧
      ((Dict.find st.cell_type_dict uc.type = none ∧
          claim_cell root node_name port.1 user_cell
            { st with
              exclude_nets := pool_insert st.exclude_nets (nets n).name
              cell_type_dict := Dict.set st.cell_type_dict uc.type user_cell } = some st') ∨
        ∃ old old_cell, Dict.find st.cell_type_dict uc.type = some old ∧
          Dict.find st.cells old = some old_cell ∧
          check_cluster_cells_compatibility nets old_cell uc
            (pool_insert st.exclude_nets (nets n).name) = some true ∧
          claim_cell root node_name port.1 user_cell
            { st with exclude_nets := pool_insert st.exclude_nets (nets n).name } =
            some st')) ∨
    (∃ n driver_cell dc cells_pool,
      port.2.type = PortType.PORT_IN ∧ port.2.net = some n ∧
      (nets n).driver.cell = some driver_cell ∧ Dict.find st.cells driver_cell = some dc ∧
      Dict.find maps port.1 = some cells_pool ∧ cells_pool.contains dc.type = true ∧
      claim_cell root node_name port.1 driver_cell st = some st') := by
  unfold claim_port at h
  split_ifs at h with h0 hout hin
  · simp only [Option.some.injEq] at h
    subst h
    exact Or.inl ⟨rfl, rfl, rfl, rfl, rfl, Or.inl rfl⟩
  · -- output port
    split at h
    · simp at h
    · rename_i n hn
      split at h
      · rename_i user husers
        split at h
        · simp only [Option.some.injEq] at h
          subst h
          exact Or.inl ⟨rfl, rfl, rfl, rfl, rfl, Or.inr ⟨n, hout, h0, hn, rfl⟩⟩
        · rename_i user_cell huser
          dsimp only at h
          split at h
          · rename_i cells_pool uc hpool huc
            split_ifs at h with hcont
            swap
            · simp only [Option.some.injEq] at h
              subst h
              exact Or.inl ⟨rfl, rfl, rfl, rfl, rfl, Or.inr ⟨n, hout, h0, hn, rfl⟩⟩
            · have hcont' : cells_pool.contains uc.type = true := hcont
              split at h
              · rename_i hdict
                exact Or.inr (Or.inl ⟨n, user, user_cell, uc, cells_pool, hout, hn, husers, huser,
                  huc, hpool, hcont', Or.inl ⟨hdict, h⟩⟩)
              · rename_i old hdict
                split at h
                · simp at h
                · rename_i old_cell hold
                  split at h
                  · simp at h
                  · simp only [Option.some.injEq] at h
                    subst h
                    exact Or.inl ⟨rfl, rfl, rfl, rfl, rfl, Or.inr ⟨n, hout, h0, hn, rfl⟩⟩
                  · rename_i hcompat
                    exact Or.inr (Or.inl ⟨n, user, user_cell, uc, cells_pool, hout, hn, husers,
                      huser, huc, hpool, hcont', Or.inr ⟨old, old_cell, hdict, hold, hcompat, h⟩⟩)
          · simp at h
      · simp only [Option.some.injEq] at h
        subst h
        exact Or.inl ⟨rfl, rfl, rfl, rfl, rfl, Or.inr ⟨n, hout, h0, hn, rfl⟩⟩
  · -- input port
    split at h
    · simp at h
    · rename_i n hn
      split_ifs at h with hlen
      · simp only [Option.some.injEq] at h
        subst h
        exact Or.inl ⟨rfl, rfl, rfl, rfl, rfl, Or.inl rfl⟩
      · split at h
        · simp only [Option.some.injEq] at h
          subst h
          exact Or.inl ⟨rfl, rfl, rfl, rfl, rfl, Or.inl rfl⟩
        · rename_i driver_cell hdriver
          split at h
          · rename_i cells_pool dc hpool hdc
            split_ifs at h with hcont
            swap
            · simp only [Option.some.injEq] at h
              subst h
              exact Or.inl ⟨rfl, rfl, rfl, rfl, rfl, Or.inl rfl⟩
            · have hcont' : cells_pool.contains dc.type = true := hcont
              exact Or.inr (Or.inr ⟨n, driver_cell, dc, cells_pool, hin, hn, hdriver, hdc, hpool,
                hcont', h⟩)
          · simp at h
  · simp only [Option.some.injEq] at h
    subst h
    exact Or.inl ⟨rfl, rfl, rfl, rfl, rfl, Or.inl rfl⟩

theorem claim_cell_shape (root : CellRef) (node_name port : IdString) (cell : CellRef)
    (st st' : NodePass) (h : claim_cell root node_name port cell st = some st') :
    same_shape st.cells st'.cells := by
  obtain ⟨root_cell, ci, _, hci, rfl⟩ := claim_cell_eq root node_name port cell st st' h
  exact same_shape_set st.cells cell ci root_cell.cluster hci

theorem claim_port_shape (nets : NetId → NetInfo) (maps : Dict (List IdString)) (root : CellRef)
    (node_name : IdString) (st st' : NodePass) (port : IdString × PortInfo)
    (h : claim_port nets maps root node_name st port = some st') :
    same_shape st.cells st'.cells := by
  rcases claim_port_cases nets maps root node_name st st' port h with
    ⟨hc, _⟩ | ⟨_, _, _, _, _, _, _, _, _, _, _, _, hcl⟩ | ⟨_, _, _, _, _, _, _, _, _, _, hcl⟩
  · rw [hc]
    exact same_shape_refl _
  · rcases hcl with ⟨_, hcl⟩ | ⟨_, _, _, _, _, hcl⟩
    · have hs := claim_cell_shape _ _ _ _ _ st' hcl
      exact hs
    · have hs := claim_cell_shape _ _ _ _ _ st' hcl
      exact hs
  · exact claim_cell_shape _ _ _ _ _ _ hcl

theorem claim_ports_shape (nets : NetId → NetInfo) (maps : Dict (List IdString)) (root : CellRef)
    (node_name : IdString) (ports : List (IdString × PortInfo)) (st st' : NodePass)
    (h : ports.foldlM (claim_port nets maps root node_name) st = some st') :
    same_shape st.cells st'.cells :=
  foldlM_option_inv (claim_port nets maps root node_name)
    (fun t => same_shape st.cells t.cells) ports st st'
    (fun port _ t t' ht hstep =>
      same_shape_trans ht (claim_port_shape nets maps root node_name t t' port hstep))
    (same_shape_refl _) h

/-- One pass of the `do` loop, when it returns: the node cell exists, its ports were
folded over, and the cluster records the node. -/
theorem cluster_node_pass_eq (nets : NetId → NetInfo) (cluster : ClusterPOD) (root node : CellRef)
    (cells cells' : Dict CellInfo) (info info' : Cluster) (count count' : Nat)
    (h : cluster_node_pass nets cluster root node cells info count =
      some (cells', info', count')) :
    ∃ nc st, Dict.find cells node = some nc ∧
      nc.ports.foldlM (claim_port nets (port_cell_maps cluster) root nc.name)
        { cells := cells
          cell_cluster_node_map := info.cell_cluster_node_map
          count_cluster_cells := count + 1 } = some st ∧
      cells' = st.cells ∧ count' = st.count_cluster_cells ∧
      info' = { info with
        cell_cluster_node_map := Dict.emplace st.cell_cluster_node_map nc.name nc.name
        cluster_nodes := info.cluster_nodes ++ [node]
        cluster_node_cells := Dict.emplace info.cluster_node_cells nc.name st.cluster_cells } := by
  unfold cluster_node_pass at h
  split at h
  · simp at h
  · rename_i nc hnc
    split at h
    · simp at h
    · rename_i st hst
      simp only [Option.some.injEq, Prod.mk.injEq] at h
      exact ⟨nc, st, hnc, hst, h.1.symm, h.2.2.symm, h.2.1.symm⟩

theorem cluster_node_pass_shape (nets : NetId → NetInfo) (cluster : ClusterPOD)
    (root node : CellRef) (cells cells' : Dict CellInfo) (info info' : Cluster)
    (count count' : Nat)
    (h : cluster_node_pass nets cluster root node cells info count =
      some (cells', info', count')) :
    same_shape cells cells' := by
  obtain ⟨nc, st, _, hst, rfl, _, _⟩ := cluster_node_pass_eq nets cluster root node cells cells'
    info info' count count' h
  exact claim_ports_shape nets _ root nc.name nc.ports _ st hst

theorem form_chain_shape (nets : NetId → NetInfo) (cluster : ClusterPOD) (root : CellRef) :
    ∀ (fuel : Nat) (node : CellRef) (cells cells' : Dict CellInfo) (info info' : Cluster)
      (count count' : Nat),
      form_chain nets cluster root fuel node cells info count = some (cells', info', count') →
      same_shape cells cells' := by
  intro fuel
  induction fuel with
  | zero =>
    intro node cells cells' info info' count count' h
    simp [form_chain] at h
  | succ fuel ih =>
    intro node cells cells' info info' count count' h
    unfold form_chain at h
    split at h
    · simp at h
    · rename_i cells1 info1 count1 hpass
      have h1 := cluster_node_pass_shape nets cluster root node cells cells1 info info1 count
        count1 hpass
      split at h
      · simp only [Option.some.injEq, Prod.mk.injEq] at h
        rw [← h.1]
        exact h1
      · split at h
        · simp at h
        · split at h
          · exact same_shape_trans h1 (ih _ _ _ _ _ _ _ h)
          · split at h
            · simp at h
            · simp only [Option.some.injEq, Prod.mk.injEq] at h
              rw [← h.1]
              exact h1
            · split at h
              · rename_i root_cell uc _ huc
                exact same_shape_trans h1
                  (same_shape_trans (same_shape_set cells1 _ uc root_cell.cluster huc)
                    (ih _ _ _ _ _ _ _ h))
              · simp at h

theorem form_cluster_shape (nets : NetId → NetInfo) (cluster : ClusterPOD) (index fuel : Nat)
    (st st' : Dict CellInfo × Dict Cluster) (root : CellRef)
    (h : form_cluster nets cluster index fuel st root = some st') :
    same_shape st.1 st'.1 := by
  unfold form_cluster at h
  split at h
  · simp at h
  · rename_i cells info count hchain
    have h1 := form_chain_shape nets cluster root fuel root st.1 cells _ info 0 count hchain
    split at h
    · simp at h
    · rename_i root_cell hroot
      split_ifs at h
      · simp only [Option.some.injEq] at h
        rw [← h]
        exact same_shape_trans h1 (same_shape_set cells root root_cell "" hroot)
      · simp only [Option.some.injEq] at h
        rw [← h]
        exact h1

theorem form_clusters_shape (nets : NetId → NetInfo) (cluster : ClusterPOD) (index fuel : Nat)
    (roots : List CellRef) (st st' : Dict CellInfo × Dict Cluster)
    (h : roots.foldlM (form_cluster nets cluster index fuel) st = some st') :
    same_shape st.1 st'.1 :=
  foldlM_option_inv (form_cluster nets cluster index fuel)
    (fun t => same_shape st.1 t.1) roots st st'
    (fun root _ t t' ht hstep =>
      same_shape_trans ht (form_cluster_shape nets cluster index fuel t t' root hstep))
    (same_shape_refl _) h

/-- `prepare_cluster`, when it returns, is the root discovery followed by the loop over the
roots, and the loop leaves the nets and the shape of the cells alone. -/
theorem prepare_cluster_eq (fuel : Nat) (cluster : ClusterPOD) (index : Nat)
    (st st' : Netlist × Dict Cluster) (h : prepare_cluster fuel cluster index st = some st') :
    ∃ d roots, find_cluster_roots cluster st.1 = some (d, roots) ∧
      roots.foldlM (form_cluster d.nets cluster index fuel) (d.cells, st.2) =
        some (st'.1.cells, st'.2) ∧
      st'.1.nets = d.nets ∧ same_shape d.cells st'.1.cells := by
  unfold prepare_cluster at h
  split at h
  · simp at h
  · rename_i d roots hroots
    split at h
    · simp at h
    · rename_i cells clusters hfold
      simp only [Option.some.injEq] at h
      subst h
      exact ⟨d, roots, hroots, hfold, rfl,
        form_clusters_shape d.nets cluster index fuel roots _ _ hfold⟩

/-! ## The chain walk need not return -/

theorem next_chain_node_shape (cells cells' : Dict CellInfo) (cluster : ClusterPOD)
    (h : same_shape cells cells') :
    ∀ users, next_chain_node cells' cluster users = next_chain_node cells cluster users := by
  intro users
  induction users with
  | nil => rfl
  | cons user rest ih =>
    unfold next_chain_node
    cases hu : user.cell with
    | none => simpa using ih
    | some user_cell =>
      simp only
      cases hf : Dict.find cells user_cell with
      | none => rw [same_shape_find_none h user_cell hf]
      | some uc =>
        obtain ⟨uc', huc', heq⟩ := same_shape_find h user_cell uc hf
        rw [huc']
        have ht : uc'.type = uc.type := by rw [heq]
        simp only [ht, ih]

/-- A set of nodes that the chain walk cannot leave: every node of the set has either no net
on its source port or a next chain node in the set. From a node of the set the walk does
not return, whatever the number of passes. -/
theorem form_chain_never_returns (nets : NetId → NetInfo) (cluster : ClusterPOD) (root : CellRef)
    (chain_ports : ChainablePortPOD) (others : List ChainablePortPOD)
    (hcp : cluster.chainable_ports = chain_ports :: others)
    (S : CellRef → Prop) (cells0 : Dict CellInfo)
    (hS : ∀ node, S node → ∀ nc, Dict.find cells0 node = some nc →
      ∀ source, Dict.find nc.ports chain_ports.cell_source = some source →
      ∀ n, source.net = some n →
      ∀ r, next_chain_node cells0 cluster (nets n).users = some r → ∃ u, r = some u ∧ S u) :
    ∀ (fuel : Nat) (node : CellRef) (cells : Dict CellInfo) (info : Cluster) (count : Nat),
      S node → same_shape cells0 cells →
      form_chain nets cluster root fuel node cells info count = none := by
  intro fuel
  induction fuel with
  | zero => intro node cells info count _ _; rfl
  | succ fuel ih =>
    intro node cells info count hnode hshape
    unfold form_chain
    cases hpass : cluster_node_pass nets cluster root node cells info count with
    | none => rfl
    | some res =>
      obtain ⟨cells1, info1, count1⟩ := res
      have h1 := same_shape_trans hshape
        (cluster_node_pass_shape nets cluster root node cells cells1 info info1 count count1
          hpass)
      simp only [hcp]
      cases hnc : Dict.find cells1 node with
      | none => rfl
      | some nc1 =>
        simp only [Option.some_bind]
        cases hsrc : Dict.find nc1.ports chain_ports.cell_source with
        | none => rfl
        | some source =>
          simp only
          obtain ⟨nc0, hnc0, heq⟩ := same_shape_find (same_shape_symm h1) node nc1 hnc
          have hports : nc0.ports = nc1.ports := by rw [heq]
          cases hnet : source.net with
          | none => exact ih node cells1 info1 count1 hnode h1
          | some n =>
            simp only
            rw [next_chain_node_shape cells0 cells1 cluster h1]
            cases hnext : next_chain_node cells0 cluster (nets n).users with
            | none => rfl
            | some r =>
              obtain ⟨u, hr, hu⟩ := hS node hnode nc0 hnc0 source (hports ▸ hsrc) n hnet r hnext
              subst hr
              simp only
              split
              · rename_i root_cell uc _ huc
                exact ih u _ info1 count1 hu
                  (same_shape_trans h1 (same_shape_set cells1 u uc root_cell.cluster huc))
              · rfl

/-! ## The rule for clusters of a single cell -/

theorem Dict.find_emplace {β : Type} (d : Dict β) (k q : IdString) (v : β) :
    Dict.find (Dict.emplace d k v) q =
      if k = q then some ((Dict.find d k).getD v) else Dict.find d q := by
  unfold Dict.emplace
  cases h : Dict.find d k with
  | none =>
    simp only [Dict.find_set, Option.getD_none]
  | some w =>
    by_cases hq : k = q
    · subst hq
      simp [h]
    · simp [hq]

theorem Dict.find_emplace_of_find {β : Type} (d : Dict β) (k q : IdString) (v w : β)
    (h : Dict.find d q = some w) : Dict.find (Dict.emplace d k v) q = some w := by
  rw [Dict.find_emplace]
  by_cases hq : k = q
  · subst hq
    simp [h]
  · simp [hq, h]

theorem claim_port_count (nets : NetId → NetInfo) (maps : Dict (List IdString)) (root : CellRef)
    (node_name : IdString) (st st' : NodePass) (port : IdString × PortInfo)
    (h : claim_port nets maps root node_name st port = some st') :
    st'.count_cluster_cells + st.cluster_cells.length =
      st.count_cluster_cells + st'.cluster_cells.length := by
  rcases claim_port_cases nets maps root node_name st st' port h with
    ⟨_, hc, _, _, hn, _⟩ | ⟨_, _, _, _, _, _, _, _, _, _, _, _, hcl⟩ |
    ⟨_, _, _, _, _, _, _, _, _, _, hcl⟩
  · rw [hc, hn]
  · rcases hcl with ⟨_, hcl⟩ | ⟨_, _, _, _, _, hcl⟩
    · obtain ⟨_, _, _, _, rfl⟩ := claim_cell_eq _ _ _ _ _ st' hcl
      simp only [List.length_append, List.length_singleton]
      omega
    · obtain ⟨_, _, _, _, rfl⟩ := claim_cell_eq _ _ _ _ _ st' hcl
      simp only [List.length_append, List.length_singleton]
      omega
  · obtain ⟨_, _, _, _, rfl⟩ := claim_cell_eq _ _ _ _ _ st' hcl
    simp only [List.length_append, List.length_singleton]
    omega

theorem claim_ports_count (nets : NetId → NetInfo) (maps : Dict (List IdString)) (root : CellRef)
    (node_name : IdString) (ports : List (IdString × PortInfo)) (st st' : NodePass)
    (h : ports.foldlM (claim_port nets maps root node_name) st = some st') :
    st'.count_cluster_cells + st.cluster_cells.length =
      st.count_cluster_cells + st'.cluster_cells.length :=
  foldlM_option_inv (claim_port nets maps root node_name)
    (fun t => t.count_cluster_cells + st.cluster_cells.length =
      st.count_cluster_cells + t.cluster_cells.length) ports st st'
    (fun port _ t t' ht hstep => by
      have hc := claim_port_count nets maps root node_name t t' port hstep
      omega)
    rfl h

theorem form_chain_root_index (nets : NetId → NetInfo) (cluster : ClusterPOD) (root : CellRef) :
    ∀ (fuel : Nat) (node : CellRef) (cells cells' : Dict CellInfo) (info info' : Cluster)
      (count count' : Nat),
      form_chain nets cluster root fuel node cells info count = some (cells', info', count') →
      info'.root = info.root ∧ info'.index = info.index := by
  intro fuel
  induction fuel with
  | zero =>
    intro node cells cells' info info' count count' h
    simp [form_chain] at h
  | succ fuel ih =>
    intro node cells cells' info info' count count' h
    unfold form_chain at h
    split at h
    · simp at h
    · rename_i cells1 info1 count1 hpass
      obtain ⟨_, _, _, _, _, _, hinfo⟩ :=
        cluster_node_pass_eq nets cluster root node cells cells1 info info1 count count1 hpass
      have h1 : info1.root = info.root ∧ info1.index = info.index := by
        rw [hinfo]
        exact ⟨rfl, rfl⟩
      split at h
      · simp only [Option.some.injEq, Prod.mk.injEq] at h
        rw [← h.2.1]
        exact h1
      · split at h
        · simp at h
        · split at h
          · have h2 := ih _ _ _ _ _ _ _ h
            exact ⟨h2.1.trans h1.1, h2.2.trans h1.2⟩
          · split at h
            · simp at h
            · simp only [Option.some.injEq, Prod.mk.injEq] at h
              rw [← h.2.1]
              exact h1
            · split at h
              · have h2 := ih _ _ _ _ _ _ _ h
                exact ⟨h2.1.trans h1.1, h2.2.trans h1.2⟩
              · simp at h

/-- The body of the loop over the roots for one root, when it returns: the cluster formed
has the root and the index of the description; without chainable ports it has the root as
its only node, and it is dropped, the cluster id of the root being cleared, exactly when no
satellite was claimed; in every other case it is entered in `clusters` under the cluster id
of the root. -/
theorem form_cluster_rule (nets : NetId → NetInfo) (cluster : ClusterPOD) (index fuel : Nat)
    (st st' : Dict CellInfo × Dict Cluster) (root : CellRef)
    (h : form_cluster nets cluster index fuel st root = some st') :
    ∃ root_cell cluster_info, Dict.find st'.1 root = some root_cell ∧
      cluster_info.root = root ∧ cluster_info.index = index ∧
      (cluster.chainable_ports = [] →
        ∃ rc satellites, Dict.find st.1 root = some rc ∧
          cluster_info.cluster_nodes = [root] ∧
          cluster_info.cluster_node_cells = [(rc.name, satellites)] ∧
          (satellites = [] → root_cell.cluster = "" ∧ st'.2 = st.2) ∧
          (satellites ≠ [] → st'.2 = Dict.emplace st.2 root_cell.cluster cluster_info)) ∧
      (cluster.chainable_ports ≠ [] →
        st'.2 = Dict.emplace st.2 root_cell.cluster cluster_info) := by
  unfold form_cluster at h
  split at h
  · simp at h
  · rename_i cells info count hchain
    split at h
    · simp at h
    · rename_i root_cell hroot
      by_cases hcp : cluster.chainable_ports = []
      · -- one pass, then `break`
        cases fuel with
        | zero => simp [form_chain] at hchain
        | succ fuel =>
          unfold form_chain at hchain
          split at hchain
          · simp at hchain
          · rename_i cells1 info1 count1 hpass
            simp only [hcp, Option.some.injEq, Prod.mk.injEq] at hchain
            obtain ⟨hc1, hi1, hn1⟩ := hchain
            subst hc1 hi1 hn1
            obtain ⟨nc, pst, hnc, hfold, hcells, hcount, hinfo⟩ :=
              cluster_node_pass_eq nets cluster root root st.1 cells1 _ info1 0 count1 hpass
            have hcnt := claim_ports_count nets _ root nc.name nc.ports _ pst hfold
            simp only [List.length_nil, zero_add, add_zero] at hcnt
            have hlen : cluster.chainable_ports.length = 0 := by simp [hcp]
            by_cases hsat : pst.cluster_cells = []
            · have hone : count1 = 1 := by
                rw [hcount, hcnt, hsat]
                rfl
              rw [if_pos ⟨hone, hlen⟩] at h
              simp only [Option.some.injEq] at h
              subst h
              refine ⟨{ root_cell with cluster := "" }, info1, ?_, ?_, ?_, ?_, ?_⟩
              · simp [Dict.find_set]
              · rw [hinfo]
              · rw [hinfo]
              · intro _
                refine ⟨nc, pst.cluster_cells, hnc, ?_, ?_, fun _ => ⟨rfl, rfl⟩,
                  fun hne => absurd hsat hne⟩
                · rw [hinfo]; rfl
                · rw [hinfo]; rfl
              · intro hne
                exact absurd hcp hne
            · have hone : ¬ count1 = 1 := by
                rw [hcount, hcnt]
                have hpos : 0 < pst.cluster_cells.length := List.length_pos.mpr hsat
                omega
              rw [if_neg (fun hh => hone hh.1)] at h
              simp only [Option.some.injEq] at h
              subst h
              refine ⟨root_cell, info1, hroot, ?_, ?_, ?_, ?_⟩
              · rw [hinfo]
              · rw [hinfo]
              · intro _
                refine ⟨nc, pst.cluster_cells, hnc, ?_, ?_, fun he => absurd he hsat,
                  fun _ => rfl⟩
                · rw [hinfo]; rfl
                · rw [hinfo]; rfl
              · intro _
                rfl
      · have hlen : ¬ cluster.chainable_ports.length = 0 := by
          simpa using hcp
        rw [if_neg (fun hh => hlen hh.2)] at h
        simp only [Option.some.injEq] at h
        subst h
        obtain ⟨hr, hi⟩ := form_chain_root_index nets cluster root fuel root st.1 cells _ info 0
          count hchain
        exact ⟨root_cell, info, hroot, hr, hi, fun he => absurd he hcp, fun _ => rfl⟩

theorem form_cluster_mono (nets : NetId → NetInfo) (cluster : ClusterPOD) (index fuel : Nat)
    (st st' : Dict CellInfo × Dict Cluster) (root : CellRef)
    (h : form_cluster nets cluster index fuel st root = some st') :
    ∀ id x, Dict.find st.2 id = some x → Dict.find st'.2 id = some x := by
  intro id x hx
  unfold form_cluster at h
  split at h
  · simp at h
  · split at h
    · simp at h
    · split_ifs at h
      · simp only [Option.some.injEq] at h
        rw [← h]
        exact hx
      · simp only [Option.some.injEq] at h
        rw [← h]
        exact Dict.find_emplace_of_find _ _ _ _ _ hx

/-- Every element of a list folded over with a function that may fail has its own step
between two states of the fold, the first reached from the start and the second leading to
the end, for any reflexive and transitive relation that each step respects. -/
theorem foldlM_option_steps {σ α : Type} (f : σ → α → Option σ) (le : σ → σ → Prop)
    (hrefl : ∀ s, le s s) (htrans : ∀ s t u, le s t → le t u → le s u)
    (hstep : ∀ s a s', f s a = some s' → le s s') :
    ∀ (l : List α) (s s' : σ), l.foldlM f s = some s' →
      le s s' ∧ ∀ a ∈ l, ∃ b c, f b a = some c ∧ le s b ∧ le c s' := by
  intro l
  induction l with
  | nil =>
    intro s s' h
    simp only [List.foldlM_nil, pure, Option.some.injEq] at h
    subst h
    exact ⟨hrefl s, fun a ha => by simp at ha⟩
  | cons a l ih =>
    intro s s' h
    rw [List.foldlM_cons] at h
    cases hf : f s a with
    | none => rw [hf] at h; simp at h
    | some t =>
      rw [hf] at h
      obtain ⟨hle, hall⟩ := ih t s' h
      have hst := hstep s a t hf
      refine ⟨htrans _ _ _ hst hle, ?_⟩
      intro b hb
      rcases List.mem_cons.mp hb with hb | hb
      · subst hb
        exact ⟨s, t, hf, hrefl s, hle⟩
      · obtain ⟨x, y, hxy, hx, hy⟩ := hall b hb
        exact ⟨x, y, hxy, htrans _ _ _ hst hx, hy⟩

/-! ## What root discovery does to the netlist -/

theorem Netlist.disconnect_port_eq (dn : Netlist) (k : CellRef) (p : IdString) (c : CellInfo)
    (port : PortInfo) (n : NetId) (hc : Dict.find dn.cells k = some c)
    (hp : Dict.find c.ports p = some port) (hn : port.net = some n) :
    (Netlist.disconnect_port dn k p).cells = Dict.set dn.cells k (Nextpnr.disconnect_port c p) ∧
    (∀ m, m ≠ n → (Netlist.disconnect_port dn k p).nets m = dn.nets m) ∧
    ((Netlist.disconnect_port dn k p).nets n).users =
      (dn.nets n).users.filter fun user => ¬ (user.cell = some k ∧ user.port = p) := by
  unfold Netlist.disconnect_port
  simp only [hc, hp, hn]
  refine ⟨trivial, ?_, ?_⟩
  · intro m hm
    simp [Function.update_noteq hm]
  · simp

/-- One iteration of the root discovery for a chainable description, when it returns: the
state is unchanged, or the cell has a net on its sink port and becomes a root. -/
theorem find_cluster_root_eq (cluster : ClusterPOD) (chain_ports : ChainablePortPOD)
    (others : List ChainablePortPOD) (hcp : cluster.chainable_ports = chain_ports :: others)
    (st st' : Netlist × List CellRef) (k : CellRef)
    (h : find_cluster_root cluster st k = some st') :
    st' = st ∨
    ∃ ci sink n, Dict.find st.1.cells k = some ci ∧
      Dict.find ci.ports chain_ports.cell_sink = some sink ∧ sink.net = some n ∧
      st' = (Netlist.disconnect_port
          { st.1 with cells := Dict.set st.1.cells k { ci with cluster := ci.name } }
          k chain_ports.cell_sink,
        st.2 ++ [k]) := by
  unfold find_cluster_root at h
  split at h
  · simp at h
  · rename_i ci hci
    by_cases h1 : ci.cluster ≠ ""
    · rw [if_pos h1] at h
      exact Or.inl (Option.some.inj h).symm
    rw [if_neg h1] at h
    by_cases h2 : ¬ cluster.root_cell_types.contains ci.type = true
    · rw [if_pos h2] at h
      exact Or.inl (Option.some.inj h).symm
    rw [if_neg h2] at h
    · simp only [hcp] at h
      split at h
      · simp at h
      · rename_i sink hsink
        split at h
        · simp at h
        · rename_i n hn
          split_ifs at h with h3
          · exact Or.inr ⟨ci, sink, n, hci, hsink, hn, (Option.some.inj h).symm⟩
          · exact Or.inl (Option.some.inj h).symm

theorem find_cluster_root_effect (cluster : ClusterPOD) (chain_ports : ChainablePortPOD)
    (others : List ChainablePortPOD) (hcp : cluster.chainable_ports = chain_ports :: others)
    (d : Netlist) (k : CellRef) (todo : List CellRef) (st st' : Netlist × List CellRef)
    (hk : k ∉ todo)
    (heff : roots_effect d chain_ports.cell_sink (k :: todo) st)
    (h : find_cluster_root cluster st k = some st') :
    roots_effect d chain_ports.cell_sink todo st' := by
  obtain ⟨j0, j2, j3, j4, j5, j6⟩ := heff
  rcases find_cluster_root_eq cluster chain_ports others hcp st st' k h with
    rfl | ⟨ci, sink, n, hci, hsink, hn, rfl⟩
  · exact ⟨fun key hkey hmem => j0 key hkey (List.mem_cons_of_mem _ hmem), j2, j3, j4, j5, j6⟩
  · have hknot : k ∉ st.2 := fun hmem => j0 k hmem (List.mem_cons_self _ _)
    have hcid : Dict.find d.cells k = some ci := by rw [← j3 k hknot, hci]
    have hset : Dict.find (Dict.set st.1.cells k { ci with cluster := ci.name }) k =
        some { ci with cluster := ci.name } := by simp [Dict.find_set]
    obtain ⟨e1, e2, e3⟩ := Netlist.disconnect_port_eq
      { st.1 with cells := Dict.set st.1.cells k { ci with cluster := ci.name } }
      k chain_ports.cell_sink { ci with cluster := ci.name } sink n hset hsink hn
    have hpn : port_net ci chain_ports.cell_sink = some n := by
      simp [port_net, hsink, hn]
    refine ⟨?_, ?_, ?_, ?_, ?_, ?_⟩
    · intro key hkey hmem
      rcases List.mem_append.mp hkey with hkey | hkey
      · exact j0 key hkey (List.mem_cons_of_mem _ hmem)
      · simp only [List.mem_singleton] at hkey
        exact hk (hkey ▸ hmem)
    · intro key c hc hkey
      simp only [e1, Dict.set_set, Dict.find_set]
      by_cases hkk : k = key
      · subst hkk
        rw [hcid] at hc
        simp only [Option.some.injEq] at hc
        subst hc
        simp
      · simp only [hkk, if_false]
        rcases List.mem_append.mp hkey with hkey | hkey
        · exact j2 key c hc hkey
        · simp only [List.mem_singleton] at hkey
          exact absurd hkey.symm hkk
    · intro key hkey
      have hne : k ≠ key := fun hh => hkey (List.mem_append.mpr (Or.inr (by simp [hh])))
      simp only [e1, Dict.set_set, Dict.find_set, hne, if_false]
      exact j3 key (fun hmem => hkey (List.mem_append.mpr (Or.inl hmem)))
    · intro m u hu
      by_cases hm : m = n
      · subst hm
        rw [e3] at hu
        exact j4 m u (List.mem_of_mem_filter hu)
      · rw [e2 m hm] at hu
        exact j4 m u hu
    · intro key c m hc hkey hpm u hu
      have hu' : u ∈ (st.1.nets m).users := by
        by_cases hm : m = n
        · subst hm
          rw [e3] at hu
          exact List.mem_of_mem_filter hu
        · rw [e2 m hm] at hu
          exact hu
      rcases List.mem_append.mp hkey with hkey | hkey
      · exact j5 key c m hc hkey hpm u hu'
      · simp only [List.mem_singleton] at hkey
        subst hkey
        rw [hcid] at hc
        simp only [Option.some.injEq] at hc
        subst hc
        rw [hpn] at hpm
        simp only [Option.some.injEq] at hpm
        subst hpm
        rw [e3] at hu
        have hf := (List.mem_filter.mp hu).2
        simp only [decide_eq_true_eq] at hf
        exact hf
    · intro m hm
      have hmn : m ≠ n := by
        intro hh
        exact hm k ci hcid (List.mem_append.mpr (Or.inr (by simp))) (hh ▸ hpn)
      rw [e2 m hmn]
      exact j6 m (fun key c hc hkey => hm key c hc (List.mem_append.mpr (Or.inl hkey)))

/-- The root discovery of a chainable description, when it returns, has had the effect
`roots_effect` on the netlist. -/
theorem find_cluster_roots_effect (cluster : ClusterPOD) (chain_ports : ChainablePortPOD)
    (others : List ChainablePortPOD) (hcp : cluster.chainable_ports = chain_ports :: others)
    (d : Netlist) (hnodup : (d.cells.map Prod.fst).Nodup) (st' : Netlist × List CellRef)
    (h : find_cluster_roots cluster d = some st') :
    roots_effect d chain_ports.cell_sink [] st' := by
  unfold find_cluster_roots at h
  have key : ∀ (todo : List CellRef) (st st' : Netlist × List CellRef), todo.Nodup →
      roots_effect d chain_ports.cell_sink todo st →
      todo.foldlM (find_cluster_root cluster) st = some st' →
      roots_effect d chain_ports.cell_sink [] st' := by
    intro todo
    induction todo with
    | nil =>
      intro st st' _ heff hf
      simp only [List.foldlM_nil, pure, Option.some.injEq] at hf
      exact hf ▸ heff
    | cons k todo ih =>
      intro st st' hnd heff hf
      rw [List.nodup_cons] at hnd
      rw [List.foldlM_cons] at hf
      cases hs : find_cluster_root cluster st k with
      | none => rw [hs] at hf; simp at hf
      | some st1 =>
        rw [hs] at hf
        exact ih st1 st' hnd.2
          (find_cluster_root_effect cluster chain_ports others hcp d k todo st st1 hnd.1 heff hs)
          hf
  refine key _ (d, []) st' hnodup ?_ h
  exact ⟨fun _ hk => by simp at hk, fun _ _ _ hk => by simp at hk, fun _ _ => rfl,
    fun _ _ hu => hu, fun _ _ _ _ hk => by simp at hk, fun _ _ => rfl⟩

theorem port_net_disconnect_port (c : CellInfo) (p : IdString) :
    port_net (disconnect_port c p) p = none := by
  unfold disconnect_port
  cases h : Dict.find c.ports p with
  | none => simp [port_net, h]
  | some port => simp [port_net, Dict.find_set]

theorem find_disconnect_port_other (c : CellInfo) (p q : IdString) (hq : p ≠ q) :
    Dict.find (disconnect_port c p).ports q = Dict.find c.ports q := by
  unfold disconnect_port
  cases h : Dict.find c.ports p with
  | none => rfl
  | some port => simp [Dict.find_set, hq]

/-- C21: for a chainable description, when `prepare_cluster` returns, every cell detected as
a root has its `cell_sink` port disconnected: the port has no net (its other ports keep
theirs) and the net it was on no longer lists the port as a user; every cell that was not
detected as a root, of a root type or not, keeps all its ports with their nets. -/
theorem root_sink_disconnected (fuel : Nat) (cluster : ClusterPOD) (index : Nat)
    (chain_ports : ChainablePortPOD) (others : List ChainablePortPOD)
    (st st' : Netlist × Dict Cluster)
    (hcp : cluster.chainable_ports = chain_ports :: others)
    (hnodup : (st.1.cells.map Prod.fst).Nodup)
    (h : prepare_cluster fuel cluster index st = some st') :
    ∃ d roots, find_cluster_roots cluster st.1 = some (d, roots) ∧
      ∀ key ci, Dict.find st.1.cells key = some ci →
        ∃ ci', Dict.find st'.1.cells key = some ci' ∧
          (key ∈ roots →
            port_net ci' chain_ports.cell_sink = none ∧
            (∀ q, q ≠ chain_ports.cell_sink → Dict.find ci'.ports q = Dict.find ci.ports q) ∧
            ∀ n, port_net ci chain_ports.cell_sink = some n →
              ∀ u ∈ (st'.1.nets n).users,
                ¬ (u.cell = some key ∧ u.port = chain_ports.cell_sink)) ∧
          (key ∉ roots → ci'.ports = ci.ports) := by
  obtain ⟨d, roots, hroots, _, hnets, hshape⟩ := prepare_cluster_eq fuel cluster index st st' h
  obtain ⟨_, j2, j3, _, j5, _⟩ :=
    find_cluster_roots_effect cluster chain_ports others hcp st.1 hnodup (d, roots) hroots
  refine ⟨d, roots, hroots, ?_⟩
  intro key ci hci
  by_cases hkey : key ∈ roots
  · obtain ⟨ci', hci', heq⟩ := same_shape_find hshape key _ (j2 key ci hci hkey)
    refine ⟨ci', hci', fun _ => ⟨?_, ?_, ?_⟩, fun hn => absurd hkey hn⟩
    · rw [heq]
      exact port_net_disconnect_port _ _
    · intro q hq
      rw [heq]
      exact find_disconnect_port_other _ _ _ (Ne.symm hq)
    · intro n hn u hu
      rw [hnets] at hu
      exact j5 key ci n hci hkey hn u hu
  · have hd : Dict.find d.cells key = some ci := by
      have := j3 key hkey
      simp only at this
      rw [this, hci]
    obtain ⟨ci', hci', heq⟩ := same_shape_find hshape key ci hd
    refine ⟨ci', hci', fun hk => absurd hk hkey, fun _ => ?_⟩
    rw [heq]

theorem s3_packed_eq : prepare_cluster 10 ccu2c_pod 0 (s3_netlist, []) = some s3_packed := by
  have hsome : (prepare_cluster 10 ccu2c_pod 0 (s3_netlist, [])).isSome = true := by decide
  unfold s3_packed
  cases hp : prepare_cluster 10 ccu2c_pod 0 (s3_netlist, []) with
  | none => rw [hp] at hsome; simp at hsome
  | some x => rfl

theorem root_sink_disconnected_witness :
    ∃ d roots, find_cluster_roots ccu2c_pod s3_netlist = some (d, roots) ∧
      ∀ key ci, Dict.find s3_netlist.cells key = some ci →
        ∃ ci', Dict.find s3_packed.1.cells key = some ci' ∧
          (key ∈ roots →
            port_net ci' "CIN" = none ∧
            (∀ q, q ≠ "CIN" → Dict.find ci'.ports q = Dict.find ci.ports q) ∧
            ∀ n, port_net ci "CIN" = some n →
              ∀ u ∈ (s3_packed.1.nets n).users, ¬ (u.cell = some key ∧ u.port = "CIN")) ∧
          (key ∉ roots → ci'.ports = ci.ports) :=
  root_sink_disconnected 10 ccu2c_pod 0
    { cell_source := "COUT", cell_sink := "CIN", bel_source := "COUT", bel_sink := "CIN",
      avg_x_offset := 0, avg_y_offset := 1 }
    [] (s3_netlist, []) s3_packed rfl (by decide) s3_packed_eq

/-! ## The nodes of a cluster are linked along the chain -/

theorem next_chain_node_first (cells : Dict CellInfo) (cluster : ClusterPOD) (b : CellRef) :
    ∀ users, next_chain_node cells cluster users = some (some b) →
      ∃ before user after ub, users = before ++ user :: after ∧ user.cell = some b ∧
        Dict.find cells b = some ub ∧ ub.type ∈ cluster.root_cell_types ∧
        ∀ u ∈ before, ∀ k uc, u.cell = some k → Dict.find cells k = some uc →
          uc.type ∉ cluster.root_cell_types := by
  intro users
  induction users with
  | nil => intro h; simp [next_chain_node] at h
  | cons user rest ih =>
    intro h
    unfold next_chain_node at h
    split at h
    · rename_i hnone
      obtain ⟨before, u, after, ub, he, hu, hub, ht, hb⟩ := ih h
      refine ⟨user :: before, u, after, ub, by simp [he], hu, hub, ht, ?_⟩
      intro x hx k uc hk huc
      rcases List.mem_cons.mp hx with hx | hx
      · subst hx
        rw [hnone] at hk
        simp at hk
      · exact hb x hx k uc hk huc
    · rename_i user_cell hcell
      split at h
      · simp at h
      · rename_i uc huc
        split_ifs at h with ht
        · simp only [Option.some.injEq] at h
          subst h
          exact ⟨[], user, rest, uc, rfl, hcell, huc, by simpa using ht, by simp⟩
        · obtain ⟨before, u, after, ub, he, hu, hub, htb, hb⟩ := ih h
          refine ⟨user :: before, u, after, ub, by simp [he], hu, hub, htb, ?_⟩
          intro x hx k uc' hk huc'
          rcases List.mem_cons.mp hx with hx | hx
          · subst hx
            rw [hcell] at hk
            simp only [Option.some.injEq] at hk
            subst hk
            rw [huc] at huc'
            simp only [Option.some.injEq] at huc'
            subst huc'
            simpa using ht
          · exact hb x hx k uc' hk huc'

theorem chain_link_shape (nets : NetId → NetInfo) (cells cells' : Dict CellInfo)
    (cluster : ClusterPOD) (source_port : IdString) (a b : CellRef)
    (hshape : same_shape cells cells')
    (h : chain_link nets cells cluster source_port a b) :
    chain_link nets cells' cluster source_port a b := by
  obtain ⟨nc, n, before, user, after, ub, hnc, hpn, hus, hu, hub, ht, hb⟩ := h
  obtain ⟨nc', hnc', heq⟩ := same_shape_find hshape a nc hnc
  obtain ⟨ub', hub', heqb⟩ := same_shape_find hshape b ub hub
  refine ⟨nc', n, before, user, after, ub', hnc', ?_, hus, hu, hub', ?_, ?_⟩
  · rw [heq]
    exact hpn
  · rw [heqb]
    exact ht
  · intro u hmem k uc' hk huc'
    obtain ⟨uc, huc, hequ⟩ := same_shape_find (same_shape_symm hshape) k uc' huc'
    have := hb u hmem k uc hk huc
    rw [hequ] at this
    exact this

/-- Invariant of the chain walk: when the nodes recorded so far are linked and the last of
them is linked to the node of the next pass, the nodes of the cluster that the walk returns
are linked. -/
theorem form_chain_linked (nets : NetId → NetInfo) (cluster : ClusterPOD) (root : CellRef)
    (chain_ports : ChainablePortPOD) (others : List ChainablePortPOD)
    (hcp : cluster.chainable_ports = chain_ports :: others) (cells0 : Dict CellInfo) :
    ∀ (fuel : Nat) (node : CellRef) (cells cells' : Dict CellInfo) (info info' : Cluster)
      (count count' : Nat),
      same_shape cells0 cells →
      List.Chain' (chain_link nets cells0 cluster chain_ports.cell_source) info.cluster_nodes →
      (∀ x ∈ info.cluster_nodes.getLast?,
        chain_link nets cells0 cluster chain_ports.cell_source x node) →
      form_chain nets cluster root fuel node cells info count = some (cells', info', count') →
      List.Chain' (chain_link nets cells0 cluster chain_ports.cell_source)
        info'.cluster_nodes := by
  intro fuel
  induction fuel with
  | zero =>
    intro node cells cells' info info' count count' _ _ _ h
    simp [form_chain] at h
  | succ fuel ih =>
    intro node cells cells' info info' count count' hshape hchain hlast h
    unfold form_chain at h
    split at h
    · simp at h
    · rename_i cells1 info1 count1 hpass
      have h1 := same_shape_trans hshape
        (cluster_node_pass_shape nets cluster root node cells cells1 info info1 count count1
          hpass)
      obtain ⟨_, _, _, _, _, _, hinfo⟩ :=
        cluster_node_pass_eq nets cluster root node cells cells1 info info1 count count1 hpass
      have hnodes : info1.cluster_nodes = info.cluster_nodes ++ [node] := by rw [hinfo]
      have hchain1 : List.Chain' (chain_link nets cells0 cluster chain_ports.cell_source)
          info1.cluster_nodes := by
        rw [hnodes, List.chain'_append]
        refine ⟨hchain, List.chain'_singleton _, ?_⟩
        intro x hx y hy
        simp only [List.head?_cons, Option.mem_def, Option.some.injEq] at hy
        subst hy
        exact hlast x hx
      simp only [hcp] at h
      split at h
      · simp at h
      · rename_i source hsource
        split at h
        · -- `continue`: the walk does not return
          rename_i hnet
          cases hnc : Dict.find cells1 node with
          | none => rw [hnc] at hsource; simp at hsource
          | some nc1 =>
            rw [hnc] at hsource
            simp only [Option.some_bind] at hsource
            have hnever := form_chain_never_returns nets cluster root chain_ports others hcp
              (fun x => x = node) cells1
              (fun x hx nc hnc' src hsrc n hn => by
                subst hx
                rw [hnc] at hnc'
                simp only [Option.some.injEq] at hnc'
                subst hnc'
                rw [hsource] at hsrc
                simp only [Option.some.injEq] at hsrc
                subst hsrc
                rw [hnet] at hn
                simp at hn)
              fuel node cells1 info1 count1 rfl (same_shape_refl _)
            rw [hnever] at h
            simp at h
        · rename_i next_net hnet
          split at h
          · simp at h
          · simp only [Option.some.injEq, Prod.mk.injEq] at h
            rw [← h.2.1]
            exact hchain1
          · rename_i user_cell hnext
            split at h
            · rename_i root_cell uc _ huc
              refine ih user_cell _ cells' info1 info' count1 count'
                (same_shape_trans h1 (same_shape_set cells1 user_cell uc root_cell.cluster huc))
                hchain1 ?_ h
              intro x hx
              rw [hnodes, List.getLast?_append] at hx
              simp only [List.getLast?_singleton, Option.or, Option.mem_def,
                Option.some.injEq] at hx
              subst hx
              cases hnc : Dict.find cells1 node with
              | none => rw [hnc] at hsource; simp at hsource
              | some nc1 =>
                rw [hnc] at hsource
                simp only [Option.some_bind] at hsource
                obtain ⟨before, user, after, ub, he, hu, hub, ht, hb⟩ :=
                  next_chain_node_first cells1 cluster user_cell _ hnext
                have hlink : chain_link nets cells1 cluster chain_ports.cell_source node user_cell :=
                  ⟨nc1, next_net, before, user, after, ub, hnc, by simp [port_net, hsource, hnet],
                    he, hu, hub, ht, hb⟩
                exact chain_link_shape nets cells1 cells0 cluster _ node user_cell
                  (same_shape_symm h1) hlink
            · simp at h

theorem form_cluster_linked (nets : NetId → NetInfo) (cluster : ClusterPOD) (index fuel : Nat)
    (chain_ports : ChainablePortPOD) (others : List ChainablePortPOD)
    (hcp : cluster.chainable_ports = chain_ports :: others) (cells0 : Dict CellInfo)
    (clusters0 : Dict Cluster) (st st' : Dict CellInfo × Dict Cluster) (root : CellRef)
    (hinv : same_shape cells0 st.1 ∧ ∀ id info, Dict.find st.2 id = some info →
      Dict.find clusters0 id = some info ∨
        List.Chain' (chain_link nets cells0 cluster chain_ports.cell_source) info.cluster_nodes)
    (h : form_cluster nets cluster index fuel st root = some st') :
    same_shape cells0 st'.1 ∧ ∀ id info, Dict.find st'.2 id = some info →
      Dict.find clusters0 id = some info ∨
        List.Chain' (chain_link nets cells0 cluster chain_ports.cell_source)
          info.cluster_nodes := by
  refine ⟨same_shape_trans hinv.1 (form_cluster_shape nets cluster index fuel st st' root h), ?_⟩
  unfold form_cluster at h
  split at h
  · simp at h
  · rename_i cells info_new count hchain
    have hnew := form_chain_linked nets cluster root chain_ports others hcp cells0 fuel root st.1
      cells { root := root, index := index } info_new 0 count hinv.1 List.chain'_nil
      (fun x hx => by simp at hx) hchain
    split at h
    · simp at h
    · rename_i root_cell hroot
      have hlen : ¬ cluster.chainable_ports.length = 0 := by simp [hcp]
      rw [if_neg (fun hh => hlen hh.2)] at h
      simp only [Option.some.injEq] at h
      subst h
      intro id info hfind
      simp only [Dict.find_emplace] at hfind
      split_ifs at hfind with hid
      · subst hid
        cases hold : Dict.find st.2 root_cell.cluster with
        | none =>
          rw [hold] at hfind
          simp only [Option.getD_none, Option.some.injEq] at hfind
          subst hfind
          exact Or.inr hnew
        | some old =>
          rw [hold] at hfind
          simp only [Option.getD_some, Option.some.injEq] at hfind
          subst hfind
          exact hinv.2 _ _ hold
      · exact hinv.2 id info hfind

/-- C23, failing input: in `side_entry` the carry output of `c0` feeds the data input `A0`
of `c1`, whose carry input is on the constant net. `prepare_cluster` registers the cluster
`c0` with the nodes `c0`, `c1`, although the net on the source port `COUT` of `c0` is the
net 2 and the sink port `CIN` of `c1`, a root whose sink port was disconnected, has no
net. -/
theorem chain_entered_through_data_input :
    (prepare_cluster 10 ccu2c_pod 0 (side_entry, [])).map
        (fun r => (r.2.map (fun kc => (kc.1, kc.2.cluster_nodes)),
          (Dict.find r.1.cells "c0").map (fun c => port_net c "COUT"),
          (Dict.find r.1.cells "c1").map (fun c => port_net c "CIN"))) =
      some ([("c0", ["c0", "c1"])], some (some 2), some none) := by
  decide

/-- What the chain walk does guarantee: for every netlist and chainable description, in
every cluster that `prepare_cluster` registers each consecutive pair `(node_i, node_{i+1})`
of `cluster_nodes` satisfies: `node_i` has a net on its `cell_source` port and `node_{i+1}`
is the cell of the first user of that net whose cell has a root cell type, on whatever port
of `node_{i+1}` that user is. -/
theorem cluster_nodes_linked (fuel : Nat) (cluster : ClusterPOD) (index : Nat)
    (chain_ports : ChainablePortPOD) (others : List ChainablePortPOD)
    (st st' : Netlist × Dict Cluster)
    (hcp : cluster.chainable_ports = chain_ports :: others)
    (h : prepare_cluster fuel cluster index st = some st') :
    ∀ id info, Dict.find st'.2 id = some info →
      Dict.find st.2 id = some info ∨
        List.Chain' (chain_link st'.1.nets st'.1.cells cluster chain_ports.cell_source)
          info.cluster_nodes := by
  obtain ⟨d, roots, _, hfold, hnets, hshape⟩ := prepare_cluster_eq fuel cluster index st st' h
  have hinv := foldlM_option_inv (form_cluster d.nets cluster index fuel)
    (fun t => same_shape d.cells t.1 ∧ ∀ id info, Dict.find t.2 id = some info →
      Dict.find st.2 id = some info ∨
        List.Chain' (chain_link d.nets d.cells cluster chain_ports.cell_source)
          info.cluster_nodes)
    roots (d.cells, st.2) (st'.1.cells, st'.2)
    (fun root _ t t' ht hstep =>
      form_cluster_linked d.nets cluster index fuel chain_ports others hcp d.cells st.2 t t'
        root ht hstep)
    ⟨same_shape_refl _, fun id info hf => Or.inl hf⟩ hfold
  intro id info hfind
  rcases hinv.2 id info hfind with hold | hnew
  · exact Or.inl hold
  · right
    rw [hnets]
    exact hnew.imp fun {a b} hab =>
      chain_link_shape d.nets d.cells st'.1.cells cluster _ a b hshape hab

theorem cluster_nodes_linked_witness :
    ∀ id info, Dict.find s3_packed.2 id = some info →
      Dict.find ([] : Dict Cluster) id = some info ∨
        List.Chain' (chain_link s3_packed.1.nets s3_packed.1.cells ccu2c_pod "COUT")
          info.cluster_nodes :=
  cluster_nodes_linked 10 ccu2c_pod 0
    { cell_source := "COUT", cell_sink := "CIN", bel_source := "COUT", bel_sink := "CIN",
      avg_x_offset := 0, avg_y_offset := 1 }
    [] (s3_netlist, []) s3_packed rfl s3_packed_eq

/-! ## Compatibility of the satellites of a cluster node -/

theorem mem_pool_insert (pool : List IdString) (x y : IdString) :
    y ∈ pool_insert pool x ↔ y ∈ pool ∨ y = x := by
  unfold pool_insert
  split_ifs with h
  · constructor
    · exact Or.inl
    · rintro (h' | rfl)
      · exact h'
      · simpa using h
  · simp

theorem compatible_ports_true (nets : NetId → NetInfo) (old_cell : CellInfo)
    (exclude_nets : List IdString) :
    ∀ ports, compatible_ports nets old_cell exclude_nets ports = some true →
      ∀ port ∈ ports, ∃ old n, Dict.find old_cell.ports port.1 = some old ∧
        port.2.net = some n ∧
        ((nets n).name ∈ exclude_nets ∨ port.2.type ≠ PortType.PORT_IN ∨
          port.2.net = old.net) := by
  intro ports
  induction ports with
  | nil => intro _ port hp; simp at hp
  | cons new_port rest ih =>
    intro h port hp
    unfold compatible_ports at h
    split at h
    · simp at h
    · rename_i old hold
      split at h
      · simp at h
      · rename_i n hn
        have hhead : ∀ (c : (nets n).name ∈ exclude_nets ∨
            new_port.2.type ≠ PortType.PORT_IN ∨ new_port.2.net = old.net),
            compatible_ports nets old_cell exclude_nets rest = some true →
            ∃ old n, Dict.find old_cell.ports port.1 = some old ∧ port.2.net = some n ∧
              ((nets n).name ∈ exclude_nets ∨ port.2.type ≠ PortType.PORT_IN ∨
                port.2.net = old.net) := by
          intro c hrest
          rcases List.mem_cons.mp hp with hp | hp
          · subst hp
            exact ⟨old, n, hold, hn, c⟩
          · exact ih hrest port hp
        split_ifs at h with h1 h2 h3
        · exact hhead (Or.inl (by simpa using h1)) h
        · exact hhead (Or.inr (Or.inl h2)) h
        · simp at h
        · exact hhead (Or.inr (Or.inr (not_not.mp h3))) h

theorem Dict.count_ne_zero_of_find {β : Type} (d : Dict β) (k : IdString) (v : β)
    (h : Dict.find d k = some v) : Dict.count d k ≠ 0 := by
  simp [Dict.count, h]

theorem mem_node_output_nets (nets : NetId → NetInfo) (maps : Dict (List IdString))
    (nc : CellInfo) (port : IdString × PortInfo) (n : NetId) (hport : port ∈ nc.ports)
    (hmap : Dict.count maps port.1 ≠ 0) (hout : port.2.type = PortType.PORT_OUT)
    (hn : port.2.net = some n) : (nets n).name ∈ node_output_nets nets maps nc := by
  unfold node_output_nets
  rw [List.mem_filterMap]
  exact ⟨port, hport, by simp [hmap, hout, hn]⟩

/-- The body of the loop over the ports of a cluster node keeps `pass_inv`. -/
theorem claim_port_inv (nets : NetId → NetInfo) (cells0 : Dict CellInfo)
    (maps : Dict (List IdString)) (root : CellRef) (nc : CellInfo) (st st' : NodePass)
    (port : IdString × PortInfo)
    (hnodup : (nc.ports.map Prod.fst).Nodup) (hport : port ∈ nc.ports)
    (hinv : pass_inv nets cells0 maps nc st)
    (h : claim_port nets maps root nc.name st port = some st') :
    pass_inv nets cells0 maps nc st' := by
  obtain ⟨hshape, hex, hsat⟩ := hinv
  have hfindport : Dict.find nc.ports port.1 = some port.2 :=
    Dict.find_of_mem nc.ports port.1 port.2 hnodup hport
  rcases claim_port_cases nets maps root nc.name st st' port h with
    ⟨hc, hcc, hd, _, _, hx⟩ |
    ⟨n, user, user_cell, uc, cells_pool, hout, hn, _, _, huc, hpool, _, hcl⟩ |
    ⟨n, driver_cell, dc, cells_pool, hin, _, _, _, _, _, hcl⟩
  · refine ⟨hc ▸ hshape, ?_, ?_⟩
    · rcases hx with hx | ⟨n, hout, hmap, hn, hx⟩
      · rw [hx]
        exact hex
      · rw [hx]
        intro x hxm
        rcases (mem_pool_insert _ _ _).mp hxm with hxm | rfl
        · exact hex x hxm
        · exact mem_node_output_nets nets maps nc port n hport hmap hout hn
    · rw [hcc, hd]
      exact hsat
  · -- a satellite claimed through an output port
    have hmap : Dict.count maps port.1 ≠ 0 := Dict.count_ne_zero_of_find maps _ _ hpool
    have hex' : ∀ x ∈ pool_insert st.exclude_nets (nets n).name,
        x ∈ node_output_nets nets maps nc := by
      intro x hxm
      rcases (mem_pool_insert _ _ _).mp hxm with hxm | rfl
      · exact hex x hxm
      · exact mem_node_output_nets nets maps nc port n hport hmap hout hn
    obtain ⟨uc0, huc0, hequ⟩ := same_shape_find (same_shape_symm hshape) user_cell uc huc
    have htype : uc0.type = uc.type := by rw [hequ]
    have hports : uc0.ports = uc.ports := by rw [hequ]
    rcases hcl with ⟨hdict, hcl⟩ | ⟨old, old_cell, hdict, hold, hcompat, hcl⟩
    · obtain ⟨root_cell, ci, _, hci, rfl⟩ := claim_cell_eq _ _ _ _ _ st' hcl
      refine ⟨same_shape_trans hshape (same_shape_set _ _ ci _ hci), hex', ?_⟩
      intro e he hpout
      simp only [List.mem_append, List.mem_singleton] at he
      rcases he with he | he
      · obtain ⟨c2, s1, c1, hc2, hd2, hc1, hrel⟩ := hsat e he hpout
        refine ⟨c2, s1, c1, hc2, ?_, hc1, hrel⟩
        simp only [Dict.find_set]
        have hne : uc.type ≠ c2.type := by
          intro heq
          rw [heq, hd2] at hdict
          simp at hdict
        simp only [hne, if_false]
        exact hd2
      · subst he
        refine ⟨uc0, user_cell, uc0, huc0, ?_, huc0, Or.inl rfl⟩
        simp [Dict.find_set, htype]
    · obtain ⟨root_cell, ci, _, hci, rfl⟩ := claim_cell_eq _ _ _ _ _ st' hcl
      refine ⟨same_shape_trans hshape (same_shape_set _ _ ci _ hci), hex', ?_⟩
      intro e he hpout
      simp only [List.mem_append, List.mem_singleton] at he
      rcases he with he | he
      · exact hsat e he hpout
      · subst he
        obtain ⟨old0, hold0, heqo⟩ := same_shape_find (same_shape_symm hshape) old old_cell hold
        have hoports : old0.ports = old_cell.ports := by rw [heqo]
        refine ⟨uc0, old, old0, huc0, by simpa [htype] using hdict, hold0, Or.inr ?_⟩
        intro p hp hpin hpex
        unfold check_cluster_cells_compatibility at hcompat
        split_ifs at hcompat
        obtain ⟨oldp, m, hfo, hm, hc⟩ := compatible_ports_true nets old_cell _ uc.ports hcompat
          p (hports ▸ hp)
        refine ⟨oldp, hoports ▸ hfo, ?_⟩
        rcases hc with hc | hc | hc
        · exact absurd (hex' _ hc) (hpex m hm)
        · exact absurd hpin hc
        · exact hc
  · -- the driver of an input port
    obtain ⟨root_cell, ci, _, hci, rfl⟩ := claim_cell_eq _ _ _ _ _ st' hcl
    refine ⟨same_shape_trans hshape (same_shape_set _ _ ci _ hci), hex, ?_⟩
    intro e he hpout
    simp only [List.mem_append, List.mem_singleton] at he
    rcases he with he | he
    · exact hsat e he hpout
    · subst he
      obtain ⟨p, hp, hpt⟩ := hpout
      simp only at hp
      rw [hfindport] at hp
      simp only [Option.some.injEq] at hp
      rw [← hp, hin] at hpt
      simp at hpt

theorem pass_inv_compatible (nets : NetId → NetInfo) (cells0 : Dict CellInfo)
    (maps : Dict (List IdString)) (nc : CellInfo) (st : NodePass)
    (hinv : pass_inv nets cells0 maps nc st) :
    satellites_compatible nets cells0 maps nc st.cluster_cells := by
  obtain ⟨_, _, hsat⟩ := hinv
  intro e1 he1 e2 he2 hp1 hp2 ca cb hca hcb htype
  obtain ⟨c2, s1, c1, hc2, hd2, hc1, hrel⟩ := hsat e1 he1 hp1
  obtain ⟨c2', s1', c1', hc2', hd2', hc1', hrel'⟩ := hsat e2 he2 hp2
  rw [hca] at hc2
  rw [hcb] at hc2'
  simp only [Option.some.injEq] at hc2 hc2'
  subst hc2 hc2'
  rw [← htype, hd2] at hd2'
  simp only [Option.some.injEq] at hd2'
  subst hd2'
  rw [hc1] at hc1'
  simp only [Option.some.injEq] at hc1'
  subst hc1'
  intro q pa pb hpa hpb hta htb hxa hxb
  have hma := Dict.mem_of_find ca.ports q pa hpa
  have hmb := Dict.mem_of_find cb.ports q pb hpb
  rcases hrel with h1 | h1 <;> rcases hrel' with h2 | h2
  · rw [h1, ← h2, hcb] at hca
    simp only [Option.some.injEq] at hca
    subst hca
    rw [hpa] at hpb
    simp only [Option.some.injEq] at hpb
    rw [hpb]
  · rw [h1, hc1] at hca
    simp only [Option.some.injEq] at hca
    subst hca
    obtain ⟨old, hold, hnet⟩ := h2 (q, pb) hmb htb hxb
    simp only at hold hnet
    rw [hpa] at hold
    simp only [Option.some.injEq] at hold
    rw [hnet, hold]
  · rw [h2, hc1] at hcb
    simp only [Option.some.injEq] at hcb
    subst hcb
    obtain ⟨old, hold, hnet⟩ := h1 (q, pa) hma hta hxa
    simp only at hold hnet
    rw [hpb] at hold
    simp only [Option.some.injEq] at hold
    rw [hnet, hold]
  · obtain ⟨old, hold, hnet⟩ := h1 (q, pa) hma hta hxa
    obtain ⟨old', hold', hnet'⟩ := h2 (q, pb) hmb htb hxb
    simp only at hold hnet hold' hnet'
    rw [hold] at hold'
    simp only [Option.some.injEq] at hold'
    rw [hnet, hnet', hold']

theorem satellites_compatible_shape (nets : NetId → NetInfo) (cells cells' : Dict CellInfo)
    (maps : Dict (List IdString)) (nc nc' : CellInfo) (satellites : List (IdString × CellRef))
    (hshape : same_shape cells cells') (hports : nc'.ports = nc.ports)
    (h : satellites_compatible nets cells maps nc satellites) :
    satellites_compatible nets cells' maps nc' satellites := by
  intro e1 he1 e2 he2 hp1 hp2 ca cb hca hcb htype
  obtain ⟨ca0, hca0, heqa⟩ := same_shape_find (same_shape_symm hshape) e1.2 ca hca
  obtain ⟨cb0, hcb0, heqb⟩ := same_shape_find (same_shape_symm hshape) e2.2 cb hcb
  have hta : ca0.type = ca.type := by rw [heqa]
  have htb : cb0.type = cb.type := by rw [heqb]
  have hpa : ca0.ports = ca.ports := by rw [heqa]
  have hpb : cb0.ports = cb.ports := by rw [heqb]
  have h0 := h e1 he1 e2 he2 (hports ▸ hp1) (hports ▸ hp2) ca0 cb0 hca0 hcb0
    (hta.trans (htype.trans htb.symm))
  unfold inputs_agree node_output_nets at h0 ⊢
  rw [hpa, hpb] at h0
  rw [hports]
  exact h0

theorem cluster_compatible_shape (nets : NetId → NetInfo) (cells cells' : Dict CellInfo)
    (maps : Dict (List IdString)) (info : Cluster) (hshape : same_shape cells cells')
    (h : cluster_compatible nets cells maps info) :
    cluster_compatible nets cells' maps info := by
  intro entry he
  obtain ⟨node, nc, hnc, hname, hsat⟩ := h entry he
  obtain ⟨nc', hnc', heq⟩ := same_shape_find hshape node nc hnc
  refine ⟨node, nc', hnc', ?_, ?_⟩
  · rw [heq]
    exact hname
  · exact satellites_compatible_shape nets cells cells' maps nc nc' entry.2 hshape
      (by rw [heq]) hsat

theorem Dict.mem_set {β : Type} (d : Dict β) (k : IdString) (v : β) (x : IdString × β)
    (h : x ∈ Dict.set d k v) : x ∈ d ∨ x = (k, v) := by
  induction d with
  | nil =>
    simp only [Dict.set, List.mem_singleton] at h
    exact Or.inr h
  | cons a t ih =>
    obtain ⟨k', w⟩ := a
    unfold Dict.set at h
    split_ifs at h with hk
    · rcases List.mem_cons.mp h with h | h
      · exact Or.inr (by rw [h, hk])
      · exact Or.inl (List.mem_cons_of_mem _ h)
    · rcases List.mem_cons.mp h with h | h
      · exact Or.inl (by rw [h]; exact List.mem_cons_self _ _)
      · rcases ih h with h | h
        · exact Or.inl (List.mem_cons_of_mem _ h)
        · exact Or.inr h

theorem Dict.mem_emplace {β : Type} (d : Dict β) (k : IdString) (v : β) (x : IdString × β)
    (h : x ∈ Dict.emplace d k v) : x ∈ d ∨ x = (k, v) := by
  unfold Dict.emplace at h
  split at h
  · exact Dict.mem_set d k v x h
  · exact Or.inl h

/-- One pass of the `do` loop keeps the clusters compatible: the satellites it records for
the node are compatible. -/
theorem cluster_node_pass_compatible (nets : NetId → NetInfo) (cluster : ClusterPOD)
    (root node : CellRef) (cells0 cells cells' : Dict CellInfo) (info info' : Cluster)
    (count count' : Nat)
    (hports : ∀ key ci, Dict.find cells0 key = some ci → (ci.ports.map Prod.fst).Nodup)
    (hshape : same_shape cells0 cells)
    (hinfo : cluster_compatible nets cells0 (port_cell_maps cluster) info)
    (h : cluster_node_pass nets cluster root node cells info count =
      some (cells', info', count')) :
    cluster_compatible nets cells0 (port_cell_maps cluster) info' := by
  obtain ⟨nc, st, hnc, hfold, _, _, hinfo'⟩ :=
    cluster_node_pass_eq nets cluster root node cells cells' info info' count count' h
  obtain ⟨nc0, hnc0, heq⟩ := same_shape_find (same_shape_symm hshape) node nc hnc
  have hp0 : nc0.ports = nc.ports := by rw [heq]
  have hn0 : nc0.name = nc.name := by rw [heq]
  have hnodup : (nc.ports.map Prod.fst).Nodup := hp0 ▸ hports node nc0 hnc0
  have hinv := foldlM_option_inv (claim_port nets (port_cell_maps cluster) root nc.name)
    (pass_inv nets cells0 (port_cell_maps cluster) nc) nc.ports _ st
    (fun port hport t t' ht hstep =>
      claim_port_inv nets cells0 _ root nc t t' port hnodup hport ht hstep)
    ⟨hshape, fun x hx => by simp at hx, fun e he => by simp at he⟩ hfold
  have hsat := pass_inv_compatible nets cells0 _ nc st hinv
  intro entry he
  rw [hinfo'] at he
  rcases Dict.mem_emplace _ _ _ _ he with he | he
  · exact hinfo entry he
  · subst he
    exact ⟨node, nc0, hnc0, hn0, satellites_compatible_shape nets cells0 cells0 _ nc nc0 _
      (same_shape_refl _) hp0 hsat⟩

theorem form_chain_compatible (nets : NetId → NetInfo) (cluster : ClusterPOD) (root : CellRef)
    (cells0 : Dict CellInfo)
    (hports : ∀ key ci, Dict.find cells0 key = some ci → (ci.ports.map Prod.fst).Nodup) :
    ∀ (fuel : Nat) (node : CellRef) (cells cells' : Dict CellInfo) (info info' : Cluster)
      (count count' : Nat),
      same_shape cells0 cells →
      cluster_compatible nets cells0 (port_cell_maps cluster) info →
      form_chain nets cluster root fuel node cells info count = some (cells', info', count') →
      cluster_compatible nets cells0 (port_cell_maps cluster) info' := by
  intro fuel
  induction fuel with
  | zero =>
    intro node cells cells' info info' count count' _ _ h
    simp [form_chain] at h
  | succ fuel ih =>
    intro node cells cells' info info' count count' hshape hinfo h
    unfold form_chain at h
    split at h
    · simp at h
    · rename_i cells1 info1 count1 hpass
      have h1 := same_shape_trans hshape
        (cluster_node_pass_shape nets cluster root node cells cells1 info info1 count count1
          hpass)
      have hc1 := cluster_node_pass_compatible nets cluster root node cells0 cells cells1 info
        info1 count count1 hports hshape hinfo hpass
      split at h
      · simp only [Option.some.injEq, Prod.mk.injEq] at h
        rw [← h.2.1]
        exact hc1
      · split at h
        · simp at h
        · split at h
          · exact ih _ _ _ _ _ _ _ h1 hc1 h
          · split at h
            · simp at h
            · simp only [Option.some.injEq, Prod.mk.injEq] at h
              rw [← h.2.1]
              exact hc1
            · split at h
              · rename_i root_cell uc _ huc
                exact ih _ _ _ _ _ _ _
                  (same_shape_trans h1 (same_shape_set cells1 _ uc root_cell.cluster huc)) hc1 h
              · simp at h

theorem form_cluster_compatible (nets : NetId → NetInfo) (cluster : ClusterPOD)
    (index fuel : Nat) (cells0 : Dict CellInfo) (clusters0 : Dict Cluster)
    (hports : ∀ key ci, Dict.find cells0 key = some ci → (ci.ports.map Prod.fst).Nodup)
    (st st' : Dict CellInfo × Dict Cluster) (root : CellRef)
    (hinv : same_shape cells0 st.1 ∧ ∀ id info, Dict.find st.2 id = some info →
      Dict.find clusters0 id = some info ∨
        cluster_compatible nets cells0 (port_cell_maps cluster) info)
    (h : form_cluster nets cluster index fuel st root = some st') :
    same_shape cells0 st'.1 ∧ ∀ id info, Dict.find st'.2 id = some info →
      Dict.find clusters0 id = some info ∨
        cluster_compatible nets cells0 (port_cell_maps cluster) info := by
  refine ⟨same_shape_trans hinv.1 (form_cluster_shape nets cluster index fuel st st' root h), ?_⟩
  unfold form_cluster at h
  split at h
  · simp at h
  · rename_i cells info_new count hchain
    have hnew := form_chain_compatible nets cluster root cells0 hports fuel root st.1 cells
      { root := root, index := index } info_new 0 count hinv.1
      (fun entry he => by simp at he) hchain
    split at h
    · simp at h
    · rename_i root_cell hroot
      split_ifs at h
      · simp only [Option.some.injEq] at h
        subst h
        exact hinv.2
      · simp only [Option.some.injEq] at h
        subst h
        intro id info hfind
        simp only [Dict.find_emplace] at hfind
        split_ifs at hfind with hid
        · subst hid
          cases hold : Dict.find st.2 root_cell.cluster with
          | none =>
            rw [hold] at hfind
            simp only [Option.getD_none, Option.some.injEq] at hfind
            subst hfind
            exact Or.inr hnew
          | some old =>
            rw [hold] at hfind
            simp only [Option.getD_some, Option.some.injEq] at hfind
            subst hfind
            exact hinv.2 _ _ hold
        · exact hinv.2 id info hfind

theorem Dict.keys_set_nodup {β : Type} (d : Dict β) (k : IdString) (v : β)
    (h : (d.map Prod.fst).Nodup) : ((Dict.set d k v).map Prod.fst).Nodup := by
  induction d with
  | nil => simp [Dict.set]
  | cons a t ih =>
    obtain ⟨k', w⟩ := a
    simp only [List.map_cons, List.nodup_cons] at h
    unfold Dict.set
    split_ifs with hk
    · simp only [List.map_cons, List.nodup_cons]
      exact h
    · simp only [List.map_cons, List.nodup_cons]
      refine ⟨?_, ih h.2⟩
      intro hmem
      obtain ⟨x, hx, hfst⟩ := List.mem_map.mp hmem
      rcases Dict.mem_set t k v x hx with hx | hx
      · exact h.1 (hfst ▸ List.mem_map_of_mem Prod.fst hx)
      · rw [hx] at hfst
        exact hk hfst.symm

theorem disconnect_port_keys_nodup (c : CellInfo) (p : IdString)
    (h : (c.ports.map Prod.fst).Nodup) :
    ((disconnect_port c p).ports.map Prod.fst).Nodup := by
  unfold disconnect_port
  split
  · exact h
  · exact Dict.keys_set_nodup _ _ _ h

theorem Netlist.disconnect_port_find (dn : Netlist) (k : CellRef) (p : IdString) (q : CellRef)
    (c' : CellInfo) (h : Dict.find (Netlist.disconnect_port dn k p).cells q = some c') :
    ∃ c, Dict.find dn.cells q = some c ∧ (c' = c ∨ c' = Nextpnr.disconnect_port c p) := by
  unfold Netlist.disconnect_port at h
  split at h
  · exact ⟨c', h, Or.inl rfl⟩
  · rename_i ci hci
    split at h
    · exact ⟨c', h, Or.inl rfl⟩
    · split at h
      · exact ⟨c', h, Or.inl rfl⟩
      · simp only [Dict.find_set] at h
        split_ifs at h with hk
        · subst hk
          simp only [Option.some.injEq] at h
          exact ⟨ci, hci, Or.inr h.symm⟩
        · exact ⟨c', h, Or.inl rfl⟩

theorem find_cluster_root_ports_nodup (cluster : ClusterPOD) (st st' : Netlist × List CellRef)
    (k : CellRef)
    (hports : ∀ key ci, Dict.find st.1.cells key = some ci → (ci.ports.map Prod.fst).Nodup)
    (h : find_cluster_root cluster st k = some st') :
    ∀ key ci, Dict.find st'.1.cells key = some ci → (ci.ports.map Prod.fst).Nodup := by
  have hset : ∀ (ci : CellInfo), Dict.find st.1.cells k = some ci →
      ∀ key c, Dict.find (Dict.set st.1.cells k { ci with cluster := ci.name }) key = some c →
        (c.ports.map Prod.fst).Nodup := by
    intro ci hci key c hc
    simp only [Dict.find_set] at hc
    split_ifs at hc with hk
    · simp only [Option.some.injEq] at hc
      rw [← hc]
      exact hports k ci hci
    · exact hports key c hc
  unfold find_cluster_root at h
  split at h
  · simp at h
  · rename_i ci hci
    by_cases h1 : ci.cluster ≠ ""
    · rw [if_pos h1] at h
      rw [← Option.some.inj h]
      exact hports
    rw [if_neg h1] at h
    by_cases h2 : ¬ cluster.root_cell_types.contains ci.type = true
    · rw [if_pos h2] at h
      rw [← Option.some.inj h]
      exact hports
    rw [if_neg h2] at h
    split at h
    · rw [← Option.some.inj h]
      exact hset ci hci
    · split at h
      · simp at h
      · split at h
        · simp at h
        · dsimp only at h
          split_ifs at h
          · rw [← Option.some.inj h]
            intro key c hc
            obtain ⟨c0, hc0, hor⟩ := Netlist.disconnect_port_find _ _ _ _ _ hc
            rcases hor with rfl | rfl
            · exact hset ci hci key _ hc0
            · exact disconnect_port_keys_nodup _ _ (hset ci hci key _ hc0)
          · rw [← Option.some.inj h]
            exact hports

theorem find_cluster_roots_ports_nodup (cluster : ClusterPOD) (d : Netlist)
    (st' : Netlist × List CellRef)
    (hports : ∀ key ci, Dict.find d.cells key = some ci → (ci.ports.map Prod.fst).Nodup)
    (h : find_cluster_roots cluster d = some st') :
    ∀ key ci, Dict.find st'.1.cells key = some ci → (ci.ports.map Prod.fst).Nodup :=
  foldlM_option_inv (find_cluster_root cluster)
    (fun t => ∀ key ci, Dict.find t.1.cells key = some ci → (ci.ports.map Prod.fst).Nodup)
    _ (d, []) st'
    (fun k _ t t' ht hstep => find_cluster_root_ports_nodup cluster t t' k ht hstep)
    hports h

/-- C24, counterexample: satellites of one cell type in one cluster with different nets on
an input port that is not an output net of a node. In `lut_drivers` the LUTs `l0` and `l1`
are claimed as the drivers of the inputs `A0` and `B0` of the node `c0` and have their
inputs `I` on the nets 20 and 21; in `two_enables` the flip-flops `f0` and `f1` are claimed
on the outputs `S0` of the nodes `c0` and `c1` and have their clock enables on the nets 10
and 11. -/
theorem satellites_with_different_inputs :
    (((prepare_cluster 10 carry_lut_pod 0 (lut_drivers, [])).bind fun r =>
        Dict.find r.2 "c0").map fun info => info.cluster_node_cells) =
      some [("c0", [("A0", "l0"), ("B0", "l1")])] ∧
    (((prepare_cluster 10 carry_lut_pod 0 (lut_drivers, [])).bind fun r =>
        Dict.find r.1.cells "l0").map fun c => (c.type, port_net c "I")) =
      some ("LUT", some 20) ∧
    (((prepare_cluster 10 carry_lut_pod 0 (lut_drivers, [])).bind fun r =>
        Dict.find r.1.cells "l1").map fun c => (c.type, port_net c "I")) =
      some ("LUT", some 21) ∧
    (((prepare_cluster 10 ccu2c_pod 0 (two_enables, [])).bind fun r =>
        Dict.find r.2 "c0").map fun info => info.cluster_node_cells) =
      some [("c0", [("S0", "f0")]), ("c1", [("S0", "f1")])] ∧
    (((prepare_cluster 10 ccu2c_pod 0 (two_enables, [])).bind fun r =>
        Dict.find r.1.cells "f0").map fun c => (c.type, port_net c "CE")) =
      some ("FF", some 10) ∧
    (((prepare_cluster 10 ccu2c_pod 0 (two_enables, [])).bind fun r =>
        Dict.find r.1.cells "f1").map fun c => (c.type, port_net c "CE")) =
      some ("FF", some 11) := by
  refine ⟨?_, ?_, ?_, ?_, ?_, ?_⟩ <;> decide

/-- C24, amended: for every netlist whose cells have ports of distinct names and every
description, in every cluster that `prepare_cluster` registers, each entry of
`cluster_node_cells` holds the satellites of a cluster node, and any two of them that were
claimed through output ports of that node and have the same cell type have identical nets
on every port that is an input port of both, except for nets whose name is that of the net
on an output port of the node listed in `cluster_cells_map`. -/
theorem satellites_of_a_node_compatible (fuel : Nat) (cluster : ClusterPOD) (index : Nat)
    (st st' : Netlist × Dict Cluster)
    (hports : ∀ kc ∈ st.1.cells, (kc.2.ports.map Prod.fst).Nodup)
    (h : prepare_cluster fuel cluster index st = some st') :
    ∀ id info, Dict.find st'.2 id = some info →
      Dict.find st.2 id = some info ∨
        cluster_compatible st'.1.nets st'.1.cells (port_cell_maps cluster) info := by
  obtain ⟨d, roots, hroots, hfold, hnets, hshape⟩ :=
    prepare_cluster_eq fuel cluster index st st' h
  have hports1 := find_cluster_roots_ports_nodup cluster st.1 (d, roots)
    (fun key ci hci => hports (key, ci) (Dict.mem_of_find st.1.cells key ci hci)) hroots
  have hinv := foldlM_option_inv (form_cluster d.nets cluster index fuel)
    (fun t => same_shape d.cells t.1 ∧ ∀ id info, Dict.find t.2 id = some info →
      Dict.find st.2 id = some info ∨
        cluster_compatible d.nets d.cells (port_cell_maps cluster) info)
    roots (d.cells, st.2) (st'.1.cells, st'.2)
    (fun root _ t t' ht hstep =>
      form_cluster_compatible d.nets cluster index fuel d.cells st.2 hports1 t t' root ht hstep)
    ⟨same_shape_refl _, fun id info hf => Or.inl hf⟩ hfold
  intro id info hfind
  rcases hinv.2 id info hfind with hold | hnew
  · exact Or.inl hold
  · right
    rw [hnets]
    exact cluster_compatible_shape d.nets d.cells st'.1.cells _ info hshape hnew

/-- C27, failing inputs: the chain walk of `prepare_cluster` does not return, whatever the
number of passes it is given, (1) on `open_tail`, where the carry output of the root `c0`
is not connected to any net: root discovery returns the root `c0`, every pass of the `do`
loop on `c0` completes, and the statement `continue` of line 529 starts the next pass on
`c0` again; (2) on `carry_ring`, where the walk goes from `c0` to `c1` and back to `c0`
forever. -/
theorem chain_walk_diverges :
    (find_cluster_roots ccu2c_pod open_tail).map (fun r => (r.1.cells, r.2)) =
      some (open_tail_rooted, ["c0"]) ∧
    (∀ info count, ∃ info',
      cluster_node_pass open_tail.nets ccu2c_pod "c0" "c0" open_tail_rooted info count =
        some (open_tail_rooted, info', count + 1)) ∧
    (∀ fuel, prepare_cluster fuel ccu2c_pod 0 (open_tail, []) = none) ∧
    (∀ fuel, prepare_cluster fuel ccu2c_pod 0 (carry_ring, []) = none) := by
  have hroots : (find_cluster_roots ccu2c_pod open_tail).map (fun r => (r.1.cells, r.2)) =
      some (open_tail_rooted, ["c0"]) := by decide
  refine ⟨hroots, fun info count => ⟨_, rfl⟩, ?_, ?_⟩
  · intro fuel
    unfold prepare_cluster
    cases hr : find_cluster_roots ccu2c_pod open_tail with
    | none => rfl
    | some r =>
      obtain ⟨d, roots⟩ := r
      rw [hr] at hroots
      simp only [Option.map_some', Option.some.injEq, Prod.mk.injEq] at hroots
      obtain ⟨hcells, hr2⟩ := hroots
      simp only [hr2, hcells, List.foldlM_cons, form_cluster]
      rw [form_chain_never_returns d.nets ccu2c_pod "c0" _ [] rfl (fun node => node = "c0")
        open_tail_rooted ?_ fuel "c0" open_tail_rooted _ 0 rfl (same_shape_refl _)]
      · rfl
      · intro node hnode nc hnc source hsrc n hn
        subst hnode
        have h1 : nc = { ccu2c_cell "c0" none none with cluster := "c0" } := by
          have h2 : Dict.find open_tail_rooted "c0" =
              some { ccu2c_cell "c0" none none with cluster := "c0" } := by decide
          rw [h2] at hnc
          exact (Option.some.inj hnc).symm
        subst h1
        have h3 : source = { name := "COUT", net := none, type := PortType.PORT_OUT } :=
          (Option.some.inj ((by decide : Dict.find _ _ = some _).symm.trans hsrc)).symm
        subst h3
        simp at hn
  · intro fuel
    have hring : (find_cluster_roots ccu2c_pod carry_ring).map
        (fun r => (r.1.cells, r.2, (r.1.nets 2).users, (r.1.nets 3).users)) =
        some ([("vcc", { name := "vcc", type := "VCC",
                         ports := [("P", { name := "P", net := some 1,
                                           type := PortType.PORT_OUT })] }),
               ("c0", { name := "c0", type := "CCU2C", cluster := "c0",
                        ports := [("CIN", { name := "CIN", net := none,
                                            type := PortType.PORT_IN }),
                                  ("A0", { name := "A0", net := some 3,
                                           type := PortType.PORT_IN }),
                                  ("COUT", { name := "COUT", net := some 2,
                                             type := PortType.PORT_OUT })] }),
               ("c1", ccu2c_cell "c1" (some 2) (some 3))],
              ["c0"], [{ cell := some "c1", port := "CIN" }],
              [{ cell := some "c0", port := "A0" }]) := by decide
    unfold prepare_cluster
    cases hr : find_cluster_roots ccu2c_pod carry_ring with
    | none => rfl
    | some r =>
      obtain ⟨d, roots⟩ := r
      rw [hr] at hring
      simp only [Option.map_some', Option.some.injEq, Prod.mk.injEq] at hring
      obtain ⟨hcells, hr2, hn2, hn3⟩ := hring
      simp only [hr2, List.foldlM_cons, form_cluster]
      rw [form_chain_never_returns d.nets ccu2c_pod "c0" _ [] rfl
        (fun node => node = "c0" ∨ node = "c1") d.cells ?_ fuel "c0" d.cells _ 0 (Or.inl rfl)
        (same_shape_refl _)]
      · rfl
      · intro node hnode nc hnc source hsrc n hn r hnext
        rw [hcells] at hnc hnext
        rcases hnode with hnode | hnode
        · subst hnode
          have h2 : nc = { name := "c0", type := "CCU2C", cluster := "c0",
                           ports := [("CIN", { name := "CIN", net := none,
                                               type := PortType.PORT_IN }),
                                     ("A0", { name := "A0", net := some 3,
                                              type := PortType.PORT_IN }),
                                     ("COUT", { name := "COUT", net := some 2,
                                                type := PortType.PORT_OUT })] } :=
            (Option.some.inj ((by decide : Dict.find _ "c0" = some _).symm.trans hnc)).symm
          subst h2
          have h3 : source = { name := "COUT", net := some 2, type := PortType.PORT_OUT } :=
            (Option.some.inj ((by decide : Dict.find _ _ = some _).symm.trans hsrc)).symm
          subst h3
          simp only [Option.some.injEq] at hn
          subst hn
          rw [hn2] at hnext
          refine ⟨"c1", ?_, Or.inr rfl⟩
          exact (Option.some.inj ((by decide : next_chain_node _ _ _ = some _).symm.trans
            hnext)).symm
        · subst hnode
          have h2 : nc = ccu2c_cell "c1" (some 2) (some 3) :=
            (Option.some.inj ((by decide : Dict.find _ "c1" = some _).symm.trans hnc)).symm
          subst h2
          have h3 : source = { name := "COUT", net := some 3, type := PortType.PORT_OUT } :=
            (Option.some.inj ((by decide : Dict.find _ _ = some _).symm.trans hsrc)).symm
          subst h3
          simp only [Option.some.injEq] at hn
          subst hn
          rw [hn3] at hnext
          refine ⟨"c0", ?_, Or.inl rfl⟩
          exact (Option.some.inj ((by decide : next_chain_node _ _ _ = some _).symm.trans
            hnext)).symm

/-! ## Scenario S3 in general: a chain of root-type cells -/

theorem claim_ports_unmapped (nets : NetId → NetInfo) (maps : Dict (List IdString))
    (root : CellRef) (node_name : IdString) :
    ∀ (ports : List (IdString × PortInfo)) (st : NodePass),
      (∀ port ∈ ports, Dict.count maps port.1 = 0) →
      ports.foldlM (claim_port nets maps root node_name) st = some st := by
  intro ports
  induction ports with
  | nil => intro st _; rfl
  | cons port rest ih =>
    intro st h
    rw [List.foldlM_cons]
    have h0 : claim_port nets maps root node_name st port = some st := by
      unfold claim_port
      rw [if_pos (h port (List.mem_cons_self _ _))]
    rw [h0]
    exact ih st (fun p hp => h p (List.mem_cons_of_mem _ hp))

theorem cluster_node_pass_unmapped (nets : NetId → NetInfo) (cluster : ClusterPOD)
    (root node : CellRef) (cells : Dict CellInfo) (info : Cluster) (count : Nat) (nc : CellInfo)
    (hnc : Dict.find cells node = some nc)
    (hun : ∀ port ∈ nc.ports, Dict.count (port_cell_maps cluster) port.1 = 0) :
    cluster_node_pass nets cluster root node cells info count =
      some (cells,
        { info with
          cell_cluster_node_map := Dict.emplace info.cell_cluster_node_map nc.name nc.name
          cluster_nodes := info.cluster_nodes ++ [node]
          cluster_node_cells := Dict.emplace info.cluster_node_cells nc.name [] },
        count + 1) := by
  unfold cluster_node_pass
  simp only [hnc]
  rw [claim_ports_unmapped nets _ root nc.name nc.ports _ hun]

theorem same_types_of_shape {cells cells' : Dict CellInfo} (h : same_shape cells cells') :
    same_types cells cells' := by
  intro key
  cases hf : Dict.find cells key with
  | none => rw [same_shape_find_none h key hf]
  | some c =>
    obtain ⟨c', hc', heq⟩ := same_shape_find h key c hf
    rw [hc']
    simp only [Option.map_some', Option.some.injEq]
    rw [heq]

theorem same_types_trans {a b c : Dict CellInfo} (h1 : same_types a b) (h2 : same_types b c) :
    same_types a c :=
  fun key => (h2 key).trans (h1 key)

theorem root_type_user_types (cells cells' : Dict CellInfo) (cluster : ClusterPOD)
    (h : same_types cells cells') (u : PortRef) :
    root_type_user cells' cluster u = root_type_user cells cluster u := by
  unfold root_type_user
  cases hu : u.cell with
  | none => rfl
  | some k =>
    simp only
    have hk := h k
    cases hf : Dict.find cells k with
    | none =>
      rw [hf] at hk
      cases hf' : Dict.find cells' k with
      | none => rfl
      | some c' => rw [hf'] at hk; simp at hk
    | some c =>
      rw [hf] at hk
      cases hf' : Dict.find cells' k with
      | none => rw [hf'] at hk; simp at hk
      | some c' =>
        rw [hf'] at hk
        simp only [Option.map_some', Option.some.injEq] at hk
        simp only [hk]

theorem users_exist_types (cells cells' : Dict CellInfo) (h : same_types cells cells')
    (users : List PortRef) : users_exist cells' users = users_exist cells users := by
  unfold users_exist
  congr 1
  funext u
  cases hu : u.cell with
  | none => rfl
  | some k =>
    simp only
    have hk := h k
    cases hf : Dict.find cells k with
    | none =>
      rw [hf] at hk
      cases hf' : Dict.find cells' k with
      | none => rfl
      | some c' => rw [hf'] at hk; simp at hk
    | some c =>
      rw [hf] at hk
      cases hf' : Dict.find cells' k with
      | none => rw [hf'] at hk; simp at hk
      | some c' => rfl

/-- The loop over the users of a net in terms of `root_type_user`: when every user with a
cell has a cell of the design, the loop returns the cell of the first user of a root cell
type. -/
theorem next_chain_node_eq (cells : Dict CellInfo) (cluster : ClusterPOD) :
    ∀ users, users_exist cells users = true →
      next_chain_node cells cluster users =
        some ((users.find? fun u => root_type_user cells cluster u).bind fun u => u.cell) := by
  intro users
  induction users with
  | nil => intro _; rfl
  | cons u rest ih =>
    intro hex
    simp only [users_exist, List.all_cons, Bool.and_eq_true] at hex
    have hrest : users_exist cells rest = true := hex.2
    unfold next_chain_node
    cases hu : u.cell with
    | none =>
      have hr : root_type_user cells cluster u = false := by simp [root_type_user, hu]
      simp only [List.find?_cons, hr]
      exact ih hrest
    | some k =>
      have hk := hex.1
      rw [hu] at hk
      simp only at hk
      cases hf : Dict.find cells k with
      | none => rw [hf] at hk; simp at hk
      | some uc =>
        simp only
        by_cases ht : cluster.root_cell_types.contains uc.type = true
        · have hr : root_type_user cells cluster u = true := by
            simp only [root_type_user, hu, hf]
            exact ht
          simp only [hf, if_pos ht, List.find?_cons, hr, Option.some_bind, hu]
        · have hr : root_type_user cells cluster u = false := by
            simp only [root_type_user, hu, hf]
            simpa using ht
          simp only [hf, if_neg ht, List.find?_cons, hr]
          exact ih hrest

theorem next_chain_node_types (cells cells' : Dict CellInfo) (cluster : ClusterPOD)
    (h : same_types cells cells') :
    ∀ users, next_chain_node cells' cluster users = next_chain_node cells cluster users := by
  intro users
  induction users with
  | nil => rfl
  | cons u rest ih =>
    unfold next_chain_node
    cases hu : u.cell with
    | none => exact ih
    | some k =>
      simp only
      have hk := h k
      cases hf : Dict.find cells k with
      | none =>
        rw [hf] at hk
        cases hf' : Dict.find cells' k with
        | none => rfl
        | some c' => rw [hf'] at hk; simp at hk
      | some c =>
        rw [hf] at hk
        cases hf' : Dict.find cells' k with
        | none => rw [hf'] at hk; simp at hk
        | some c' =>
          rw [hf'] at hk
          simp only [Option.map_some', Option.some.injEq] at hk
          simp only [hk, ih]

theorem same_types_set (cells cells' : Dict CellInfo) (h : same_types cells cells')
    (k : CellRef) (c c' : CellInfo) (hc : Dict.find cells' k = some c) (ht : c'.type = c.type) :
    same_types cells (Dict.set cells' k c') := by
  intro key
  rw [Dict.find_set, ← h key]
  by_cases hk : k = key
  · subst hk
    rw [if_pos rfl, hc]
    simp [ht]
  · rw [if_neg hk]

theorem find_root_type_user (cells : Dict CellInfo) (cluster : ClusterPOD) (e : PortRef) :
    ∀ users : List PortRef, e ∈ users → root_type_user cells cluster e = true →
      (users.all fun u => !root_type_user cells cluster u || decide (u = e)) = true →
      users.find? (fun u => root_type_user cells cluster u) = some e := by
  intro users
  induction users with
  | nil => intro h; simp at h
  | cons u rest ih =>
    intro hmem he hall
    simp only [List.all_cons, Bool.and_eq_true, Bool.or_eq_true, Bool.not_eq_true',
      decide_eq_true_eq] at hall
    by_cases hr : root_type_user cells cluster u = true
    · rcases hall.1 with h1 | h1
      · rw [h1] at hr; simp at hr
      · subst h1
        simp [List.find?_cons, hr]
    · have hr' : root_type_user cells cluster u = false := by simpa using hr
      simp only [List.find?_cons, hr']
      have hne : e ≠ u := by
        intro heq
        rw [heq] at he
        rw [he] at hr'
        simp at hr'
      have hmem' : e ∈ rest := by
        rcases List.mem_cons.mp hmem with h1 | h1
        · exact absurd h1 hne
        · exact h1
      apply ih hmem' he
      simp only [List.all_eq_true, Bool.or_eq_true, Bool.not_eq_true', decide_eq_true_eq]
      intro x hx
      have := hall.2
      simp only [List.all_eq_true, Bool.or_eq_true, Bool.not_eq_true', decide_eq_true_eq] at this
      exact this x hx

theorem find_no_root_type_user (cells : Dict CellInfo) (cluster : ClusterPOD) :
    ∀ users : List PortRef, (users.all fun u => !root_type_user cells cluster u) = true →
      users.find? (fun u => root_type_user cells cluster u) = none := by
  intro users h
  rw [List.find?_eq_none]
  intro x hx
  simp only [List.all_eq_true, Bool.not_eq_true'] at h
  simp [h x hx]

theorem chain_cell_spec (d : Netlist) (cluster : ClusterPOD) (key : CellRef)
    (h : chain_cell d cluster key = true) :
    ∃ c, Dict.find d.cells key = some c ∧ c.name = key ∧ c.cluster = "" ∧
      cluster.root_cell_types.contains c.type = true ∧
      ∀ port ∈ c.ports, Dict.count (port_cell_maps cluster) port.1 = 0 := by
  unfold chain_cell at h
  cases hf : Dict.find d.cells key with
  | none => rw [hf] at h; simp at h
  | some c =>
    rw [hf] at h
    simp only [Bool.and_eq_true, decide_eq_true_eq, List.all_eq_true] at h
    exact ⟨c, rfl, h.1.1.1, h.1.1.2, h.1.2, h.2⟩

theorem port_net_eq_bind (c : CellInfo) (p : IdString) :
    port_net c p = (Dict.find c.ports p).bind PortInfo.net := by
  unfold port_net
  cases Dict.find c.ports p <;> rfl

theorem chained_spec (d : Netlist) (cluster : ClusterPOD) (cp : ChainablePortPOD)
    (a b : CellRef) (h : chained d cluster cp a b = true) :
    ∃ n, cell_port_net d a cp.cell_source = some n ∧ cell_port_net d b cp.cell_sink = some n ∧
      (d.nets n).driver = { cell := some a, port := cp.cell_source } ∧
      users_exist d.cells (d.nets n).users = true ∧
      ({ cell := some b, port := cp.cell_sink } : PortRef) ∈ (d.nets n).users ∧
      ((d.nets n).users.all fun u =>
        !root_type_user d.cells cluster u ||
          decide (u = { cell := some b, port := cp.cell_sink })) = true := by
  unfold chained at h
  cases hn : cell_port_net d a cp.cell_source with
  | none => rw [hn] at h; simp at h
  | some n =>
    rw [hn] at h
    simp only [Bool.and_eq_true, decide_eq_true_eq] at h
    obtain ⟨⟨⟨⟨h1, h2⟩, h3⟩, h4⟩, h5⟩ := h
    refine ⟨n, rfl, h1, h2, h3, ?_, h5⟩
    simpa using h4

theorem open_ended_spec (d : Netlist) (cluster : ClusterPOD) (cp : ChainablePortPOD)
    (a : CellRef) (h : open_ended d cluster cp a = true) :
    ∃ n, cell_port_net d a cp.cell_source = some n ∧
      users_exist d.cells (d.nets n).users = true ∧
      ((d.nets n).users.all fun u => !root_type_user d.cells cluster u) = true := by
  unfold open_ended at h
  cases hn : cell_port_net d a cp.cell_source with
  | none => rw [hn] at h; simp at h
  | some n =>
    rw [hn] at h
    simp only [Bool.and_eq_true] at h
    exact ⟨n, rfl, h.1, h.2⟩

theorem tied_to_constant_spec (d : Netlist) (cp : ChainablePortPOD) (a : CellRef)
    (h : tied_to_constant d cp a = true) :
    ∃ n, cell_port_net d a cp.cell_sink = some n ∧
      ((d.nets n).driver.cell = none ∨ (d.nets n).driver.port ≠ cp.cell_source) := by
  unfold tied_to_constant at h
  cases hn : cell_port_net d a cp.cell_sink with
  | none => rw [hn] at h; simp at h
  | some n =>
    rw [hn] at h
    simp only [Bool.or_eq_true, decide_eq_true_eq] at h
    exact ⟨n, rfl, h⟩

theorem root_type_user_chain_cell (d : Netlist) (cluster : ClusterPOD) (b : CellRef)
    (p : IdString) (h : chain_cell d cluster b = true) :
    root_type_user d.cells cluster { cell := some b, port := p } = true := by
  obtain ⟨c, hc, _, _, ht, _⟩ := chain_cell_spec d cluster b h
  simp only [root_type_user, hc]
  exact ht

theorem chain_nodes_added_cons (info : Cluster) (a : CellRef) (rest : List CellRef) :
    chain_nodes_added info (a :: rest) =
      chain_nodes_added
        { info with
          cell_cluster_node_map := Dict.emplace info.cell_cluster_node_map a a
          cluster_nodes := info.cluster_nodes ++ [a]
          cluster_node_cells := Dict.emplace info.cluster_node_cells a [] } rest := rfl

/-- The walk of the `do` loop along a chain: from the node `a`, with the rest of the chain
`rest` ahead, enough fuel and no satellite to claim, the loop returns after one pass per
node, records the nodes in chain order, and gives every node after `a` the cluster id of
the root. -/
theorem form_chain_walk (d : Netlist) (nets1 : NetId → NetInfo) (cluster : ClusterPOD)
    (cp : ChainablePortPOD) (others : List ChainablePortPOD)
    (hcp : cluster.chainable_ports = cp :: others) (root : CellRef) (cid : IdString) :
    ∀ (rest : List CellRef) (a : CellRef) (cells : Dict CellInfo) (info : Cluster)
      (count fuel : Nat),
      rest.length < fuel →
      same_types d.cells cells →
      (∀ k ∈ a :: rest, chain_cell d cluster k = true) →
      (∀ k ∈ a :: rest, ∃ c, Dict.find cells k = some c ∧ c.name = k ∧
        (∀ port ∈ c.ports, Dict.count (port_cell_maps cluster) port.1 = 0) ∧
        port_net c cp.cell_source = cell_port_net d k cp.cell_source) →
      (∃ rc, Dict.find cells root = some rc ∧ rc.cluster = cid) →
      (∀ k ∈ a :: rest, ∀ n, cell_port_net d k cp.cell_source = some n →
        next_chain_node d.cells cluster (nets1 n).users =
          next_chain_node d.cells cluster (d.nets n).users) →
      List.Chain' (fun a b => chained d cluster cp a b = true) (a :: rest) →
      open_ended d cluster cp (rest.getLastD a) = true →
      ∃ cells', form_chain nets1 cluster root fuel a cells info count =
          some (cells', chain_nodes_added info (a :: rest), count + (rest.length + 1)) ∧
        (∀ k, (∃ c, Dict.find cells k = some c ∧ c.cluster = cid) →
          ∃ c, Dict.find cells' k = some c ∧ c.cluster = cid) ∧
        ∀ k ∈ rest, ∃ c, Dict.find cells' k = some c ∧ c.cluster = cid := by
  intro rest
  induction rest with
  | nil =>
    intro a cells info count fuel hfuel htypes hcell hnode hroot hnets _ hlast
    obtain ⟨fuel, rfl⟩ : ∃ f, fuel = f + 1 := ⟨fuel - 1, by simp at hfuel; omega⟩
    obtain ⟨c, hc, hname, hun, hsrc⟩ := hnode a (List.mem_cons_self _ _)
    obtain ⟨n, hn, hex, hall⟩ := open_ended_spec d cluster cp a hlast
    rw [hn, port_net_eq_bind] at hsrc
    obtain ⟨src, hsrc1, hsrc2⟩ := Option.bind_eq_some.mp hsrc
    have hnext : next_chain_node cells cluster (nets1 n).users = some none := by
      rw [next_chain_node_types d.cells cells cluster htypes, hnets a (List.mem_cons_self _ _) n hn,
        next_chain_node_eq d.cells cluster _ hex, find_no_root_type_user d.cells cluster _ hall]
      rfl
    refine ⟨cells, ?_, fun k hk => hk, fun k hk => by simp at hk⟩
    unfold form_chain
    rw [cluster_node_pass_unmapped nets1 cluster root a cells info count c hc hun]
    simp only [hcp, hc, Option.some_bind, hsrc1, hsrc2, hnext, hname, List.length_nil, zero_add]
    rfl
  | cons b rest ih =>
    intro a cells info count fuel hfuel htypes hcell hnode hroot hnets hlinks hlast
    obtain ⟨fuel, rfl⟩ : ∃ f, fuel = f + 1 := ⟨fuel - 1, by simp at hfuel; omega⟩
    obtain ⟨c, hc, hname, hun, hsrc⟩ := hnode a (List.mem_cons_self _ _)
    have hab : chained d cluster cp a b = true := (List.chain'_cons.mp hlinks).1
    have hlinks' := (List.chain'_cons.mp hlinks).2
    obtain ⟨n, hn, _, _, hex, hmem, hall⟩ := chained_spec d cluster cp a b hab
    rw [hn, port_net_eq_bind] at hsrc
    obtain ⟨src, hsrc1, hsrc2⟩ := Option.bind_eq_some.mp hsrc
    have hb : chain_cell d cluster b = true :=
      hcell b (List.mem_cons_of_mem _ (List.mem_cons_self _ _))
    have hnext : next_chain_node cells cluster (nets1 n).users = some (some b) := by
      rw [next_chain_node_types d.cells cells cluster htypes, hnets a (List.mem_cons_self _ _) n hn,
        next_chain_node_eq d.cells cluster _ hex,
        find_root_type_user d.cells cluster _ _ hmem
          (root_type_user_chain_cell d cluster b cp.cell_sink hb) hall]
      rfl
    obtain ⟨rc, hrc, hcid⟩ := hroot
    obtain ⟨cb, hcb, hbname, hbun, hbsrc⟩ :=
      hnode b (List.mem_cons_of_mem _ (List.mem_cons_self _ _))
    have hstep := ih b (Dict.set cells b { cb with cluster := rc.cluster })
      { info with
        cell_cluster_node_map := Dict.emplace info.cell_cluster_node_map a a
        cluster_nodes := info.cluster_nodes ++ [a]
        cluster_node_cells := Dict.emplace info.cluster_node_cells a [] }
      (count + 1) fuel (by simp at hfuel; omega)
      (same_types_set d.cells cells htypes b cb _ hcb rfl)
      (fun k hk => hcell k (List.mem_cons_of_mem _ hk))
      (by
        intro k hk
        rw [Dict.find_set]
        by_cases hkb : b = k
        · subst hkb
          rw [if_pos rfl]
          exact ⟨_, rfl, hbname, hbun, hbsrc⟩
        · rw [if_neg hkb]
          exact hnode k (List.mem_cons_of_mem _ hk))
      (by
        rw [Dict.find_set]
        by_cases hkb : b = root
        · rw [if_pos hkb]
          exact ⟨_, rfl, hcid⟩
        · rw [if_neg hkb]
          exact ⟨rc, hrc, hcid⟩)
      (fun k hk => hnets k (List.mem_cons_of_mem _ hk))
      hlinks'
      (by rw [List.getLastD_cons] at hlast; exact hlast)
    obtain ⟨cells', hrun, hkeep, hnew⟩ := hstep
    have hkeep2 : ∀ k, (∃ c, Dict.find cells k = some c ∧ c.cluster = cid) →
        ∃ c, Dict.find (Dict.set cells b { cb with cluster := rc.cluster }) k = some c ∧
          c.cluster = cid := by
      intro k hk
      rw [Dict.find_set]
      by_cases hkb : b = k
      · rw [if_pos hkb]
        exact ⟨_, rfl, hcid⟩
      · rw [if_neg hkb]
        exact hk
    refine ⟨cells', ?_, fun k hk => hkeep k (hkeep2 k hk), ?_⟩
    · unfold form_chain
      rw [cluster_node_pass_unmapped nets1 cluster root a cells info count c hc hun]
      simp only [hcp, hc, Option.some_bind, hsrc1, hsrc2, hnext, hname, hrc, hcb]
      rw [hrun, chain_nodes_added_cons]
      simp only [List.length_cons]
      congr 3
      omega
    · intro k hk
      rcases List.mem_cons.mp hk with h1 | h1
      · subst h1
        apply hkeep
        rw [Dict.find_set, if_pos rfl]
        exact ⟨_, rfl, hcid⟩
      · exact hnew k h1

theorem Dict.set_fresh {β : Type} (d : Dict β) (k : IdString) (v : β)
    (h : Dict.find d k = none) : Dict.set d k v = d ++ [(k, v)] := by
  induction d with
  | nil => rfl
  | cons a t ih =>
    obtain ⟨k', w⟩ := a
    by_cases hk : k' = k
    · simp [Dict.find, hk] at h
    · simp only [Dict.find, if_neg hk] at h
      simp only [Dict.set, if_neg hk, List.cons_append, ih h]

theorem Dict.emplace_fresh {β : Type} (d : Dict β) (k : IdString) (v : β)
    (h : Dict.find d k = none) : Dict.emplace d k v = d ++ [(k, v)] := by
  unfold Dict.emplace
  rw [h]
  exact Dict.set_fresh d k v h

theorem Dict.find_map_fresh {β : Type} (f : IdString → β) (a : IdString) :
    ∀ l : List IdString, a ∉ l → Dict.find (l.map fun k => (k, f k)) a = none := by
  intro l
  induction l with
  | nil => intro _; rfl
  | cons x t ih =>
    intro h
    simp only [List.mem_cons, not_or] at h
    simp only [List.map_cons, Dict.find, if_neg (Ne.symm h.1)]
    exact ih h.2

/-- The nodes of a walk without satellites, added to a cluster that holds the distinct
nodes `pre`: the three members of the cluster list the nodes in the order of the walk. -/
theorem chain_nodes_added_eq (root : CellRef) (index : Nat) :
    ∀ (nodes pre : List CellRef), (pre ++ nodes).Nodup →
      chain_nodes_added
          { root := root
            index := index
            cluster_nodes := pre
            cluster_node_cells := pre.map fun k => (k, [])
            cell_cluster_node_map := pre.map fun k => (k, k) } nodes =
        { root := root
          index := index
          cluster_nodes := pre ++ nodes
          cluster_node_cells := (pre ++ nodes).map fun k => (k, [])
          cell_cluster_node_map := (pre ++ nodes).map fun k => (k, k) } := by
  intro nodes
  induction nodes with
  | nil => intro pre _; simp [chain_nodes_added]
  | cons a rest ih =>
    intro pre hnodup
    have ha : a ∉ pre := by
      intro hmem
      have := List.nodup_append.mp hnodup
      exact this.2.2 hmem (List.mem_cons_self _ _) 
    have hnodup' : ((pre ++ [a]) ++ rest).Nodup := by
      rw [List.append_assoc]
      exact hnodup
    rw [chain_nodes_added_cons]
    simp only [Dict.emplace_fresh _ _ _ (Dict.find_map_fresh (fun k => k) a pre ha),
      Dict.emplace_fresh _ _ _
        (Dict.find_map_fresh (fun _ => ([] : List (IdString × CellRef))) a pre ha)]
    have := ih (pre ++ [a]) hnodup'
    simp only [List.map_append, List.map_cons, List.map_nil, List.append_assoc,
      List.singleton_append] at this ⊢
    exact this

theorem chain_nodes_added_root (root : CellRef) (index : Nat) (rest : List CellRef)
    (h : (root :: rest).Nodup) :
    chain_nodes_added { root := root, index := index } (root :: rest) =
      chain_cluster index (root :: rest) := by
  have := chain_nodes_added_eq root index (root :: rest) [] (by simpa using h)
  simpa [chain_cluster] using this

/-- The cells the loop "Find cluster roots" appends to `roots` are cells it visits, in the
order of the visits. -/
theorem find_cluster_roots_sublist (cluster : ClusterPOD) (chain_ports : ChainablePortPOD)
    (others : List ChainablePortPOD) (hcp : cluster.chainable_ports = chain_ports :: others) :
    ∀ (todo : List CellRef) (st st' : Netlist × List CellRef),
      todo.foldlM (find_cluster_root cluster) st = some st' →
      ∃ sub, List.Sublist sub todo ∧ st'.2 = st.2 ++ sub := by
  intro todo
  induction todo with
  | nil =>
    intro st st' h
    simp only [List.foldlM_nil, Option.pure_def, Option.some.injEq] at h
    subst h
    exact ⟨[], List.Sublist.refl _, by simp⟩
  | cons k rest ih =>
    intro st st' h
    rw [List.foldlM_cons] at h
    obtain ⟨st1, h1, h2⟩ := Option.bind_eq_some.mp h
    obtain ⟨sub, hsub, heq⟩ := ih st1 st' h2
    rcases find_cluster_root_eq cluster chain_ports others hcp st st1 k h1 with
      rfl | ⟨_, _, _, _, _, _, rfl⟩
    · exact ⟨sub, List.Sublist.cons _ hsub, heq⟩
    · refine ⟨k :: sub, List.Sublist.cons₂ _ hsub, ?_⟩
      rw [heq]
      simp

theorem eq_singleton_of_nodup {α : Type} (l : List α) (a : α) (h : l.Nodup)
    (hmem : ∀ x, x ∈ l ↔ x = a) : l = [a] := by
  match l, h, hmem with
  | [], _, hmem => exact absurd ((hmem a).mpr rfl) (List.not_mem_nil _)
  | [x], _, hmem =>
    have := (hmem x).mp (List.mem_cons_self _ _)
    rw [this]
  | x :: y :: t, h, hmem =>
    have hx := (hmem x).mp (List.mem_cons_self _ _)
    have hy := (hmem y).mp (List.mem_cons_of_mem _ (List.mem_cons_self _ _))
    simp only [List.nodup_cons, List.mem_cons, not_or] at h
    exact absurd (hx.trans hy.symm) h.1.1

theorem chain_predecessor {α : Type} (R : α → α → Prop) :
    ∀ (rest : List α) (a : α), List.Chain' R (a :: rest) →
      ∀ k ∈ rest, ∃ p ∈ a :: rest, R p k := by
  intro rest
  induction rest with
  | nil => intro a _ k hk; simp at hk
  | cons b rest ih =>
    intro a h k hk
    have hab := (List.chain'_cons.mp h).1
    have h' := (List.chain'_cons.mp h).2
    rcases List.mem_cons.mp hk with h1 | h1
    · subst h1
      exact ⟨a, List.mem_cons_self _ _, hab⟩
    · obtain ⟨p, hp, hr⟩ := ih b h' k h1
      exact ⟨p, List.mem_cons_of_mem _ hp, hr⟩

theorem chain_successor {α : Type} (R : α → α → Prop) :
    ∀ (rest : List α) (a : α), List.Chain' R (a :: rest) →
      ∀ k ∈ a :: rest, (∃ s, R k s) ∨ k = rest.getLastD a := by
  intro rest
  induction rest with
  | nil =>
    intro a _ k hk
    simp only [List.mem_singleton] at hk
    exact Or.inr hk
  | cons b rest ih =>
    intro a h k hk
    have hab := (List.chain'_cons.mp h).1
    have h' := (List.chain'_cons.mp h).2
    rcases List.mem_cons.mp hk with h1 | h1
    · subst h1
      exact Or.inl ⟨b, hab⟩
    · rw [List.getLastD_cons]
      exact ih b h' k h1

theorem disconnect_port_fields (c : CellInfo) (p : IdString) :
    (disconnect_port c p).type = c.type ∧ (disconnect_port c p).name = c.name ∧
      (disconnect_port c p).cluster = c.cluster ∧
      ∀ port ∈ (disconnect_port c p).ports, ∃ port' ∈ c.ports, port'.1 = port.1 := by
  unfold disconnect_port
  cases h : Dict.find c.ports p with
  | none => exact ⟨rfl, rfl, rfl, fun port hport => ⟨port, hport, rfl⟩⟩
  | some q =>
    refine ⟨rfl, rfl, rfl, ?_⟩
    intro port hport
    rcases Dict.mem_set c.ports p _ port hport with h1 | h1
    · exact ⟨port, h1, rfl⟩
    · exact ⟨(p, q), Dict.mem_of_find c.ports p q h, by rw [h1]⟩

theorem users_exist_subset (cells : Dict CellInfo) (users users' : List PortRef)
    (hsub : ∀ u ∈ users', u ∈ users) (h : users_exist cells users = true) :
    users_exist cells users' = true := by
  unfold users_exist at h ⊢
  rw [List.all_eq_true] at h ⊢
  exact fun u hu => h u (hsub u hu)

theorem cell_port_net_find (d : Netlist) (k : CellRef) (c : CellInfo) (p : IdString)
    (hc : Dict.find d.cells k = some c) : cell_port_net d k p = port_net c p := by
  simp [cell_port_net, hc]

theorem chain_member_spec (d : Netlist) (cluster : ClusterPOD) (key : CellRef)
    (h : chain_member d cluster key = true) :
    ∃ c, Dict.find d.cells key = some c ∧ c.name = key ∧ c.cluster = "" ∧
      cluster.root_cell_types.contains c.type = true := by
  unfold chain_member at h
  cases hf : Dict.find d.cells key with
  | none => rw [hf] at h; simp at h
  | some c =>
    rw [hf] at h
    simp only [Bool.and_eq_true, decide_eq_true_eq] at h
    exact ⟨c, rfl, h.1.1, h.1.2, h.2⟩

theorem root_type_user_chain_member (d : Netlist) (cluster : ClusterPOD) (b : CellRef)
    (p : IdString) (h : chain_member d cluster b = true) :
    root_type_user d.cells cluster { cell := some b, port := p } = true := by
  obtain ⟨c, hc, _, _, ht⟩ := chain_member_spec d cluster b h
  simp only [root_type_user, hc]
  exact ht

theorem chain_member_of_chain_cell (d : Netlist) (cluster : ClusterPOD) (key : CellRef)
    (h : chain_cell d cluster key = true) : chain_member d cluster key = true := by
  obtain ⟨c, hc, hname, hclu, htype, _⟩ := chain_cell_spec d cluster key h
  simp only [chain_member, hc, hname, hclu, htype, decide_True, Bool.and_self]

/-- Root discovery on a chain: the loop returns, the head of the chain is the only root,
and the netlist it leaves differs from the one before in the head cell and in the net of
its sink port only. -/
theorem chain_roots (cluster : ClusterPOD) (cp : ChainablePortPOD)
    (others : List ChainablePortPOD) (d : Netlist) (c0 : CellRef) (rest : List CellRef)
    (hcp : cluster.chainable_ports = cp :: others)
    (hkeys : (d.cells.map Prod.fst).Nodup)
    (hchain : (c0 :: rest).Nodup)
    (hcells : ∀ k ∈ c0 :: rest, chain_member d cluster k = true)
    (hother : ∀ kc ∈ d.cells, cluster.root_cell_types.contains kc.2.type = true →
      kc.1 ∈ c0 :: rest)
    (hlinks : List.Chain' (fun a b => chained d cluster cp a b = true) (c0 :: rest))
    (hhead : tied_to_constant d cp c0 = true) :
    ∃ d1, find_cluster_roots cluster d = some (d1, [c0]) ∧
      roots_effect d cp.cell_sink [] (d1, [c0]) := by
  have hsink : ∀ k ∈ rest, ∃ p n, cell_port_net d k cp.cell_sink = some n ∧
      (d.nets n).driver = { cell := some p, port := cp.cell_source } := by
    intro k hk
    obtain ⟨p, _, hr⟩ := chain_predecessor _ rest c0 hlinks k hk
    obtain ⟨n, _, h2, h3, _⟩ := chained_spec d cluster cp p k hr
    exact ⟨p, n, h2, h3⟩
  obtain ⟨nc, hnc, htest⟩ := tied_to_constant_spec d cp c0 hhead
  obtain ⟨st', hfold, hroots⟩ := find_cluster_roots_fold cluster d (d.cells.map Prod.fst)
    (d, []) hkeys (fun k hk => Dict.find_of_mem_keys d.cells k hk)
    (by
      intro k _ ci hci _ htype cp' hcp'
      rw [hcp] at hcp'
      simp only [List.head?_cons, Option.mem_def, Option.some.injEq] at hcp'
      subst hcp'
      have hmem := hother (k, ci) (Dict.mem_of_find d.cells k ci hci)
        (by simpa using htype)
      rw [← port_net_eq_bind, ← cell_port_net_find d k ci _ hci]
      rcases List.mem_cons.mp hmem with h1 | h1
      · have h1' : k = c0 := h1
        rw [h1', hnc]; rfl
      · obtain ⟨_, n, hn, _⟩ := hsink k h1
        rw [hn]; rfl)
    ⟨fun _ _ => rfl, fun _ => ⟨rfl, Or.inl rfl⟩⟩
  have hfind : find_cluster_roots cluster d = some st' := hfold
  have hnodup : st'.2.Nodup := by
    obtain ⟨sub, hsub, heq⟩ := find_cluster_roots_sublist cluster cp others hcp _ _ _ hfold
    rw [heq]
    simpa using hsub.nodup hkeys
  have hmem : ∀ q, q ∈ st'.2 ↔ q = c0 := by
    intro q
    rw [hroots q]
    constructor
    · rintro (h | ⟨_, ci, hci, _, htype, hroot⟩)
      · simp at h
      · have hq := hother (q, ci) (Dict.mem_of_find d.cells q ci hci)
          (by simpa using htype)
        rcases List.mem_cons.mp hq with h1 | h1
        · exact h1
        · exfalso
          obtain ⟨p, n, hn, hdrv⟩ := hsink q h1
          rw [cell_port_net_find d q ci _ hci, port_net_eq_bind] at hn
          obtain ⟨sink, hs1, hs2⟩ := Option.bind_eq_some.mp hn
          have := hroot cp (by rw [hcp]; rfl) sink hs1 n hs2
          rw [hdrv] at this
          simp at this
    · intro hq
      subst hq
      obtain ⟨ci, hci, _, hclu, htype⟩ :=
        chain_member_spec d cluster q (hcells q (List.mem_cons_self _ _))
      refine Or.inr ⟨List.mem_map_of_mem Prod.fst (Dict.mem_of_find d.cells q ci hci), ci, hci,
        hclu, by simpa using htype, ?_⟩
      intro cp' hcp' sink hs1 n hs2
      rw [hcp] at hcp'
      simp only [List.head?_cons, Option.mem_def, Option.some.injEq] at hcp'
      subst hcp'
      rw [cell_port_net_find d q ci _ hci, port_net_eq_bind] at hnc
      have hs1' : Dict.find ci.ports cp.cell_sink = some sink := hs1
      rw [hs1'] at hnc
      have hs2' : sink.net = some n := hs2
      simp only [Option.some_bind, hs2', Option.some.injEq] at hnc
      rw [hnc]
      exact htest
  have hsingle := eq_singleton_of_nodup st'.2 c0 hnodup hmem
  have heff := find_cluster_roots_effect cluster cp others hcp d hkeys st' hfind
  refine ⟨st'.1, ?_, ?_⟩
  · rw [hfind, ← hsingle]
  · rw [← hsingle]
    exact heff

/-- Scenario S3 for a chain without satellites. The cells `c0 :: rest` are the cells of a root cell type
of the netlist; each is unclustered, stored under its name and has no satellite port; the
`cell_source` port of each drives a net whose only user of a root cell type is the
`cell_sink` port of the next one; the `cell_sink` port of `c0` is on a net that is not
driven through a `cell_source` port; the `cell_source` net of the last cell has no user of
a root cell type; `cell_source` and `cell_sink` are different ports. Then `prepare_cluster`,
given one pass of fuel per cell, returns and registers exactly one cluster: it is keyed by
`c0`, its root is `c0`, and its `cluster_nodes` is `c0 :: rest`, in chain order; every cell
of the chain ends with the cluster id `c0`. -/
theorem bare_chain_forms_one_cluster (fuel : Nat) (cluster : ClusterPOD)
    (cp : ChainablePortPOD) (others : List ChainablePortPOD) (index : Nat) (d : Netlist)
    (clusters : Dict Cluster) (c0 : CellRef) (rest : List CellRef)
    (hcp : cluster.chainable_ports = cp :: others)
    (hports : cp.cell_source ≠ cp.cell_sink)
    (hkeys : (d.cells.map Prod.fst).Nodup)
    (hchain : (c0 :: rest).Nodup)
    (hcells : ∀ k ∈ c0 :: rest, chain_cell d cluster k = true)
    (hother : ∀ kc ∈ d.cells, cluster.root_cell_types.contains kc.2.type = true →
      kc.1 ∈ c0 :: rest)
    (hlinks : List.Chain' (fun a b => chained d cluster cp a b = true) (c0 :: rest))
    (hhead : tied_to_constant d cp c0 = true)
    (hlast : open_ended d cluster cp (rest.getLastD c0) = true)
    (hfresh : Dict.find clusters c0 = none)
    (hfuel : rest.length < fuel) :
    ∃ d', prepare_cluster fuel cluster index (d, clusters) =
        some (d', clusters ++ [(c0, chain_cluster index (c0 :: rest))]) ∧
      (chain_cluster index (c0 :: rest)).root = c0 ∧
      (chain_cluster index (c0 :: rest)).cluster_nodes = c0 :: rest ∧
      ∀ k ∈ c0 :: rest, ∃ c, Dict.find d'.cells k = some c ∧ c.cluster = c0 := by
  obtain ⟨d1, hfind, -, j2, j3, j4, -, j6⟩ :=
    chain_roots cluster cp others d c0 rest hcp hkeys hchain
      (fun k hk => chain_member_of_chain_cell d cluster k (hcells k hk)) hother hlinks hhead
  obtain ⟨c0i, hc0, hname0, -, -, hun0⟩ :=
    chain_cell_spec d cluster c0 (hcells c0 (List.mem_cons_self _ _))
  obtain ⟨nc, hnc, htest⟩ := tied_to_constant_spec d cp c0 hhead
  have hroot1 : Dict.find d1.cells c0 =
      some (disconnect_port { c0i with cluster := c0i.name } cp.cell_sink) :=
    j2 c0 c0i hc0 (List.mem_singleton.mpr rfl)
  have hrest1 : ∀ key, key ≠ c0 → Dict.find d1.cells key = Dict.find d.cells key :=
    fun key hkey => j3 key (by simpa using hkey)
  obtain ⟨hf1, hf2, hf3, hf4⟩ :=
    disconnect_port_fields { c0i with cluster := c0i.name } cp.cell_sink
  have htypes : same_types d.cells d1.cells := by
    intro key
    by_cases hkey : key = c0
    · subst hkey
      rw [hroot1, hc0]
      simp only [Option.map_some', Option.some.injEq]
      exact hf1
    · rw [hrest1 key hkey]
  have hnode : ∀ k ∈ c0 :: rest, ∃ c, Dict.find d1.cells k = some c ∧ c.name = k ∧
      (∀ port ∈ c.ports, Dict.count (port_cell_maps cluster) port.1 = 0) ∧
      port_net c cp.cell_source = cell_port_net d k cp.cell_source := by
    intro k hk
    by_cases hkey : k = c0
    · subst hkey
      refine ⟨_, hroot1, hf2.trans hname0, ?_, ?_⟩
      · intro port hport
        obtain ⟨port', hport', heq⟩ := hf4 port hport
        rw [← heq]
        exact hun0 port' hport'
      · rw [cell_port_net_find d k c0i _ hc0]
        unfold port_net
        rw [find_disconnect_port_other _ _ _ (Ne.symm hports)]
    · obtain ⟨c, hc, hname, -, -, hun⟩ := chain_cell_spec d cluster k (hcells k hk)
      refine ⟨c, by rw [hrest1 k hkey, hc], hname, hun, ?_⟩
      rw [cell_port_net_find d k c _ hc]
  have hnets : ∀ k ∈ c0 :: rest, ∀ n, cell_port_net d k cp.cell_source = some n →
      next_chain_node d.cells cluster (d1.nets n).users =
        next_chain_node d.cells cluster (d.nets n).users := by
    intro k hk n hn
    by_cases hsame : n = nc
    · subst hsame
      rcases chain_successor _ rest c0 hlinks k hk with ⟨s, hs⟩ | hlastk
      · obtain ⟨m, hm, -, hdrv, -⟩ := chained_spec d cluster cp k s hs
        rw [hn] at hm
        simp only [Option.some.injEq] at hm
        subst hm
        rw [hdrv] at htest
        simp at htest
      · rw [← hlastk] at hlast
        obtain ⟨m, hm, hex, hall⟩ := open_ended_spec d cluster cp k hlast
        rw [hn] at hm
        simp only [Option.some.injEq] at hm
        subst hm
        have hsub : ∀ u ∈ (d1.nets n).users, u ∈ (d.nets n).users := fun u hu => j4 n u hu
        rw [next_chain_node_eq d.cells cluster _ hex,
          next_chain_node_eq d.cells cluster _ (users_exist_subset d.cells _ _ hsub hex),
          find_no_root_type_user d.cells cluster _ hall,
          find_no_root_type_user d.cells cluster _
            (by
              rw [List.all_eq_true] at hall ⊢
              exact fun u hu => hall u (hsub u hu))]
    · have : d1.nets n = d.nets n := by
        apply j6 n
        intro key ci hci hkey hnet
        have hkey' : key = c0 := by simpa using hkey
        subst hkey'
        rw [cell_port_net_find d key ci _ hci, hnet] at hnc
        simp only [Option.some.injEq] at hnc
        exact hsame hnc
      rw [this]
  obtain ⟨cells', hrun, hkeep, hnew⟩ :=
    form_chain_walk d d1.nets cluster cp others hcp c0 c0 rest c0 d1.cells
      { root := c0, index := index } 0 fuel hfuel htypes hcells hnode
      ⟨_, hroot1, hf3.trans hname0⟩ hnets hlinks hlast
  obtain ⟨rc, hrc, hcid⟩ := hkeep c0 ⟨_, hroot1, hf3.trans hname0⟩
  refine ⟨{ d1 with cells := cells' }, ?_, rfl, rfl, ?_⟩
  · unfold prepare_cluster
    simp only [hfind, List.foldlM_cons, List.foldlM_nil, form_cluster, hrun, hrc,
      Option.some_bind, Option.pure_def, Option.bind_eq_bind]
    have hlen : ¬ (0 + (rest.length + 1) = 1 ∧ cluster.chainable_ports.length = 0) := by
      rw [hcp]
      simp
    rw [if_neg hlen, hcid, Dict.emplace_fresh clusters c0 _ hfresh,
      chain_nodes_added_root c0 index rest hchain]
    rfl
  · intro k hk
    rcases List.mem_cons.mp hk with h1 | h1
    · rw [h1]
      exact ⟨rc, hrc, hcid⟩
    · exact hnew k h1

theorem bare_chain_forms_one_cluster_witness :
    ∃ d', prepare_cluster 3 ccu2c_pod 0 (s3_netlist, []) =
        some (d', [] ++ [("c0", chain_cluster 0 ["c0", "c1", "c2"])]) ∧
      (chain_cluster 0 ["c0", "c1", "c2"]).root = "c0" ∧
      (chain_cluster 0 ["c0", "c1", "c2"]).cluster_nodes = ["c0", "c1", "c2"] ∧
      ∀ k ∈ ["c0", "c1", "c2"], ∃ c, Dict.find d'.cells k = some c ∧ c.cluster = "c0" :=
  bare_chain_forms_one_cluster 3 ccu2c_pod
    { cell_source := "COUT", cell_sink := "CIN", bel_source := "COUT", bel_sink := "CIN",
      avg_x_offset := 0, avg_y_offset := 1 }
    [] 0 s3_netlist [] "c0" ["c1", "c2"] rfl (by decide) (by decide) (by decide) (by decide)
    (by decide)
    (List.chain'_cons.mpr ⟨by decide, List.chain'_cons.mpr ⟨by decide, List.chain'_singleton _⟩⟩)
    (by decide) (by decide) rfl (by decide)

theorem shared_enable_packed_eq :
    prepare_cluster 10 ccu2c_pod 0 (shared_enable, []) = some shared_enable_packed := by
  have hsome : (prepare_cluster 10 ccu2c_pod 0 (shared_enable, [])).isSome = true := by decide
  unfold shared_enable_packed
  cases hp : prepare_cluster 10 ccu2c_pod 0 (shared_enable, []) with
  | none => rw [hp] at hsome; simp at hsome
  | some x => rfl

theorem satellites_of_a_node_compatible_witness :
    ∃ info, Dict.find shared_enable_packed.2 "c0" = some info ∧
      info.cluster_node_cells = [("c0", [("S0", "f0"), ("S1", "f1")])] ∧
      cluster_compatible shared_enable_packed.1.nets shared_enable_packed.1.cells
        (port_cell_maps ccu2c_pod) info := by
  have hsome : (Dict.find shared_enable_packed.2 "c0").isSome = true := by decide
  have hcells : (Dict.find shared_enable_packed.2 "c0").map (fun info =>
      info.cluster_node_cells) = some [("c0", [("S0", "f0"), ("S1", "f1")])] := by decide
  obtain ⟨info, hinfo⟩ := Option.isSome_iff_exists.mp hsome
  rw [hinfo] at hcells
  refine ⟨info, hinfo, by simpa using hcells, ?_⟩
  rcases satellites_of_a_node_compatible 10 ccu2c_pod 0 (shared_enable, [])
    shared_enable_packed (by decide) shared_enable_packed_eq "c0" info hinfo with h | h
  · simp [Dict.find] at h
  · exact h

theorem lut_ff_packed_eq :
    prepare_cluster 10 lut_ff_pod 0 (lut_ff_netlist, []) = some lut_ff_packed := by
  have hsome : (prepare_cluster 10 lut_ff_pod 0 (lut_ff_netlist, [])).isSome = true := by
    decide
  unfold lut_ff_packed
  cases hp : prepare_cluster 10 lut_ff_pod 0 (lut_ff_netlist, []) with
  | none => rw [hp] at hsome; simp at hsome
  | some x => rfl

/-- C25: the cluster membership invariant fails on the netlist `lut_pair` for the
description `lut_pod`. No cell of the netlist is in a cluster and no cluster is registered
before `pack_cluster`. The root `q` claims the LUT `r`, itself a root still to be visited,
as a satellite; the pass of the root `r` then claims the flip-flop `t` under the cluster id
`q` that `r` now has, and `clusters.emplace` drops the cluster of `r` because the id `q` is
taken. After `pack_cluster` the cell `t` has the cluster id `q`, and the only cluster
registered, `q`, does not list `t` in `cell_cluster_node_map` nor in its
`cluster_node_cells`. -/
theorem cluster_member_not_listed :
    (lut_pair.cells.map fun kc => kc.2.cluster) = ["", "", ""] ∧
    (find_cluster_roots lut_pod lut_pair).map Prod.snd = some ["q", "r"] ∧
    ((pack_cluster 10 [lut_pod] (lut_pair, [])).map fun r =>
        r.1.cells.map fun kc => (kc.2.name, kc.2.cluster)) =
      some [("q", "q"), ("r", "q"), ("t", "q")] ∧
    ((pack_cluster 10 [lut_pod] (lut_pair, [])).map fun r => r.2.map Prod.fst) = some ["q"] ∧
    (((pack_cluster 10 [lut_pod] (lut_pair, [])).bind fun r => Dict.find r.2 "q").map
        fun info => info.cell_cluster_node_map) = some [("r", "q"), ("q", "q")] ∧
    (((pack_cluster 10 [lut_pod] (lut_pair, [])).bind fun r => Dict.find r.2 "q").map
        fun info => Dict.find info.cell_cluster_node_map "t") = some none ∧
    (((pack_cluster 10 [lut_pod] (lut_pair, [])).bind fun r => Dict.find r.2 "q").bind
        fun info => Dict.find info.cluster_node_cells "q") = some [("O", "r")] := by
  refine ⟨?_, ?_, ?_, ?_, ?_, ?_, ?_⟩ <;> decide

/-! ## Identifier order and delay arithmetic -/

theorem Location.eq_iff (a b : Location) : a.eq b = true ↔ a = b := by
  cases a; cases b
  simp [Location.eq]

theorem Location.lt_iff (a b : Location) :
    a.lt b = true ↔ a.y < b.y ∨ (a.y = b.y ∧ a.x < b.x) := by
  unfold Location.lt
  by_cases h : a.y = b.y
  · simp [h]
  · rw [if_neg (by simpa using h)]
    simp only [decide_eq_true_eq]
    constructor
    · exact Or.inl
    · rintro (h' | ⟨h', _⟩)
      · exact h'
      · exact absurd h' h

theorem id_order_laws {α : Type} (location : α → Location) (index : α → Int)
    (lt eq ne : α → α → Bool)
    (hext : ∀ a b, location a = location b → index a = index b → a = b)
    (heq : ∀ a b, eq a b = (index a == index b && (location a).eq (location b)))
    (hne : ∀ a b, ne a b = (index a != index b || (location a).ne (location b)))
    (hlt : ∀ a b, lt a b = if (location a).eq (location b) then decide (index a < index b)
      else (location a).lt (location b)) :
    strict_total_order lt eq ne := by
  have heq' : ∀ a b, eq a b = true ↔ a = b := by
    intro a b
    rw [heq]
    simp only [Bool.and_eq_true, beq_iff_eq, Location.eq_iff]
    constructor
    · rintro ⟨h1, h2⟩
      exact hext a b h2 h1
    · rintro rfl
      exact ⟨rfl, rfl⟩
  have hlt' : ∀ a b, lt a b = true ↔
      (location a).y < (location b).y ∨
        ((location a).y = (location b).y ∧ (location a).x < (location b).x) ∨
        (location a = location b ∧ index a < index b) := by
    intro a b
    rw [hlt]
    by_cases h : location a = location b
    · rw [if_pos ((Location.eq_iff _ _).mpr h)]
      simp only [decide_eq_true_eq, h]
      constructor
      · intro h'
        exact Or.inr (Or.inr ⟨trivial, h'⟩)
      · rintro (h' | ⟨_, h'⟩ | ⟨_, h'⟩)
        · exact absurd h' (lt_irrefl _)
        · exact absurd h' (lt_irrefl _)
        · exact h'
    · have hn : ¬ (location a).eq (location b) = true := fun h' => h ((Location.eq_iff _ _).mp h')
      rw [if_neg hn, Location.lt_iff]
      constructor
      · rintro (h' | h')
        · exact Or.inl h'
        · exact Or.inr (Or.inl h')
      · rintro (h' | h' | ⟨h', _⟩)
        · exact Or.inl h'
        · exact Or.inr h'
        · exact absurd h' h
  have hloc : ∀ a b : α, (location a).x = (location b).x → (location a).y = (location b).y →
      location a = location b := by
    intro a b hx hy
    cases hl : location a
    cases hl' : location b
    rw [hl, hl'] at hx hy
    simp only at hx hy
    rw [hx, hy]
  refine ⟨heq', ?_, ?_, ?_⟩
  · intro a b
    rw [hne, heq]
    cases a' : location a
    cases b' : location b
    simp only [Location.ne, Location.eq, bne, Bool.not_and]
  · intro a b
    simp only [heq', hlt']
    have hx := lt_trichotomy (location a).x (location b).x
    have hy := lt_trichotomy (location a).y (location b).y
    have hi := lt_trichotomy (index a) (index b)
    refine ⟨?_, ?_, ?_, ?_⟩
    · rcases hy with hy | hy | hy
      · exact Or.inl (Or.inl hy)
      · rcases hx with hx | hx | hx
        · exact Or.inl (Or.inr (Or.inl ⟨hy, hx⟩))
        · have hl := hloc a b hx hy
          rcases hi with hi | hi | hi
          · exact Or.inl (Or.inr (Or.inr ⟨hl, hi⟩))
          · exact Or.inr (Or.inl (hext a b hl hi))
          · exact Or.inr (Or.inr (Or.inr (Or.inr ⟨hl.symm, hi⟩)))
        · exact Or.inr (Or.inr (Or.inr (Or.inl ⟨hy.symm, hx⟩)))
      · exact Or.inr (Or.inr (Or.inl hy))
    · rintro ⟨h1, rfl⟩
      rcases h1 with h | ⟨_, h⟩ | ⟨_, h⟩ <;> exact absurd h (lt_irrefl _)
    · rintro ⟨h1, h2⟩
      rcases h1 with h | ⟨e, h⟩ | ⟨e, h⟩ <;> rcases h2 with h' | ⟨e', h'⟩ | ⟨e', h'⟩ <;>
        first
        | omega
        | (rw [e] at h'; omega)
        | (rw [e'] at h; omega)
    · rintro ⟨rfl, h2⟩
      rcases h2 with h | ⟨_, h⟩ | ⟨_, h⟩ <;> exact absurd h (lt_irrefl _)
  · intro a b c
    simp only [hlt']
    rintro (h | ⟨e, h⟩ | ⟨e, h⟩) (h' | ⟨e', h'⟩ | ⟨e', h'⟩)
    · exact Or.inl (lt_trans h h')
    · exact Or.inl (e' ▸ h)
    · exact Or.inl (e' ▸ h)
    · exact Or.inl (e ▸ h')
    · exact Or.inr (Or.inl ⟨e.trans e', lt_trans h h'⟩)
    · exact Or.inr (Or.inl ⟨e' ▸ e, e' ▸ h⟩)
    · exact Or.inl (e ▸ h')
    · exact Or.inr (Or.inl ⟨e ▸ e', e ▸ h'⟩)
    · exact Or.inr (Or.inr ⟨e.trans e', lt_trans h h'⟩)

/-- C28: the machxo2 `BelId` comparison, and identically that of `WireId` and `PipId`, is a
strict total order consistent with equality: `==` holds exactly for equal ids, `!=` is the
negation of `==`, exactly one of `a < b`, `a == b`, `b < a` holds, and `<` is transitive;
the default-constructed id has location (-1, -1) and index -1. -/
theorem id_comparison_strict_total_order :
    strict_total_order BelId.lt BelId.eq BelId.ne ∧
    strict_total_order WireId.lt WireId.eq WireId.ne ∧
    strict_total_order PipId.lt PipId.eq PipId.ne ∧
    ({} : BelId) = { location := { x := -1, y := -1 }, index := -1 } ∧
    ({} : WireId) = { location := { x := -1, y := -1 }, index := -1 } ∧
    ({} : PipId) = { location := { x := -1, y := -1 }, index := -1 } := by
  refine ⟨?_, ?_, ?_, rfl, rfl, rfl⟩
  · exact id_order_laws BelId.location BelId.index _ _ _
      (fun a b h1 h2 => by cases a; cases b; simp_all) (fun _ _ => rfl) (fun _ _ => rfl)
      (fun _ _ => rfl)
  · exact id_order_laws WireId.location WireId.index _ _ _
      (fun a b h1 h2 => by cases a; cases b; simp_all) (fun _ _ => rfl) (fun _ _ => rfl)
      (fun _ _ => rfl)
  · exact id_order_laws PipId.location PipId.index _ _ _
      (fun a b h1 h2 => by cases a; cases b; simp_all) (fun _ _ => rfl) (fun _ _ => rfl)
      (fun _ _ => rfl)

/-! ## Delays: `DelayPair` and `DelayQuad` -/

theorem Float32.digits_le : ∀ (fuel n k : Nat), n < 2 ^ k → Float32.digits fuel n ≤ k := by
  intro fuel
  induction fuel with
  | zero => intro n k _; simp [Float32.digits]
  | succ fuel ih =>
    intro n k h
    unfold Float32.digits
    split_ifs with h0
    · exact Nat.zero_le _
    · obtain ⟨k, rfl⟩ : ∃ j, k = j + 1 := by
        cases k with
        | zero => simp at h; exact absurd h h0
        | succ j => exact ⟨j, rfl⟩
      have hhalf : n / 2 < 2 ^ k := by
        rw [Nat.div_lt_iff_lt_mul (by norm_num)]
        rw [pow_succ] at h
        exact h
      have := ih (n / 2) k hhalf
      omega

theorem Float32.scaled_zero_exp (s : Bool) (m : Nat) :
    Float32.scaled s m 0 0 = (if s then -1 else 1) * (m : Int) := by
  simp [Float32.scaled]

theorem Float32.scaled_natAbs (x : Int) :
    Float32.scaled (decide (x < 0)) x.natAbs 0 0 = x := by
  rw [Float32.scaled_zero_exp]
  by_cases h : x < 0
  · simp only [h, decide_True, if_true]
    omega
  · simp only [h, decide_False, if_false, Bool.false_eq_true]
    omega

theorem Float32.round_small (sign : Bool) (m : Nat) (e : Int) (h : m < 2 ^ 24) :
    Float32.round sign m e = Float32.finite sign m e := by
  unfold Float32.round
  simp only
  rw [if_pos (Float32.digits_le m m 24 h)]

/-- The sum of two integer-valued `float`s is exact when its magnitude is below `2^24`. -/
theorem Float32.add_exact (s t : Bool) (m n : Nat)
    (h : (Float32.scaled s m 0 0 + Float32.scaled t n 0 0).natAbs < 2 ^ 24) :
    ∃ u k, Float32.add (Float32.finite s m 0) (Float32.finite t n 0) = Float32.finite u k 0 ∧
      Float32.scaled u k 0 0 = Float32.scaled s m 0 0 + Float32.scaled t n 0 0 := by
  unfold Float32.add
  simp only [min_self]
  by_cases h0 : Float32.scaled s m 0 0 + Float32.scaled t n 0 0 = 0
  · rw [if_pos h0]
    refine ⟨_, _, rfl, ?_⟩
    rw [h0, Float32.scaled_zero_exp]
    simp
  · rw [if_neg h0, Float32.round_small _ _ _ h]
    exact ⟨_, _, rfl, Float32.scaled_natAbs _⟩

theorem Float32.ofInt_small (i : Int) (h : i.natAbs < 2 ^ 24) :
    Float32.ofInt i = Float32.finite (decide (i < 0)) i.natAbs 0 :=
  Float32.round_small _ _ _ h

/-- On the machxo2 delay type, `(x + y) - y == x` for integer-valued delays of magnitude
below `2^23`. -/
theorem float_small_int_exact (i j : Int) (hi : i.natAbs < 2 ^ 23) (hj : j.natAbs < 2 ^ 23) :
    (((Float32.ofInt i + Float32.ofInt j) - Float32.ofInt j : delay_t) == Float32.ofInt i) =
      true := by
  rw [Float32.ofInt_small i (by omega), Float32.ofInt_small j (by omega)]
  show Float32.eq (Float32.sub (Float32.add _ _) _) _ = true
  have h1 : (Float32.scaled (decide (i < 0)) i.natAbs 0 0 +
      Float32.scaled (decide (j < 0)) j.natAbs 0 0).natAbs < 2 ^ 24 := by
    rw [Float32.scaled_natAbs, Float32.scaled_natAbs]
    omega
  obtain ⟨u, k, hadd, hval⟩ := Float32.add_exact _ _ _ _ h1
  rw [hadd]
  unfold Float32.sub Float32.neg
  simp only
  rw [Float32.scaled_natAbs, Float32.scaled_natAbs] at hval
  have hneg : Float32.scaled (!decide (j < 0)) j.natAbs 0 0 = -j := by
    rw [Float32.scaled_zero_exp]
    by_cases h : j < 0
    · simp only [h, decide_True, Bool.not_true, Bool.false_eq_true, if_false]
      omega
    · simp only [h, decide_False, Bool.not_false, if_true]
      omega
  have h2 : (Float32.scaled u k 0 0 +
      Float32.scaled (!decide (j < 0)) j.natAbs 0 0).natAbs < 2 ^ 24 := by
    rw [hval, hneg]
    omega
  obtain ⟨v, l, hsub, hval2⟩ := Float32.add_exact _ _ _ _ h2
  rw [hsub]
  unfold Float32.eq
  simp only [min_self, decide_eq_true_eq]
  rw [hval2, hval, hneg, Float32.scaled_natAbs]
  omega

/-- The comparison `<` of `float` is asymmetric. -/
theorem Float32.lt_asymm (x y : Float32) (h : x < y) : ¬ y < x := by
  change Float32.lt x y = true at h
  change ¬ Float32.lt y x = true
  cases x with
  | nan => simp [Float32.lt] at h
  | inf s =>
    cases y with
    | nan => simp [Float32.lt] at h
    | inf t => cases s <;> cases t <;> simp_all [Float32.lt]
    | finite t n f => simp_all [Float32.lt]
  | finite s m e =>
    cases y with
    | nan => simp [Float32.lt] at h
    | inf t => simp_all [Float32.lt]
    | finite t n f =>
      simp only [Float32.lt, decide_eq_true_eq] at h ⊢
      rw [min_comm f e]
      exact not_lt.mpr (le_of_lt h)

/-- On exact integers, `(x + y) - y == x`. -/
theorem int_delay_exact (x y : Int) : ((x + y) - y == x) = true := by
  simp

set_option maxRecDepth 10000 in
/-- C29, counterexample: on the machxo2 delay type `float`, subtraction does not undo
addition. With the delays 1 and 16777216 (`2^24`), every component of `a + b` is 16777216
and every component of `(a + b) - b` is 0, not 1. With the delays 0.01 and 1000, every
component of `(a + b) - b` is `164 * 2^-14`, about 0.01001, and not 0.01. -/
theorem float_delay_sum_not_inverted :
    (((DelayQuad.of_delay (Float32.ofInt 1 : delay_t)).add
      (DelayQuad.of_delay (Float32.ofInt 16777216))).component_pairs
      (DelayQuad.of_delay (Float32.ofInt 16777216))).all (fun p => p.1 == p.2) = true ∧
    ((((DelayQuad.of_delay (Float32.ofInt 1 : delay_t)).add
        (DelayQuad.of_delay (Float32.ofInt 16777216))).sub
        (DelayQuad.of_delay (Float32.ofInt 16777216))).component_pairs
        (DelayQuad.of_delay (Float32.ofInt 1))).all
      (fun p => p.1 == Float32.ofInt 0 && !(p.1 == p.2)) = true ∧
    ((((DelayQuad.of_delay delay_epsilon).add
        (DelayQuad.of_delay (Float32.ofInt 1000))).sub
        (DelayQuad.of_delay (Float32.ofInt 1000))).component_pairs
        (DelayQuad.of_delay delay_epsilon)).all
      (fun p => p.1 == Float32.finite false 164 (-14) && !(p.1 == p.2)) = true := by
  refine ⟨?_, ?_, ?_⟩ <;> decide

/-- C29, amended: `DelayQuad` addition and subtraction are component-wise in the arithmetic
of the delay type: each of the four components of `a + b` is the sum, and each component of
`a - b` the difference, of the corresponding components; `minDelay()` is `std::min` of the
rise and fall minima and `maxDelay()` is `std::max` of the rise and fall maxima: one of the
two values, with neither of the two below, respectively above, it. Addition and
subtraction are inverse to each other, `(a + b) - b == a` component-wise, for every delay
type in which `(x + y) - y == x` holds for all delays, and for the machxo2 delay type
`float` when the components are integers of magnitude below `2^23`. -/
theorem delay_quad_arithmetic :
    (∀ (D : Type) [Add D] [Sub D] [LT D] [DecidableRel ((· < ·) : D → D → Prop)]
      (a b : DelayQuad D),
      (a.add b).minRiseDelay = a.minRiseDelay + b.minRiseDelay ∧
      (a.add b).maxRiseDelay = a.maxRiseDelay + b.maxRiseDelay ∧
      (a.add b).minFallDelay = a.minFallDelay + b.minFallDelay ∧
      (a.add b).maxFallDelay = a.maxFallDelay + b.maxFallDelay ∧
      (a.sub b).minRiseDelay = a.minRiseDelay - b.minRiseDelay ∧
      (a.sub b).maxRiseDelay = a.maxRiseDelay - b.maxRiseDelay ∧
      (a.sub b).minFallDelay = a.minFallDelay - b.minFallDelay ∧
      (a.sub b).maxFallDelay = a.maxFallDelay - b.maxFallDelay ∧
      ((∀ x y : D, x < y → ¬ y < x) →
        (a.minDelay = a.minRiseDelay ∨ a.minDelay = a.minFallDelay) ∧
        ¬ a.minRiseDelay < a.minDelay ∧ ¬ a.minFallDelay < a.minDelay ∧
        (a.maxDelay = a.maxRiseDelay ∨ a.maxDelay = a.maxFallDelay) ∧
        ¬ a.maxDelay < a.maxRiseDelay ∧ ¬ a.maxDelay < a.maxFallDelay)) ∧
    (∀ (D : Type) [Add D] [Sub D] [BEq D] (a b : DelayQuad D),
      (∀ x y : D, ((x + y) - y == x) = true) →
      ∀ p ∈ ((a.add b).sub b).component_pairs a, (p.1 == p.2) = true) ∧
    ∀ (a b : DelayQuad Int),
      (∀ p ∈ a.component_pairs b, p.1.natAbs < 2 ^ 23 ∧ p.2.natAbs < 2 ^ 23) →
      ∀ p ∈ ((a.to_float.add b.to_float).sub b.to_float).component_pairs a.to_float,
        (p.1 == p.2) = true := by
  refine ⟨?_, ?_, ?_⟩
  · intro D _ _ _ _ a b
    refine ⟨rfl, rfl, rfl, rfl, rfl, rfl, rfl, rfl, ?_⟩
    intro hasymm
    simp only [DelayQuad.minDelay, DelayQuad.maxDelay, DelayQuad.minRiseDelay,
      DelayQuad.minFallDelay, DelayQuad.maxRiseDelay, DelayQuad.maxFallDelay,
      DelayPair.minDelay, DelayPair.maxDelay]
    have hirr : ∀ x : D, ¬ x < x := fun x h => hasymm x x h h
    refine ⟨?_, ?_, ?_, ?_, ?_, ?_⟩
    · split_ifs
      · exact Or.inr rfl
      · exact Or.inl rfl
    · split_ifs with h
      · exact hasymm _ _ h
      · exact hirr _
    · split_ifs with h
      · exact hirr _
      · exact h
    · split_ifs
      · exact Or.inr rfl
      · exact Or.inl rfl
    · split_ifs with h
      · exact hasymm _ _ h
      · exact hirr _
    · split_ifs with h
      · exact hirr _
      · exact h
  · intro D _ _ _ a b hexact p hp
    simp only [DelayQuad.component_pairs, List.mem_cons, List.mem_singleton, List.mem_nil_iff,
      or_false] at hp
    rcases hp with rfl | rfl | rfl | rfl <;> exact hexact _ _
  · intro a b hsmall p hp
    simp only [DelayQuad.component_pairs, List.mem_cons, List.mem_singleton, List.mem_nil_iff,
      or_false] at hp
    have h1 := hsmall (a.minRiseDelay, b.minRiseDelay) (by simp [DelayQuad.component_pairs])
    have h2 := hsmall (a.maxRiseDelay, b.maxRiseDelay) (by simp [DelayQuad.component_pairs])
    have h3 := hsmall (a.minFallDelay, b.minFallDelay) (by simp [DelayQuad.component_pairs])
    have h4 := hsmall (a.maxFallDelay, b.maxFallDelay) (by simp [DelayQuad.component_pairs])
    rcases hp with rfl | rfl | rfl | rfl
    · exact float_small_int_exact _ _ h1.1 h1.2
    · exact float_small_int_exact _ _ h2.1 h2.2
    · exact float_small_int_exact _ _ h3.1 h3.2
    · exact float_small_int_exact _ _ h4.1 h4.2

theorem delay_quad_arithmetic_witness :
    ((((DelayQuad.of_delay (3 : Int)).add (DelayQuad.of_delay 4)).sub
        (DelayQuad.of_delay 4)).minRiseDelay == (3 : Int)) = true ∧
    ((((DelayQuad.of_delay (Float32.ofInt 3 : delay_t)).add
        (DelayQuad.of_delay (Float32.ofInt 4))).sub
        (DelayQuad.of_delay (Float32.ofInt 4))).minRiseDelay == Float32.ofInt 3) = true ∧
    ¬ (DelayQuad.mk ⟨Float32.ofInt 1, Float32.ofInt 5⟩
        ⟨Float32.ofInt 2, Float32.ofInt 7⟩ : DelayQuad delay_t).minRiseDelay <
      (DelayQuad.mk ⟨Float32.ofInt 1, Float32.ofInt 5⟩
        ⟨Float32.ofInt 2, Float32.ofInt 7⟩ : DelayQuad delay_t).minDelay :=
  ⟨delay_quad_arithmetic.2.1 Int (DelayQuad.of_delay 3) (DelayQuad.of_delay 4) int_delay_exact
      _ (List.mem_cons_self _ _),
    delay_quad_arithmetic.2.2 (DelayQuad.of_delay 3) (DelayQuad.of_delay 4)
      (by decide) _ (List.mem_cons_self _ _),
    (((delay_quad_arithmetic.1 delay_t
      (DelayQuad.mk ⟨Float32.ofInt 1, Float32.ofInt 5⟩ ⟨Float32.ofInt 2, Float32.ofInt 7⟩)
      (DelayQuad.mk ⟨Float32.ofInt 1, Float32.ofInt 5⟩ ⟨Float32.ofInt 2, Float32.ofInt 7⟩)
      ).2.2.2.2.2.2.2.2) Float32.lt_asymm).2.1⟩

/-- C30: state transitions of `handle_expansion_node`, for every current node with
`depth < 2` and every pip whose far wire is valid. Via a site-port pip a node in
`ONLY_IN_SOURCE_SITE` or `IN_SINK_SITE` produces no successor; a node in `IN_SOURCE_SITE`
produces a successor in `IN_ROUTING` and a node in `IN_ROUTING` a successor in
`IN_SINK_SITE`, on the far wire and at the same depth, when the assertion of the code on the
site of the far wire holds (the call fails when it does not); via an ordinary pip the
successor has the state of the current node. -/
theorem handle_expansion_node_transitions (arch : InterchangeArch) (prev_wire : WireId)
    (pip : PipId) (curr_node : ClusterWireNode) (nodes_to_expand : List ClusterWireNode)
    (bels : List BelId) (direction : ExpansionDirection)
    (hwire : far_wire arch pip direction ≠ {})
    (hdepth : curr_node.depth < 2) :
    (arch.is_site_port pip = true →
      curr_node.state = ClusterWireNodeState.ONLY_IN_SOURCE_SITE ∨
        curr_node.state = ClusterWireNodeState.IN_SINK_SITE →
      handle_expansion_node arch prev_wire pip curr_node nodes_to_expand bels direction =
        some (nodes_to_expand, bels)) ∧
    (arch.is_site_port pip = true →
      curr_node.state = ClusterWireNodeState.IN_SOURCE_SITE →
      (arch.wire_site (far_wire arch pip direction) = -1 →
        handle_expansion_node arch prev_wire pip curr_node nodes_to_expand bels direction =
          some ({ wire := far_wire arch pip direction
                  state := ClusterWireNodeState.IN_ROUTING
                  depth := curr_node.depth } :: nodes_to_expand, bels)) ∧
      (arch.wire_site (far_wire arch pip direction) ≠ -1 →
        handle_expansion_node arch prev_wire pip curr_node nodes_to_expand bels direction =
          none)) ∧
    (arch.is_site_port pip = true →
      curr_node.state = ClusterWireNodeState.IN_ROUTING →
      (arch.wire_site (far_wire arch pip direction) ≠ -1 →
        ∃ bels', handle_expansion_node arch prev_wire pip curr_node nodes_to_expand bels
            direction =
          some ({ wire := far_wire arch pip direction
                  state := ClusterWireNodeState.IN_SINK_SITE
                  depth := curr_node.depth } :: nodes_to_expand, bels')) ∧
      (arch.wire_site (far_wire arch pip direction) = -1 →
        handle_expansion_node arch prev_wire pip curr_node nodes_to_expand bels direction =
          none)) ∧
    (arch.is_site_port pip = false →
      ∃ depth bels', handle_expansion_node arch prev_wire pip curr_node nodes_to_expand bels
          direction =
        some ({ wire := far_wire arch pip direction
                state := curr_node.state
                depth := depth } :: nodes_to_expand, bels') ∧
        (depth = curr_node.depth ∨ depth = curr_node.depth + 1)) := by
  have hd : ¬ curr_node.depth ≥ 2 := not_le.mpr hdepth
  unfold far_wire at hwire
  refine ⟨?_, ?_, ?_, ?_⟩
  · intro hs hst
    unfold handle_expansion_node
    simp only [if_neg hwire, if_neg hd, hs, if_true]
    rcases hst with h | h <;> rw [h]
  · intro hs hst
    constructor
    · intro hsite
      unfold far_wire at hsite
      unfold handle_expansion_node
      simp only [if_neg hwire, if_neg hd, hs, if_true]
      rw [hst]
      simp [hsite, push_expansion_node, far_wire]
    · intro hsite
      unfold far_wire at hsite
      unfold handle_expansion_node
      simp only [if_neg hwire, if_neg hd, hs, if_true]
      rw [hst]
      simp [hsite]
  · intro hs hst
    constructor
    · intro hsite
      unfold far_wire at hsite
      unfold handle_expansion_node
      simp only [if_neg hwire, if_neg hd, hs, if_true]
      rw [hst]
      simp only [if_neg hsite, push_expansion_node, true_or, if_true, far_wire]
      exact ⟨_, rfl⟩
    · intro hsite
      unfold far_wire at hsite
      unfold handle_expansion_node
      simp only [if_neg hwire, if_neg hd, hs, if_true]
      rw [hst]
      simp [hsite]
  · intro hs
    have hs' : ¬ arch.is_site_port pip = true := by simp [hs]
    unfold handle_expansion_node
    simp only [if_neg hwire, if_neg hd, if_neg hs']
    unfold push_expansion_node
    simp only [far_wire]
    split_ifs <;> exact ⟨_, _, rfl, by simp⟩

theorem handle_expansion_node_transitions_witness :
    handle_expansion_node col_arch (col_wire 0 0) (col_pip 0 0)
        { wire := col_wire 0 0, state := ClusterWireNodeState.IN_SOURCE_SITE, depth := 0 }
        [] [] ExpansionDirection.CLUSTER_DOWNHILL_DIR =
      some ([{ wire := far_wire col_arch (col_pip 0 0) ExpansionDirection.CLUSTER_DOWNHILL_DIR
               state := ClusterWireNodeState.IN_ROUTING
               depth := 0 }], []) :=
  ((handle_expansion_node_transitions col_arch (col_wire 0 0) (col_pip 0 0)
      { wire := col_wire 0 0, state := ClusterWireNodeState.IN_SOURCE_SITE, depth := 0 }
      [] [] ExpansionDirection.CLUSTER_DOWNHILL_DIR (by decide) (by decide)).2.1
    (by decide) rfl).1 (by decide)

/-! ## The routing walk: depth, bel collection, termination -/

/-- C31, failing inputs: the depth of a successor follows the value read from the unassigned
`next_node.state`, not the state of the current node. On the routing wire 1 of `hop_arch`,
through the ordinary pip 1, a current node in state `IN_ROUTING` with depth 0 gets a
successor of depth 0 when the value read is `IN_SINK_SITE`, and a current node in state
`IN_SOURCE_SITE` with depth 0 gets a successor of depth 1 when the value read is
`IN_ROUTING`. -/
theorem routing_depth_follows_unassigned_state :
    far_wire (hop_arch ClusterWireNodeState.IN_SINK_SITE) (col_pip 0 1)
        ExpansionDirection.CLUSTER_DOWNHILL_DIR = col_wire 0 2 ∧
    (hop_arch ClusterWireNodeState.IN_SINK_SITE).is_site_port (col_pip 0 1) = false ∧
    handle_expansion_node (hop_arch ClusterWireNodeState.IN_SINK_SITE) (col_wire 0 1)
        (col_pip 0 1)
        { wire := col_wire 0 1, state := ClusterWireNodeState.IN_ROUTING, depth := 0 }
        [] [] ExpansionDirection.CLUSTER_DOWNHILL_DIR =
      some ([{ wire := col_wire 0 2, state := ClusterWireNodeState.IN_ROUTING, depth := 0 }],
        []) ∧
    handle_expansion_node (hop_arch ClusterWireNodeState.IN_ROUTING) (col_wire 0 1)
        (col_pip 0 1)
        { wire := col_wire 0 1, state := ClusterWireNodeState.IN_SOURCE_SITE, depth := 0 }
        [] [] ExpansionDirection.CLUSTER_DOWNHILL_DIR =
      some ([{ wire := col_wire 0 2, state := ClusterWireNodeState.IN_SOURCE_SITE,
               depth := 1 }], []) := by
  refine ⟨?_, ?_, ?_, ?_⟩ <;> decide

/-- C32, failing input: in `mux_arch` the wire 1 is entered in state `ONLY_IN_SOURCE_SITE`
and carries a pin of the routing bel 1 followed by a pin of the logic bel 0, which is not
synthetic. The `return` taken at the routing bel ends the collection, and
`find_cluster_bels` returns no bel; with the two pins in the other order it returns the
logic bel. -/
theorem logic_bel_after_routing_bel_missed :
    find_cluster_bels_iter
        (mux_arch [{ bel := ff_bel 0, pin := "I" }, { bel := carry_bel 0, pin := "CIN" }])
        ExpansionDirection.CLUSTER_DOWNHILL_DIR 1 ([start_node (col_wire 0 0) false], []) =
      some ([{ wire := col_wire 0 1, state := ClusterWireNodeState.ONLY_IN_SOURCE_SITE,
               depth := 0 }], []) ∧
    (mux_arch [{ bel := ff_bel 0, pin := "I" },
        { bel := carry_bel 0, pin := "CIN" }]).bel_category_logic (carry_bel 0) = true ∧
    (mux_arch [{ bel := ff_bel 0, pin := "I" },
        { bel := carry_bel 0, pin := "CIN" }]).bel_synthetic (carry_bel 0) = false ∧
    find_cluster_bels
        (mux_arch [{ bel := ff_bel 0, pin := "I" }, { bel := carry_bel 0, pin := "CIN" }])
        2 (col_wire 0 0) ExpansionDirection.CLUSTER_DOWNHILL_DIR false = some [] ∧
    find_cluster_bels
        (mux_arch [{ bel := carry_bel 0, pin := "CIN" }, { bel := ff_bel 0, pin := "I" }])
        2 (col_wire 0 0) ExpansionDirection.CLUSTER_DOWNHILL_DIR false =
      some [carry_bel 0] := by
  refine ⟨?_, ?_, ?_, ?_, ?_⟩ <;> decide

theorem collect_bels_mem (arch : InterchangeArch) (prev_wire : WireId)
    (direction : ExpansionDirection) :
    ∀ (pins : List BelPin) (bels : List BelId),
      ∀ bel ∈ collect_bels arch prev_wire direction pins bels,
        bel ∈ bels ∨ bel ∈ pins.map BelPin.bel := by
  intro pins
  induction pins with
  | nil => intro bels bel h; exact Or.inl h
  | cons pin rest ih =>
    intro bels bel h
    unfold collect_bels at h
    simp only at h
    have hrest : ∀ bs, bel ∈ collect_bels arch prev_wire direction rest bs →
        (bel ∈ bs ∨ bel ∈ (pin :: rest).map BelPin.bel) := by
      intro bs hb
      rcases ih bs bel hb with h1 | h1
      · exact Or.inl h1
      · exact Or.inr (List.mem_cons_of_mem _ h1)
    have hadd : bel ∈ collect_bels arch prev_wire direction rest (bels ++ [pin.bel]) →
        (bel ∈ bels ∨ bel ∈ (pin :: rest).map BelPin.bel) := by
      intro hb
      rcases hrest _ hb with h1 | h1
      · rcases List.mem_append.mp h1 with h2 | h2
        · exact Or.inl h2
        · right
          simp only [List.mem_singleton] at h2
          simp [h2]
      · exact Or.inr h1
    split_ifs at h
    all_goals first | exact hrest _ h | exact Or.inl h | exact hadd h

/-- What a call of `handle_expansion_node` that returns does: nothing, or it pushes one node
on the far wire of the pip, which is a valid wire, and collects bels among the bel pins of
that wire. -/
theorem handle_expansion_node_cases (arch : InterchangeArch) (prev_wire : WireId) (pip : PipId)
    (curr_node : ClusterWireNode) (nodes_to_expand : List ClusterWireNode) (bels : List BelId)
    (direction : ExpansionDirection) (st : List ClusterWireNode × List BelId)
    (h : handle_expansion_node arch prev_wire pip curr_node nodes_to_expand bels direction =
      some st) :
    st = (nodes_to_expand, bels) ∨
    ∃ next_node, st.1 = next_node :: nodes_to_expand ∧
      next_node.wire = far_wire arch pip direction ∧ far_wire arch pip direction ≠ {} ∧
      (arch.is_site_port pip = false → next_node.state = curr_node.state) ∧
      (arch.is_site_port pip = true →
        next_node.state = ClusterWireNodeState.IN_ROUTING ∨
          next_node.state = ClusterWireNodeState.IN_SINK_SITE) ∧
      ∀ bel ∈ st.2, bel ∈ bels ∨
        ((next_node.state = ClusterWireNodeState.IN_SINK_SITE ∨
            next_node.state = ClusterWireNodeState.ONLY_IN_SOURCE_SITE) ∧
          bel ∈ (arch.getWireBelPins next_node.wire).map BelPin.bel) := by
  have hpush : ∀ next_node : ClusterWireNode,
      next_node.wire = far_wire arch pip direction → far_wire arch pip direction ≠ {} →
      (arch.is_site_port pip = false → next_node.state = curr_node.state) →
      (arch.is_site_port pip = true →
        next_node.state = ClusterWireNodeState.IN_ROUTING ∨
          next_node.state = ClusterWireNodeState.IN_SINK_SITE) →
      st = push_expansion_node arch prev_wire next_node nodes_to_expand bels direction →
      ∃ next_node, st.1 = next_node :: nodes_to_expand ∧
        next_node.wire = far_wire arch pip direction ∧ far_wire arch pip direction ≠ {} ∧
        (arch.is_site_port pip = false → next_node.state = curr_node.state) ∧
        (arch.is_site_port pip = true →
          next_node.state = ClusterWireNodeState.IN_ROUTING ∨
            next_node.state = ClusterWireNodeState.IN_SINK_SITE) ∧
        ∀ bel ∈ st.2, bel ∈ bels ∨
          ((next_node.state = ClusterWireNodeState.IN_SINK_SITE ∨
              next_node.state = ClusterWireNodeState.ONLY_IN_SOURCE_SITE) ∧
            bel ∈ (arch.getWireBelPins next_node.wire).map BelPin.bel) := by
    intro next_node hw hv h1 h2 hst
    refine ⟨next_node, ?_, hw, hv, h1, h2, ?_⟩
    · rw [hst]
      unfold push_expansion_node
      split_ifs <;> rfl
    · intro bel hbel
      rw [hst] at hbel
      unfold push_expansion_node at hbel
      split_ifs at hbel with hs
      · rcases collect_bels_mem arch prev_wire direction _ _ bel hbel with h3 | h3
        · exact Or.inl h3
        · exact Or.inr ⟨hs, h3⟩
      · exact Or.inl hbel
  unfold handle_expansion_node at h
  simp only at h
  have hfar : (if direction = ExpansionDirection.CLUSTER_UPHILL_DIR then arch.getPipSrcWire pip
      else arch.getPipDstWire pip) = far_wire arch pip direction := rfl
  rw [hfar] at h
  by_cases hw : far_wire arch pip direction = {}
  · rw [if_pos hw] at h
    exact Or.inl (Option.some.inj h).symm
  · rw [if_neg hw] at h
    by_cases hd : curr_node.depth ≥ 2
    · rw [if_pos hd] at h
      exact Or.inl (Option.some.inj h).symm
    · rw [if_neg hd] at h
      by_cases hs : arch.is_site_port pip = true
      · rw [if_pos hs] at h
        have hstates : curr_node.state = ClusterWireNodeState.ONLY_IN_SOURCE_SITE ∨
            curr_node.state = ClusterWireNodeState.IN_SINK_SITE ∨
            curr_node.state = ClusterWireNodeState.IN_SOURCE_SITE ∨
            curr_node.state = ClusterWireNodeState.IN_ROUTING := by
          cases curr_node.state <;> simp
        rcases hstates with hstate | hstate | hstate | hstate
        · rw [hstate] at h
          exact Or.inl (Option.some.inj h).symm
        · rw [hstate] at h
          exact Or.inl (Option.some.inj h).symm
        · rw [hstate] at h
          simp only at h
          split_ifs at h
          exact Or.inr (hpush _ rfl hw (fun hn => by rw [hs] at hn; cases hn)
            (fun _ => Or.inl rfl) (Option.some.inj h).symm)
        · rw [hstate] at h
          simp only at h
          split_ifs at h
          exact Or.inr (hpush _ rfl hw (fun hn => by rw [hs] at hn; cases hn)
            (fun _ => Or.inr rfl) (Option.some.inj h).symm)
      · rw [if_neg hs] at h
        exact Or.inr (hpush
          { wire := far_wire arch pip direction, state := curr_node.state,
            depth :=
              if arch.indeterminate_state pip curr_node = ClusterWireNodeState.IN_ROUTING then
                curr_node.depth + 1
              else curr_node.depth }
          rfl hw (fun _ => rfl) (fun hn => absurd hn hs) (Option.some.inj h).symm)

/-- An invariant of the loop over the pips of a node: a property of the worklist and the
bels that every returning call of `handle_expansion_node` on a pip of the list keeps, when
the pip is not synthetic, holds after the loop. -/
theorem expand_pips_inv (arch : InterchangeArch) (node : ClusterWireNode)
    (direction : ExpansionDirection) (P : List ClusterWireNode × List BelId → Prop) :
    ∀ (pips : List PipId) (st st' : List ClusterWireNode × List BelId),
      (∀ pip ∈ pips, arch.is_pip_synthetic pip = false → ∀ t t', P t →
        handle_expansion_node arch node.wire pip node t.1 t.2 direction = some t' → P t') →
      P st → expand_pips arch node direction pips st = some st' → P st' := by
  intro pips
  induction pips with
  | nil =>
    intro st st' _ hP h
    simp only [expand_pips, Option.some.injEq] at h
    rw [← h]
    exact hP
  | cons pip rest ih =>
    intro st st' hstep hP h
    unfold expand_pips at h
    have hrest : ∀ p ∈ rest, arch.is_pip_synthetic p = false → ∀ t t', P t →
        handle_expansion_node arch node.wire p node t.1 t.2 direction = some t' → P t' :=
      fun p hp => hstep p (List.mem_cons_of_mem _ hp)
    by_cases hsyn : arch.is_pip_synthetic pip = true
    · rw [if_pos hsyn] at h
      exact ih st st' hrest hP h
    · rw [if_neg hsyn] at h
      cases hh : handle_expansion_node arch node.wire pip node st.1 st.2 direction with
      | none => rw [hh] at h; simp at h
      | some t' =>
        rw [hh] at h
        simp only at h
        exact ih t' st' hrest
          (hstep pip (List.mem_cons_self _ _) (by simpa using hsyn) st t' hP hh) h

theorem find_cluster_bels_loop_empty (arch : InterchangeArch) (direction : ExpansionDirection)
    (fuel : Nat) (bels : List BelId) :
    find_cluster_bels_loop arch direction fuel [] bels = some bels := by
  cases fuel <;> rfl

theorem find_cluster_bels_loop_succ (arch : InterchangeArch) (direction : ExpansionDirection)
    (fuel : Nat) (node : ClusterWireNode) (nodes : List ClusterWireNode) (bels : List BelId) :
    find_cluster_bels_loop arch direction (fuel + 1) (node :: nodes) bels =
      match expand_step arch direction (node :: nodes, bels) with
      | none => none
      | some st => find_cluster_bels_loop arch direction fuel st.1 st.2 := rfl

theorem expand_step_empty (arch : InterchangeArch) (direction : ExpansionDirection)
    (bels : List BelId) : expand_step arch direction ([], bels) = some ([], bels) := rfl

/-- The iterations of the `while` loop and the loop with fuel agree: when the worklist is
empty after `n` iterations, the loop returns the bels collected for every fuel of at least
`n`. -/
theorem find_cluster_bels_loop_of_iter (arch : InterchangeArch)
    (direction : ExpansionDirection) :
    ∀ (n : Nat) (st : List ClusterWireNode × List BelId) (bels : List BelId),
      find_cluster_bels_iter arch direction n st = some ([], bels) →
      ∀ fuel, n ≤ fuel → find_cluster_bels_loop arch direction fuel st.1 st.2 = some bels := by
  intro n
  induction n with
  | zero =>
    intro st bels h fuel _
    simp only [find_cluster_bels_iter, Option.some.injEq] at h
    rw [h]
    exact find_cluster_bels_loop_empty arch direction fuel bels
  | succ n ih =>
    intro st bels h fuel hfuel
    obtain ⟨nodes, bs⟩ := st
    cases nodes with
    | nil =>
      simp only [find_cluster_bels_iter, expand_step_empty] at h
      have := ih ([], bs) bels h n (le_refl n)
      rw [find_cluster_bels_loop_empty] at this
      rw [find_cluster_bels_loop_empty]
      exact this
    | cons node rest =>
      obtain ⟨f, rfl⟩ : ∃ f, fuel = f + 1 := ⟨fuel - 1, by omega⟩
      rw [find_cluster_bels_loop_succ]
      simp only [find_cluster_bels_iter] at h
      cases hs : expand_step arch direction (node :: rest, bs) with
      | none => rw [hs] at h; simp at h
      | some st' =>
        rw [hs] at h
        simp only at h ⊢
        exact ih st' bels h f (by omega)

/-- When the loop with fuel returns, the worklist is empty after at most that many
iterations. -/
theorem find_cluster_bels_iter_of_loop (arch : InterchangeArch)
    (direction : ExpansionDirection) :
    ∀ (fuel : Nat) (nodes : List ClusterWireNode) (bs bels : List BelId),
      find_cluster_bels_loop arch direction fuel nodes bs = some bels →
      ∃ n, n ≤ fuel ∧ find_cluster_bels_iter arch direction n (nodes, bs) = some ([], bels) := by
  intro fuel
  induction fuel with
  | zero =>
    intro nodes bs bels h
    cases nodes with
    | nil =>
      rw [find_cluster_bels_loop_empty] at h
      exact ⟨0, le_refl 0, by rw [Option.some.inj h]; rfl⟩
    | cons node rest => simp [find_cluster_bels_loop] at h
  | succ f ih =>
    intro nodes bs bels h
    cases nodes with
    | nil =>
      rw [find_cluster_bels_loop_empty] at h
      exact ⟨0, Nat.zero_le _, by rw [Option.some.inj h]; rfl⟩
    | cons node rest =>
      rw [find_cluster_bels_loop_succ] at h
      cases hs : expand_step arch direction (node :: rest, bs) with
      | none => rw [hs] at h; simp at h
      | some st' =>
        rw [hs] at h
        simp only at h
        obtain ⟨n, hn, hiter⟩ := ih st'.1 st'.2 bels h
        refine ⟨n + 1, by omega, ?_⟩
        simp only [find_cluster_bels_iter, hs]
        exact hiter

theorem find_cluster_bels_iter_inv (arch : InterchangeArch) (direction : ExpansionDirection)
    (P : List ClusterWireNode × List BelId → Prop)
    (hstep : ∀ st st', P st → expand_step arch direction st = some st' → P st') :
    ∀ (n : Nat) (st st' : List ClusterWireNode × List BelId), P st →
      find_cluster_bels_iter arch direction n st = some st' → P st' := by
  intro n
  induction n with
  | zero =>
    intro st st' hP h
    simp only [find_cluster_bels_iter, Option.some.injEq] at h
    rw [← h]
    exact hP
  | succ n ih =>
    intro st st' hP h
    simp only [find_cluster_bels_iter] at h
    cases hs : expand_step arch direction st with
    | none => rw [hs] at h; simp at h
    | some t =>
      rw [hs] at h
      exact ih t st' (hstep st t hP hs) h

/-- One iteration of the walk that started without out-of-site expansion keeps every node
of the worklist in state `ONLY_IN_SOURCE_SITE` on a wire reached from the start wire
through ordinary pips, and every bel collected on such a wire reached by at least one
pip. -/
theorem expand_step_in_source_site (arch : InterchangeArch) (direction : ExpansionDirection)
    (start : WireId) (st st' : List ClusterWireNode × List BelId)
    (hinv : (∀ node ∈ st.1, node.state = ClusterWireNodeState.ONLY_IN_SOURCE_SITE ∧
        site_reach arch direction start node.wire) ∧
      ∀ bel ∈ st.2, ∃ wire, site_reach_by_pip arch direction start wire ∧
        bel ∈ (arch.getWireBelPins wire).map BelPin.bel)
    (h : expand_step arch direction st = some st') :
    (∀ node ∈ st'.1, node.state = ClusterWireNodeState.ONLY_IN_SOURCE_SITE ∧
        site_reach arch direction start node.wire) ∧
      ∀ bel ∈ st'.2, ∃ wire, site_reach_by_pip arch direction start wire ∧
        bel ∈ (arch.getWireBelPins wire).map BelPin.bel := by
  obtain ⟨nodes, bs⟩ := st
  cases nodes with
  | nil =>
    rw [expand_step_empty] at h
    rw [← Option.some.inj h]
    exact hinv
  | cons node rest =>
    obtain ⟨hnodes, hbels⟩ := hinv
    obtain ⟨hstate, hreach⟩ := hnodes node (List.mem_cons_self _ _)
    unfold expand_step at h
    simp only at h
    refine expand_pips_inv arch node direction
      (fun t => (∀ nd ∈ t.1, nd.state = ClusterWireNodeState.ONLY_IN_SOURCE_SITE ∧
          site_reach arch direction start nd.wire) ∧
        ∀ bel ∈ t.2, ∃ wire, site_reach_by_pip arch direction start wire ∧
          bel ∈ (arch.getWireBelPins wire).map BelPin.bel)
      (walk_pips arch direction node.wire) (rest, bs) st' ?_
      ⟨fun nd hnd => hnodes nd (List.mem_cons_of_mem _ hnd), hbels⟩ h
    intro pip hpip hsyn t t' ht hh
    rcases handle_expansion_node_cases arch node.wire pip node t.1 t.2 direction t' hh with
      rfl | ⟨next, hpush, hwire, _, hord, hport, hcollect⟩
    · exact ht
    · have hnot : arch.is_site_port pip = false := by
        cases hp : arch.is_site_port pip with
        | false => rfl
        | true =>
          exfalso
          -- a site-port pip pushes nothing from a node in state ONLY_IN_SOURCE_SITE
          unfold handle_expansion_node at hh
          simp only [hp, hstate, if_true] at hh
          split_ifs at hh
          all_goals
            have h1 := congrArg Prod.fst (Option.some.inj hh)
            simp only at h1
            rw [hpush] at h1
            exact absurd (congrArg List.length h1) (by simp)
      have hnext : next.state = ClusterWireNodeState.ONLY_IN_SOURCE_SITE := by
        rw [hord hnot, hstate]
      have hby : site_reach_by_pip arch direction start next.wire :=
        ⟨node.wire, pip, hreach, hpip, hsyn, hnot, hwire⟩
      refine ⟨?_, ?_⟩
      · intro nd hnd
        rw [hpush] at hnd
        rcases List.mem_cons.mp hnd with h1 | h1
        · rw [h1]
          refine ⟨hnext, ?_⟩
          rw [hwire]
          exact site_reach.step node.wire pip hreach hpip hsyn hnot
        · exact ht.1 nd h1
      · intro bel hbel
        rcases hcollect bel hbel with h1 | ⟨_, h1⟩
        · exact ht.2 bel h1
        · exact ⟨next.wire, hby, h1⟩

/-- C34: when `out_of_site_expansion` is false, the walk never leaves the source site. After
any number of iterations of the `while` loop every node on the worklist has state
`ONLY_IN_SOURCE_SITE` and is on a wire reached from the start wire through pips that are
neither site-port pips nor synthetic; and every bel that `find_cluster_bels` returns has a
pin on a wire reached from the start wire by at least one such pip. -/
theorem walk_stays_in_source_site (arch : InterchangeArch) (fuel : Nat) (wire : WireId)
    (direction : ExpansionDirection) (bels : List BelId)
    (h : find_cluster_bels arch fuel wire direction false = some bels) :
    (∀ n st, find_cluster_bels_iter arch direction n ([start_node wire false], []) = some st →
      ∀ node ∈ st.1, node.state = ClusterWireNodeState.ONLY_IN_SOURCE_SITE ∧
        site_reach arch direction wire node.wire) ∧
    ∀ bel ∈ bels, ∃ reached, site_reach_by_pip arch direction wire reached ∧
      bel ∈ (arch.getWireBelPins reached).map BelPin.bel := by
  have hstart : (∀ node ∈ ([start_node wire false], ([] : List BelId)).1,
        node.state = ClusterWireNodeState.ONLY_IN_SOURCE_SITE ∧
        site_reach arch direction wire node.wire) ∧
      ∀ bel ∈ ([start_node wire false], ([] : List BelId)).2, ∃ reached,
        site_reach_by_pip arch direction wire reached ∧
        bel ∈ (arch.getWireBelPins reached).map BelPin.bel := by
    refine ⟨?_, fun bel hbel => by simp at hbel⟩
    intro node hnode
    simp only [List.mem_singleton] at hnode
    rw [hnode]
    exact ⟨rfl, site_reach.refl⟩
  have hall := find_cluster_bels_iter_inv arch direction _
    (fun st st' => expand_step_in_source_site arch direction wire st st')
  refine ⟨fun n st hst => (hall n _ st hstart hst).1, ?_⟩
  have hloop : find_cluster_bels_loop arch direction fuel [start_node wire false] [] =
      some bels := by
    unfold find_cluster_bels at h
    by_cases hsite : arch.wire_site wire = -1
    · rw [if_pos hsite] at h
      simp at h
    · rw [if_neg hsite] at h
      exact h
  obtain ⟨n, _, hiter⟩ := find_cluster_bels_iter_of_loop arch direction fuel _ _ bels hloop
  exact (hall n _ _ hstart hiter).2

theorem walk_stays_in_source_site_witness :
    find_cluster_bels col_arch 2 (col_wire 0 1) ExpansionDirection.CLUSTER_DOWNHILL_DIR false =
      some [ff_bel 0] ∧
    (∀ n st, find_cluster_bels_iter col_arch ExpansionDirection.CLUSTER_DOWNHILL_DIR n
        ([start_node (col_wire 0 1) false], []) = some st →
      ∀ node ∈ st.1, node.state = ClusterWireNodeState.ONLY_IN_SOURCE_SITE ∧
        site_reach col_arch ExpansionDirection.CLUSTER_DOWNHILL_DIR (col_wire 0 1) node.wire) ∧
    ∀ bel ∈ [ff_bel 0], ∃ reached,
      site_reach_by_pip col_arch ExpansionDirection.CLUSTER_DOWNHILL_DIR (col_wire 0 1)
        reached ∧
      bel ∈ (col_arch.getWireBelPins reached).map BelPin.bel :=
  ⟨by decide,
    walk_stays_in_source_site col_arch 2 (col_wire 0 1)
      ExpansionDirection.CLUSTER_DOWNHILL_DIR [ff_bel 0] (by decide)⟩

theorem find_cluster_bels_iter_add (arch : InterchangeArch) (direction : ExpansionDirection) :
    ∀ (a b : Nat) (st : List ClusterWireNode × List BelId),
      find_cluster_bels_iter arch direction (a + b) st =
        (find_cluster_bels_iter arch direction a st).bind
          (find_cluster_bels_iter arch direction b) := by
  intro a
  induction a with
  | zero => intro b st; simp [find_cluster_bels_iter]
  | succ a ih =>
    intro b st
    rw [Nat.succ_add]
    simp only [find_cluster_bels_iter]
    cases hs : expand_step arch direction st with
    | none => rfl
    | some t => exact ih b t

/-- The nodes that the loop over the pips of a node pushes are on far wires of pips of the
list that are not synthetic. -/
theorem expand_pips_pushes (arch : InterchangeArch) (node : ClusterWireNode)
    (direction : ExpansionDirection) (Q : WireId → Prop) (pips : List PipId)
    (hQ : ∀ pip ∈ pips, arch.is_pip_synthetic pip = false →
      far_wire arch pip direction ≠ {} → Q (far_wire arch pip direction))
    (rest : List ClusterWireNode) (bs : List BelId) (st : List ClusterWireNode × List BelId)
    (h : expand_pips arch node direction pips (rest, bs) = some st) :
    ∃ pushed, st.1 = pushed ++ rest ∧ ∀ m ∈ pushed, Q m.wire := by
  refine expand_pips_inv arch node direction
    (fun t => ∃ pushed, t.1 = pushed ++ rest ∧ ∀ m ∈ pushed, Q m.wire)
    pips (rest, bs) st ?_ ⟨[], rfl, fun m hm => by simp at hm⟩ h
  intro pip hpip hsyn t t' ht hh
  obtain ⟨pushed, hpushed, hall⟩ := ht
  rcases handle_expansion_node_cases arch node.wire pip node t.1 t.2 direction t' hh with
    rfl | ⟨next, hpush, hwire, hvalid, _, _, _⟩
  · exact ⟨pushed, hpushed, hall⟩
  · refine ⟨next :: pushed, by rw [hpush, hpushed]; rfl, ?_⟩
    intro m hm
    rcases List.mem_cons.mp hm with h1 | h1
    · rw [h1, hwire]
      exact hQ pip hpip hsyn hvalid
    · exact hall m h1

/-- On a device graph whose walked pips go down a rank, the walk works off the node on top
of the worklist, and all the nodes pushed from it, in finitely many iterations, unless an
assertion fails: the worklist is then what was below the node. -/
theorem find_cluster_bels_iter_pops (arch : InterchangeArch) (direction : ExpansionDirection)
    (rank : WireId → Nat)
    (hrank : ∀ w, ∀ pip ∈ walk_pips arch direction w, arch.is_pip_synthetic pip = false →
      far_wire arch pip direction ≠ {} → rank (far_wire arch pip direction) < rank w) :
    ∀ (r : Nat) (node : ClusterWireNode), rank node.wire ≤ r →
      ∀ (rest : List ClusterWireNode) (bs : List BelId), ∃ k,
        find_cluster_bels_iter arch direction k (node :: rest, bs) = none ∨
        ∃ bs', find_cluster_bels_iter arch direction k (node :: rest, bs) = some (rest, bs') := by
  have hlist : ∀ r : Nat,
      (∀ node : ClusterWireNode, rank node.wire < r →
        ∀ (rest : List ClusterWireNode) (bs : List BelId), ∃ k,
          find_cluster_bels_iter arch direction k (node :: rest, bs) = none ∨
          ∃ bs', find_cluster_bels_iter arch direction k (node :: rest, bs) =
            some (rest, bs')) →
      ∀ (pushed : List ClusterWireNode), (∀ m ∈ pushed, rank m.wire < r) →
        ∀ (rest : List ClusterWireNode) (bs : List BelId), ∃ k,
          find_cluster_bels_iter arch direction k (pushed ++ rest, bs) = none ∨
          ∃ bs', find_cluster_bels_iter arch direction k (pushed ++ rest, bs) =
            some (rest, bs') := by
    intro r hr pushed
    induction pushed with
    | nil => intro _ rest bs; exact ⟨0, Or.inr ⟨bs, rfl⟩⟩
    | cons m pushed ih =>
      intro hall rest bs
      obtain ⟨k1, h1⟩ := hr m (hall m (List.mem_cons_self _ _)) (pushed ++ rest) bs
      rcases h1 with h1 | ⟨bs1, h1⟩
      · exact ⟨k1, Or.inl h1⟩
      · obtain ⟨k2, h2⟩ := ih (fun x hx => hall x (List.mem_cons_of_mem _ hx)) rest bs1
        refine ⟨k1 + k2, ?_⟩
        rw [find_cluster_bels_iter_add, List.cons_append, h1]
        exact h2
  intro r
  induction r using Nat.strong_induction_on with
  | _ r ih =>
    intro node hnode rest bs
    cases hs : expand_step arch direction (node :: rest, bs) with
    | none =>
      refine ⟨1, Or.inl ?_⟩
      simp only [find_cluster_bels_iter, hs]
    | some st =>
      have hs' : expand_pips arch node direction (walk_pips arch direction node.wire)
          (rest, bs) = some st := hs
      obtain ⟨pushed, hpushed, hall⟩ := expand_pips_pushes arch node direction
        (fun w => rank w < rank node.wire) _ (hrank node.wire) rest bs st hs'
      have hsmall : ∀ nd : ClusterWireNode, rank nd.wire < rank node.wire →
          ∀ (rest : List ClusterWireNode) (bs : List BelId), ∃ k,
            find_cluster_bels_iter arch direction k (nd :: rest, bs) = none ∨
            ∃ bs', find_cluster_bels_iter arch direction k (nd :: rest, bs) =
              some (rest, bs') :=
        fun nd hnd => ih (rank nd.wire) (lt_of_lt_of_le hnd hnode) nd (le_refl _)
      obtain ⟨k, hk⟩ := hlist (rank node.wire) hsmall pushed hall rest st.2
      refine ⟨1 + k, ?_⟩
      rw [find_cluster_bels_iter_add]
      have h1 : find_cluster_bels_iter arch direction 1 (node :: rest, bs) = some st := by
        simp only [find_cluster_bels_iter, hs]
      rw [h1]
      have hst : st = (pushed ++ rest, st.2) := by rw [← hpushed]
      rw [hst]
      exact hk

/-- C33, counterexample: in `site_loop_arch` the site pips 0 and 1 form a loop between the
wires 0 and 1 of the source site. The walk from wire 0 without out-of-site expansion passes
the assertion at its start and has one node on the worklist after every number of
iterations of the `while` loop; `find_cluster_bels` returns for no amount of fuel. The depth
is counted here as for `curr_node.state`. -/
theorem site_loop_walk_never_ends :
    site_loop_arch.wire_site (col_wire 0 0) ≠ -1 ∧
    (∀ n, ∃ node, find_cluster_bels_iter site_loop_arch ExpansionDirection.CLUSTER_DOWNHILL_DIR
      n ([start_node (col_wire 0 0) false], []) = some ([node], [])) ∧
    ∀ fuel, find_cluster_bels site_loop_arch fuel (col_wire 0 0)
      ExpansionDirection.CLUSTER_DOWNHILL_DIR false = none := by
  have hstep : ∀ n, ∀ i : Fin 2, ∃ node,
      find_cluster_bels_iter site_loop_arch ExpansionDirection.CLUSTER_DOWNHILL_DIR n
        ([{ wire := col_wire 0 (i.val : Int),
            state := ClusterWireNodeState.ONLY_IN_SOURCE_SITE, depth := 0 }], []) =
        some ([node], []) := by
    intro n
    induction n with
    | zero => intro i; exact ⟨_, rfl⟩
    | succ n ih =>
      intro i
      have h1 : expand_step site_loop_arch ExpansionDirection.CLUSTER_DOWNHILL_DIR
          ([{ wire := col_wire 0 (i.val : Int),
              state := ClusterWireNodeState.ONLY_IN_SOURCE_SITE, depth := 0 }], []) =
          some ([{ wire := col_wire 0 ((1 - i).val : Int),
                   state := ClusterWireNodeState.ONLY_IN_SOURCE_SITE, depth := 0 }], []) := by
        revert i
        decide
      simp only [find_cluster_bels_iter, h1]
      exact ih (1 - i)
  have hiter : ∀ n, ∃ node,
      find_cluster_bels_iter site_loop_arch ExpansionDirection.CLUSTER_DOWNHILL_DIR
        n ([start_node (col_wire 0 0) false], []) = some ([node], []) :=
    fun n => hstep n 0
  refine ⟨by decide, hiter, ?_⟩
  intro fuel
  cases hf : find_cluster_bels site_loop_arch fuel (col_wire 0 0)
      ExpansionDirection.CLUSTER_DOWNHILL_DIR false with
  | none => rfl
  | some bels =>
    exfalso
    have hloop : find_cluster_bels_loop site_loop_arch ExpansionDirection.CLUSTER_DOWNHILL_DIR
        fuel [start_node (col_wire 0 0) false] [] = some bels := hf
    obtain ⟨n, _, hn⟩ := find_cluster_bels_iter_of_loop _ _ fuel _ _ bels hloop
    obtain ⟨node, hnode⟩ := hiter n
    rw [hnode] at hn
    simp at hn

/-- C33, amended: `find_cluster_bels` terminates on every device graph without a cycle of
walked pips. When the wires have a rank that goes down along every pip the walk can take (a
pip of the direction walked that is not synthetic and has a valid far wire), then for every
start wire, direction and `out_of_site_expansion` flag there is a number `n` of iterations
of the `while` loop after which an assertion has failed or the worklist is empty; in the
second case, and when the assertion on the start wire holds, `find_cluster_bels` returns
the bels collected for every fuel of at least `n`. -/
theorem find_cluster_bels_terminates_acyclic (arch : InterchangeArch) (wire : WireId)
    (direction : ExpansionDirection) (out_of_site_expansion : Bool) (rank : WireId → Nat)
    (hrank : ∀ w, ∀ pip ∈ walk_pips arch direction w, arch.is_pip_synthetic pip = false →
      far_wire arch pip direction ≠ {} → rank (far_wire arch pip direction) < rank w) :
    ∃ n,
      find_cluster_bels_iter arch direction n ([start_node wire out_of_site_expansion], []) =
        none ∨
      ∃ bels,
        find_cluster_bels_iter arch direction n ([start_node wire out_of_site_expansion], []) =
          some ([], bels) ∧
        (arch.wire_site wire ≠ -1 → ∀ fuel, n ≤ fuel →
          find_cluster_bels arch fuel wire direction out_of_site_expansion = some bels) := by
  obtain ⟨n, hn⟩ := find_cluster_bels_iter_pops arch direction rank hrank
    (rank wire) (start_node wire out_of_site_expansion) (le_refl _) [] []
  refine ⟨n, ?_⟩
  rcases hn with hn | ⟨bels, hn⟩
  · exact Or.inl hn
  · refine Or.inr ⟨bels, hn, ?_⟩
    intro hsite fuel hfuel
    unfold find_cluster_bels
    rw [if_neg hsite]
    exact find_cluster_bels_loop_of_iter arch direction n _ bels hn fuel hfuel

theorem col_rank_decreases (w : WireId) (pip : PipId)
    (hpip : pip ∈ walk_pips col_arch ExpansionDirection.CLUSTER_DOWNHILL_DIR w) :
    col_rank (far_wire col_arch pip ExpansionDirection.CLUSTER_DOWNHILL_DIR) < col_rank w := by
  have hw : walk_pips col_arch ExpansionDirection.CLUSTER_DOWNHILL_DIR w =
      if w.index = 0 then [col_pip w.location.y 0]
      else if w.index = 4 ∧ w.location.y = 0 then [col_pip w.location.y 1]
      else if w.index = 1 then [col_pip w.location.y 2]
      else [] := rfl
  rw [hw] at hpip
  split_ifs at hpip with h0 h4 h1
  · simp only [List.mem_singleton] at hpip
    subst hpip
    simp [col_rank, far_wire, col_arch, col_pip, col_wire, h0]
  · simp only [List.mem_singleton] at hpip
    subst hpip
    simp [col_rank, far_wire, col_arch, col_pip, col_wire, h4.1]
  · simp only [List.mem_singleton] at hpip
    subst hpip
    simp [col_rank, far_wire, col_arch, col_pip, col_wire, h1]
  · simp at hpip

theorem find_cluster_bels_terminates_acyclic_witness :
    ∃ n,
      find_cluster_bels_iter col_arch ExpansionDirection.CLUSTER_DOWNHILL_DIR n
        ([start_node (col_wire 0 0) true], []) = none ∨
      ∃ bels,
        find_cluster_bels_iter col_arch ExpansionDirection.CLUSTER_DOWNHILL_DIR n
          ([start_node (col_wire 0 0) true], []) = some ([], bels) ∧
        (col_arch.wire_site (col_wire 0 0) ≠ -1 → ∀ fuel, n ≤ fuel →
          find_cluster_bels col_arch fuel (col_wire 0 0)
            ExpansionDirection.CLUSTER_DOWNHILL_DIR true = some bels) :=
  find_cluster_bels_terminates_acyclic col_arch (col_wire 0 0)
    ExpansionDirection.CLUSTER_DOWNHILL_DIR true col_rank
    (fun w pip hpip _ _ => col_rank_decreases w pip hpip)

/-- With the depth never counted (the value read from the unassigned `next_node.state` is
`IN_SINK_SITE`), the walk of `hop_arch` with out-of-site expansion goes round the two
routing wires for ever: the worklist is not empty after any number of iterations. -/
theorem routing_loop_walk_never_ends :
    (hop_arch ClusterWireNodeState.IN_SINK_SITE).wire_site (col_wire 0 0) ≠ -1 ∧
    ∀ n, ∃ st, find_cluster_bels_iter (hop_arch ClusterWireNodeState.IN_SINK_SITE)
        ExpansionDirection.CLUSTER_DOWNHILL_DIR n ([start_node (col_wire 0 0) true], []) =
        some st ∧ st.1 ≠ [] := by
  have hstep : ∀ (i : Fin 3) (b : Bool), ∃ b',
      expand_step (hop_arch ClusterWireNodeState.IN_SINK_SITE)
        ExpansionDirection.CLUSTER_DOWNHILL_DIR (hop_worklist i, hop_bels b) =
        some (hop_worklist (i + 1), hop_bels b') := by
    decide
  have hcycle : ∀ n, ∀ (i : Fin 3) (b : Bool), ∃ j b',
      find_cluster_bels_iter (hop_arch ClusterWireNodeState.IN_SINK_SITE)
        ExpansionDirection.CLUSTER_DOWNHILL_DIR n (hop_worklist i, hop_bels b) =
        some (hop_worklist j, hop_bels b') := by
    intro n
    induction n with
    | zero => intro i b; exact ⟨i, b, rfl⟩
    | succ n ih =>
      intro i b
      obtain ⟨b1, h1⟩ := hstep i b
      obtain ⟨j, b', h2⟩ := ih (i + 1) b1
      refine ⟨j, b', ?_⟩
      simp only [find_cluster_bels_iter, h1]
      exact h2
  have hne : ∀ j : Fin 3, hop_worklist j ≠ [] := by decide
  refine ⟨by decide, ?_⟩
  intro n
  cases n with
  | zero => exact ⟨_, rfl, by simp⟩
  | succ n =>
    have h1 : expand_step (hop_arch ClusterWireNodeState.IN_SINK_SITE)
        ExpansionDirection.CLUSTER_DOWNHILL_DIR ([start_node (col_wire 0 0) true], []) =
        some (hop_worklist 0, hop_bels false) := by decide
    obtain ⟨j, b', h2⟩ := hcycle n 0 false
    refine ⟨(hop_worklist j, hop_bels b'), ?_, hne j⟩
    simp only [find_cluster_bels_iter, h1]
    exact h2

/-- C39, failing inputs: `prepare_cluster` dereferences the net of an unconnected port.
(1) In `unconnected_sink` the carry cell has no net on `CIN`: the root discovery fails at
`ci->ports[sink_port].net->driver`. (2) In `unconnected_sum` the root `c0` is found, and
its pass fails at `port_info.net->name` on the port `S0`, which `cluster_cells_map` lists
and which has no net. (3) In `unconnected_enable` the root `c0` is found, and its pass
fails in `check_cluster_cells_compatibility` at `new_port_info.net->name`: the candidate
satellite `f1` has no net on `CE`. -/
theorem missing_net_dereferenced :
    Dict.find unconnected_sink.cells "c0" = some (ccu2c_cell "c0" none (some 2)) ∧
    (find_cluster_root ccu2c_pod (unconnected_sink, []) "c0").isNone = true ∧
    (find_cluster_roots ccu2c_pod unconnected_sink).isNone = true ∧
    (find_cluster_roots ccu2c_pod unconnected_sum).map Prod.snd = some ["c0"] ∧
    ((find_cluster_roots ccu2c_pod unconnected_sum).map fun r =>
      (claim_port r.1.nets (port_cell_maps ccu2c_pod) "c0" "c0" { cells := r.1.cells }
        ("S0", { name := "S0", net := none, type := PortType.PORT_OUT })).isNone) =
        some true ∧
    ((find_cluster_roots ccu2c_pod unconnected_sum).map fun r =>
      (cluster_node_pass r.1.nets ccu2c_pod "c0" "c0" r.1.cells { root := "c0" } 0).isNone) =
        some true ∧
    (find_cluster_roots ccu2c_pod unconnected_enable).map Prod.snd = some ["c0"] ∧
    ((Dict.find unconnected_enable.cells "f0").bind fun old_cell =>
      (Dict.find unconnected_enable.cells "f1").bind fun new_cell =>
        check_cluster_cells_compatibility unconnected_enable.nets old_cell new_cell
          ["n4", "n5"]) = none ∧
    ((find_cluster_roots ccu2c_pod unconnected_enable).map fun r =>
      (cluster_node_pass r.1.nets ccu2c_pod "c0" "c0" r.1.cells { root := "c0" } 0).isNone) =
        some true := by
  refine ⟨?_, ?_, ?_, ?_, ?_, ?_, ?_, ?_, ?_⟩ <;> decide

/-! ## Slice compatibility under removal of cells -/

theorem bel_cells_of_unbindBel (arch : Arch) (bel : BelId) (bels : List BelId) :
    List.Sublist (bel_cells_of (unbindBel arch bel) bels) (bel_cells_of arch bels) := by
  unfold bel_cells_of
  induction bels with
  | nil => exact List.Sublist.refl _
  | cons b rest ih =>
    by_cases hb : b = bel
    · have h1 : (unbindBel arch bel).getBoundBelCell b = none := by
        simp [unbindBel, hb]
      rw [List.filterMap_cons_none h1]
      cases hc : arch.getBoundBelCell b with
      | none =>
        rw [List.filterMap_cons_none hc]
        exact ih
      | some c =>
        rw [List.filterMap_cons_some hc]
        exact List.Sublist.cons _ ih
    · have h1 : (unbindBel arch bel).getBoundBelCell b = arch.getBoundBelCell b := by
        simp [unbindBel, hb]
      cases hc : arch.getBoundBelCell b with
      | none =>
        rw [hc] at h1
        rw [List.filterMap_cons_none h1, List.filterMap_cons_none hc]
        exact ih
      | some c =>
        rw [hc] at h1
        rw [List.filterMap_cons_some h1, List.filterMap_cons_some hc]
        exact List.Sublist.cons₂ _ ih

/-- C35: removing cells never breaks slice compatibility. When `slices_compatible` returns
true on a list of cells it returns true on every sublist; hence a bel that
`isBelLocationValid` accepts is still accepted after any bel has been unbound, be it a
slice bel of the same tile or the bel itself. -/
theorem slices_compatible_sublist (cells sub : List CellInfo) (arch : Arch)
    (bel unbound : BelId) (hsub : List.Sublist sub cells)
    (hcompatible : slices_compatible cells = true)
    (hvalid : isBelLocationValid arch bel = true) :
    slices_compatible sub = true ∧
    isBelLocationValid (unbindBel arch unbound) bel = true := by
  have hmono : ∀ l l' : List CellInfo, List.Sublist l' l →
      slices_compatible l = true → slices_compatible l' = true := by
    intro l l' hl h
    rw [slices_compatible_pairwise] at h ⊢
    exact fun c hc d hd => h c (hl.subset hc) d (hl.subset hd)
  refine ⟨hmono cells sub hsub hcompatible, ?_⟩
  unfold isBelLocationValid at hvalid ⊢
  have htype : (unbindBel arch unbound).getBelType = arch.getBelType := rfl
  have hloc : (unbindBel arch unbound).getBelLocation = arch.getBelLocation := rfl
  have htile : (unbindBel arch unbound).getBelsByTile = arch.getBelsByTile := rfl
  have hargs : (unbindBel arch unbound).args_type = arch.args_type := rfl
  rw [htype, hloc, htile, hargs]
  by_cases hslice : arch.getBelType bel = id_TRELLIS_SLICE
  · rw [if_pos hslice] at hvalid ⊢
    simp only at hvalid ⊢
    by_cases hu : bel = unbound
    · have hnone : (unbindBel arch unbound).getBoundBelCell bel = none := by
        simp [unbindBel, hu]
      rw [hnone]
      simp only [Bool.false_eq_true, if_false]
      split_ifs at hvalid
      exact hmono _ _ (bel_cells_of_unbindBel arch unbound _) hvalid
    · have hsame : (unbindBel arch unbound).getBoundBelCell bel = arch.getBoundBelCell bel := by
        simp [unbindBel, hu]
      rw [hsame]
      split_ifs at hvalid ⊢
      exact hmono _ _ (bel_cells_of_unbindBel arch unbound _) hvalid
  · rw [if_neg hslice] at hvalid ⊢
    by_cases hu : bel = unbound
    · have hnone : (unbindBel arch unbound).getBoundBelCell bel = none := by
        simp [unbindBel, hu]
      rw [hnone]
    · have hsame : (unbindBel arch unbound).getBoundBelCell bel = arch.getBoundBelCell bel := by
        simp [unbindBel, hu]
      rw [hsame]
      exact hvalid

theorem slices_compatible_sublist_witness :
    slices_compatible [ff0] = true ∧
    isBelLocationValid (unbindBel (unbindBel s5_arch (slice_bel 2)) (slice_bel 1))
      (slice_bel 0) = true :=
  slices_compatible_sublist [ff0, lut_only] [ff0] (unbindBel s5_arch (slice_bel 2))
    (slice_bel 0) (slice_bel 1) (by decide) (by decide) (by decide)

/-! ## Mistral: duality of the routing graph -/

theorem Mistral.add_pip_lists (wires : Mistral.Wires) (src dst w : Mistral.WireId) :
    ((Mistral.add_pip wires src dst).1 w).wires_downhill =
      (wires w).wires_downhill ++ (if w = src then [dst] else []) ∧
    ((Mistral.add_pip wires src dst).1 w).wires_uphill =
      (wires w).wires_uphill ++ (if w = dst then [src] else []) := by
  unfold Mistral.add_pip
  simp only
  by_cases h1 : w = src
  · subst h1
    by_cases h2 : w = dst
    · subst h2
      simp
    · simp [h2]
  · by_cases h2 : w = dst
    · subst h2
      simp [h1]
    · simp [h1, h2]

theorem Mistral.import_source_lists (is_none : Nat → Bool) (wires : Mistral.Wires)
    (src dst w : Mistral.WireId) (h : is_none src = false) :
    ((Mistral.import_source is_none dst wires src) w).wires_downhill =
      (wires w).wires_downhill ++ (if w = src then [dst] else []) ∧
    ((Mistral.import_source is_none dst wires src) w).wires_uphill =
      (wires w).wires_uphill ++ (if w = dst then [src] else []) := by
  unfold Mistral.import_source
  simp only [h, Bool.false_eq_true, if_false]
  by_cases h1 : w = src
  · subst h1
    by_cases h2 : w = dst
    · subst h2
      simp
    · simp [h2]
  · by_cases h2 : w = dst
    · subst h2
      simp [h1]
    · simp [h1, h2]

theorem Mistral.dual_of_lists (wires wires' : Mistral.Wires) (src dst : Mistral.WireId)
    (hd : ∀ w, (wires' w).wires_downhill =
      (wires w).wires_downhill ++ (if w = src then [dst] else []))
    (hu : ∀ w, (wires' w).wires_uphill =
      (wires w).wires_uphill ++ (if w = dst then [src] else []))
    (h : Mistral.dual wires) : Mistral.dual wires' := by
  intro s d
  rw [hd s, hu d, List.count_append, List.count_append, h s d]
  congr 1
  by_cases h1 : s = src <;> by_cases h2 : d = dst <;>
    simp [h1, h2, List.count_cons, List.count_nil]

theorem Mistral.add_pips_dual (pips : List (Mistral.WireId × Mistral.WireId)) :
    ∀ wires, Mistral.dual wires → Mistral.dual (Mistral.add_pips pips wires) := by
  induction pips with
  | nil => intro wires h; exact h
  | cons pip rest ih =>
    intro wires h
    exact ih _ (Mistral.dual_of_lists wires _ pip.1 pip.2
      (fun w => (Mistral.add_pip_lists wires pip.1 pip.2 w).1)
      (fun w => (Mistral.add_pip_lists wires pip.1 pip.2 w).2) h)

theorem Mistral.import_sources_dual (is_none : Nat → Bool) (dst : Mistral.WireId)
    (sources : List Nat) :
    ∀ wires, Mistral.dual wires →
      Mistral.dual (sources.foldl (Mistral.import_source is_none dst) wires) := by
  induction sources with
  | nil => intro wires h; exact h
  | cons src rest ih =>
    intro wires h
    rw [List.foldl_cons]
    apply ih
    cases hn : is_none src with
    | true =>
      have : Mistral.import_source is_none dst wires src = wires := by
        simp [Mistral.import_source, hn]
      rw [this]
      exact h
    | false =>
      exact Mistral.dual_of_lists wires _ src dst
        (fun w => (Mistral.import_source_lists is_none wires src dst w hn).1)
        (fun w => (Mistral.import_source_lists is_none wires src dst w hn).2) h

theorem Mistral.import_routing_graph_dual (is_none : Nat → Bool)
    (muxes : List (Nat × List Nat)) :
    ∀ wires, Mistral.dual wires →
      Mistral.dual (Mistral.import_routing_graph is_none muxes wires) := by
  unfold Mistral.import_routing_graph
  induction muxes with
  | nil => intro wires h; exact h
  | cons mux rest ih =>
    intro wires h
    rw [List.foldl_cons]
    exact ih _ (Mistral.import_sources_dual is_none mux.1 mux.2 wires h)

/-- C40: duality of the mistral routing graph. From the empty wire map, after any sequence
of `add_pip` calls, the import loop of the constructor, and any further sequence of
`add_pip` calls, every wire `d` occurs in `wires[s].wires_downhill` as often as `s` occurs
in `wires[d].wires_uphill`; and `add_pip(s, d)` returns the pip with source `s` and
destination `d`. -/
theorem mistral_routing_graph_dual (is_none : Nat → Bool)
    (pips_before pips_after : List (Mistral.WireId × Mistral.WireId))
    (muxes : List (Nat × List Nat)) :
    (∀ s d : Mistral.WireId,
      ((Mistral.add_pips pips_after
          (Mistral.import_routing_graph is_none muxes
            (Mistral.add_pips pips_before Mistral.no_wires))) s).wires_downhill.count d =
        ((Mistral.add_pips pips_after
          (Mistral.import_routing_graph is_none muxes
            (Mistral.add_pips pips_before Mistral.no_wires))) d).wires_uphill.count s) ∧
    ∀ (wires : Mistral.Wires) (s d : Mistral.WireId),
      (Mistral.add_pip wires s d).2 = { src := s, dst := d } :=
  ⟨Mistral.add_pips_dual pips_after _
      (Mistral.import_routing_graph_dual is_none muxes _
        (Mistral.add_pips_dual pips_before _ (fun _ _ => rfl))),
    fun _ _ _ => rfl⟩

/-! ## What a pass of the cluster formation writes -/

/-- A returning call of the loop body over a port of the cluster node either leaves the
cells, `cluster_cells`, the node map and the counter alone, or claims one cell. -/
theorem claim_port_effect (nets : NetId → NetInfo) (maps : Dict (List IdString))
    (root : CellRef) (node_name : IdString) (st st' : NodePass) (port : IdString × PortInfo)
    (h : claim_port nets maps root node_name st port = some st') :
    (st'.cells = st.cells ∧ st'.cluster_cells = st.cluster_cells ∧
      st'.cell_cluster_node_map = st.cell_cluster_node_map ∧
      st'.count_cluster_cells = st.count_cluster_cells) ∨
    ∃ cell root_cell ci, Dict.find st.cells root = some root_cell ∧
      Dict.find st.cells cell = some ci ∧
      st'.cells = Dict.set st.cells cell { ci with cluster := root_cell.cluster } ∧
      st'.cluster_cells = st.cluster_cells ++ [(port.1, cell)] ∧
      st'.cell_cluster_node_map = Dict.emplace st.cell_cluster_node_map ci.name node_name ∧
      st'.count_cluster_cells = st.count_cluster_cells + 1 := by
  rcases claim_port_cases nets maps root node_name st st' port h with
    ⟨h1, h2, _, h4, h5, _⟩ | ⟨n, user, user_cell, uc, pool, _, _, _, _, _, _, _, hclaim⟩ |
    ⟨n, driver_cell, dc, pool, _, _, _, _, _, _, hclaim⟩
  · exact Or.inl ⟨h1, h2, h4, h5⟩
  · right
    rcases hclaim with ⟨_, hclaim⟩ | ⟨_, _, _, _, _, hclaim⟩
    · obtain ⟨root_cell, ci, hr, hc, rfl⟩ := claim_cell_eq _ _ _ _ _ _ hclaim
      exact ⟨user_cell, root_cell, ci, hr, hc, rfl, rfl, rfl, rfl⟩
    · obtain ⟨root_cell, ci, hr, hc, rfl⟩ := claim_cell_eq _ _ _ _ _ _ hclaim
      exact ⟨user_cell, root_cell, ci, hr, hc, rfl, rfl, rfl, rfl⟩
  · right
    obtain ⟨root_cell, ci, hr, hc, rfl⟩ := claim_cell_eq _ _ _ _ _ _ hclaim
    exact ⟨driver_cell, root_cell, ci, hr, hc, rfl, rfl, rfl, rfl⟩

/-- The facts about a pass over the ports of a cluster node that the statements on packed
clusters rest on, for a root whose cluster id is `x` when the pass starts: the root keeps
the id `x`; a cell keeps its cluster id or gets `x`; the node map gains entries with the
name of the node as value only; and either nothing was claimed and the cells are unchanged,
or `cluster_cells` has grown. -/
theorem claim_ports_effect (nets : NetId → NetInfo) (maps : Dict (List IdString))
    (root : CellRef) (node_name : IdString) (x : ClusterId) (st0 : NodePass)
    (ports : List (IdString × PortInfo)) (st' : NodePass)
    (hroot : ∃ rc, Dict.find st0.cells root = some rc ∧ rc.cluster = x)
    (h : ports.foldlM (claim_port nets maps root node_name) st0 = some st') :
    (∃ rc, Dict.find st'.cells root = some rc ∧ rc.cluster = x) ∧
    (∀ key c', Dict.find st'.cells key = some c' →
      ∃ c, Dict.find st0.cells key = some c ∧ (c'.cluster = c.cluster ∨ c'.cluster = x)) ∧
    (∀ kv ∈ st'.cell_cluster_node_map,
      kv ∈ st0.cell_cluster_node_map ∨ kv.2 = node_name) ∧
    ((st'.cells = st0.cells ∧ st'.cluster_cells = st0.cluster_cells) ∨
      st0.cluster_cells.length < st'.cluster_cells.length) := by
  refine foldlM_option_inv (claim_port nets maps root node_name)
    (fun st => (∃ rc, Dict.find st.cells root = some rc ∧ rc.cluster = x) ∧
      (∀ key c', Dict.find st.cells key = some c' →
        ∃ c, Dict.find st0.cells key = some c ∧ (c'.cluster = c.cluster ∨ c'.cluster = x)) ∧
      (∀ kv ∈ st.cell_cluster_node_map,
        kv ∈ st0.cell_cluster_node_map ∨ kv.2 = node_name) ∧
      ((st.cells = st0.cells ∧ st.cluster_cells = st0.cluster_cells) ∨
        st0.cluster_cells.length < st.cluster_cells.length))
    ports st0 st' ?_ ⟨hroot, fun key c' hc => ⟨c', hc, Or.inl rfl⟩, fun kv hkv => Or.inl hkv,
      Or.inl ⟨rfl, rfl⟩⟩ h
  intro port _ t t' ⟨⟨rc, hrc, hx⟩, hcl, hmap, hgrow⟩ hstep
  rcases claim_port_effect nets maps root node_name t t' port hstep with
    ⟨h1, h2, h3, _⟩ | ⟨cell, root_cell, ci, hr, hc, h1, h2, h3, _⟩
  · rw [h1, h2, h3]
    exact ⟨⟨rc, hrc, hx⟩, hcl, hmap, hgrow⟩
  · have hrx : root_cell.cluster = x := by
      rw [hrc] at hr
      rw [← Option.some.inj hr]
      exact hx
    refine ⟨?_, ?_, ?_, ?_⟩
    · rw [h1, Dict.find_set]
      by_cases hk : cell = root
      · rw [if_pos hk]
        exact ⟨_, rfl, hrx⟩
      · rw [if_neg hk]
        exact ⟨rc, hrc, hx⟩
    · intro key c' hc'
      rw [h1, Dict.find_set] at hc'
      by_cases hk : cell = key
      · rw [if_pos hk] at hc'
        subst hk
        obtain ⟨c, hc0, _⟩ := hcl cell ci hc
        refine ⟨c, hc0, Or.inr ?_⟩
        rw [← Option.some.inj hc']
        exact hrx
      · rw [if_neg hk] at hc'
        exact hcl key c' hc'
    · intro kv hkv
      rw [h3] at hkv
      rcases Dict.mem_emplace _ _ _ kv hkv with h4 | h4
      · exact hmap kv h4
      · right
        rw [h4]
    · right
      rw [h2, List.length_append, List.length_singleton]
      rcases hgrow with ⟨_, h5⟩ | h5
      · rw [h5]
        omega
      · omega

/-- The facts of `claim_ports_effect` for a whole pass of the `do` loop on the node `node`,
together with what the pass adds to the cluster: the node at the end of `cluster_nodes`
and an entry for the name of the node in `cluster_node_cells`. -/
theorem cluster_node_pass_effect (nets : NetId → NetInfo) (cluster : ClusterPOD)
    (root node : CellRef) (cells cells' : Dict CellInfo) (info info' : Cluster)
    (count count' : Nat) (x : ClusterId)
    (hroot : ∃ rc, Dict.find cells root = some rc ∧ rc.cluster = x)
    (h : cluster_node_pass nets cluster root node cells info count =
      some (cells', info', count')) :
    ∃ nc, Dict.find cells node = some nc ∧
      (∃ rc, Dict.find cells' root = some rc ∧ rc.cluster = x) ∧
      (∀ key c', Dict.find cells' key = some c' →
        ∃ c, Dict.find cells key = some c ∧ (c'.cluster = c.cluster ∨ c'.cluster = x)) ∧
      (∀ kv ∈ info'.cell_cluster_node_map,
        kv ∈ info.cell_cluster_node_map ∨ kv.2 = nc.name) ∧
      info'.cluster_nodes = info.cluster_nodes ++ [node] ∧
      (Dict.find info'.cluster_node_cells nc.name).isSome = true ∧
      (∀ q, (Dict.find info.cluster_node_cells q).isSome = true →
        (Dict.find info'.cluster_node_cells q).isSome = true) ∧
      info'.root = info.root ∧ info'.index = info.index ∧
      ((cells' = cells ∧ count' = count + 1) ∨ count + 1 < count') := by
  obtain ⟨nc, st, hnc, hfold, rfl, rfl, rfl⟩ :=
    cluster_node_pass_eq nets cluster root node cells cells' info info' count count' h
  obtain ⟨h1, h2, h3, h4⟩ := claim_ports_effect nets (port_cell_maps cluster) root nc.name x
    _ nc.ports st hroot hfold
  have hcount := claim_ports_count nets (port_cell_maps cluster) root nc.name nc.ports _ st hfold
  simp only [List.length_nil, add_zero] at hcount
  refine ⟨nc, hnc, h1, h2, ?_, rfl, ?_, ?_, rfl, rfl, ?_⟩
  · intro kv hkv
    rcases Dict.mem_emplace _ _ _ kv hkv with h5 | h5
    · exact h3 kv h5
    · right
      rw [h5]
  · simp only [Dict.find_emplace, if_true]
    rfl
  · intro q hq
    rw [Dict.find_emplace]
    by_cases hk : nc.name = q
    · rw [if_pos hk]
      rfl
    · rw [if_neg hk]
      exact hq
  · rcases h4 with ⟨h5, h6⟩ | h5
    · left
      refine ⟨h5, ?_⟩
      rw [h6] at hcount
      simp only [List.length_nil, add_zero] at hcount
      exact hcount
    · right
      simp only [List.length_nil] at h5
      omega

theorem same_shape_name {cells cells' : Dict CellInfo} (h : same_shape cells cells')
    (key : CellRef) (c' : CellInfo) (hf : Dict.find cells' key = some c') :
    ∃ c, Dict.find cells key = some c ∧ c.name = c'.name := by
  obtain ⟨c, hc, heq⟩ := same_shape_find (same_shape_symm h) key c' hf
  refine ⟨c, hc, ?_⟩
  rw [heq]

theorem cluster_writes_trans (x : ClusterId) (a b c : Dict CellInfo)
    (hab : ∀ key c', Dict.find b key = some c' →
      ∃ c0, Dict.find a key = some c0 ∧ (c'.cluster = c0.cluster ∨ c'.cluster = x))
    (hbc : ∀ key c', Dict.find c key = some c' →
      ∃ c0, Dict.find b key = some c0 ∧ (c'.cluster = c0.cluster ∨ c'.cluster = x)) :
    ∀ key c', Dict.find c key = some c' →
      ∃ c0, Dict.find a key = some c0 ∧ (c'.cluster = c0.cluster ∨ c'.cluster = x) := by
  intro key c' hc
  obtain ⟨c1, hc1, h1⟩ := hbc key c' hc
  obtain ⟨c0, hc0, h0⟩ := hab key c1 hc1
  refine ⟨c0, hc0, ?_⟩
  rcases h1 with h1 | h1
  · rcases h0 with h0 | h0
    · exact Or.inl (h1.trans h0)
    · exact Or.inr (h1.trans h0)
  · exact Or.inr h1

/-- The facts about the `do` loop of the cluster formation that the statements on packed
clusters rest on, for a root whose cluster id is `x` when the loop starts at the node
`node`: the root keeps the id `x`; a cell keeps its cluster id or gets `x`; the loop
appends `node` and the nodes it walks to `cluster_nodes`; each of them has an entry under
its name in `cluster_node_cells`; every value that the node map gains is the name of one of
them; and without chainable ports either nothing was claimed and the cells are unchanged,
or the counter has grown by more than one. -/
theorem form_chain_effect (nets : NetId → NetInfo) (cluster : ClusterPOD) (root : CellRef)
    (x : ClusterId) :
    ∀ (fuel : Nat) (node : CellRef) (cells cells' : Dict CellInfo) (info info' : Cluster)
      (count count' : Nat),
      (∃ rc, Dict.find cells root = some rc ∧ rc.cluster = x) →
      form_chain nets cluster root fuel node cells info count = some (cells', info', count') →
      (∃ rc, Dict.find cells' root = some rc ∧ rc.cluster = x) ∧
      (∀ key c', Dict.find cells' key = some c' →
        ∃ c, Dict.find cells key = some c ∧ (c'.cluster = c.cluster ∨ c'.cluster = x)) ∧
      (∃ walked, info'.cluster_nodes = info.cluster_nodes ++ node :: walked ∧
        (∀ m ∈ node :: walked, ∃ mc, Dict.find cells m = some mc ∧
          (Dict.find info'.cluster_node_cells mc.name).isSome = true) ∧
        ∀ kv ∈ info'.cell_cluster_node_map, kv ∈ info.cell_cluster_node_map ∨
          ∃ m ∈ node :: walked, ∃ mc, Dict.find cells m = some mc ∧ mc.name = kv.2) ∧
      (∀ q, (Dict.find info.cluster_node_cells q).isSome = true →
        (Dict.find info'.cluster_node_cells q).isSome = true) ∧
      (cluster.chainable_ports = [] →
        (cells' = cells ∧ count' = count + 1) ∨ count + 1 < count') := by
  intro fuel
  induction fuel with
  | zero =>
    intro node cells cells' info info' count count' _ h
    simp [form_chain] at h
  | succ fuel ih =>
    intro node cells cells' info info' count count' hroot h
    unfold form_chain at h
    cases hpass : cluster_node_pass nets cluster root node cells info count with
    | none => rw [hpass] at h; simp at h
    | some r =>
      obtain ⟨cells1, info1, count1⟩ := r
      rw [hpass] at h
      simp only at h
      obtain ⟨nc, hnc, hroot1, hwr1, hmap1, hnodes1, hentry1, hkeep1, _, _, hcount1⟩ :=
        cluster_node_pass_effect nets cluster root node cells cells1 info info1 count count1 x
          hroot hpass
      have hshape1 := cluster_node_pass_shape nets cluster root node cells cells1 info info1
        count count1 hpass
      -- the loop ends after this pass
      have hend : (cells', info', count') = (cells1, info1, count1) →
          (∃ rc, Dict.find cells' root = some rc ∧ rc.cluster = x) ∧
          (∀ key c', Dict.find cells' key = some c' →
            ∃ c, Dict.find cells key = some c ∧ (c'.cluster = c.cluster ∨ c'.cluster = x)) ∧
          (∃ walked, info'.cluster_nodes = info.cluster_nodes ++ node :: walked ∧
            (∀ m ∈ node :: walked, ∃ mc, Dict.find cells m = some mc ∧
              (Dict.find info'.cluster_node_cells mc.name).isSome = true) ∧
            ∀ kv ∈ info'.cell_cluster_node_map, kv ∈ info.cell_cluster_node_map ∨
              ∃ m ∈ node :: walked, ∃ mc, Dict.find cells m = some mc ∧ mc.name = kv.2) ∧
          (∀ q, (Dict.find info.cluster_node_cells q).isSome = true →
            (Dict.find info'.cluster_node_cells q).isSome = true) ∧
          (cluster.chainable_ports = [] →
            (cells' = cells ∧ count' = count + 1) ∨ count + 1 < count') := by
        intro heq
        simp only [Prod.mk.injEq] at heq
        obtain ⟨rfl, rfl, rfl⟩ := heq
        refine ⟨hroot1, hwr1, ⟨[], hnodes1, ?_, ?_⟩, hkeep1, fun _ => hcount1⟩
        · intro m hm
          simp only [List.mem_singleton] at hm
          rw [hm]
          exact ⟨nc, hnc, hentry1⟩
        · intro kv hkv
          rcases hmap1 kv hkv with h1 | h1
          · exact Or.inl h1
          · exact Or.inr ⟨node, List.mem_cons_self _ _, nc, hnc, h1.symm⟩
      -- the loop goes on from the node `next` on the cells `cells2`
      have hnext : ∀ (next : CellRef) (cells2 : Dict CellInfo),
          (∃ rc, Dict.find cells2 root = some rc ∧ rc.cluster = x) →
          (∀ key c', Dict.find cells2 key = some c' →
            ∃ c, Dict.find cells1 key = some c ∧ (c'.cluster = c.cluster ∨ c'.cluster = x)) →
          same_shape cells1 cells2 →
          cluster.chainable_ports ≠ [] →
          form_chain nets cluster root fuel next cells2 info1 count1 =
            some (cells', info', count') →
          (∃ rc, Dict.find cells' root = some rc ∧ rc.cluster = x) ∧
          (∀ key c', Dict.find cells' key = some c' →
            ∃ c, Dict.find cells key = some c ∧ (c'.cluster = c.cluster ∨ c'.cluster = x)) ∧
          (∃ walked, info'.cluster_nodes = info.cluster_nodes ++ node :: walked ∧
            (∀ m ∈ node :: walked, ∃ mc, Dict.find cells m = some mc ∧
              (Dict.find info'.cluster_node_cells mc.name).isSome = true) ∧
            ∀ kv ∈ info'.cell_cluster_node_map, kv ∈ info.cell_cluster_node_map ∨
              ∃ m ∈ node :: walked, ∃ mc, Dict.find cells m = some mc ∧ mc.name = kv.2) ∧
          (∀ q, (Dict.find info.cluster_node_cells q).isSome = true →
            (Dict.find info'.cluster_node_cells q).isSome = true) ∧
          (cluster.chainable_ports = [] →
            (cells' = cells ∧ count' = count + 1) ∨ count + 1 < count') := by
        intro next cells2 hroot2 hwr2 hshape2 hchain hrec
        obtain ⟨hr, hw, ⟨walked, hn, hentries, hvalues⟩, hkeep, _⟩ :=
          ih next cells2 cells' info1 info' count1 count' hroot2 hrec
        have hshape : same_shape cells cells2 := same_shape_trans hshape1 hshape2
        refine ⟨hr, cluster_writes_trans x cells cells2 cells'
          (cluster_writes_trans x cells cells1 cells2 hwr1 hwr2) hw,
          ⟨next :: walked, ?_, ?_, ?_⟩, fun q hq => hkeep q (hkeep1 q hq),
          fun hnil => absurd hnil hchain⟩
        · rw [hn, hnodes1, List.append_assoc]
          rfl
        · intro m hm
          rcases List.mem_cons.mp hm with h1 | h1
          · rw [h1]
            exact ⟨nc, hnc, hkeep nc.name hentry1⟩
          · obtain ⟨mc, hmc, hsome⟩ := hentries m h1
            obtain ⟨mc0, hmc0, hname⟩ := same_shape_name hshape m mc hmc
            exact ⟨mc0, hmc0, by rw [hname]; exact hsome⟩
        · intro kv hkv
          rcases hvalues kv hkv with h1 | ⟨m, hm, mc, hmc, hname⟩
          · rcases hmap1 kv h1 with h2 | h2
            · exact Or.inl h2
            · exact Or.inr ⟨node, List.mem_cons_self _ _, nc, hnc, h2.symm⟩
          · obtain ⟨mc0, hmc0, hname0⟩ := same_shape_name hshape m mc hmc
            exact Or.inr ⟨m, List.mem_cons_of_mem _ hm, mc0, hmc0, hname0.trans hname⟩
      by_cases hnil : cluster.chainable_ports = []
      · rw [hnil] at h
        simp only [Option.some.injEq] at h
        exact hend h.symm
      · obtain ⟨chain_ports, others, hcp⟩ := List.exists_cons_of_ne_nil hnil
        have hne : cluster.chainable_ports ≠ [] := hnil
        rw [hcp] at h
        simp only at h
        cases hsrc : (Dict.find cells1 node).bind fun nc =>
            Dict.find nc.ports chain_ports.cell_source with
        | none => rw [hsrc] at h; simp at h
        | some source =>
          rw [hsrc] at h
          simp only at h
          cases hnet : source.net with
          | none =>
            rw [hnet] at h
            simp only at h
            exact hnext node cells1 hroot1 (fun key c' hc => ⟨c', hc, Or.inl rfl⟩)
              (same_shape_refl _) hne h
          | some next_net =>
            rw [hnet] at h
            simp only at h
            cases hn : next_chain_node cells1 cluster (nets next_net).users with
            | none => rw [hn] at h; simp at h
            | some r =>
              rw [hn] at h
              cases r with
              | none =>
                simp only [Option.some.injEq] at h
                exact hend h.symm
              | some user_cell =>
                simp only at h
                obtain ⟨rc1, hrc1, hx1⟩ := hroot1
                rw [hrc1] at h
                cases huc : Dict.find cells1 user_cell with
                | none => rw [huc] at h; simp at h
                | some uc =>
                  rw [huc] at h
                  simp only at h
                  refine hnext user_cell _ ?_ ?_ (same_shape_set cells1 user_cell uc _ huc)
                    hne h
                  · rw [Dict.find_set]
                    by_cases hk : user_cell = root
                    · rw [if_pos hk]
                      exact ⟨_, rfl, hx1⟩
                    · rw [if_neg hk]
                      exact ⟨rc1, hrc1, hx1⟩
                  · intro key c' hc'
                    rw [Dict.find_set] at hc'
                    by_cases hk : user_cell = key
                    · rw [if_pos hk] at hc'
                      subst hk
                      refine ⟨uc, huc, Or.inr ?_⟩
                      rw [← Option.some.inj hc']
                      exact hx1
                    · rw [if_neg hk] at hc'
                      exact ⟨c', hc', Or.inl rfl⟩

theorem form_chain_node_found (nets : NetId → NetInfo) (cluster : ClusterPOD) (root : CellRef)
    (fuel : Nat) (node : CellRef) (cells : Dict CellInfo) (info : Cluster) (count : Nat)
    (r : Dict CellInfo × Cluster × Nat)
    (h : form_chain nets cluster root fuel node cells info count = some r) :
    ∃ nc, Dict.find cells node = some nc := by
  cases fuel with
  | zero => simp [form_chain] at h
  | succ fuel =>
    unfold form_chain at h
    cases hpass : cluster_node_pass nets cluster root node cells info count with
    | none => rw [hpass] at h; simp at h
    | some p =>
      obtain ⟨cells1, info1, count1⟩ := p
      obtain ⟨nc, _, hnc, _⟩ :=
        cluster_node_pass_eq nets cluster root node cells cells1 info info1 count count1 hpass
      exact ⟨nc, hnc⟩

theorem lookups_total_shape (cells cells' : Dict CellInfo) (info : Cluster)
    (hshape : same_shape cells' cells) (h : lookups_total cells info) :
    lookups_total cells' info := by
  refine ⟨?_, ?_⟩
  · intro node hnode
    obtain ⟨nc, hnc, hsome⟩ := h.1 node hnode
    obtain ⟨nc', hnc', hname⟩ := same_shape_name hshape node nc hnc
    exact ⟨nc', hnc', by rw [hname]; exact hsome⟩
  · intro kv hkv
    obtain ⟨node, hnode, nc, hnc, hname⟩ := h.2 kv hkv
    obtain ⟨nc', hnc', hname'⟩ := same_shape_name hshape node nc hnc
    exact ⟨node, hnode, nc', hnc', hname'.trans hname⟩

/-- The pass of one root keeps the lookups total on every cluster entered in `clusters`
since `clusters0`. -/
theorem form_cluster_lookups (nets : NetId → NetInfo) (cluster : ClusterPOD)
    (index fuel : Nat) (cells0 : Dict CellInfo) (clusters0 : Dict Cluster)
    (st st' : Dict CellInfo × Dict Cluster) (root : CellRef)
    (hinv : same_shape cells0 st.1 ∧ ∀ id info, Dict.find st.2 id = some info →
      Dict.find clusters0 id = some info ∨ lookups_total cells0 info)
    (h : form_cluster nets cluster index fuel st root = some st') :
    same_shape cells0 st'.1 ∧ ∀ id info, Dict.find st'.2 id = some info →
      Dict.find clusters0 id = some info ∨ lookups_total cells0 info := by
  refine ⟨same_shape_trans hinv.1 (form_cluster_shape nets cluster index fuel st st' root h), ?_⟩
  unfold form_cluster at h
  cases hchain : form_chain nets cluster root fuel root st.1
      { root := root, index := index } 0 with
  | none => rw [hchain] at h; simp at h
  | some r =>
    obtain ⟨cells, info_new, count⟩ := r
    rw [hchain] at h
    simp only at h
    obtain ⟨rc, hrc⟩ := form_chain_node_found nets cluster root fuel root st.1 _ 0 _ hchain
    obtain ⟨_, _, ⟨walked, hnodes, hentries, hvalues⟩, _, _⟩ :=
      form_chain_effect nets cluster root rc.cluster fuel root st.1 cells _ info_new 0 count
        ⟨rc, hrc, rfl⟩ hchain
    have hnew : lookups_total cells0 info_new := by
      apply lookups_total_shape st.1 cells0 info_new hinv.1
      simp only [List.nil_append] at hnodes
      refine ⟨?_, ?_⟩
      · intro node hnode
        rw [hnodes] at hnode
        exact hentries node hnode
      · intro kv hkv
        rcases hvalues kv hkv with h1 | ⟨m, hm, mc, hmc, hname⟩
        · simp at h1
        · exact ⟨m, by rw [hnodes]; exact hm, mc, hmc, hname⟩
    cases hroot : Dict.find cells root with
    | none => rw [hroot] at h; simp at h
    | some root_cell =>
      rw [hroot] at h
      simp only at h
      split_ifs at h
      · simp only [Option.some.injEq] at h
        rw [← h]
        exact hinv.2
      · simp only [Option.some.injEq] at h
        rw [← h]
        intro id info hfind
        simp only at hfind
        rw [Dict.find_emplace] at hfind
        by_cases hid : root_cell.cluster = id
        · rw [if_pos hid] at hfind
          cases hold : Dict.find st.2 root_cell.cluster with
          | none =>
            rw [hold] at hfind
            simp only [Option.getD_none, Option.some.injEq] at hfind
            rw [← hfind]
            exact Or.inr hnew
          | some old =>
            rw [hold] at hfind
            simp only [Option.getD_some, Option.some.injEq] at hfind
            rw [← hfind]
            exact hinv.2 _ _ (hid ▸ hold)
        · rw [if_neg hid] at hfind
          exact hinv.2 id info hfind

/-- One iteration of the loop "Find cluster roots", for any description: it leaves the state
alone, or it appends the cell to `roots`, gives it the cluster id of its name and changes
no other cell. -/
theorem find_cluster_root_cases (cluster : ClusterPOD) (st st' : Netlist × List CellRef)
    (k : CellRef) (h : find_cluster_root cluster st k = some st') :
    st' = st ∨
    (st'.2 = st.2 ++ [k] ∧
      (∃ ci c', Dict.find st.1.cells k = some ci ∧ Dict.find st'.1.cells k = some c' ∧
        c'.name = ci.name ∧ c'.cluster = ci.name) ∧
      ∀ q, q ≠ k → Dict.find st'.1.cells q = Dict.find st.1.cells q) := by
  by_cases hnil : cluster.chainable_ports = []
  · unfold find_cluster_root at h
    cases hci : Dict.find st.1.cells k with
    | none => rw [hci] at h; simp at h
    | some ci =>
      rw [hci] at h
      simp only at h
      by_cases h1 : ci.cluster ≠ ""
      · rw [if_pos h1] at h
        exact Or.inl (Option.some.inj h).symm
      · rw [if_neg h1] at h
        by_cases h2 : ¬ cluster.root_cell_types.contains ci.type
        · rw [if_pos h2] at h
          exact Or.inl (Option.some.inj h).symm
        · rw [if_neg h2, hnil] at h
          simp only [Option.some.injEq] at h
          right
          rw [← h]
          refine ⟨rfl, ⟨ci, { ci with cluster := ci.name }, rfl, ?_, rfl, rfl⟩, ?_⟩
          · simp only [Dict.find_set, if_true]
          · intro q hq
            simp only [Dict.find_set, if_neg (Ne.symm hq)]
  · obtain ⟨chain_ports, others, hcp⟩ := List.exists_cons_of_ne_nil hnil
    rcases find_cluster_root_eq cluster chain_ports others hcp st st' k h with
      h1 | ⟨ci, sink, n, hci, hsink, hn, rfl⟩
    · exact Or.inl h1
    · right
      have hset : Dict.find (Dict.set st.1.cells k { ci with cluster := ci.name }) k =
          some { ci with cluster := ci.name } := by
        simp only [Dict.find_set, if_true]
      obtain ⟨hcells, _, _⟩ := Netlist.disconnect_port_eq
        { st.1 with cells := Dict.set st.1.cells k { ci with cluster := ci.name } }
        k chain_ports.cell_sink { ci with cluster := ci.name } sink n hset hsink hn
      obtain ⟨_, hname, hclu, _⟩ :=
        disconnect_port_fields { ci with cluster := ci.name } chain_ports.cell_sink
      refine ⟨rfl, ⟨ci, _, hci, ?_, hname, hclu⟩, ?_⟩
      · simp only [hcells, Dict.find_set, if_true]
      · intro q hq
        simp only [hcells, Dict.find_set, if_neg (Ne.symm hq)]

/-- Root discovery, for any description: the cells keep their keys and names; a cell made a
root has the cluster id of its name; and `roots` lists cells of the netlist in the order of
the netlist, each once when the keys are distinct. -/
theorem find_cluster_roots_named (cluster : ClusterPOD) (d0 d : Netlist) (roots : List CellRef)
    (h : find_cluster_roots cluster d0 = some (d, roots)) :
    (∀ q c', Dict.find d.cells q = some c' →
      ∃ c, Dict.find d0.cells q = some c ∧ c'.name = c.name) ∧
    (∀ r ∈ roots, ∃ c, Dict.find d.cells r = some c ∧ c.cluster = c.name) ∧
    List.Sublist roots (d0.cells.map Prod.fst) := by
  unfold find_cluster_roots at h
  have key : ∀ (todo : List CellRef) (st st' : Netlist × List CellRef),
      todo.foldlM (find_cluster_root cluster) st = some st' →
      (∀ q c', Dict.find st'.1.cells q = some c' →
        ∃ c, Dict.find st.1.cells q = some c ∧ c'.name = c.name) ∧
      ((∀ r ∈ st.2, ∃ c, Dict.find st.1.cells r = some c ∧ c.cluster = c.name) →
        ∀ r ∈ st'.2, ∃ c, Dict.find st'.1.cells r = some c ∧ c.cluster = c.name) ∧
      ∃ sub, List.Sublist sub todo ∧ st'.2 = st.2 ++ sub := by
    intro todo
    induction todo with
    | nil =>
      intro st st' hf
      simp only [List.foldlM_nil, Option.pure_def, Option.some.injEq] at hf
      subst hf
      exact ⟨fun q c' hc => ⟨c', hc, rfl⟩, fun hr => hr, [], List.Sublist.refl _, by simp⟩
    | cons k rest ih =>
      intro st st' hf
      rw [List.foldlM_cons] at hf
      obtain ⟨st1, h1, h2⟩ := Option.bind_eq_some.mp hf
      obtain ⟨hnames, hroots, sub, hsub, heq⟩ := ih st1 st' h2
      rcases find_cluster_root_cases cluster st st1 k h1 with
        rfl | ⟨hpush, ⟨ci, c1, hci, hc1, hname1, hclu1⟩, hother⟩
      · exact ⟨hnames, hroots, sub, List.Sublist.cons _ hsub, heq⟩
      · refine ⟨?_, ?_, k :: sub, List.Sublist.cons₂ _ hsub, by rw [heq, hpush]; simp⟩
        · intro q c' hc'
          obtain ⟨c, hc, hname⟩ := hnames q c' hc'
          by_cases hq : q = k
          · subst hq
            rw [hc1] at hc
            refine ⟨ci, hci, ?_⟩
            rw [hname, ← Option.some.inj hc]
            exact hname1
          · rw [hother q hq] at hc
            exact ⟨c, hc, hname⟩
        · intro hr
          apply hroots
          intro r hmem
          rw [hpush] at hmem
          by_cases hq : r = k
          · subst hq
            exact ⟨c1, hc1, by rw [hclu1, hname1]⟩
          · rcases List.mem_append.mp hmem with h3 | h3
            · rw [hother r hq]
              exact hr r h3
            · simp only [List.mem_singleton] at h3
              exact absurd h3 hq
  obtain ⟨hnames, hroots, sub, hsub, heq⟩ := key _ (d0, []) (d, roots) h
  refine ⟨hnames, hroots (fun r hr => by simp at hr), ?_⟩
  simp only [List.nil_append] at heq
  rw [heq]
  exact hsub

/-- C37: lookups on packed clusters cannot fail. For every cluster that `prepare_cluster`
registers, `cluster_node_cells` has an entry for the name of every cell of `cluster_nodes`,
and every value of `cell_cluster_node_map` is the name of a cell of `cluster_nodes`; when
the cells of the netlist are stored under their names, as `cells.at(cluster_node)` in
`getClusterOffset` takes them to be, every such value is itself an element of
`cluster_nodes` and a key of the cells. -/
theorem packed_cluster_lookups (fuel : Nat) (cluster : ClusterPOD) (index : Nat)
    (st st' : Netlist × Dict Cluster)
    (h : prepare_cluster fuel cluster index st = some st') :
    ∀ id info, Dict.find st'.2 id = some info →
      Dict.find st.2 id = some info ∨
        (lookups_total st'.1.cells info ∧
          ((∀ kc ∈ st.1.cells, kc.2.name = kc.1) →
            ∀ kv ∈ info.cell_cluster_node_map,
              kv.2 ∈ info.cluster_nodes ∧ (Dict.find st'.1.cells kv.2).isSome = true)) := by
  obtain ⟨d, roots, hroots, hfold, _, hshape⟩ := prepare_cluster_eq fuel cluster index st st' h
  obtain ⟨hnames, _, _⟩ := find_cluster_roots_named cluster st.1 d roots hroots
  have hinv := foldlM_option_inv (form_cluster d.nets cluster index fuel)
    (fun t => same_shape d.cells t.1 ∧ ∀ id info, Dict.find t.2 id = some info →
      Dict.find st.2 id = some info ∨ lookups_total d.cells info)
    roots (d.cells, st.2) (st'.1.cells, st'.2)
    (fun root _ t t' ht hstep =>
      form_cluster_lookups d.nets cluster index fuel d.cells st.2 t t' root ht hstep)
    ⟨same_shape_refl _, fun id info hf => Or.inl hf⟩ hfold
  intro id info hfind
  rcases hinv.2 id info hfind with hold | hnew
  · exact Or.inl hold
  · right
    have htotal := lookups_total_shape d.cells st'.1.cells info (same_shape_symm hshape) hnew
    refine ⟨htotal, ?_⟩
    intro hkeys kv hkv
    obtain ⟨node, hnode, nc, hnc, hname⟩ := htotal.2 kv hkv
    obtain ⟨c1, hc1, hname1⟩ := same_shape_name hshape node nc hnc
    obtain ⟨c0, hc0, hname0⟩ := hnames node c1 hc1
    have hkey : c0.name = node := hkeys (node, c0) (Dict.mem_of_find st.1.cells node c0 hc0)
    have hv : kv.2 = node := by
      rw [← hname, ← hname1, hname0, hkey]
    rw [hv]
    exact ⟨hnode, by rw [hnc]; rfl⟩

/-- The pass of one root on cells in which every cluster id is the one the cell had after
the root discovery, or the key of a registered cluster, or empty on a root whose pass is
over: the same holds after the pass, and a cluster that the pass registers is stored under
the name of its root. -/
theorem form_cluster_keys (nets : NetId → NetInfo) (cluster : ClusterPOD) (index fuel : Nat)
    (cells0 : Dict CellInfo) (clusters0 : Dict Cluster) (done : List CellRef)
    (st st' : Dict CellInfo × Dict Cluster) (root : CellRef)
    (hshape : same_shape cells0 st.1)
    (hA : ∀ key c, Dict.find st.1 key = some c →
      (∃ c0, Dict.find cells0 key = some c0 ∧ c.cluster = c0.cluster) ∨
      (Dict.find st.2 c.cluster).isSome = true ∨ (c.cluster = "" ∧ key ∈ done))
    (hB : ∀ id info, Dict.find st.2 id = some info →
      Dict.find clusters0 id = some info ∨ rooted_at_key cells0 id info)
    (hr : ∃ c0, Dict.find cells0 root = some c0 ∧ c0.cluster = c0.name)
    (hnot : root ∉ done)
    (h : form_cluster nets cluster index fuel st root = some st') :
    same_shape cells0 st'.1 ∧
    (∀ key c, Dict.find st'.1 key = some c →
      (∃ c0, Dict.find cells0 key = some c0 ∧ c.cluster = c0.cluster) ∨
      (Dict.find st'.2 c.cluster).isSome = true ∨ (c.cluster = "" ∧ key ∈ root :: done)) ∧
    ∀ id info, Dict.find st'.2 id = some info →
      Dict.find clusters0 id = some info ∨ rooted_at_key cells0 id info := by
  refine ⟨same_shape_trans hshape (form_cluster_shape nets cluster index fuel st st' root h), ?_⟩
  unfold form_cluster at h
  cases hchain : form_chain nets cluster root fuel root st.1
      { root := root, index := index } 0 with
  | none => rw [hchain] at h; simp at h
  | some r =>
    obtain ⟨cells, info_new, count⟩ := r
    rw [hchain] at h
    simp only at h
    obtain ⟨rc, hrc⟩ := form_chain_node_found nets cluster root fuel root st.1 _ 0 _ hchain
    obtain ⟨⟨rc', hrc', hx⟩, hwrites, ⟨walked, hnodes, _, _⟩, _, hcount⟩ :=
      form_chain_effect nets cluster root rc.cluster fuel root st.1 cells _ info_new 0 count
        ⟨rc, hrc, rfl⟩ hchain
    obtain ⟨hinfo_root, _⟩ := form_chain_root_index nets cluster root fuel root st.1 cells _
      info_new 0 count hchain
    rw [hrc'] at h
    simp only at h
    by_cases hdiscard : count = 1 ∧ cluster.chainable_ports.length = 0
    · rw [if_pos hdiscard] at h
      simp only [Option.some.injEq] at h
      rw [← h]
      have hsame : cells = st.1 := by
        rcases hcount (List.length_eq_zero.mp hdiscard.2) with h1 | h1
        · exact h1.1
        · omega
      refine ⟨?_, hB⟩
      intro key c hc
      simp only [Dict.find_set] at hc
      by_cases hk : root = key
      · rw [if_pos hk] at hc
        right; right
        rw [← Option.some.inj hc, ← hk]
        exact ⟨rfl, List.mem_cons_self _ _⟩
      · rw [if_neg hk, hsame] at hc
        rcases hA key c hc with h1 | h1 | h1
        · exact Or.inl h1
        · exact Or.inr (Or.inl h1)
        · exact Or.inr (Or.inr ⟨h1.1, List.mem_cons_of_mem _ h1.2⟩)
    · rw [if_neg hdiscard] at h
      simp only [Option.some.injEq] at h
      rw [← h]
      simp only
      rw [hx]
      refine ⟨?_, ?_⟩
      · intro key c' hc'
        obtain ⟨c, hc, hcl⟩ := hwrites key c' hc'
        rcases hcl with hcl | hcl
        · rcases hA key c hc with h1 | h1 | h1
          · obtain ⟨c0, hc0, h2⟩ := h1
            exact Or.inl ⟨c0, hc0, hcl.trans h2⟩
          · right; left
            rw [hcl]
            obtain ⟨w, hw⟩ := Option.isSome_iff_exists.mp h1
            rw [Dict.find_emplace_of_find _ _ _ _ w hw]
            rfl
          · right; right
            exact ⟨hcl.trans h1.1, List.mem_cons_of_mem _ h1.2⟩
        · right; left
          rw [hcl, Dict.find_emplace, if_pos rfl]
          rfl
      · intro id info hfind
        rw [Dict.find_emplace] at hfind
        by_cases hid : rc.cluster = id
        · rw [if_pos hid] at hfind
          cases hold : Dict.find st.2 rc.cluster with
          | none =>
            rw [hold] at hfind
            simp only [Option.getD_none, Option.some.injEq] at hfind
            rw [← hfind]
            right
            refine ⟨?_, ?_⟩
            · rw [hnodes, hinfo_root]
              rfl
            · obtain ⟨c0, hc0, hname⟩ := hr
              rw [hinfo_root]
              refine ⟨c0, hc0, ?_⟩
              rcases hA root rc hrc with h1 | h1 | h1
              · obtain ⟨c0', hc0', h2⟩ := h1
                rw [hc0] at hc0'
                rw [← hid, h2, ← Option.some.inj hc0', hname]
              · rw [hold] at h1
                simp at h1
              · exact absurd h1.2 hnot
          | some old =>
            rw [hold] at hfind
            simp only [Option.getD_some, Option.some.injEq] at hfind
            rw [← hfind]
            exact hB _ _ (hid ▸ hold)
        · rw [if_neg hid] at hfind
          exact hB id info hfind

/-- The loop over the roots keeps the invariant of `form_cluster_keys`, the roots being
distinct cells that have the cluster id of their name after the root discovery. -/
theorem form_clusters_keys (nets : NetId → NetInfo) (cluster : ClusterPOD) (index fuel : Nat)
    (cells0 : Dict CellInfo) (clusters0 : Dict Cluster) :
    ∀ (roots done : List CellRef) (st st' : Dict CellInfo × Dict Cluster),
      roots.Nodup → (∀ r ∈ roots, r ∉ done) →
      (∀ r ∈ roots, ∃ c0, Dict.find cells0 r = some c0 ∧ c0.cluster = c0.name) →
      same_shape cells0 st.1 →
      (∀ key c, Dict.find st.1 key = some c →
        (∃ c0, Dict.find cells0 key = some c0 ∧ c.cluster = c0.cluster) ∨
        (Dict.find st.2 c.cluster).isSome = true ∨ (c.cluster = "" ∧ key ∈ done)) →
      (∀ id info, Dict.find st.2 id = some info →
        Dict.find clusters0 id = some info ∨ rooted_at_key cells0 id info) →
      roots.foldlM (form_cluster nets cluster index fuel) st = some st' →
      ∀ id info, Dict.find st'.2 id = some info →
        Dict.find clusters0 id = some info ∨ rooted_at_key cells0 id info := by
  intro roots
  induction roots with
  | nil =>
    intro done st st' _ _ _ _ _ hB h
    simp only [List.foldlM_nil, Option.pure_def, Option.some.injEq] at h
    rw [← h]
    exact hB
  | cons root rest ih =>
    intro done st st' hnodup hdone hroots hshape hA hB h
    rw [List.foldlM_cons] at h
    obtain ⟨st1, h1, h2⟩ := Option.bind_eq_some.mp h
    obtain ⟨hshape1, hA1, hB1⟩ := form_cluster_keys nets cluster index fuel cells0 clusters0
      done st st1 root hshape hA hB (hroots root (List.mem_cons_self _ _))
      (hdone root (List.mem_cons_self _ _)) h1
    have hnd := List.nodup_cons.mp hnodup
    refine ih (root :: done) st1 st' hnd.2 ?_
      (fun r hr => hroots r (List.mem_cons_of_mem _ hr)) hshape1 hA1 hB1 h2
    intro r hr hmem
    rcases List.mem_cons.mp hmem with h3 | h3
    · rw [h3] at hr
      exact hnd.1 hr
    · exact hdone r (List.mem_cons_of_mem _ hr) h3

/-- C36: every cluster that `prepare_cluster` registers, on a netlist with distinct cell
keys, has a non-empty `cluster_nodes` whose first element is the root cell of the cluster,
and is stored in `clusters` under the name of that root cell. -/
theorem registered_cluster_rooted (fuel : Nat) (cluster : ClusterPOD) (index : Nat)
    (st st' : Netlist × Dict Cluster)
    (hnodup : (st.1.cells.map Prod.fst).Nodup)
    (h : prepare_cluster fuel cluster index st = some st') :
    ∀ id info, Dict.find st'.2 id = some info →
      Dict.find st.2 id = some info ∨
        (info.cluster_nodes ≠ [] ∧ info.cluster_nodes.head? = some info.root ∧
          ∃ root_cell, Dict.find st'.1.cells info.root = some root_cell ∧
            root_cell.name = id) := by
  obtain ⟨d, roots, hroots, hfold, _, hshape⟩ := prepare_cluster_eq fuel cluster index st st' h
  obtain ⟨_, hnamed, hsub⟩ := find_cluster_roots_named cluster st.1 d roots hroots
  have hB := form_clusters_keys d.nets cluster index fuel d.cells st.2 roots []
    (d.cells, st.2) (st'.1.cells, st'.2) (hsub.nodup hnodup) (fun r _ hr => by simp at hr)
    hnamed (same_shape_refl _) (fun key c hc => Or.inl ⟨c, hc, rfl⟩)
    (fun id info hf => Or.inl hf) hfold
  intro id info hfind
  rcases hB id info hfind with hold | ⟨hhead, rc, hrc, hname⟩
  · exact Or.inl hold
  · right
    refine ⟨?_, hhead, ?_⟩
    · intro hnil
      rw [hnil] at hhead
      simp at hhead
    · obtain ⟨rc', hrc', heq⟩ := same_shape_find hshape info.root rc hrc
      refine ⟨rc', hrc', ?_⟩
      rw [heq]
      exact hname

/-! ## The nodes of a packed cluster are distinct -/

theorem next_chain_node_skip (cells : Dict CellInfo) (cluster : ClusterPOD)
    (rest : List PortRef) :
    ∀ (before : List PortRef) (r : Option CellRef),
      (∀ u ∈ before, ∀ k uc, u.cell = some k → Dict.find cells k = some uc →
        uc.type ∉ cluster.root_cell_types) →
      next_chain_node cells cluster (before ++ rest) = some r →
      next_chain_node cells cluster rest = some r := by
  intro before
  induction before with
  | nil => intro r _ h; exact h
  | cons u before ih =>
    intro r hbefore h
    rw [List.cons_append] at h
    unfold next_chain_node at h
    have hrest : ∀ x ∈ before, ∀ k uc, x.cell = some k → Dict.find cells k = some uc →
        uc.type ∉ cluster.root_cell_types :=
      fun x hx => hbefore x (List.mem_cons_of_mem _ hx)
    cases hu : u.cell with
    | none =>
      rw [hu] at h
      exact ih r hrest h
    | some k =>
      rw [hu] at h
      simp only at h
      cases hk : Dict.find cells k with
      | none => rw [hk] at h; simp at h
      | some uc =>
        rw [hk] at h
        simp only at h
        have hnot := hbefore u (List.mem_cons_self _ _) k uc hu hk
        have hc : ¬ cluster.root_cell_types.contains uc.type = true := by simpa using hnot
        rw [if_neg hc] at h
        exact ih r hrest h

/-- When the cell `b` follows the cell `a` in a chain, the loop over the users of the net
on the source port of `a` can only find `b`. -/
theorem chain_link_next (nets : NetId → NetInfo) (cells : Dict CellInfo) (cluster : ClusterPOD)
    (source_port : IdString) (a b : CellRef)
    (h : chain_link nets cells cluster source_port a b)
    (nc : CellInfo) (source : PortInfo) (n : NetId) (r : Option CellRef)
    (hnc : Dict.find cells a = some nc) (hsrc : Dict.find nc.ports source_port = some source)
    (hn : source.net = some n)
    (hr : next_chain_node cells cluster (nets n).users = some r) : r = some b := by
  obtain ⟨nc', n', before, user, after, ub, hnc', hnet, husers, hcell, hub, htype, hbefore⟩ := h
  rw [hnc] at hnc'
  have hnc'' : nc = nc' := Option.some.inj hnc'
  subst hnc''
  have hn' : n = n' := by
    unfold port_net at hnet
    rw [hsrc] at hnet
    simp only at hnet
    rw [hn] at hnet
    exact Option.some.inj hnet
  subst hn'
  rw [husers] at hr
  have h1 := next_chain_node_skip cells cluster (user :: after) before r hbefore hr
  unfold next_chain_node at h1
  rw [hcell] at h1
  simp only [hub] at h1
  have hc : cluster.root_cell_types.contains ub.type = true := by simpa using htype
  rw [if_pos hc] at h1
  exact (Option.some.inj h1).symm

/-- A pass of the `do` loop that returns is followed by the end of the loop or by the
passes from a next node, on cells that differ in cluster ids only; without chainable ports
the loop ends. -/
theorem form_chain_succ_cases (nets : NetId → NetInfo) (cluster : ClusterPOD) (root : CellRef)
    (fuel : Nat) (node : CellRef) (cells : Dict CellInfo) (info : Cluster) (count : Nat)
    (r : Dict CellInfo × Cluster × Nat)
    (h : form_chain nets cluster root (fuel + 1) node cells info count = some r) :
    ∃ cells1 info1 count1,
      cluster_node_pass nets cluster root node cells info count =
        some (cells1, info1, count1) ∧
      (r = (cells1, info1, count1) ∨
        (cluster.chainable_ports ≠ [] ∧ ∃ next cells2, same_shape cells1 cells2 ∧
          form_chain nets cluster root fuel next cells2 info1 count1 = some r)) := by
  unfold form_chain at h
  cases hpass : cluster_node_pass nets cluster root node cells info count with
  | none => rw [hpass] at h; simp at h
  | some p =>
    obtain ⟨cells1, info1, count1⟩ := p
    rw [hpass] at h
    simp only at h
    refine ⟨cells1, info1, count1, rfl, ?_⟩
    by_cases hnil : cluster.chainable_ports = []
    · rw [hnil] at h
      exact Or.inl (Option.some.inj h).symm
    · obtain ⟨chain_ports, others, hcp⟩ := List.exists_cons_of_ne_nil hnil
      rw [hcp] at h
      simp only at h
      cases hsrc : (Dict.find cells1 node).bind fun nc =>
          Dict.find nc.ports chain_ports.cell_source with
      | none => rw [hsrc] at h; simp at h
      | some source =>
        rw [hsrc] at h
        simp only at h
        cases hnet : source.net with
        | none =>
          rw [hnet] at h
          exact Or.inr ⟨hnil, node, cells1, same_shape_refl _, h⟩
        | some next_net =>
          rw [hnet] at h
          simp only at h
          cases hn : next_chain_node cells1 cluster (nets next_net).users with
          | none => rw [hn] at h; simp at h
          | some nx =>
            rw [hn] at h
            cases nx with
            | none => exact Or.inl (Option.some.inj h).symm
            | some user_cell =>
              simp only at h
              cases hroot : Dict.find cells1 root with
              | none => rw [hroot] at h; simp at h
              | some root_cell =>
                rw [hroot] at h
                cases huc : Dict.find cells1 user_cell with
                | none => rw [huc] at h; simp at h
                | some uc =>
                  rw [huc] at h
                  exact Or.inr ⟨hnil, user_cell, _,
                    same_shape_set cells1 user_cell uc _ huc, h⟩

theorem cluster_node_pass_nodes (nets : NetId → NetInfo) (cluster : ClusterPOD)
    (root node : CellRef) (cells cells' : Dict CellInfo) (info info' : Cluster)
    (count count' : Nat)
    (h : cluster_node_pass nets cluster root node cells info count =
      some (cells', info', count')) :
    info'.cluster_nodes = info.cluster_nodes ++ [node] := by
  obtain ⟨_, _, _, _, _, _, rfl⟩ :=
    cluster_node_pass_eq nets cluster root node cells cells' info info' count count' h
  rfl

/-- The `do` loop appends the node it starts from, and then the nodes it walks, to
`cluster_nodes`; without chainable ports it appends the node only. -/
theorem form_chain_nodes (nets : NetId → NetInfo) (cluster : ClusterPOD) (root : CellRef) :
    ∀ (fuel : Nat) (node : CellRef) (cells cells' : Dict CellInfo) (info info' : Cluster)
      (count count' : Nat),
      form_chain nets cluster root fuel node cells info count = some (cells', info', count') →
      ∃ walked, info'.cluster_nodes = info.cluster_nodes ++ node :: walked ∧
        (cluster.chainable_ports = [] → walked = []) := by
  intro fuel
  induction fuel with
  | zero =>
    intro node cells cells' info info' count count' h
    simp [form_chain] at h
  | succ fuel ih =>
    intro node cells cells' info info' count count' h
    obtain ⟨cells1, info1, count1, hpass, hcases⟩ :=
      form_chain_succ_cases nets cluster root fuel node cells info count _ h
    have hn := cluster_node_pass_nodes nets cluster root node cells cells1 info info1 count
      count1 hpass
    rcases hcases with heq | ⟨hne, next, cells2, _, hrec⟩
    · simp only [Prod.mk.injEq] at heq
      obtain ⟨_, rfl, _⟩ := heq
      exact ⟨[], hn, fun _ => rfl⟩
    · obtain ⟨walked, hw, _⟩ := ih next cells2 cells' info1 info' count1 count' hrec
      refine ⟨next :: walked, ?_, fun hnil => absurd hnil hne⟩
      rw [hw, hn, List.append_assoc]
      rfl

/-- The loop is a chain of tail calls: when it returns, the passes from any node it has
appended to `cluster_nodes` return the same result. -/
theorem form_chain_tail_call (nets : NetId → NetInfo) (cluster : ClusterPOD) (root : CellRef)
    (a : CellRef) (rest : List CellRef) :
    ∀ (fuel : Nat) (front : List CellRef) (node : CellRef) (cells cells' : Dict CellInfo)
      (info info' : Cluster) (count count' : Nat),
      form_chain nets cluster root fuel node cells info count = some (cells', info', count') →
      info'.cluster_nodes = info.cluster_nodes ++ (front ++ a :: rest) →
      ∃ fuel_a cells_a info_a count_a, same_shape cells cells_a ∧
        form_chain nets cluster root fuel_a a cells_a info_a count_a =
          some (cells', info', count') := by
  intro fuel
  induction fuel with
  | zero =>
    intro front node cells cells' info info' count count' h
    simp [form_chain] at h
  | succ fuel ih =>
    intro front node cells cells' info info' count count' h hnodes
    obtain ⟨walked, hw, _⟩ := form_chain_nodes nets cluster root (fuel + 1) node cells cells'
      info info' count count' h
    have hlist : node :: walked = front ++ a :: rest :=
      List.append_cancel_left (hw.symm.trans hnodes)
    cases front with
    | nil =>
      simp only [List.nil_append, List.cons.injEq] at hlist
      rw [← hlist.1]
      exact ⟨fuel + 1, cells, info, count, same_shape_refl _, h⟩
    | cons b front =>
      simp only [List.cons_append, List.cons.injEq] at hlist
      obtain ⟨cells1, info1, count1, hpass, hcases⟩ :=
        form_chain_succ_cases nets cluster root fuel node cells info count _ h
      have hn := cluster_node_pass_nodes nets cluster root node cells cells1 info info1 count
        count1 hpass
      have hshape1 := cluster_node_pass_shape nets cluster root node cells cells1 info info1
        count count1 hpass
      rcases hcases with heq | ⟨_, next, cells2, hshape2, hrec⟩
      · simp only [Prod.mk.injEq] at heq
        obtain ⟨_, rfl, _⟩ := heq
        rw [hn] at hw
        have := List.append_cancel_left hw
        simp only [List.cons.injEq, true_and] at this
        rw [← this] at hlist
        exact absurd hlist.2 (by simp)
      · obtain ⟨fa, ca, ia, cnt, hsh, hcall⟩ := ih front next cells2 cells' info1 info'
          count1 count' hrec
          (by rw [hnodes, hn, List.append_assoc, ← hlist.1]; rfl)
        exact ⟨fa, ca, ia, cnt, same_shape_trans (same_shape_trans hshape1 hshape2) hsh, hcall⟩

theorem nodup_of_no_repeat {α : Type} :
    ∀ l : List α, (∀ l1 a l2 l3, l ≠ l1 ++ a :: (l2 ++ a :: l3)) → l.Nodup := by
  intro l
  induction l with
  | nil => intro _; exact List.nodup_nil
  | cons b t ih =>
    intro h
    rw [List.nodup_cons]
    refine ⟨?_, ih ?_⟩
    · intro hb
      obtain ⟨s1, s2, hs⟩ := List.append_of_mem hb
      exact h [] b s1 s2 (by rw [hs]; rfl)
    · intro l1 a l2 l3 ht
      exact h (b :: l1) a l2 l3 (by rw [ht]; rfl)

theorem chain_successor_mem {α : Type} (R : α → α → Prop) (z : α) :
    ∀ l : List α, List.Chain' R (l ++ [z]) → ∀ u ∈ l, ∃ v, R u v ∧ (v ∈ l ∨ v = z) := by
  intro l
  induction l with
  | nil => intro _ u hu; simp at hu
  | cons b t ih =>
    intro h u hu
    rw [List.cons_append] at h
    rcases List.mem_cons.mp hu with h1 | h1
    · subst h1
      cases t with
      | nil =>
        simp only [List.nil_append, List.chain'_cons, List.chain'_singleton, and_true] at h
        exact ⟨z, h, Or.inr rfl⟩
      | cons c t' =>
        rw [List.cons_append, List.chain'_cons] at h
        exact ⟨c, h.1, Or.inl (List.mem_cons_of_mem _ (List.mem_cons_self _ _))⟩
    · obtain ⟨v, hv, hmem⟩ := ih (List.Chain'.tail h) u h1
      refine ⟨v, hv, ?_⟩
      rcases hmem with h2 | h2
      · exact Or.inl (List.mem_cons_of_mem _ h2)
      · exact Or.inr h2

/-- The nodes that a returning walk of a chain appends to an empty `cluster_nodes` are
distinct: a walk that comes back to a node goes round for ever. -/
theorem form_chain_nodup (nets : NetId → NetInfo) (cluster : ClusterPOD) (root : CellRef)
    (fuel : Nat) (node : CellRef) (cells cells' : Dict CellInfo) (info info' : Cluster)
    (count count' : Nat) (hempty : info.cluster_nodes = [])
    (h : form_chain nets cluster root fuel node cells info count =
      some (cells', info', count')) :
    info'.cluster_nodes.Nodup := by
  by_cases hnil : cluster.chainable_ports = []
  · obtain ⟨walked, hw, hend⟩ := form_chain_nodes nets cluster root fuel node cells cells'
      info info' count count' h
    rw [hw, hempty, hend hnil]
    simp
  · obtain ⟨chain_ports, others, hcp⟩ := List.exists_cons_of_ne_nil hnil
    have hlinked := form_chain_linked nets cluster root chain_ports others hcp cells fuel node
      cells cells' info info' count count' (same_shape_refl _)
      (by rw [hempty]; exact List.chain'_nil) (by rw [hempty]; intro x hx; simp at hx) h
    apply nodup_of_no_repeat
    intro l1 a l2 l3 hrep
    have hseg : List.Chain' (chain_link nets cells cluster chain_ports.cell_source)
        ((a :: l2) ++ [a]) := by
      rw [hrep] at hlinked
      have h1 := List.Chain'.right_of_append hlinked
      have h2 : a :: (l2 ++ a :: l3) = ((a :: l2) ++ [a]) ++ l3 := by simp
      rw [h2] at h1
      exact List.Chain'.left_of_append h1
    obtain ⟨fa, ca, ia, cnt, hshape, hcall⟩ := form_chain_tail_call nets cluster root a
      (l2 ++ a :: l3) fuel l1 node cells cells' info info' count count' h
      (by rw [hempty, hrep]; rfl)
    have hnever := form_chain_never_returns nets cluster root chain_ports others hcp
      (fun u => u ∈ a :: l2) cells
      (by
        intro u hu nc hnc source hsrc n hn r hr
        obtain ⟨v, hv, hmem⟩ := chain_successor_mem _ a (a :: l2) hseg u hu
        refine ⟨v, chain_link_next nets cells cluster _ u v hv nc source n r hnc hsrc hn hr, ?_⟩
        rcases hmem with h1 | h1
        · exact h1
        · rw [h1]
          exact List.mem_cons_self _ _)
      fa a ca ia cnt (List.mem_cons_self _ _) hshape
    rw [hnever] at hcall
    simp at hcall

theorem form_cluster_nodup (nets : NetId → NetInfo) (cluster : ClusterPOD) (index fuel : Nat)
    (clusters0 : Dict Cluster) (st st' : Dict CellInfo × Dict Cluster) (root : CellRef)
    (hinv : ∀ id info, Dict.find st.2 id = some info →
      Dict.find clusters0 id = some info ∨ info.cluster_nodes.Nodup)
    (h : form_cluster nets cluster index fuel st root = some st') :
    ∀ id info, Dict.find st'.2 id = some info →
      Dict.find clusters0 id = some info ∨ info.cluster_nodes.Nodup := by
  unfold form_cluster at h
  cases hchain : form_chain nets cluster root fuel root st.1
      { root := root, index := index } 0 with
  | none => rw [hchain] at h; simp at h
  | some r =>
    obtain ⟨cells, info_new, count⟩ := r
    rw [hchain] at h
    simp only at h
    have hnew := form_chain_nodup nets cluster root fuel root st.1 cells _ info_new 0 count
      rfl hchain
    cases hroot : Dict.find cells root with
    | none => rw [hroot] at h; simp at h
    | some root_cell =>
      rw [hroot] at h
      simp only at h
      split_ifs at h
      · simp only [Option.some.injEq] at h
        rw [← h]
        exact hinv
      · simp only [Option.some.injEq] at h
        rw [← h]
        intro id info hfind
        simp only at hfind
        rw [Dict.find_emplace] at hfind
        by_cases hid : root_cell.cluster = id
        · rw [if_pos hid] at hfind
          cases hold : Dict.find st.2 root_cell.cluster with
          | none =>
            rw [hold] at hfind
            simp only [Option.getD_none, Option.some.injEq] at hfind
            rw [← hfind]
            exact Or.inr hnew
          | some old =>
            rw [hold] at hfind
            simp only [Option.getD_some, Option.some.injEq] at hfind
            rw [← hfind]
            exact hinv _ _ (hid ▸ hold)
        · rw [if_neg hid] at hfind
          exact hinv id info hfind

/-- C38, counterexample: in `lut2_drivers` the LUT `l0` drives the inputs `A0` and `B0` of
the carry cell `c0` from its two outputs. `prepare_cluster` for `carry_lut_pod` registers
the cluster `c0`, whose `cluster_node_cells` lists `l0` twice, under `A0` and under `B0`. -/
theorem satellite_listed_twice :
    ((prepare_cluster 10 carry_lut_pod 0 (lut2_drivers, [])).map fun r =>
      r.2.map fun kc => (kc.1, kc.2.cluster_nodes)) = some [("c0", ["c0"])] ∧
    (((prepare_cluster 10 carry_lut_pod 0 (lut2_drivers, [])).bind fun r =>
        Dict.find r.2 "c0").map fun info => info.cluster_node_cells) =
      some [("c0", [("A0", "l0"), ("B0", "l0")])] := by
  refine ⟨?_, ?_⟩ <;> decide

/-- C38, amended: for every netlist and description, in every cluster that `prepare_cluster`
registers the cells of `cluster_nodes` are pairwise distinct. -/
theorem cluster_nodes_distinct (fuel : Nat) (cluster : ClusterPOD) (index : Nat)
    (st st' : Netlist × Dict Cluster)
    (h : prepare_cluster fuel cluster index st = some st') :
    ∀ id info, Dict.find st'.2 id = some info →
      Dict.find st.2 id = some info ∨ info.cluster_nodes.Nodup := by
  obtain ⟨d, roots, _, hfold, _, _⟩ := prepare_cluster_eq fuel cluster index st st' h
  exact foldlM_option_inv (form_cluster d.nets cluster index fuel)
    (fun t => ∀ id info, Dict.find t.2 id = some info →
      Dict.find st.2 id = some info ∨ info.cluster_nodes.Nodup)
    roots (d.cells, st.2) (st'.1.cells, st'.2)
    (fun root _ t t' ht hstep =>
      form_cluster_nodup d.nets cluster index fuel st.2 t t' root ht hstep)
    (fun id info hf => Or.inl hf) hfold

theorem registered_cluster_rooted_witness :
    ∃ info, Dict.find s3_packed.2 "c0" = some info ∧
      info.cluster_nodes ≠ [] ∧ info.cluster_nodes.head? = some info.root ∧
      ∃ root_cell, Dict.find s3_packed.1.cells info.root = some root_cell ∧
        root_cell.name = "c0" := by
  have hsome : (Dict.find s3_packed.2 "c0").isSome = true := by decide
  obtain ⟨info, hinfo⟩ := Option.isSome_iff_exists.mp hsome
  rcases registered_cluster_rooted 10 ccu2c_pod 0 (s3_netlist, []) s3_packed (by decide)
    s3_packed_eq "c0" info hinfo with h | h
  · simp [Dict.find] at h
  · exact ⟨info, hinfo, h⟩

theorem packed_cluster_lookups_witness :
    ∃ info, Dict.find shared_enable_packed.2 "c0" = some info ∧
      info.cell_cluster_node_map = [("f0", "c0"), ("f1", "c0"), ("c0", "c0")] ∧
      lookups_total shared_enable_packed.1.cells info ∧
      ∀ kv ∈ info.cell_cluster_node_map,
        kv.2 ∈ info.cluster_nodes ∧
          (Dict.find shared_enable_packed.1.cells kv.2).isSome = true := by
  have hsome : (Dict.find shared_enable_packed.2 "c0").isSome = true := by decide
  have hmap : (Dict.find shared_enable_packed.2 "c0").map (fun info =>
      info.cell_cluster_node_map) = some [("f0", "c0"), ("f1", "c0"), ("c0", "c0")] := by
    decide
  obtain ⟨info, hinfo⟩ := Option.isSome_iff_exists.mp hsome
  rw [hinfo] at hmap
  rcases packed_cluster_lookups 10 ccu2c_pod 0 (shared_enable, []) shared_enable_packed
    shared_enable_packed_eq "c0" info hinfo with h | h
  · simp [Dict.find] at h
  · exact ⟨info, hinfo, by simpa using hmap, h.1, h.2 (by decide)⟩

theorem cluster_nodes_distinct_witness :
    ∃ info, Dict.find s3_packed.2 "c0" = some info ∧
      info.cluster_nodes = ["c0", "c1", "c2"] ∧ info.cluster_nodes.Nodup := by
  have hsome : (Dict.find s3_packed.2 "c0").isSome = true := by decide
  have hnodes : (Dict.find s3_packed.2 "c0").map (fun info => info.cluster_nodes) =
      some ["c0", "c1", "c2"] := by decide
  obtain ⟨info, hinfo⟩ := Option.isSome_iff_exists.mp hsome
  rw [hinfo] at hnodes
  rcases cluster_nodes_distinct 10 ccu2c_pod 0 (s3_netlist, []) s3_packed s3_packed_eq
    "c0" info hinfo with h | h
  · simp [Dict.find] at h
  · exact ⟨info, hinfo, by simpa using hnodes, h⟩
/-! ## The rule for clusters of a single cell, tied to what the root claims -/

theorem port_cell_maps_pool (cluster : ClusterPOD) (port : IdString) (pool : List IdString)
    (t : IdString) (h : Dict.find (port_cell_maps cluster) port = some pool) (ht : t ∈ pool) :
    ∃ m ∈ cluster.cluster_cells_map, m.cell = t := by
  unfold port_cell_maps at h
  have key : ∀ (l : List ClusterCellPortPOD) (maps : Dict (List IdString)),
      (∀ p pl, Dict.find maps p = some pl → ∀ u ∈ pl,
        ∃ m ∈ cluster.cluster_cells_map, m.cell = u) →
      (∀ m ∈ l, m ∈ cluster.cluster_cells_map) →
      ∀ p pl, Dict.find (l.foldl
        (fun maps cell_port_map =>
          match Dict.find maps cell_port_map.port with
          | none => Dict.set maps cell_port_map.port [cell_port_map.cell]
          | some cells_pool =>
            Dict.set maps cell_port_map.port (pool_insert cells_pool cell_port_map.cell))
        maps) p = some pl → ∀ u ∈ pl, ∃ m ∈ cluster.cluster_cells_map, m.cell = u := by
    intro l
    induction l with
    | nil => intro maps hm _ p pl hf u hu; exact hm p pl hf u hu
    | cons a rest ih =>
      intro maps hm hl
      rw [List.foldl_cons]
      apply ih
      · intro p pl hf u hu
        have ha := hl a (List.mem_cons_self _ _)
        cases hfa : Dict.find maps a.port with
        | none =>
          simp only [hfa, Dict.find_set] at hf
          split_ifs at hf with hp
          · simp only [Option.some.injEq] at hf
            subst hf
            simp only [List.mem_singleton] at hu
            exact ⟨a, ha, hu.symm⟩
          · exact hm p pl hf u hu
        | some cells_pool =>
          simp only [hfa, Dict.find_set] at hf
          split_ifs at hf with hp
          · simp only [Option.some.injEq] at hf
            subst hf
            rcases (mem_pool_insert _ _ _).mp hu with h1 | h1
            · exact hm a.port cells_pool hfa u h1
            · exact ⟨a, ha, h1.symm⟩
          · exact hm p pl hf u hu
      · exact fun m hmem => hl m (List.mem_cons_of_mem _ hmem)
  exact key cluster.cluster_cells_map [] (fun p pl hf => by simp [Dict.find] at hf)
    (fun m hm => hm) port pool h t ht

/-- The loop body over a port of the cluster node leaves alone every cell whose type is not
a satellite type of the description. -/
theorem claim_port_keeps (nets : NetId → NetInfo) (cluster : ClusterPOD) (root : CellRef)
    (node_name : IdString) (st st' : NodePass) (port : IdString × PortInfo)
    (h : claim_port nets (port_cell_maps cluster) root node_name st port = some st')
    (q : CellRef) (c : CellInfo) (hq : Dict.find st.cells q = some c)
    (hc : not_satellite_type cluster c.type) : Dict.find st'.cells q = some c := by
  have hclaim : ∀ (cell : CellRef) (uc : CellInfo) (pool : List IdString) (t : NodePass),
      Dict.find st.cells cell = some uc →
      Dict.find (port_cell_maps cluster) port.1 = some pool → pool.contains uc.type = true →
      claim_cell root node_name port.1 cell t = some st' → t.cells = st.cells →
      Dict.find st'.cells q = some c := by
    intro cell uc pool t huc hpool hcont hcl ht
    obtain ⟨root_cell, ci, _, hci, rfl⟩ := claim_cell_eq _ _ _ _ _ st' hcl
    simp only
    rw [ht] at hci ⊢
    rw [Dict.find_set]
    split_ifs with hk
    · exfalso
      subst hk
      rw [hq] at huc
      simp only [Option.some.injEq] at huc
      subst huc
      obtain ⟨m, hm, hmt⟩ := port_cell_maps_pool cluster port.1 pool c.type hpool
        (by simpa using hcont)
      exact hc m hm hmt
    · exact hq
  rcases claim_port_cases nets _ root node_name st st' port h with
    ⟨hcells, _⟩ | ⟨n, user, user_cell, uc, pool, _, _, _, _, huc, hpool, hcont, hcl⟩ |
    ⟨n, driver_cell, dc, pool, _, _, _, hdc, hpool, hcont, hcl⟩
  · rw [hcells]
    exact hq
  · rcases hcl with ⟨_, hcl⟩ | ⟨_, _, _, _, _, hcl⟩
    · exact hclaim user_cell uc pool _ huc hpool hcont hcl rfl
    · exact hclaim user_cell uc pool _ huc hpool hcont hcl rfl
  · exact hclaim driver_cell dc pool _ hdc hpool hcont hcl rfl

theorem claim_ports_keeps (nets : NetId → NetInfo) (cluster : ClusterPOD) (root : CellRef)
    (node_name : IdString) (ports : List (IdString × PortInfo)) (st st' : NodePass)
    (h : ports.foldlM (claim_port nets (port_cell_maps cluster) root node_name) st = some st')
    (q : CellRef) (c : CellInfo) (hq : Dict.find st.cells q = some c)
    (hc : not_satellite_type cluster c.type) : Dict.find st'.cells q = some c :=
  foldlM_option_inv (claim_port nets (port_cell_maps cluster) root node_name)
    (fun t => Dict.find t.cells q = some c) ports st st'
    (fun port _ t t' ht hstep =>
      claim_port_keeps nets cluster root node_name t t' port hstep q c ht hc)
    hq h

/-- The pass of a root, for a description without chainable ports, in terms of what the loop
over the ports of the root claims. -/
theorem form_cluster_single (nets : NetId → NetInfo) (cluster : ClusterPOD) (index fuel : Nat)
    (st st' : Dict CellInfo × Dict Cluster) (root : CellRef)
    (hcp : cluster.chainable_ports = [])
    (h : form_cluster nets cluster index fuel st root = some st') :
    ∃ nc pst, Dict.find st.1 root = some nc ∧
      nc.ports.foldlM (claim_port nets (port_cell_maps cluster) root nc.name)
        { cells := st.1, count_cluster_cells := 1 } = some pst ∧
      (pst.cluster_cells = [] →
        st' = (Dict.set st.1 root { nc with cluster := "" }, st.2)) ∧
      (pst.cluster_cells ≠ [] →
        st' = (pst.cells, Dict.emplace st.2 nc.cluster
          { root := root, index := index, cluster_nodes := [root]
            cluster_node_cells := [(nc.name, pst.cluster_cells)]
            cell_cluster_node_map :=
              Dict.emplace pst.cell_cluster_node_map nc.name nc.name })) := by
  unfold form_cluster at h
  split at h
  · simp at h
  · rename_i cells info count hchain
    split at h
    · simp at h
    · rename_i root_cell hroot
      cases fuel with
      | zero => simp [form_chain] at hchain
      | succ fuel =>
        unfold form_chain at hchain
        split at hchain
        · simp at hchain
        · rename_i cells1 info1 count1 hpass
          simp only [hcp, Option.some.injEq, Prod.mk.injEq] at hchain
          obtain ⟨hc1, hi1, hn1⟩ := hchain
          subst hc1 hi1 hn1
          obtain ⟨nc, pst, hnc, hfold, hcells, hcount, hinfo⟩ :=
            cluster_node_pass_eq nets cluster root root st.1 cells1 _ info1 0 count1 hpass
          have hcnt := claim_ports_count nets _ root nc.name nc.ports _ pst hfold
          simp only [List.length_nil, zero_add, add_zero] at hcnt
          obtain ⟨⟨rc, hrc, hrcx⟩, _, _, hclaimed⟩ :=
            claim_ports_effect nets (port_cell_maps cluster) root nc.name nc.cluster _ nc.ports
              pst ⟨nc, hnc, rfl⟩ hfold
          have hlen : cluster.chainable_ports.length = 0 := by simp [hcp]
          refine ⟨nc, pst, hnc, hfold, ?_, ?_⟩
          · intro hsat
            have hone : count1 = 1 := by
              rw [hcount, hcnt, hsat]
              rfl
            rw [if_pos ⟨hone, hlen⟩] at h
            simp only [Option.some.injEq] at h
            rw [← h]
            rcases hclaimed with ⟨hsame, _⟩ | hlt
            · simp only at hsame
              rw [hcells, hsame] at hroot ⊢
              rw [hnc] at hroot
              simp only [Option.some.injEq] at hroot
              rw [hroot]
            · rw [hsat] at hlt
              simp at hlt
          · intro hsat
            have hone : ¬ count1 = 1 := by
              rw [hcount, hcnt]
              have hpos : 0 < pst.cluster_cells.length := List.length_pos.mpr hsat
              omega
            rw [if_neg (fun hh => hone hh.1)] at h
            simp only [Option.some.injEq] at h
            rw [← h, hcells]
            rw [hcells, hrc] at hroot
            simp only [Option.some.injEq] at hroot
            rw [← hroot, hrcx, hinfo]
            rfl

/-- A pass of the loop over the roots, for a description without chainable ports, leaves a
cell whose type is not a satellite type with its cluster id, or without one. -/
theorem form_cluster_keeps (nets : NetId → NetInfo) (cluster : ClusterPOD) (index fuel : Nat)
    (st st' : Dict CellInfo × Dict Cluster) (root : CellRef)
    (hcp : cluster.chainable_ports = [])
    (h : form_cluster nets cluster index fuel st root = some st')
    (q : CellRef) (c : CellInfo) (hq : Dict.find st.1 q = some c)
    (hc : not_satellite_type cluster c.type) :
    ∃ c', Dict.find st'.1 q = some c' ∧ c'.type = c.type ∧
      (c'.cluster = c.cluster ∨ c'.cluster = "") := by
  obtain ⟨nc, pst, hnc, hfold, hnone, hsome⟩ :=
    form_cluster_single nets cluster index fuel st st' root hcp h
  have hkeep := claim_ports_keeps nets cluster root nc.name nc.ports _ pst hfold q c hq hc
  by_cases hsat : pst.cluster_cells = []
  · rw [hnone hsat]
    simp only
    rw [Dict.find_set]
    split_ifs with hk
    · subst hk
      rw [hnc] at hq
      simp only [Option.some.injEq] at hq
      subst hq
      exact ⟨_, rfl, rfl, Or.inr rfl⟩
    · exact ⟨c, hq, rfl, Or.inl rfl⟩
  · rw [hsome hsat]
    exact ⟨c, hkeep, rfl, Or.inl rfl⟩

theorem form_chain_root_keeps (nets : NetId → NetInfo) (cluster : ClusterPOD) (index fuel : Nat)
    (st st' : Dict CellInfo × Dict Cluster) (root : CellRef)
    (hcp : cluster.chainable_ports ≠ [])
    (h : form_cluster nets cluster index fuel st root = some st') :
    ∃ nc cells info count, Dict.find st.1 root = some nc ∧
      form_chain nets cluster root fuel root st.1 { root := root, index := index } 0 =
        some (cells, info, count) ∧
      st' = (cells, Dict.emplace st.2 nc.cluster info) := by
  unfold form_cluster at h
  split at h
  · simp at h
  · rename_i cells info count hchain
    split at h
    · simp at h
    · rename_i root_cell hroot
      have hlen : ¬ cluster.chainable_ports.length = 0 := by simpa using hcp
      rw [if_neg (fun hh => hlen hh.2)] at h
      simp only [Option.some.injEq] at h
      have hshape := form_chain_shape nets cluster root fuel root st.1 cells _ info 0 count hchain
      obtain ⟨nc, hnc, _⟩ := same_shape_find (same_shape_symm hshape) root root_cell hroot
      obtain ⟨⟨rc, hrc, hx⟩, _⟩ := form_chain_effect nets cluster root nc.cluster fuel root st.1
        cells _ info 0 count ⟨nc, hnc, rfl⟩ hchain
      rw [hroot] at hrc
      simp only [Option.some.injEq] at hrc
      subst hrc
      exact ⟨nc, cells, info, count, hnc, hchain, by rw [← h, hx]⟩

/-- C26, counterexample: a root that claims no satellite and does not end `prepare_cluster`
with cluster id none. In `lut_feeds_lut` with the description `lut_pod`, which has no
chainable ports, the LUTs `b` and `c` are roots, in this order. The pass of `b` claims no
cell. The pass of `c` then claims `b`, the single user of its output: after
`prepare_cluster` the cell `b` has the cluster id `c`, and `c` is the only cluster. -/
theorem discarded_root_claimed_later :
    lut_pod.chainable_ports = [] ∧
    (find_cluster_roots lut_pod lut_feeds_lut).map Prod.snd = some ["b", "c"] ∧
    ((find_cluster_roots lut_pod lut_feeds_lut).bind fun r =>
      (Dict.find r.1.cells "b").bind fun nc =>
        (nc.ports.foldlM (claim_port r.1.nets (port_cell_maps lut_pod) "b" nc.name)
          { cells := r.1.cells, count_cluster_cells := 1 }).map fun pst => pst.cluster_cells) =
      some [] ∧
    ((prepare_cluster 10 lut_pod 0 (lut_feeds_lut, [])).bind fun r =>
      (Dict.find r.1.cells "b").map CellInfo.cluster) = some "c" ∧
    ((prepare_cluster 10 lut_pod 0 (lut_feeds_lut, [])).map fun r => r.2.map Prod.fst) =
      some ["c"] ∧
    ((prepare_cluster 10 lut_pod 0 (lut_feeds_lut, [])).bind fun r =>
      (Dict.find r.2 "c").map fun info => info.cluster_node_cells) =
      some [("c", [("O", "b")])] := by
  refine ⟨?_, ?_, ?_, ?_, ?_, ?_⟩ <;> decide

/-- C26, amended: single-cell clusters without a chain are discarded. In `prepare_cluster`
every root found by the root discovery has its pass of the loop over the roots, on cells
that differ from those after the discovery in cluster ids only; `pst` is the state after the
loop over the ports of the root, which claims its satellites. For a description with no
chainable ports, a root that claims no satellite ends its pass with cluster id none and the
pass adds no entry to `clusters`; the root still has cluster id none when `prepare_cluster`
returns if its cell type is not a satellite type of the description. When the root claims a
satellite, the pass enters the cluster, with the root as only node and the claimed cells as
its satellites, in `clusters` under the cluster id of the root; with a chainable port the
pass enters the cluster formed by the chain walk. The cluster is entered with
`clusters.emplace`, and what a pass leaves in `clusters` is still there when
`prepare_cluster` returns. -/
theorem single_cell_cluster_discarded (fuel : Nat) (cluster : ClusterPOD) (index : Nat)
    (st st' : Netlist × Dict Cluster)
    (h : prepare_cluster fuel cluster index st = some st') :
    ∃ d roots, find_cluster_roots cluster st.1 = some (d, roots) ∧
      ∀ root ∈ roots, ∃ before after nc,
        form_cluster d.nets cluster index fuel before root = some after ∧
        same_shape d.cells before.1 ∧
        Dict.find before.1 root = some nc ∧
        (∀ id x, Dict.find after.2 id = some x → Dict.find st'.2 id = some x) ∧
        (cluster.chainable_ports = [] →
          ∃ pst,
            nc.ports.foldlM (claim_port d.nets (port_cell_maps cluster) root nc.name)
              { cells := before.1, count_cluster_cells := 1 } = some pst ∧
            (pst.cluster_cells = [] →
              (Dict.find after.1 root).map CellInfo.cluster = some "" ∧
              after.2 = before.2 ∧
              (not_satellite_type cluster nc.type →
                (Dict.find st'.1.cells root).map CellInfo.cluster = some "")) ∧
            (pst.cluster_cells ≠ [] →
              after.1 = pst.cells ∧
              after.2 = Dict.emplace before.2 nc.cluster
                { root := root, index := index, cluster_nodes := [root]
                  cluster_node_cells := [(nc.name, pst.cluster_cells)]
                  cell_cluster_node_map :=
                    Dict.emplace pst.cell_cluster_node_map nc.name nc.name })) ∧
        (cluster.chainable_ports ≠ [] →
          ∃ cells info count,
            form_chain d.nets cluster root fuel root before.1
              { root := root, index := index } 0 = some (cells, info, count) ∧
            after = (cells, Dict.emplace before.2 nc.cluster info)) := by
  obtain ⟨d, roots, hroots, hfold, _, _⟩ := prepare_cluster_eq fuel cluster index st st' h
  refine ⟨d, roots, hroots, ?_⟩
  intro root hroot
  obtain ⟨_, hall⟩ := foldlM_option_steps (form_cluster d.nets cluster index fuel)
    (fun s t => same_shape s.1 t.1 ∧
      (∀ id x, Dict.find s.2 id = some x → Dict.find t.2 id = some x) ∧
      (cluster.chainable_ports = [] → ∀ q c, Dict.find s.1 q = some c →
        not_satellite_type cluster c.type →
        ∃ c', Dict.find t.1 q = some c' ∧ c'.type = c.type ∧
          (c'.cluster = c.cluster ∨ c'.cluster = "")))
    (fun s => ⟨same_shape_refl _, fun _ _ hx => hx,
      fun _ q c hq _ => ⟨c, hq, rfl, Or.inl rfl⟩⟩)
    (fun s t u h1 h2 => ⟨same_shape_trans h1.1 h2.1,
      fun id x hx => h2.2.1 id x (h1.2.1 id x hx),
      fun hcp q c hq hc => by
        obtain ⟨c1, hc1, ht1, hk1⟩ := h1.2.2 hcp q c hq hc
        obtain ⟨c2, hc2, ht2, hk2⟩ := h2.2.2 hcp q c1 hc1 (by rw [ht1]; exact hc)
        refine ⟨c2, hc2, ht2.trans ht1, ?_⟩
        rcases hk2 with hk2 | hk2
        · rcases hk1 with hk1 | hk1
          · exact Or.inl (hk2.trans hk1)
          · exact Or.inr (hk2.trans hk1)
        · exact Or.inr hk2⟩)
    (fun s a s' hs => ⟨form_cluster_shape _ _ _ _ s s' a hs, form_cluster_mono _ _ _ _ s s' a hs,
      fun hcp q c hq hc => form_cluster_keeps _ _ _ _ s s' a hcp hs q c hq hc⟩)
    roots _ _ hfold
  obtain ⟨before, after, hstep, hb, ha⟩ := hall root hroot
  have hnc : ∃ nc, Dict.find before.1 root = some nc := by
    by_cases hcp : cluster.chainable_ports = []
    · obtain ⟨nc, _, hnc, _⟩ := form_cluster_single _ _ _ _ before after root hcp hstep
      exact ⟨nc, hnc⟩
    · obtain ⟨nc, _, _, _, hnc, _⟩ := form_chain_root_keeps _ _ _ _ before after root hcp hstep
      exact ⟨nc, hnc⟩
  obtain ⟨nc, hnc⟩ := hnc
  refine ⟨before, after, nc, hstep, hb.1, hnc, ha.2.1, ?_, ?_⟩
  · intro hcp
    obtain ⟨nc', pst, hnc', hpst, hnone, hsome⟩ :=
      form_cluster_single _ _ _ _ before after root hcp hstep
    rw [hnc] at hnc'
    simp only [Option.some.injEq] at hnc'
    subst hnc'
    refine ⟨pst, hpst, ?_, ?_⟩
    · intro hsat
      have hafter := hnone hsat
      have hfind : Dict.find after.1 root = some { nc with cluster := "" } := by
        rw [hafter]
        simp only
        rw [Dict.find_set, if_pos rfl]
      refine ⟨by rw [hfind]; rfl, by rw [hafter], ?_⟩
      intro hns
      obtain ⟨c', hc', _, hk⟩ := ha.2.2 hcp root _ hfind hns
      rw [hc']
      rcases hk with hk | hk <;> simp [hk]
    · intro hsat
      have hafter := hsome hsat
      rw [hafter]
      exact ⟨rfl, rfl⟩
  · intro hcp
    obtain ⟨nc', cells, info, count, hnc', hchain, hafter⟩ :=
      form_chain_root_keeps _ _ _ _ before after root hcp hstep
    rw [hnc] at hnc'
    simp only [Option.some.injEq] at hnc'
    subst hnc'
    exact ⟨cells, info, count, hchain, hafter⟩

theorem single_cell_cluster_discarded_witness :
    ∃ d roots, find_cluster_roots lut_ff_pod lut_ff_netlist = some (d, roots) ∧
      ∀ root ∈ roots, ∃ before after nc,
        form_cluster d.nets lut_ff_pod 0 10 before root = some after ∧
        same_shape d.cells before.1 ∧
        Dict.find before.1 root = some nc ∧
        (∀ id x, Dict.find after.2 id = some x → Dict.find lut_ff_packed.2 id = some x) ∧
        (lut_ff_pod.chainable_ports = [] →
          ∃ pst,
            nc.ports.foldlM (claim_port d.nets (port_cell_maps lut_ff_pod) root nc.name)
              { cells := before.1, count_cluster_cells := 1 } = some pst ∧
            (pst.cluster_cells = [] →
              (Dict.find after.1 root).map CellInfo.cluster = some "" ∧
              after.2 = before.2 ∧
              (not_satellite_type lut_ff_pod nc.type →
                (Dict.find lut_ff_packed.1.cells root).map CellInfo.cluster = some "")) ∧
            (pst.cluster_cells ≠ [] →
              after.1 = pst.cells ∧
              after.2 = Dict.emplace before.2 nc.cluster
                { root := root, index := 0, cluster_nodes := [root]
                  cluster_node_cells := [(nc.name, pst.cluster_cells)]
                  cell_cluster_node_map :=
                    Dict.emplace pst.cell_cluster_node_map nc.name nc.name })) ∧
        (lut_ff_pod.chainable_ports ≠ [] →
          ∃ cells info count,
            form_chain d.nets lut_ff_pod root 10 root before.1
              { root := root, index := 0 } 0 = some (cells, info, count) ∧
            after = (cells, Dict.emplace before.2 nc.cluster info)) :=
  single_cell_cluster_discarded 10 lut_ff_pod 0 (lut_ff_netlist, []) lut_ff_packed
    lut_ff_packed_eq
/-! ## Scenario S3 in general, with satellites -/

theorem same_shape_fields {cells cells' : Dict CellInfo} (h : same_shape cells cells')
    (key : CellRef) (ci : CellInfo) (hf : Dict.find cells key = some ci) :
    ∃ ci', Dict.find cells' key = some ci' ∧ ci'.type = ci.type ∧ ci'.ports = ci.ports ∧
      ci'.name = ci.name := by
  obtain ⟨ci', hf', heq⟩ := same_shape_find h key ci hf
  exact ⟨ci', hf', by rw [heq], by rw [heq], by rw [heq]⟩

theorem compatible_ports_congr (nets : NetId → NetInfo) (old old' : CellInfo)
    (exclude_nets : List IdString) (hp : old'.ports = old.ports) :
    ∀ ports, compatible_ports nets old' exclude_nets ports =
      compatible_ports nets old exclude_nets ports := by
  intro ports
  induction ports with
  | nil => rfl
  | cons p rest ih =>
    unfold compatible_ports
    rw [hp, ih]

theorem check_cluster_cells_compatibility_congr (nets : NetId → NetInfo)
    (old old' new new' : CellInfo) (exclude_nets : List IdString)
    (h1 : old'.type = old.type) (h2 : old'.ports = old.ports) (h3 : new'.type = new.type)
    (h4 : new'.ports = new.ports) :
    check_cluster_cells_compatibility nets old' new' exclude_nets =
      check_cluster_cells_compatibility nets old new exclude_nets := by
  unfold check_cluster_cells_compatibility
  rw [h1, h3, h4, compatible_ports_congr nets old old' exclude_nets h2]

theorem claim_cell_sim (root : CellRef) (node_name node_name' port : IdString) (cell : CellRef)
    (st st' stA : NodePass) (hsim : pass_sim st st')
    (hA : claim_cell root node_name port cell st = some stA) :
    ∃ stB, claim_cell root node_name' port cell st' = some stB ∧ pass_sim stA stB := by
  obtain ⟨root_cell, ci, hroot, hci, rfl⟩ := claim_cell_eq _ _ _ _ _ stA hA
  obtain ⟨hshape, hctd, hex⟩ := hsim
  obtain ⟨root_cell', hroot', _⟩ := same_shape_find hshape root root_cell hroot
  obtain ⟨ci', hci', _⟩ := same_shape_find hshape cell ci hci
  refine ⟨{ st' with
      cells := Dict.set st'.cells cell { ci' with cluster := root_cell'.cluster }
      cluster_cells := st'.cluster_cells ++ [(port, cell)]
      cell_cluster_node_map := Dict.emplace st'.cell_cluster_node_map ci'.name node_name'
      count_cluster_cells := st'.count_cluster_cells + 1 }, ?_, ?_, hctd, hex⟩
  · unfold claim_cell
    simp only [hroot', hci']
  exact same_shape_trans (same_shape_symm (same_shape_set st.cells cell ci _ hci))
    (same_shape_trans hshape (same_shape_set st'.cells cell ci' _ hci'))

/-- The body of the loop over the ports of a cluster node returns from a state when it
returns from a state with the same cells up to cluster ids, and the two results are again
such states. -/
theorem claim_port_sim (nets : NetId → NetInfo) (maps : Dict (List IdString)) (root : CellRef)
    (node_name node_name' : IdString) (st st' stA : NodePass) (port : IdString × PortInfo)
    (hsim : pass_sim st st')
    (hA : claim_port nets maps root node_name st port = some stA) :
    ∃ stB, claim_port nets maps root node_name' st' port = some stB ∧ pass_sim stA stB := by
  obtain ⟨hshape, hctd, hex⟩ := hsim
  unfold claim_port at hA ⊢
  by_cases h0 : Dict.count maps port.1 = 0
  · rw [if_pos h0] at hA ⊢
    simp only [Option.some.injEq] at hA
    subst hA
    exact ⟨st', rfl, hshape, hctd, hex⟩
  · rw [if_neg h0] at hA ⊢
    by_cases hout : port.2.type = PortType.PORT_OUT
    · rw [if_pos hout] at hA ⊢
      cases hn : port.2.net with
      | none => rw [hn] at hA; simp at hA
      | some n =>
        simp only [hn] at hA ⊢
        have hsim1 : pass_sim
            { st with exclude_nets := pool_insert st.exclude_nets (nets n).name }
            { st' with exclude_nets := pool_insert st'.exclude_nets (nets n).name } :=
          ⟨hshape, hctd, by simp only [hex]⟩
        have hskip : ∀ x, some { st with
              exclude_nets := pool_insert st.exclude_nets (nets n).name } = some x →
            ∃ stB, some { st' with
              exclude_nets := pool_insert st'.exclude_nets (nets n).name } = some stB ∧
              pass_sim x stB := by
          intro x hx
          simp only [Option.some.injEq] at hx
          subst hx
          exact ⟨_, rfl, hsim1⟩
        cases hu : (nets n).users with
        | nil =>
          simp only [hu] at hA ⊢
          exact hskip _ hA
        | cons user t =>
          cases t with
          | cons v w =>
            simp only [hu] at hA ⊢
            exact hskip _ hA
          | nil =>
            simp only [hu] at hA ⊢
            cases huc : user.cell with
            | none =>
              simp only [huc] at hA ⊢
              exact hskip _ hA
            | some user_cell =>
              simp only [huc] at hA ⊢
              cases hm : Dict.find maps port.1 with
              | none => simp only [hm] at hA; simp at hA
              | some cells_pool =>
                cases hfa : Dict.find st.cells user_cell with
                | none => simp only [hm, hfa] at hA; simp at hA
                | some uc =>
                  obtain ⟨uc', hfb, ht, hp, _⟩ := same_shape_fields hshape user_cell uc hfa
                  simp only [hm, hfa] at hA
                  simp only [hm, hfb, ht, hctd, hex]
                  cases hpool : cells_pool.contains uc.type with
                  | false =>
                    simp only [hpool, Bool.false_eq_true, not_false_eq_true, if_true,
                      Option.some.injEq] at hA ⊢
                    subst hA
                    exact ⟨_, rfl, hshape, rfl, rfl⟩
                  | true =>
                    simp only [hpool, not_true_eq_false, if_false] at hA ⊢
                    cases hd : Dict.find st.cell_type_dict uc.type with
                    | none =>
                      simp only [hd] at hA ⊢
                      exact claim_cell_sim root node_name node_name' port.1 user_cell
                        { st with
                          exclude_nets := pool_insert st.exclude_nets (nets n).name
                          cell_type_dict := Dict.set st.cell_type_dict uc.type user_cell }
                        { st' with
                          exclude_nets := pool_insert st.exclude_nets (nets n).name
                          cell_type_dict := Dict.set st.cell_type_dict uc.type user_cell }
                        stA ⟨hshape, rfl, rfl⟩ hA
                    | some old =>
                      simp only [hd] at hA ⊢
                      cases hfo : Dict.find st.cells old with
                      | none => simp only [hfo] at hA; simp at hA
                      | some old_cell =>
                        obtain ⟨old', hfo', hto, hpo, _⟩ :=
                          same_shape_fields hshape old old_cell hfo
                        simp only [hfo] at hA
                        simp only [hfo']
                        rw [check_cluster_cells_compatibility_congr nets old_cell old' uc uc' _
                          hto hpo ht hp]
                        cases hcc : check_cluster_cells_compatibility nets old_cell uc
                            (pool_insert st.exclude_nets (nets n).name) with
                        | none => simp only [hcc] at hA; simp at hA
                        | some b =>
                          cases b with
                          | false =>
                            simp only [hcc, Option.some.injEq] at hA ⊢
                            subst hA
                            exact ⟨_, rfl, hshape, rfl, rfl⟩
                          | true =>
                            simp only [hcc] at hA ⊢
                            exact claim_cell_sim root node_name node_name' port.1 user_cell
                              { st with
                                exclude_nets := pool_insert st.exclude_nets (nets n).name }
                              { st' with
                                cell_type_dict := st.cell_type_dict
                                exclude_nets := pool_insert st.exclude_nets (nets n).name }
                              stA ⟨hshape, rfl, rfl⟩ hA
    · rw [if_neg hout] at hA ⊢
      by_cases hin : port.2.type = PortType.PORT_IN
      · rw [if_pos hin] at hA ⊢
        cases hn : port.2.net with
        | none => rw [hn] at hA; simp at hA
        | some n =>
          simp only [hn] at hA ⊢
          by_cases hlen : (nets n).users.length ≠ 1
          · rw [if_pos hlen] at hA ⊢
            simp only [Option.some.injEq] at hA
            subst hA
            exact ⟨st', rfl, hshape, hctd, hex⟩
          · rw [if_neg hlen] at hA ⊢
            cases hdc : (nets n).driver.cell with
            | none =>
              simp only [hdc, Option.some.injEq] at hA ⊢
              subst hA
              exact ⟨st', rfl, hshape, hctd, hex⟩
            | some driver_cell =>
              simp only [hdc] at hA ⊢
              cases hm : Dict.find maps port.1 with
              | none => simp only [hm] at hA; simp at hA
              | some cells_pool =>
                cases hfa : Dict.find st.cells driver_cell with
                | none => simp only [hm, hfa] at hA; simp at hA
                | some dc =>
                  obtain ⟨dc', hfb, ht, _, _⟩ := same_shape_fields hshape driver_cell dc hfa
                  simp only [hm, hfa] at hA
                  simp only [hm, hfb, ht]
                  cases hpool : cells_pool.contains dc.type with
                  | false =>
                    simp only [hpool, Bool.false_eq_true, not_false_eq_true, if_true,
                      Option.some.injEq] at hA ⊢
                    subst hA
                    exact ⟨st', rfl, hshape, hctd, hex⟩
                  | true =>
                    simp only [hpool, not_true_eq_false, if_false] at hA ⊢
                    exact claim_cell_sim root node_name node_name' port.1 driver_cell st st' stA
                      ⟨hshape, hctd, hex⟩ hA
      · rw [if_neg hin] at hA ⊢
        simp only [Option.some.injEq] at hA
        subst hA
        exact ⟨st', rfl, hshape, hctd, hex⟩

theorem claim_ports_sim (nets : NetId → NetInfo) (maps : Dict (List IdString)) (root : CellRef)
    (node_name node_name' : IdString) :
    ∀ (ports : List (IdString × PortInfo)) (st st' stA : NodePass), pass_sim st st' →
      ports.foldlM (claim_port nets maps root node_name) st = some stA →
      ∃ stB, ports.foldlM (claim_port nets maps root node_name') st' = some stB ∧
        pass_sim stA stB := by
  intro ports
  induction ports with
  | nil =>
    intro st st' stA hsim hA
    simp only [List.foldlM_nil, pure, Option.some.injEq] at hA
    subst hA
    exact ⟨st', rfl, hsim⟩
  | cons port rest ih =>
    intro st st' stA hsim hA
    rw [List.foldlM_cons] at hA ⊢
    cases h1 : claim_port nets maps root node_name st port with
    | none => rw [h1] at hA; simp at hA
    | some t =>
      rw [h1] at hA
      obtain ⟨t', ht', hs⟩ := claim_port_sim nets maps root node_name node_name' st st' t port
        hsim h1
      rw [ht']
      exact ih t t' stA hs hA

/-- A pass of the `do` loop on a node returns from given cells when it returns from cells
that are the same up to cluster ids. -/
theorem cluster_node_pass_defined (nets : NetId → NetInfo) (cluster : ClusterPOD)
    (root node : CellRef) (cells0 cells : Dict CellInfo) (info0 info : Cluster)
    (count0 count : Nat) (hshape : same_shape cells0 cells)
    (h : (cluster_node_pass nets cluster root node cells0 info0 count0).isSome = true) :
    ∃ res, cluster_node_pass nets cluster root node cells info count = some res := by
  cases h0 : cluster_node_pass nets cluster root node cells0 info0 count0 with
  | none => rw [h0] at h; simp at h
  | some res0 =>
    obtain ⟨cells1, info1, count1⟩ := res0
    obtain ⟨nc, stA, hnc, hfold, _, _, _⟩ :=
      cluster_node_pass_eq nets cluster root node cells0 cells1 info0 info1 count0 count1 h0
    obtain ⟨nc', hnc', _, hp, _⟩ := same_shape_fields hshape node nc hnc
    obtain ⟨stB, hB, _⟩ := claim_ports_sim nets (port_cell_maps cluster) root nc.name nc'.name
      nc.ports
      { cells := cells0
        cell_cluster_node_map := info0.cell_cluster_node_map
        count_cluster_cells := count0 + 1 }
      { cells := cells
        cell_cluster_node_map := info.cell_cluster_node_map
        count_cluster_cells := count + 1 }
      stA ⟨hshape, rfl, rfl⟩ hfold
    unfold cluster_node_pass
    simp only [hnc', hp, hB]
    exact ⟨_, rfl⟩

/-- The walk of the `do` loop along a chain whose cells may have satellites: from the node
`a`, with the rest of the chain `rest` ahead, enough fuel and the claiming of every node
defined, the loop returns after one pass per node and records the nodes in chain order;
every cell that has the cluster id of the root keeps it, and every node after `a` gets
it. -/
theorem form_chain_walk_claims (d : Netlist) (cells1 : Dict CellInfo) (nets1 : NetId → NetInfo)
    (cluster : ClusterPOD) (cp : ChainablePortPOD) (others : List ChainablePortPOD)
    (hcp : cluster.chainable_ports = cp :: others) (root : CellRef) (cid : IdString)
    (htypes : same_types d.cells cells1) :
    ∀ (rest : List CellRef) (a : CellRef) (cells : Dict CellInfo) (info : Cluster)
      (count fuel : Nat),
      rest.length < fuel →
      same_shape cells1 cells →
      (∀ k ∈ a :: rest, chain_member d cluster k = true) →
      (∀ k ∈ a :: rest, ∃ c, Dict.find cells1 k = some c ∧
        port_net c cp.cell_source = cell_port_net d k cp.cell_source) →
      (∀ k ∈ a :: rest,
        (cluster_node_pass nets1 cluster root k cells1 {} 0).isSome = true) →
      (∃ rc, Dict.find cells root = some rc ∧ rc.cluster = cid) →
      (∀ k ∈ a :: rest, ∀ n, cell_port_net d k cp.cell_source = some n →
        next_chain_node d.cells cluster (nets1 n).users =
          next_chain_node d.cells cluster (d.nets n).users) →
      List.Chain' (fun a b => chained d cluster cp a b = true) (a :: rest) →
      open_ended d cluster cp (rest.getLastD a) = true →
      ∃ cells' info' count',
        form_chain nets1 cluster root fuel a cells info count = some (cells', info', count') ∧
        info'.cluster_nodes = info.cluster_nodes ++ a :: rest ∧
        info'.root = info.root ∧ info'.index = info.index ∧
        count < count' ∧
        (∀ k, (∃ c, Dict.find cells k = some c ∧ c.cluster = cid) →
          ∃ c, Dict.find cells' k = some c ∧ c.cluster = cid) ∧
        ∀ k ∈ rest, ∃ c, Dict.find cells' k = some c ∧ c.cluster = cid := by
  intro rest
  induction rest with
  | nil =>
    intro a cells info count fuel hfuel hshape hcell hnode hdef hroot hnets _ hlast
    obtain ⟨fuel, rfl⟩ : ∃ f, fuel = f + 1 := ⟨fuel - 1, by simp at hfuel; omega⟩
    obtain ⟨c1, hc1, hsrc⟩ := hnode a (List.mem_cons_self _ _)
    obtain ⟨⟨cellsP, infoP, countP⟩, hpass⟩ := cluster_node_pass_defined nets1 cluster root a
      cells1 cells {} info 0 count hshape (hdef a (List.mem_cons_self _ _))
    obtain ⟨nc, hncf, hrootP, hkeepP, _, hnodes, _, _, hr, hi, hcnt⟩ :=
      cluster_node_pass_effect nets1 cluster root a cells cellsP info infoP count countP cid
        hroot hpass
    have hshapeP := cluster_node_pass_shape nets1 cluster root a cells cellsP info infoP count
      countP hpass
    have hshape1 : same_shape cells1 cellsP := same_shape_trans hshape hshapeP
    obtain ⟨cP, hcP, _, hpP, _⟩ := same_shape_fields hshape1 a c1 hc1
    obtain ⟨n, hn, hex, hall⟩ := open_ended_spec d cluster cp a hlast
    rw [hn, port_net_eq_bind] at hsrc
    obtain ⟨src, hsrc1, hsrc2⟩ := Option.bind_eq_some.mp hsrc
    have hnext : next_chain_node cellsP cluster (nets1 n).users = some none := by
      rw [next_chain_node_shape cells1 cellsP cluster hshape1,
        next_chain_node_types d.cells cells1 cluster htypes,
        hnets a (List.mem_cons_self _ _) n hn,
        next_chain_node_eq d.cells cluster _ hex, find_no_root_type_user d.cells cluster _ hall]
      rfl
    have hkeep : ∀ k, (∃ c, Dict.find cells k = some c ∧ c.cluster = cid) →
        ∃ c, Dict.find cellsP k = some c ∧ c.cluster = cid := by
      intro k ⟨c, hc, hcc⟩
      obtain ⟨c', hc', _⟩ := same_shape_find hshapeP k c hc
      obtain ⟨c0, hc0, hk⟩ := hkeepP k c' hc'
      rw [hc] at hc0
      simp only [Option.some.injEq] at hc0
      subst hc0
      refine ⟨c', hc', ?_⟩
      rcases hk with hk | hk
      · rw [hk, hcc]
      · exact hk
    refine ⟨cellsP, infoP, countP, ?_, hnodes, hr, hi, ?_, hkeep, fun k hk => by simp at hk⟩
    · unfold form_chain
      rw [hpass]
      simp only [hcp, hcP, Option.some_bind, hpP, hsrc1, hsrc2, hnext]
    · rcases hcnt with ⟨_, hcnt⟩ | hcnt <;> omega
  | cons b rest ih =>
    intro a cells info count fuel hfuel hshape hcell hnode hdef hroot hnets hlinks hlast
    obtain ⟨fuel, rfl⟩ : ∃ f, fuel = f + 1 := ⟨fuel - 1, by simp at hfuel; omega⟩
    obtain ⟨c1, hc1, hsrc⟩ := hnode a (List.mem_cons_self _ _)
    obtain ⟨⟨cellsP, infoP, countP⟩, hpass⟩ := cluster_node_pass_defined nets1 cluster root a
      cells1 cells {} info 0 count hshape (hdef a (List.mem_cons_self _ _))
    obtain ⟨nc, hncf, hrootP, hkeepP, _, hnodes, _, _, hr, hi, hcnt⟩ :=
      cluster_node_pass_effect nets1 cluster root a cells cellsP info infoP count countP cid
        hroot hpass
    have hshapeP := cluster_node_pass_shape nets1 cluster root a cells cellsP info infoP count
      countP hpass
    have hshape1 : same_shape cells1 cellsP := same_shape_trans hshape hshapeP
    obtain ⟨cP, hcP, _, hpP, _⟩ := same_shape_fields hshape1 a c1 hc1
    have hab : chained d cluster cp a b = true := (List.chain'_cons.mp hlinks).1
    have hlinks' := (List.chain'_cons.mp hlinks).2
    obtain ⟨n, hn, _, _, hex, hmem, hall⟩ := chained_spec d cluster cp a b hab
    rw [hn, port_net_eq_bind] at hsrc
    obtain ⟨src, hsrc1, hsrc2⟩ := Option.bind_eq_some.mp hsrc
    have hb : chain_member d cluster b = true :=
      hcell b (List.mem_cons_of_mem _ (List.mem_cons_self _ _))
    have hnext : next_chain_node cellsP cluster (nets1 n).users = some (some b) := by
      rw [next_chain_node_shape cells1 cellsP cluster hshape1,
        next_chain_node_types d.cells cells1 cluster htypes,
        hnets a (List.mem_cons_self _ _) n hn,
        next_chain_node_eq d.cells cluster _ hex,
        find_root_type_user d.cells cluster _ _ hmem
          (root_type_user_chain_member d cluster b cp.cell_sink hb) hall]
      rfl
    obtain ⟨rc, hrc, hcid⟩ := hrootP
    obtain ⟨cb1, hcb1, _⟩ := hnode b (List.mem_cons_of_mem _ (List.mem_cons_self _ _))
    obtain ⟨cb, hcb, _⟩ := same_shape_find hshape1 b cb1 hcb1
    have hkeep : ∀ k, (∃ c, Dict.find cells k = some c ∧ c.cluster = cid) →
        ∃ c, Dict.find cellsP k = some c ∧ c.cluster = cid := by
      intro k ⟨c, hc, hcc⟩
      obtain ⟨c', hc', _⟩ := same_shape_find hshapeP k c hc
      obtain ⟨c0, hc0, hk⟩ := hkeepP k c' hc'
      rw [hc] at hc0
      simp only [Option.some.injEq] at hc0
      subst hc0
      refine ⟨c', hc', ?_⟩
      rcases hk with hk | hk
      · rw [hk, hcc]
      · exact hk
    have hkeep2 : ∀ k, (∃ c, Dict.find cellsP k = some c ∧ c.cluster = cid) →
        ∃ c, Dict.find (Dict.set cellsP b { cb with cluster := rc.cluster }) k = some c ∧
          c.cluster = cid := by
      intro k hk
      rw [Dict.find_set]
      by_cases hkb : b = k
      · rw [if_pos hkb]
        exact ⟨_, rfl, hcid⟩
      · rw [if_neg hkb]
        exact hk
    obtain ⟨cells', info', count', hrun, hnodes', hr', hi', hcnt', hkeep', hnew⟩ :=
      ih b (Dict.set cellsP b { cb with cluster := rc.cluster }) infoP countP fuel
        (by simp at hfuel; omega)
        (same_shape_trans hshape1 (same_shape_set cellsP b cb _ hcb))
        (fun k hk => hcell k (List.mem_cons_of_mem _ hk))
        (fun k hk => hnode k (List.mem_cons_of_mem _ hk))
        (fun k hk => hdef k (List.mem_cons_of_mem _ hk))
        (hkeep2 root ⟨rc, hrc, hcid⟩)
        (fun k hk => hnets k (List.mem_cons_of_mem _ hk))
        hlinks'
        (by rw [List.getLastD_cons] at hlast; exact hlast)
    refine ⟨cells', info', count', ?_, ?_, hr'.trans hr, hi'.trans hi, ?_,
      fun k hk => hkeep' k (hkeep2 k (hkeep k hk)), ?_⟩
    · unfold form_chain
      rw [hpass]
      simp only [hcp, hcP, Option.some_bind, hpP, hsrc1, hsrc2, hnext, hrc, hcb]
      exact hrun
    · rw [hnodes', hnodes]
      simp
    · rcases hcnt with ⟨_, hcnt⟩ | hcnt <;> omega
    · intro k hk
      rcases List.mem_cons.mp hk with h1 | h1
      · subst h1
        apply hkeep'
        rw [Dict.find_set, if_pos rfl]
        exact ⟨_, rfl, hcid⟩
      · exact hnew k h1

/-- C22: scenario S3 in general. The cells `c0 :: rest` are the cells of a root cell type
of the netlist, each unclustered and stored under its name; the `cell_source` port of each
drives a net whose only user of a root cell type is the `cell_sink` port of the next one;
the `cell_sink` port of `c0` is on a net that is not driven through a `cell_source` port;
the `cell_source` net of the last cell has no user of a root cell type; `cell_source` and
`cell_sink` are different ports; and the claiming of the satellites of each cell is defined
(it meets no missing net). Then `prepare_cluster`, given one pass of fuel per cell, returns
and registers exactly one cluster: it is keyed by `c0`, its root is `c0`, and its
`cluster_nodes` is `c0 :: rest`, in chain order; every cell of the chain ends with the
cluster id `c0`. -/
theorem carry_chain_forms_one_cluster (fuel : Nat) (cluster : ClusterPOD)
    (cp : ChainablePortPOD) (others : List ChainablePortPOD) (index : Nat) (d : Netlist)
    (clusters : Dict Cluster) (c0 : CellRef) (rest : List CellRef)
    (hcp : cluster.chainable_ports = cp :: others)
    (hports : cp.cell_source ≠ cp.cell_sink)
    (hkeys : (d.cells.map Prod.fst).Nodup)
    (hchain : (c0 :: rest).Nodup)
    (hcells : ∀ k ∈ c0 :: rest, chain_member d cluster k = true)
    (hother : ∀ kc ∈ d.cells, cluster.root_cell_types.contains kc.2.type = true →
      kc.1 ∈ c0 :: rest)
    (hlinks : List.Chain' (fun a b => chained d cluster cp a b = true) (c0 :: rest))
    (hhead : tied_to_constant d cp c0 = true)
    (hlast : open_ended d cluster cp (rest.getLastD c0) = true)
    (hclaims : claims_defined cluster d c0 (c0 :: rest) = true)
    (hfresh : Dict.find clusters c0 = none)
    (hfuel : rest.length < fuel) :
    ∃ d' info, prepare_cluster fuel cluster index (d, clusters) =
        some (d', clusters ++ [(c0, info)]) ∧
      info.root = c0 ∧ info.index = index ∧ info.cluster_nodes = c0 :: rest ∧
      ∀ k ∈ c0 :: rest, ∃ c, Dict.find d'.cells k = some c ∧ c.cluster = c0 := by
  obtain ⟨d1, hfind, -, j2, j3, j4, -, j6⟩ :=
    chain_roots cluster cp others d c0 rest hcp hkeys hchain hcells hother hlinks hhead
  obtain ⟨c0i, hc0, hname0, -, -⟩ :=
    chain_member_spec d cluster c0 (hcells c0 (List.mem_cons_self _ _))
  obtain ⟨nc, hnc, htest⟩ := tied_to_constant_spec d cp c0 hhead
  have hroot1 : Dict.find d1.cells c0 =
      some (disconnect_port { c0i with cluster := c0i.name } cp.cell_sink) :=
    j2 c0 c0i hc0 (List.mem_singleton.mpr rfl)
  have hrest1 : ∀ key, key ≠ c0 → Dict.find d1.cells key = Dict.find d.cells key :=
    fun key hkey => j3 key (by simpa using hkey)
  obtain ⟨hf1, hf2, hf3, hf4⟩ :=
    disconnect_port_fields { c0i with cluster := c0i.name } cp.cell_sink
  have htypes : same_types d.cells d1.cells := by
    intro key
    by_cases hkey : key = c0
    · subst hkey
      rw [hroot1, hc0]
      simp only [Option.map_some', Option.some.injEq]
      exact hf1
    · rw [hrest1 key hkey]
  have hnode : ∀ k ∈ c0 :: rest, ∃ c, Dict.find d1.cells k = some c ∧
      port_net c cp.cell_source = cell_port_net d k cp.cell_source := by
    intro k hk
    by_cases hkey : k = c0
    · subst hkey
      refine ⟨_, hroot1, ?_⟩
      rw [cell_port_net_find d k c0i _ hc0]
      unfold port_net
      rw [find_disconnect_port_other _ _ _ (Ne.symm hports)]
    · obtain ⟨c, hc, -, -, -⟩ := chain_member_spec d cluster k (hcells k hk)
      refine ⟨c, by rw [hrest1 k hkey, hc], ?_⟩
      rw [cell_port_net_find d k c _ hc]
  have hdef : ∀ k ∈ c0 :: rest,
      (cluster_node_pass d1.nets cluster c0 k d1.cells {} 0).isSome = true := by
    intro k hk
    unfold claims_defined at hclaims
    rw [hfind] at hclaims
    simp only [List.all_eq_true] at hclaims
    exact hclaims k hk
  have hnets : ∀ k ∈ c0 :: rest, ∀ n, cell_port_net d k cp.cell_source = some n →
      next_chain_node d.cells cluster (d1.nets n).users =
        next_chain_node d.cells cluster (d.nets n).users := by
    intro k hk n hn
    by_cases hsame : n = nc
    · subst hsame
      rcases chain_successor _ rest c0 hlinks k hk with ⟨s, hs⟩ | hlastk
      · obtain ⟨m, hm, -, hdrv, -⟩ := chained_spec d cluster cp k s hs
        rw [hn] at hm
        simp only [Option.some.injEq] at hm
        subst hm
        rw [hdrv] at htest
        simp at htest
      · rw [← hlastk] at hlast
        obtain ⟨m, hm, hex, hall⟩ := open_ended_spec d cluster cp k hlast
        rw [hn] at hm
        simp only [Option.some.injEq] at hm
        subst hm
        have hsub : ∀ u ∈ (d1.nets n).users, u ∈ (d.nets n).users := fun u hu => j4 n u hu
        rw [next_chain_node_eq d.cells cluster _ hex,
          next_chain_node_eq d.cells cluster _ (users_exist_subset d.cells _ _ hsub hex),
          find_no_root_type_user d.cells cluster _ hall,
          find_no_root_type_user d.cells cluster _
            (by
              rw [List.all_eq_true] at hall ⊢
              exact fun u hu => hall u (hsub u hu))]
    · have : d1.nets n = d.nets n := by
        apply j6 n
        intro key ci hci hkey hnet
        have hkey' : key = c0 := by simpa using hkey
        subst hkey'
        rw [cell_port_net_find d key ci _ hci, hnet] at hnc
        simp only [Option.some.injEq] at hnc
        exact hsame hnc
      rw [this]
  obtain ⟨cells', info', count', hrun, hnodes, hr, hi, hcnt, hkeep, hnew⟩ :=
    form_chain_walk_claims d d1.cells d1.nets cluster cp others hcp c0 c0 htypes rest c0
      d1.cells { root := c0, index := index } 0 fuel hfuel (same_shape_refl _) hcells hnode
      hdef ⟨_, hroot1, hf3.trans hname0⟩ hnets hlinks hlast
  obtain ⟨rc, hrc, hcid⟩ := hkeep c0 ⟨_, hroot1, hf3.trans hname0⟩
  refine ⟨{ d1 with cells := cells' }, info', ?_, hr, hi, by simpa using hnodes, ?_⟩
  · unfold prepare_cluster
    simp only [hfind, List.foldlM_cons, List.foldlM_nil, form_cluster, hrun, hrc,
      Option.some_bind, Option.pure_def, Option.bind_eq_bind]
    have hlen : ¬ (count' = 1 ∧ cluster.chainable_ports.length = 0) := by
      rw [hcp]
      simp
    rw [if_neg hlen, hcid, Dict.emplace_fresh clusters c0 _ hfresh]
    rfl
  · intro k hk
    rcases List.mem_cons.mp hk with h1 | h1
    · rw [h1]
      exact ⟨rc, hrc, hcid⟩
    · exact hnew k h1

set_option maxRecDepth 100000 in
theorem carry_chain_forms_one_cluster_witness :
    ∃ d' info, prepare_cluster 2 ccu2c_pod 0 (two_enables, []) =
        some (d', [] ++ [("c0", info)]) ∧
      info.root = "c0" ∧ info.index = 0 ∧ info.cluster_nodes = ["c0", "c1"] ∧
      ∀ k ∈ ["c0", "c1"], ∃ c, Dict.find d'.cells k = some c ∧ c.cluster = "c0" :=
  carry_chain_forms_one_cluster 2 ccu2c_pod
    { cell_source := "COUT", cell_sink := "CIN", bel_source := "COUT", bel_sink := "CIN",
      avg_x_offset := 0, avg_y_offset := 1 }
    [] 0 two_enables [] "c0" ["c1"] rfl (by decide) (by decide) (by decide) (by decide)
    (by decide)
    (List.chain'_cons.mpr ⟨by decide, List.chain'_singleton _⟩)
    (by decide) (by decide) (by decide) rfl (by decide)

end Nextpnr
